import Mathlib

/-! Governance reasoning engine: S-expression reader, pattern matcher and knowledge model.

A shallow embedding of `lib/sexpr_parser.cpp` and `lib/knowledge_io.cpp`.

* `std::string` is a list of characters (`Str`).
* `std::isspace`, `std::isalpha`, `std::tolower` are those of the "C" locale.
* A `Tokenizer` is represented by the part of `input` from `position` on.
* The recursive-descent parser is recursive on a fuel argument; `parse` and
  `parseMultiple` supply `3 * input.length + 2`, which is shown to be enough.
-/

namespace MettaInference

/-- The model of `std::string`. -/
abbrev Str := List Char

/-- `std::isspace` in the "C" locale. -/
def isspace (c : Char) : Bool :=
  c == ' ' || c == '\t' || c == '\n' || c == '\x0b' || c == '\x0c' || c == '\r'

/-! ## `SExpr` -/

/-- `class SExpr`: `std::variant<Atom, List>`. -/
inductive SExpr where
  | atom (text : Str) : SExpr
  | list (children : List SExpr) : SExpr

namespace SExpr

/-- `SExpr::isAtom`. -/
def isAtom : SExpr → Bool
  | atom _ => true
  | list _ => false

/-- `SExpr::isList`. -/
def isList : SExpr → Bool
  | atom _ => false
  | list _ => true

/-- `SExpr::getSymbol`. -/
def getSymbol : SExpr → Option Str
  | atom a => some a
  | list _ => none

mutual
/-- `SExpr::toString`. -/
def toString : SExpr → Str
  | atom a => a
  | list l => '(' :: (toStringItems l ++ [')'])
/-- The loop of `SExpr::toString`: the children, separated by one space. -/
def toStringItems : List SExpr → Str
  | [] => []
  | [e] => toString e
  | e :: e2 :: es => toString e ++ ' ' :: toStringItems (e2 :: es)
end

end SExpr

/-! ## `SExprParser::Tokenizer` -/

/-- `Tokenizer::isDelimiter`. -/
def isDelimiter (c : Char) : Bool :=
  c == '(' || c == ')' || c == '[' || c == ']' || isspace c

/-- The test `input[position] == '(' || ... == ']'` of `peek` and `consume`. -/
def isBracket (c : Char) : Bool :=
  c == '(' || c == ')' || c == '[' || c == ']'

/-- `Tokenizer::skipWhitespace`, on the unread part of the input. -/
def skipWhitespace (s : Str) : Str := s.dropWhile isspace

/-- The tokenizer state: `rest` is `input` from `position` on. -/
structure Tokenizer where
  rest : Str
deriving DecidableEq

namespace Tokenizer

/-- `Tokenizer::Tokenizer(input)`: position 0, then `skipWhitespace`. -/
def new (input : Str) : Tokenizer := ⟨skipWhitespace input⟩

/-- `Tokenizer::hasNext`. -/
def hasNext (t : Tokenizer) : Bool := !t.rest.isEmpty

/-- `Tokenizer::peek`. -/
def peek (t : Tokenizer) : Str :=
  match t.rest with
  | [] => []
  | c :: cs =>
    if isBracket c then [c]
    else (c :: cs).takeWhile (fun x => !isDelimiter x)

/-- `Tokenizer::consume`. -/
def consume (t : Tokenizer) : Tokenizer :=
  match t.rest with
  | [] => t
  | c :: cs =>
    if isBracket c then ⟨skipWhitespace cs⟩
    else ⟨skipWhitespace ((c :: cs).dropWhile (fun x => !isDelimiter x))⟩

/-- `Tokenizer::next`: the token and the state after `consume`. -/
def next (t : Tokenizer) : Str × Tokenizer := (t.peek, t.consume)

end Tokenizer

/-! ## `SExprParser` -/

/-- What a parser call ends with when it does not return: a `std::runtime_error`
with its message, or the fuel of the model running out. -/
inductive ParseError where
  | runtimeError (what : Str) : ParseError
  | outOfFuel : ParseError
deriving DecidableEq

/-- The literal `"("`. -/
def sOpenParen : Str := ['(']
/-- The literal `")"`. -/
def sCloseParen : Str := [')']
/-- The literal `"["`. -/
def sOpenSquare : Str := ['[']
/-- The literal `"]"`. -/
def sCloseSquare : Str := [']']

mutual
/-- `SExprParser::parseExpression`, on a call stack that is not bounded
(`parseExpressionWithin` is the same function on a bounded stack). -/
def parseExpression : Nat → Tokenizer → Except ParseError (SExpr × Tokenizer)
  | 0, _ => .error .outOfFuel
  | n + 1, t =>
    if !t.hasNext then
      .error (.runtimeError "Unexpected end of input".toList)
    else
      let token := t.peek
      if token = sOpenParen || token = sOpenSquare then
        parseList n t
      else if token = sCloseParen || token = sCloseSquare then
        .error (.runtimeError "Unexpected closing bracket".toList)
      else
        .ok (SExpr.atom token, t.consume)
/-- `SExprParser::parseList`. -/
def parseList : Nat → Tokenizer → Except ParseError (SExpr × Tokenizer)
  | 0, _ => .error .outOfFuel
  | n + 1, t =>
    let opening := t.next.1
    let t1 := t.next.2
    if opening ≠ sOpenParen && opening ≠ sOpenSquare then
      .error (.runtimeError "Expected '(' or '['".toList)
    else
      let expectedClose := if opening = sOpenParen then sCloseParen else sCloseSquare
      parseListLoop n expectedClose t1 []
/-- The `while` loop of `parseList` and the check that follows it; `elements`
is the vector built so far. -/
def parseListLoop : Nat → Str → Tokenizer → List SExpr →
    Except ParseError (SExpr × Tokenizer)
  | 0, _, _, _ => .error .outOfFuel
  | n + 1, expectedClose, t, elements =>
    if t.hasNext && t.peek ≠ expectedClose then
      match parseExpression n t with
      | .error e => .error e
      | .ok (e, t1) => parseListLoop n expectedClose t1 (elements ++ [e])
    else if !t.hasNext || t.next.1 ≠ expectedClose then
      .error (.runtimeError ("Expected '".toList ++ expectedClose ++ "'".toList))
    else
      .ok (SExpr.list elements, t.next.2)
end

/-- The fuel `parse` and `parseMultiple` give the parser. -/
def parseFuel (input : Str) : Nat := 3 * input.length + 2

/-- `SExprParser::parse`. -/
def parse (input : Str) : Except ParseError SExpr :=
  let tokenizer := Tokenizer.new input
  if !tokenizer.hasNext then
    .error (.runtimeError "Empty input".toList)
  else
    match parseExpression (parseFuel input) tokenizer with
    | .error e => .error e
    | .ok (e, _) => .ok e

/-- The loop of `SExprParser::parseMultiple`. -/
def parseMultipleLoop : Nat → Tokenizer → List SExpr → Except ParseError (List SExpr)
  | 0, _, _ => .error .outOfFuel
  | n + 1, t, results =>
    if t.hasNext then
      match parseExpression n t with
      | .error e => .error e
      | .ok (e, t1) => parseMultipleLoop n t1 (results ++ [e])
    else
      .ok results

/-- `SExprParser::parseMultiple`. -/
def parseMultiple (input : Str) : Except ParseError (List SExpr) :=
  parseMultipleLoop (parseFuel input) (Tokenizer.new input) []

/-! ## `SExprMatcher` -/

/-- The wildcard `"?"`. -/
def sWildcard : Str := ['?']

/-- The `for` loop of `SExprMatcher::matches` over the positions of a list and
a pattern of the same size. -/
def matchesLoop : List SExpr → List Str → Bool
  | e :: es, p :: ps =>
    if p = sWildcard then matchesLoop es ps
    else
      match e.getSymbol with
      | none => false
      | some symbol => if symbol ≠ p then false else matchesLoop es ps
  | _, _ => true

/-- `SExprMatcher::matches`. -/
def SExprMatcher.matches (expr : SExpr) (pattern : List Str) : Bool :=
  match expr with
  | .atom a =>
    match pattern with
    | [p] => a = p || p = sWildcard
    | _ => false
  | .list l =>
    if l.length ≠ pattern.length then false
    else matchesLoop l pattern

/-- The `for` loop of `SExprMatcher::extract`. -/
def extractLoop : List SExpr → List Str → List Str
  | e :: es, p :: ps =>
    if p = sWildcard then
      match e.getSymbol with
      | some symbol => symbol :: extractLoop es ps
      | none => extractLoop es ps
    else extractLoop es ps
  | _, _ => []

/-- `SExprMatcher::extract`. -/
def SExprMatcher.extract (expr : SExpr) (pattern : List Str) : List Str :=
  match expr with
  | .atom _ => []
  | .list l =>
    if l.length ≠ pattern.length then []
    else extractLoop l pattern

/-- `SExprMatcher::findAll`. -/
def SExprMatcher.findAll (exprs : List SExpr) (pattern : List Str) : List SExpr :=
  exprs.filter (fun e => SExprMatcher.matches e pattern)

/-! ## Knowledge model (`knowledge_io.hpp`, `knowledge_io.cpp`) -/

/-- `struct Triple`. -/
structure Triple where
  subject : Str
  predicate : Str
  object : Str
  tripleType : Str := "ct-triple".toList
  objectIsExpression : Bool := false
deriving DecidableEq

/-- `Triple::toString`. -/
def Triple.toString (t : Triple) : Str :=
  "(".toList ++ t.tripleType ++ " ".toList ++ t.subject ++ " ".toList ++ t.predicate
    ++ " ".toList
    ++ (if t.objectIsExpression || (t.object.length > 0 && t.object.head? = some '(')
        then t.object else t.object)
    ++ ")".toList

/-- `struct Negation`. -/
structure Negation where
  name : Str
  negatedEntity : Str
deriving DecidableEq

/-- `Negation::toString`. -/
def Negation.toString (n : Negation) : Str :=
  "(ct-simple-not ".toList ++ n.name ++ " ".toList ++ n.negatedEntity ++ ")".toList
    ++ (if !n.name.isEmpty then "\n(ct-triple ".toList ++ n.name ++ " type rexist)".toList
        else [])

/-- `enum LogicalExpression::Type`. -/
inductive LogicalExpressionType where
  | AND | OR | NOT | EQUAL
deriving DecidableEq

/-- `struct LogicalExpression`. -/
structure LogicalExpression where
  type : LogicalExpressionType
  name : Str
  operands : List Str
deriving DecidableEq

/-- The output of `for (i = k; i < operands.size(); ++i) oss << " " << operands[i]`. -/
def spacedOperands : List Str → Str
  | [] => []
  | o :: os => ' ' :: (o ++ spacedOperands os)

/-- The output of the loop `if (i > 0) oss << " "; oss << operands[i]`. -/
def joinedOperands : List Str → Str
  | [] => []
  | [o] => o
  | o :: o2 :: os => o ++ ' ' :: joinedOperands (o2 :: os)

/-- `LogicalExpression::toString`. -/
def LogicalExpression.toString (x : LogicalExpression) : Str :=
  if x.type = .EQUAL then
    "(= ".toList
      ++ (if x.name.isEmpty then
            "(".toList ++ (if x.operands.length > 0 then x.operands.headD [] else [])
              ++ ")".toList
          else if x.operands.length = 1 && (x.operands.headD []).contains ' ' then
            "(".toList ++ x.operands.headD [] ++ ")".toList
          else
            "(".toList ++ x.name ++ ")".toList)
      ++ (if x.operands.length > 1 then
            " (".toList ++ (x.operands.tail.headD []) ++ spacedOperands (x.operands.drop 2)
              ++ ")".toList
          else [])
      ++ ")".toList
  else
    let op : Str :=
      if x.type = .AND then "ct-and".toList
      else if x.type = .OR then "ct-or".toList else "ct-not".toList
    "(= (".toList ++ op ++ " ".toList ++ x.name ++ ")".toList
      ++ (if !x.operands.isEmpty then
            " (".toList ++ joinedOperands x.operands ++ ")".toList
          else [])
      ++ ")".toList

/-- `struct Entity`; `properties` is the `std::map` in key order. -/
structure Entity where
  name : Str
  type : Str
  properties : List (Str × Str) := []
deriving DecidableEq

/-- `struct Eventuality`; `roles` is the `std::map` in key order. -/
structure Eventuality where
  name : Str := []
  type : Str := []
  modality : Str := []
  agent : Str := []
  roles : List (Str × Str) := []
deriving DecidableEq

/-- `Eventuality::isValid`. -/
def Eventuality.isValid (e : Eventuality) : Bool :=
  !e.name.isEmpty && !e.type.isEmpty && e.modality = "rexist".toList && !e.agent.isEmpty

/-- `std::isalpha` in the "C" locale. -/
def isalpha (c : Char) : Bool :=
  ('a'.toNat ≤ c.toNat && c.toNat ≤ 'z'.toNat) || ('A'.toNat ≤ c.toNat && c.toNat ≤ 'Z'.toNat)

/-- `std::tolower` in the "C" locale. -/
def tolower (c : Char) : Char :=
  if 'A'.toNat ≤ c.toNat && c.toNat ≤ 'Z'.toNat then Char.ofNat (c.toNat + 32) else c

/-- The loop `for (char c : agentName)` of `Eventuality::getExpectedName`, with
its two variables `newWord` and `agentInitials`. -/
def agentInitialsLoop : Str → Bool → Str → Str
  | [], _, agentInitials => agentInitials
  | c :: cs, newWord, agentInitials =>
    if c = '_' || c = '-' then agentInitialsLoop cs true agentInitials
    else if newWord && isalpha c then agentInitialsLoop cs false (agentInitials ++ [tolower c])
    else agentInitialsLoop cs newWord agentInitials

/-- `Eventuality::getExpectedName`. -/
def Eventuality.getExpectedName (e : Eventuality) : Str :=
  if e.type.isEmpty || e.agent.isEmpty then []
  else
    let typeInitial : Str :=
      if e.type.take 3 = "soa".toList && e.type.length > 3 then [tolower (e.type.getD 3 ' ')]
      else if !e.type.isEmpty then [tolower (e.type.getD 0 ' ')]
      else []
    let agentName : Str :=
      if e.agent.take 4 = "soa_".toList then e.agent.drop 4 else e.agent
    let agentInitials := agentInitialsLoop agentName true []
    "soa_e".toList ++ typeInitial ++ agentInitials

/-- `KnowledgeIO::getValidEventualityTypes`. -/
def getValidEventualityTypes : List Str :=
  ["soaMoor", "soaPay", "soaLeave", "soaContainerVessel",
   "soaContainerVessel", "soa_mooringBerth", "smartport",
   "soaIdentify", "soaDevelop", "soaOnboard", "soaActivate",
   "soaInvoke", "soaCreate", "soaUpdate", "soaReview",
   "soaReward", "soaUnreward", "soaCalculate", "soaIssue",
   "soaSettle", "soaReimburse", "soaVerify",
   "soaDeclare", "soaRegister", "soaTransfer", "soaValidate",
   "Pay", "Moor", "Leave"].map String.toList

/-- `KnowledgeIO::getValidRoles`. -/
def getValidRoles : List Str :=
  ["soaHas_agent", "soaHas_beneficiary", "soaHas_cause", "soaHas_goal",
   "soaHas_instrument", "soaHas_partner", "soaHas_patient", "soaHas_pivot",
   "soaHas_purpose", "soaHas_reason", "soaHas_result", "soaHas_setting",
   "soaHas_source", "soaHas_theme", "soaHas_time", "soaHas_manner",
   "soaHas_medium", "soaHas_means", "soaHas_location", "soaHas_initial-location",
   "soaHas_final-location", "soaHas_distance", "soaHas_duration", "soaHas_initial-time",
   "soaHas_final-time", "soaHas_path", "soaHas_amount", "soaHas_attribute"].map String.toList

/-- `KnowledgeIO::getValidModalities`. -/
def getValidModalities : List Str :=
  ["rexist", "obligatory", "permitted", "optional"].map String.toList

/-- `KnowledgeIO::isValidEventualityType`. -/
def isValidEventualityType (type : Str) : Bool := getValidEventualityTypes.contains type

/-- `KnowledgeIO::isValidRole`. -/
def isValidRole (role : Str) : Bool := getValidRoles.contains role

/-- `KnowledgeIO::isValidModality`. -/
def isValidModality (modality : Str) : Bool := getValidModalities.contains modality

/-- `struct StateOfAffairs`; the two `std::map`s are lists in key order. -/
structure StateOfAffairs where
  facts : List Triple := []
  eventualities : List (Str × Eventuality) := []
  entities : List (Str × Entity) := []
  logicalExpressions : List LogicalExpression := []
  negations : List Negation := []
  description : Str := []
deriving DecidableEq

/-- The message of the required-fields check of `validateEventualities`. -/
def errMissingFields (name : Str) : Str :=
  "Eventuality '".toList ++ name
    ++ "' is missing required fields (type, rexist modality, or agent)".toList

/-- The message of the naming-convention check of `validateEventualities`. -/
def errNaming (name expectedName : Str) : Str :=
  "Eventuality '".toList ++ name
    ++ "' does not follow naming convention. Expected: '".toList ++ expectedName
    ++ "'".toList

/-- The message of the eventuality-type check of `validateEventualities`. -/
def errInvalidType (type name : Str) : Str :=
  "Invalid eventuality type '".toList ++ type ++ "' for eventuality '".toList ++ name
    ++ "'".toList

/-- The message of the role check of `validateEventualities`. -/
def errInvalidRole (role name : Str) : Str :=
  "Invalid role '".toList ++ role ++ "' for eventuality '".toList ++ name ++ "'".toList

/-- The inner loop `for (const auto& [role, value] : eventuality.roles)` of
`validateEventualities`; the state is `(errors, valid)`. -/
def validateRolesLoop (name : Str) : List (Str × Str) → List Str × Bool → List Str × Bool
  | [], st => st
  | (role, _) :: rest, (errors, valid) =>
    if !isValidRole role then
      validateRolesLoop name rest
        (errors ++ [errInvalidRole role name], false)
    else validateRolesLoop name rest (errors, valid)

/-- The body of the outer loop of `validateEventualities` for one map entry. -/
def validateEventualityStep (name : Str) (eventuality : Eventuality)
    (st : List Str × Bool) : List Str × Bool :=
  let st1 : List Str × Bool :=
    if !eventuality.isValid then
      (st.1 ++ [errMissingFields name], false)
    else st
  let expectedName := eventuality.getExpectedName
  let st2 : List Str × Bool :=
    if name ≠ expectedName then
      (st1.1 ++ [errNaming name expectedName], false)
    else st1
  let st3 : List Str × Bool :=
    if !isValidEventualityType eventuality.type then
      (st2.1 ++ [errInvalidType eventuality.type name], false)
    else st2
  validateRolesLoop name eventuality.roles st3

/-- The outer loop of `validateEventualities`. -/
def validateEventualitiesLoop : List (Str × Eventuality) → List Str × Bool → List Str × Bool
  | [], st => st
  | (name, eventuality) :: rest, st =>
    validateEventualitiesLoop rest (validateEventualityStep name eventuality st)

/-- `StateOfAffairs::validateEventualities(errors)`: the returned flag and the
error vector after the call. -/
def StateOfAffairs.validateEventualities (soa : StateOfAffairs) (errors : List Str) :
    Bool × List Str :=
  let st := validateEventualitiesLoop soa.eventualities (errors, true)
  (st.2, st.1)

/-- `KnowledgeIO::parseTripleFromExpr`. -/
def parseTripleFromExpr (expr : SExpr) : Option Triple :=
  match expr with
  | .atom _ => none
  | .list l =>
    match l with
    | [e0, e1, e2, e3] =>
      match e0.getSymbol with
      | none => none
      | some tripleType =>
        if tripleType ≠ "ct-triple".toList && tripleType ≠ "meta-triple".toList then none
        else
          match e1.getSymbol, e2.getSymbol with
          | some subject, some predicate =>
            match e3 with
            | .atom a =>
              some { tripleType := tripleType, subject := subject, predicate := predicate,
                     object := a, objectIsExpression := false }
            | .list _ =>
              some { tripleType := tripleType, subject := subject, predicate := predicate,
                     object := e3.toString, objectIsExpression := true }
          | _, _ => none
    | _ => none

/-- `KnowledgeIO::parseTriple`. -/
def parseTriple (mettaCode : Str) : Option Triple :=
  match parse mettaCode with
  | .ok expr => parseTripleFromExpr expr
  | .error _ => none

/-- `KnowledgeIO::parseNegation`. -/
def parseNegation (expr : SExpr) : Option Negation :=
  match expr with
  | .atom _ => none
  | .list l =>
    match l with
    | [e0, e1, e2] =>
      match e0.getSymbol with
      | none => none
      | some op =>
        if op ≠ "ct-simple-not".toList then none
        else
          match e1.getSymbol, e2.getSymbol with
          | some name, some negated => some { name := name, negatedEntity := negated }
          | _, _ => none
    | _ => none

/-- The loop over `operandList` of `parseLogicalExpression`: the atoms of the list. -/
def symbolsOf (l : List SExpr) : List Str := l.filterMap SExpr.getSymbol

/-- The block `if (list[1]->isList()) { ... }` of `parseLogicalExpression`, which
sets the type and the name from the operator list. -/
def parseLogicalHeader (logExpr : LogicalExpression) (second : SExpr) : LogicalExpression :=
  match second with
  | .atom _ => logExpr
  | .list opList =>
    if opList.length ≥ 2 then
      match (opList.headD (.atom [])).getSymbol,
            (opList.tail.headD (.atom [])).getSymbol with
      | some opType, some opName =>
        if opType = "ct-or".toList then
          { logExpr with type := .OR, name := opName }
        else if opType = "ct-and".toList then
          { logExpr with type := .AND, name := opName }
        else
          { logExpr with type := .EQUAL, name := opType,
                         operands := logExpr.operands ++ [opName] }
      | _, _ => logExpr
    else logExpr

/-- The block `if (list.size() >= 3 && list[2]->isList()) { ... }` of
`parseLogicalExpression`, which appends the atoms of the operand list. -/
def parseLogicalOperands (logExpr : LogicalExpression) (l : List SExpr) :
    LogicalExpression :=
  if l.length ≥ 3 then
    match (l.drop 2).headD (.atom []) with
    | .list operandList =>
      { logExpr with operands := logExpr.operands ++ symbolsOf operandList }
    | .atom _ => logExpr
  else logExpr

/-- `KnowledgeIO::parseLogicalExpression`.  The local `LogicalExpression logExpr;`
is default-initialised, which leaves its `type` indeterminate: `uninit` is the
value it happens to hold. -/
def parseLogicalExpression (uninit : LogicalExpressionType) (expr : SExpr) :
    Option LogicalExpression :=
  match expr with
  | .atom _ => none
  | .list l =>
    if l.length < 2 then none
    else
      match (l.headD (.atom [])).getSymbol with
      | none => none
      | some first =>
        if first ≠ "=".toList then none
        else
          let logExpr : LogicalExpression := { type := uninit, name := [], operands := [] }
          some (parseLogicalOperands (parseLogicalHeader logExpr (l.tail.headD (.atom []))) l)

/-! ## The specification's wording of the naming convention and of validation -/

/-- Spec §4.3, step 1: the lowercase of the 4th character of `type` if `type` starts
with `"soa"` and has length > 3, else the lowercase of its 1st character. -/
def specTypeInitial (type : Str) : Str :=
  if "soa".toList.isPrefixOf type && type.length > 3 then
    ((type.get? 3).map tolower).toList
  else
    (type.head?.map tolower).toList

/-- Spec §4.3, steps 2 and 3: strip a leading `"soa_"`, split what remains on `_` and
`-`, and concatenate the lowercased first alphabetic character of each word. -/
def specAgentInitials (agent : Str) : Str :=
  let stripped := if "soa_".toList.isPrefixOf agent then agent.drop 4 else agent
  (stripped.splitOnP (fun c => c == '_' || c == '-')).filterMap
    (fun word => (word.find? isalpha).map tolower)

/-- Spec §4.3, step 4: `expectedName = "soa_e" + typeInitial + agentInitials`. -/
def specExpectedName (type agent : Str) : Str :=
  "soa_e".toList ++ specTypeInitial type ++ specAgentInitials agent

/-- The messages the specification asks of `validateEventualities` for one
eventuality: one for each failed check, in the order of the checks. -/
def specEventualityMessages (name : Str) (ev : Eventuality) : List Str :=
  (if ev.isValid then [] else [errMissingFields name])
    ++ (if name = ev.getExpectedName then [] else [errNaming name ev.getExpectedName])
    ++ (if isValidEventualityType ev.type then [] else [errInvalidType ev.type name])
    ++ (ev.roles.filter (fun r => !isValidRole r.1)).map (fun r => errInvalidRole r.1 name)

/-- The eventuality of the validation scenario: a wrong name. -/
def wrongNameEventuality : Eventuality :=
  { name := "soa_wrongname".toList, type := "soaMoor".toList, modality := "rexist".toList,
    agent := "soa_ALEXANDRA_MAERSK".toList }

/-- The fully conforming eventuality of the validation scenario. -/
def conformingEventuality : Eventuality :=
  { name := "soa_emam".toList, type := "soaMoor".toList, modality := "rexist".toList,
    agent := "soa_ALEXANDRA_MAERSK".toList,
    roles := [("soaHas_location".toList, "soa_berthMICT".toList)] }

/-! ## Documents: `StateOfAffairs::toString` and `extractStateOfAffairsFromMetta` -/

/-- `Entity::toString`. -/
def Entity.toString (e : Entity) : Str :=
  "(ct-triple ".toList ++ e.name ++ " type ".toList ++ e.type ++ ")".toList
    ++ e.properties.flatMap (fun kv =>
        "\n(ct-triple ".toList ++ e.name ++ " ".toList ++ kv.1 ++ " ".toList ++ kv.2
          ++ ")".toList)

/-- `StateOfAffairs::toString`. -/
def StateOfAffairs.toString (soa : StateOfAffairs) : Str :=
  (if !soa.description.isEmpty then "; ".toList ++ soa.description ++ "\n\n".toList else [])
    ++ soa.logicalExpressions.flatMap (fun logExpr => logExpr.toString ++ "\n".toList)
    ++ soa.facts.flatMap (fun fact => fact.toString ++ "\n".toList)
    ++ soa.negations.flatMap (fun negation => negation.toString ++ "\n".toList)
    ++ soa.entities.flatMap (fun entry => entry.2.toString ++ "\n".toList)

/-- The order of `std::string` keys in a `std::map`: lexicographic, by character code. -/
def strLt : Str → Str → Bool
  | [], [] => false
  | [], _ :: _ => true
  | _ :: _, [] => false
  | a :: as, b :: bs =>
    if a.toNat < b.toNat then true
    else if b.toNat < a.toNat then false
    else strLt as bs

/-- `map.find(key)`: the value stored under `key`, if any. -/
def mapFind {α : Type} (key : Str) : List (Str × α) → Option α
  | [] => none
  | (k, v) :: rest => if key = k then some v else mapFind key rest

/-- `map[key] = value`: replaces the value under `key` or inserts it in key order. -/
def mapInsert {α : Type} (key : Str) (value : α) : List (Str × α) → List (Str × α)
  | [] => [(key, value)]
  | (k, v) :: rest =>
    if key = k then (key, value) :: rest
    else if strLt key k then (key, value) :: (k, v) :: rest
    else (k, v) :: mapInsert key value rest

/-- `f(map[key])`: `operator[]` default-constructs a missing value, then `f` changes
the stored value in place. -/
def mapUpdate {α : Type} (key : Str) (dflt : α) (f : α → α) (m : List (Str × α)) :
    List (Str × α) :=
  mapInsert key (f ((mapFind key m).getD dflt)) m

/-- `KnowledgeIO::trimWhitespace`. -/
def trimWhitespace (str : Str) : Str :=
  let isTrim : Char → Bool := fun c => c == ' ' || c == '\t' || c == '\n' || c == '\r'
  ((str.dropWhile isTrim).reverse.dropWhile isTrim).reverse

/-- `KnowledgeIO::isCommentLine`. -/
def isCommentLine (line : Str) : Bool :=
  let trimmed := trimWhitespace line
  trimmed.isEmpty || trimmed.head? = some ';'

/-- `KnowledgeIO::isTripleDefinition`: `trimmed.find(...) == 0`. -/
def isTripleDefinition (line : Str) : Bool :=
  let trimmed := trimWhitespace line
  "(ct-triple".toList.isPrefixOf trimmed || "(meta-triple".toList.isPrefixOf trimmed

/-- `KnowledgeIO::isNegationDefinition`. -/
def isNegationDefinition (line : Str) : Bool :=
  "(ct-simple-not".toList.isPrefixOf (trimWhitespace line)

/-- `KnowledgeIO::isLogicalDefinition`. -/
def isLogicalDefinition (line : Str) : Bool :=
  let trimmed := trimWhitespace line
  "(= (ct-or".toList.isPrefixOf trimmed || "(= (ct-and".toList.isPrefixOf trimmed
    || "(=".toList.isPrefixOf trimmed

/-- `str.find(needle)`, counted from `pos`: the index of the first occurrence. -/
def strFind (needle : Str) : Str → Nat → Option Nat
  | [], pos => if needle.isEmpty then some pos else none
  | c :: cs, pos =>
    if needle.isPrefixOf (c :: cs) then some pos else strFind needle cs (pos + 1)

/-- `str.rfind(c)` for a one-character needle: the index of the last occurrence. -/
def strRfindChar (c : Char) (str : Str) : Option Nat :=
  match strFind [c] str.reverse 0 with
  | none => none
  | some i => some (str.length - 1 - i)

/-- The lines that repeated `std::getline` reads from the content; `current` is the
line being read. -/
def getLinesFrom : Str → Str → List Str
  | [], current => if current.isEmpty then [] else [current]
  | c :: cs, current =>
    if c = '\n' then current :: getLinesFrom cs [] else getLinesFrom cs (current ++ [c])

/-- The lines of `while (std::getline(iss, line))`. -/
def getLines (content : Str) : List Str := getLinesFrom content []

/-- `KnowledgeIO::parseEntity`. -/
def parseEntity (triple : Triple) : Option Entity :=
  if triple.predicate ≠ "type".toList then none
  else if triple.subject.take 5 = "soa_e".toList then none
  else some { name := triple.subject, type := triple.object }

/-- The local variables of the line-by-line fallback of
`extractStateOfAffairsFromMetta`. -/
structure LineState where
  description : Str := []
  currentExpr : Str := []
  lineNum : Nat := 0
  parenDepth : Int := 0
  inExpr : Bool := false
  expressions : List SExpr := []
  parseErrors : List Str := []

/-- The loop `for (char c : line)` that counts parentheses. -/
def countParens : Str → Int → Int
  | [], depth => depth
  | c :: cs, depth =>
    if c = '(' then countParens cs (depth + 1)
    else if c = ')' then countParens cs (depth - 1)
    else countParens cs depth

/-- The text of `e.what()`. -/
def ParseError.what : ParseError → Str
  | .runtimeError msg => msg
  | .outOfFuel => []

/-- The description that a comment line with the marker `State of Affairs` gives.  In
`line.substr(start + 1, end - start - 1)` the count is unsigned: when the last `)`
stands before the first `(` it wraps around and the substring runs to the end of the
line. -/
def commentStep (st : LineState) (line : Str) : LineState :=
  if (strFind "State of Affairs".toList line 0).isSome then
    match strFind "(".toList line 0, strRfindChar ')' line with
    | some start, some stop =>
      let text : Str :=
        if stop > start then (line.drop (start + 1)).take (stop - start - 1)
        else line.drop (start + 1)
      { st with description := text }
    | _, _ => st
  else st

/-- The `try { parse(currentExpr) } catch` of the fallback loop, once the parentheses
are balanced. -/
def finishExpr (st : LineState) : LineState :=
  match parse st.currentExpr with
  | .ok expr => { st with expressions := st.expressions ++ [expr], inExpr := false }
  | .error e =>
    let message : Str :=
      "Line ".toList ++ (Nat.repr st.lineNum).toList ++ ": ".toList ++ e.what
    { st with parseErrors := st.parseErrors ++ [message], inExpr := false }

/-- The body of the fallback loop for a line that is no comment. -/
def exprStep (st : LineState) (line : Str) : LineState :=
  let st :=
    if (isTripleDefinition line || isNegationDefinition line || isLogicalDefinition line)
        && !st.inExpr then
      { st with inExpr := true, parenDepth := 0, currentExpr := [] }
    else st
  if st.inExpr then
    let text : Str := st.currentExpr ++ line ++ "\n".toList
    let depth : Int := countParens line st.parenDepth
    let st := { st with currentExpr := text, parenDepth := depth }
    if st.parenDepth ≤ (0 : Int) then finishExpr st else st
  else st

/-- The body of the fallback loop for one line. -/
def lineStep (st : LineState) (line : Str) : LineState :=
  let st := { st with lineNum := st.lineNum + 1 }
  if isCommentLine line then commentStep st line else exprStep st line

/-- `soa.eventualities[key].field = value`: the change `f` of the eventuality stored
under `key`. -/
def setEventuality (soa : StateOfAffairs) (key : Str) (f : Eventuality → Eventuality) :
    StateOfAffairs :=
  { soa with eventualities := mapUpdate key {} f soa.eventualities }

/-- The step "Check if this defines an entity" of the processing loop. -/
def addEntity (soa : StateOfAffairs) (triple : Triple) : StateOfAffairs :=
  match parseEntity triple with
  | some entity => { soa with entities := mapInsert entity.name entity soa.entities }
  | none => soa

/-- The step "Parse eventualities from triples" of the processing loop. -/
def addEventuality (soa : StateOfAffairs) (triple : Triple) : StateOfAffairs :=
  if triple.subject.take 5 = "soa_e".toList then
    let eventualityName := triple.subject
    let fresh : Eventuality := { name := eventualityName }
    let soa :=
      if (mapFind eventualityName soa.eventualities).isNone then
        { soa with eventualities := mapInsert eventualityName fresh soa.eventualities }
      else soa
    if triple.predicate = "type".toList then
      if isValidEventualityType triple.object then
        setEventuality soa eventualityName (fun ev => { ev with type := triple.object })
      else if isValidModality triple.object then
        setEventuality soa eventualityName (fun ev => { ev with modality := triple.object })
      else soa
    else if triple.predicate = "soaHas_agent".toList then
      setEventuality soa eventualityName (fun ev => { ev with agent := triple.object })
    else if triple.predicate.take 7 = "soaHas_".toList then
      setEventuality soa eventualityName
        (fun ev => { ev with roles := mapInsert triple.predicate triple.object ev.roles })
    else soa
  else soa

/-- The step "Also check for entity properties" of the processing loop. -/
def addEntityProperty (soa : StateOfAffairs) (triple : Triple) : StateOfAffairs :=
  if strFind "soa_".toList triple.subject 0 ≠ some 0
      || triple.subject.take 5 ≠ "soa_e".toList then
    if (mapFind triple.subject soa.entities).isSome then
      if triple.predicate ≠ "type".toList then
        let addProperty : Entity → Entity := fun en =>
          { en with properties := mapInsert triple.predicate triple.object en.properties }
        let blank : Entity := { name := [], type := [] }
        { soa with entities := mapUpdate triple.subject blank addProperty soa.entities }
      else soa
    else soa
  else soa

/-- The handling of one triple in the processing loop of
`extractStateOfAffairsFromMetta`: the fact is recorded, then the three steps run. -/
def processTriple (soa : StateOfAffairs) (triple : Triple) : StateOfAffairs :=
  let soa := { soa with facts := soa.facts ++ [triple] }
  addEntityProperty (addEventuality (addEntity soa triple) triple) triple

/-- The body of the processing loop of `extractStateOfAffairsFromMetta` for one
expression; `uninit` is the indeterminate initial `type` of `parseLogicalExpression`. -/
def processExpr (uninit : LogicalExpressionType) (soa : StateOfAffairs) (expr : SExpr) :
    StateOfAffairs :=
  match expr with
  | .atom _ => soa
  | .list [] => soa
  | .list (head :: _) =>
    match head.getSymbol with
    | none => soa
    | some first =>
      if first = "ct-triple".toList || first = "meta-triple".toList then
        match parseTripleFromExpr expr with
        | some triple => processTriple soa triple
        | none => soa
      else if first = "ct-simple-not".toList then
        match parseNegation expr with
        | some negation => { soa with negations := soa.negations ++ [negation] }
        | none => soa
      else if first = "=".toList then
        match parseLogicalExpression uninit expr with
        | some logExpr =>
          { soa with logicalExpressions := soa.logicalExpressions ++ [logExpr] }
        | none => soa
      else soa

/-- `KnowledgeIO::extractStateOfAffairsFromMetta`; `uninit` is the indeterminate
initial `type` of the logical expressions it parses.  The parse errors of the
fallback are only written to `std::cerr`. -/
def extractStateOfAffairsFromMetta (uninit : LogicalExpressionType) (mettaContent : Str) :
    StateOfAffairs :=
  let st : LineState :=
    match parseMultiple mettaContent with
    | .ok expressions => { expressions := expressions }
    | .error _ => (getLines mettaContent).foldl lineStep {}
  st.expressions.foldl (processExpr uninit) { description := st.description }

/-! ## Well-formed expressions -/

/-- An atom as the reader produces it: non-empty, with no whitespace and no bracket
character. -/
def isAtomText (a : Str) : Bool := !a.isEmpty && a.all (fun c => !isDelimiter c)

mutual
/-- Every atom of the expression is non-empty and free of whitespace and brackets. -/
def SExpr.wellFormed : SExpr → Bool
  | .atom a => isAtomText a
  | .list l => SExpr.wellFormedList l
/-- Every expression of the list is well formed. -/
def SExpr.wellFormedList : List SExpr → Bool
  | [] => true
  | e :: es => e.wellFormed && SExpr.wellFormedList es
end

/-- A parser result that is not the fuel of the model running out. -/
def Settled {α : Type} (r : Except ParseError α) : Prop := r ≠ .error .outOfFuel

/-- The text after a token ends it: it is empty or starts with a delimiter. -/
def restOk (rest : Str) : Bool :=
  match rest with
  | [] => true
  | c :: _ => isDelimiter c

/-! ## The specification's wording of a malformed first expression -/

/-- The token sequence of the unread input: a token is a single bracket character or a
maximal run of non-whitespace, non-bracket characters (at most `n` tokens). -/
def tokens : Nat → Tokenizer → List Str
  | 0, _ => []
  | n + 1, t => if t.hasNext then t.peek :: tokens n t.consume else []

/-- The token sequence of a text. -/
def tokenize (input : Str) : List Str :=
  tokens (Tokenizer.new input).rest.length (Tokenizer.new input)

/-- What a left-to-right reading of the brackets of the first expression meets. -/
inductive ScanOutcome where
  /-- The first expression is complete: an atom, or a list with all its brackets closed. -/
  | complete
  /-- There is no token at all. -/
  | empty
  /-- The text ends before the lists opened in the first expression are closed. -/
  | truncated
  /-- The first token is a closing bracket. -/
  | unexpectedClose
  /-- A list opened by `(` meets `]`, or one opened by `[` meets `)`, where its closing
  bracket is expected. -/
  | mismatched
deriving DecidableEq

/-- Reads the tokens of the first expression; `expected` holds the closing brackets of
the lists that are open, innermost first. -/
def scanFirst : List Str → List Str → ScanOutcome
  | [], [] => .empty
  | [], _ :: _ => .truncated
  | tok :: rest, expected =>
    if tok = sOpenParen then scanFirst rest (sCloseParen :: expected)
    else if tok = sOpenSquare then scanFirst rest (sCloseSquare :: expected)
    else if tok = sCloseParen || tok = sCloseSquare then
      match expected with
      | [] => .unexpectedClose
      | close :: outer =>
        if tok = close then
          (if outer.isEmpty then .complete else scanFirst rest outer)
        else .mismatched
    else
      if expected.isEmpty then .complete else scanFirst rest expected

/-! ## Invariants of parsed documents -/

/-- The text is empty or starts with a character that is no whitespace: the state in
which the tokenizer leaves its input. -/
def headNonSpace (s : Str) : Bool :=
  match s with
  | [] => true
  | c :: _ => !isspace c

/-- The object text of a triple: an atom, or the canonical rendering of a list. -/
def ObjectText (o : Str) : Prop :=
  isAtomText o = true ∨ ∃ l, SExpr.wellFormedList l = true ∧ o = (SExpr.list l).toString

/-- A triple as `parseTripleFromExpr` returns it for an expression of the reader. -/
def TripleOk (t : Triple) : Prop :=
  (t.tripleType = "ct-triple".toList ∨ t.tripleType = "meta-triple".toList) ∧
  isAtomText t.subject = true ∧ isAtomText t.predicate = true ∧
  ((t.objectIsExpression = false ∧ isAtomText t.object = true) ∨
   (t.objectIsExpression = true ∧
      ∃ l, SExpr.wellFormedList l = true ∧ t.object = (SExpr.list l).toString))

/-- A negation as `parseNegation` returns it for an expression of the reader. -/
def NegationOk (n : Negation) : Prop :=
  isAtomText n.name = true ∧ isAtomText n.negatedEntity = true

/-- A logical expression as `parseLogicalExpression` returns it for an expression of
the reader: the name is empty (when no branch set it) or an atom, the operands are
atoms. -/
def LogicalOk (x : LogicalExpression) : Prop :=
  (x.name = [] ∨ isAtomText x.name = true) ∧ ∀ o ∈ x.operands, isAtomText o = true

/-- An entity as the processing loop builds it. -/
def EntityOk (e : Entity) : Prop :=
  isAtomText e.name = true ∧ ObjectText e.type ∧
  ∀ kv ∈ e.properties, isAtomText kv.1 = true ∧ ObjectText kv.2

/-- The invariant of the documents that `extractStateOfAffairsFromMetta` returns. -/
def DocumentOk (soa : StateOfAffairs) : Prop :=
  (∀ t ∈ soa.facts, TripleOk t) ∧ (∀ n ∈ soa.negations, NegationOk n) ∧
  (∀ x ∈ soa.logicalExpressions, LogicalOk x) ∧ (∀ entry ∈ soa.entities, EntityOk entry.2)

/-- The triple that the rendered line `(ct-triple subject predicate object)` is read
back as. -/
def renderedTriple (subject predicate object : Str) : Triple :=
  { subject := subject, predicate := predicate, object := object,
    tripleType := "ct-triple".toList, objectIsExpression := object.head? = some '(' }

/-- The triples that `StateOfAffairs::toString` renders besides the facts: the type
triple of each negation, then the type triple and the property triples of each
entity. -/
def addedFacts (soa : StateOfAffairs) : List Triple :=
  soa.negations.map (fun n => renderedTriple n.name "type".toList "rexist".toList)
    ++ soa.entities.flatMap (fun entry =>
        renderedTriple entry.2.name "type".toList entry.2.type
          :: entry.2.properties.map (fun kv => renderedTriple entry.2.name kv.1 kv.2))

/-- The text `s` is read by the parser as the expression `e`, whatever follows it
after a delimiter, and starts with a character that begins a token. -/
def GoodRender (s : Str) (e : SExpr) : Prop :=
  (∀ rest : Str, restOk rest = true →
    ∃ n, parseExpression n ⟨s ++ rest⟩ = .ok (e, ⟨skipWhitespace rest⟩)) ∧
  (∃ c cs, s = c :: cs ∧ (c = '(' ∨ isDelimiter c = false))

/-- The text `s` is read by the loop of `parseMultiple` as the expressions `es`, after
which the loop goes on with what follows. -/
def Chunk (s : Str) (es : List SExpr) : Prop :=
  ∀ (rest : Str) (acc : List SExpr) (r : List SExpr), headNonSpace rest = true →
    (∃ n, parseMultipleLoop n ⟨rest⟩ (acc ++ es) = .ok r) →
    ∃ n, parseMultipleLoop n ⟨s ++ rest⟩ acc = .ok r

/-- The text `s` is a run of lines that the loop of `parseMultiple` reads as
expressions from which the processing loop takes the facts `facts` and the negations
`negations`. -/
def Section (s : Str) (facts : List Triple) (negations : List Negation) : Prop :=
  headNonSpace s = true ∧
  ∃ es, Chunk s es ∧ es.filterMap parseTripleFromExpr = facts ∧
    es.filterMap parseNegation = negations

/-- The texts of the items of a list, separated by one space. -/
def joinTexts : List (Str × SExpr) → Str
  | [] => []
  | [item] => item.1
  | item :: item2 :: items => item.1 ++ ' ' :: joinTexts (item2 :: items)

/-- A document with a general equality, two negations and an entity. -/
def reparseText : Str :=
  "(= (foo a) (b))\n(ct-simple-not soa_ex y)\n(ct-simple-not x y)\n(ct-triple p type q)".toList

/-- A text that the reader rejects as a whole and whose comment line carries a
description holding an expression. -/
def describedText : Str := "; State of Affairs ((ct-simple-not a b))\n)".toList

/-- A document with an eventuality, an entity and a nested amount. -/
def portText : Str :=
  ("(ct-triple soa_emam type soaMoor)\n(ct-triple soa_emam type rexist)\n"
    ++ "(ct-simple-not soa_enmam soa_emam)\n"
    ++ "(ct-triple soa_VESSEL type soaContainerVessel)\n"
    ++ "(ct-triple soa_VESSEL soaHas_amount (15000 USD))").toList

/-! ## `KnowledgeIO::parseNorm` -/

/-- `struct Condition` (the member `variable` is called `variableName` here). -/
structure Condition where
  variableName : Str
  expression : Str
deriving DecidableEq

/-- `struct Norm`. -/
structure Norm where
  name : Str
  parameters : List Str
  conditions : List Condition
  consequences : List Triple
  description : Str
deriving DecidableEq

/-- The body of the loop `for (const auto& condExpr : conditions)` of `parseNorm`:
the condition that one binding of the `let*` block contributes, if any. -/
def normCondition (condExpr : SExpr) : Option Condition :=
  match condExpr with
  | .atom _ => none
  | .list condList =>
    if condList.length ≥ 2 then
      match (condList.headD (.atom [])).getSymbol, condList.tail.headD (.atom []) with
      | some variable1, .list c =>
        let expression := (SExpr.list c).toString
        some { variableName := variable1,
               expression :=
                 if !expression.isEmpty && expression.head? = some '(' then
                   (expression.drop 1).take (expression.length - 2)
                 else expression }
      | _, _ => none
    else none

/-- The block `if (list.size() >= 3 && list[2]->isList()) { ... }` of `parseNorm`:
the conditions of the `let*` block of the body. -/
def normBodyConditions (l : List SExpr) : List Condition :=
  if l.length ≥ 3 then
    match (l.drop 2).headD (.atom []) with
    | .atom _ => []
    | .list body =>
      match body with
      | [] => []
      | b0 :: brest =>
        if b0.getSymbol = some "let*".toList then
          match brest with
          | .list conditions :: _ => conditions.filterMap normCondition
          | _ => []
        else []
  else []

/-- `KnowledgeIO::parseNorm`; the `catch` clause turns a failure of the reader into
"no result". -/
def parseNorm (mettaCode : Str) : Option Norm :=
  match parse mettaCode with
  | .error _ => none
  | .ok expr =>
    match expr with
    | .atom _ => none
    | .list l =>
      if l.length < 2 then none
      else
        match (l.headD (.atom [])).getSymbol with
        | none => none
        | some equals =>
          if equals ≠ "=".toList then none
          else
            match l.tail.headD (.atom []) with
            | .atom _ => none
            | .list header =>
              match header with
              | [] => none
              | h0 :: params =>
                match h0.getSymbol with
                | none => none
                | some normName =>
                  some { name := normName, parameters := symbolsOf params,
                         conditions := normBodyConditions l, consequences := [],
                         description := [] }

/-- Spec, norm parsing: a rendering "with outer parens stripped" is the rendering
without its first and its last character. -/
def specStripOuterParens (rendering : Str) : Str := (rendering.drop 1).dropLast

/-- The tree of `(= (name p1 ... pn) (let* ((v1 C1) ... (vk Ck)) True))`, where each
`Ci` is the list of the given children. -/
def normTree (name : Str) (params : List Str) (bindings : List (Str × List SExpr)) : SExpr :=
  SExpr.list [SExpr.atom "=".toList, SExpr.list (SExpr.atom name :: params.map SExpr.atom),
    SExpr.list [SExpr.atom "let*".toList,
      SExpr.list (bindings.map (fun b => SExpr.list [SExpr.atom b.1, SExpr.list b.2])),
      SExpr.atom "True".toList]]

/-! ## `EntityResolver` -/

/-- `struct EntityResolver::ActionMapping`. -/
structure ActionMapping where
  pattern : Str
  baseForm : Str
  presentTense : Str
  pastTense : Str
deriving DecidableEq

/-- `class EntityResolver`: its five tables.  A `std::unordered_map` is held as the
list of its key/value pairs (the keys are distinct), in the order in which the map is
iterated, which the language leaves open. -/
structure EntityResolver where
  entityMappings : List (Str × Str)
  specialCharMappings : List (Str × Str)
  actionMappings : List (Str × ActionMapping)
  instrumentMappings : List (Str × Str)
  portMappings : List (Str × Str)

/-- The two bytes of the letter Æ in the source file (UTF-8). -/
def sAE : Str := ['\xc3', '\x86']

/-- The string literal `"MÆRSK"`. -/
def sMAERSK : Str := 'M' :: (sAE ++ "RSK".toList)

/-- The string literal `"ALEXANDRA MÆRSK"`. -/
def sALEXANDRA_MAERSK : Str := "ALEXANDRA ".toList ++ sMAERSK

/-- The string literal `"LAURA MÆRSK"`. -/
def sLAURA_MAERSK : Str := "LAURA ".toList ++ sMAERSK

/-- `str.find(needle, pos)`. -/
def strFindFrom (needle str : Str) (pos : Nat) : Option Nat :=
  if pos ≤ str.length then strFind needle (str.drop pos) pos else none

/-- `str.replace(pos, len, to)`, for `pos + len ≤ str.size()`. -/
def strReplace (str : Str) (pos len : Nat) (toText : Str) : Str :=
  str.take pos ++ toText ++ str.drop (pos + len)

/-- The loop `while ((pos = result.find(from, pos)) != npos) { ... }` of
`applySpecialChars`, run for at most `fuel` rounds: `none` when the loop has not ended
by then. -/
def replaceLoop (fromText toText : Str) : Nat → Str → Nat → Option Str
  | 0, _, _ => none
  | fuel + 1, result, pos =>
    match strFindFrom fromText result pos with
    | none => some result
    | some found =>
      replaceLoop fromText toText fuel (strReplace result found fromText.length toText)
        (found + toText.length)

/-- The loop `for (const auto& [from, to] : specialCharMappings)` of
`applySpecialChars`; every occurrence that is replaced uses up at least one character of
`result`, so `result.length + 1` rounds are enough for a key that is not empty. -/
def applySpecialCharsLoop : List (Str × Str) → Str → Option Str
  | [], result => some result
  | (fromText, toText) :: rest, result =>
    match replaceLoop fromText toText (result.length + 1) result 0 with
    | none => none
    | some replaced => applySpecialCharsLoop rest replaced

namespace EntityResolver

/-- The table `specialCharMappings` that `loadDefaultMappings` fills. -/
def defaultSpecialCharMappings : List (Str × Str) :=
  [("MAERSK".toList, sMAERSK), ("AERSK".toList, sAE ++ "RSK".toList)]

/-- The table `entityMappings` that `loadDefaultMappings` fills. -/
def defaultEntityMappings : List (Str × Str) :=
  [("soa_ALEXANDRA_MAERSK".toList, sALEXANDRA_MAERSK),
   ("soa_LAURA_MAERSK".toList, sLAURA_MAERSK),
   ("soa_MICT".toList, "MICT Smart Port".toList),
   ("soa_sptMICT".toList, "MICT Smart Port Treasury".toList),
   ("soa_emam".toList, sALEXANDRA_MAERSK),
   ("soa_enmam".toList, sALEXANDRA_MAERSK),
   ("soa_eplm".toList, sALEXANDRA_MAERSK),
   ("soa_enplm".toList, sALEXANDRA_MAERSK),
   ("soa_elam".toList, sALEXANDRA_MAERSK),
   ("soa_enlam".toList, sALEXANDRA_MAERSK),
   ("soa_epam".toList, sALEXANDRA_MAERSK),
   ("soa_enpam".toList, sALEXANDRA_MAERSK)]

/-- The table `instrumentMappings` that `loadDefaultMappings` fills. -/
def defaultInstrumentMappings : List (Str × Str) :=
  [("soa_USDS".toList, "USDS".toList), ("soa_INRS".toList, "INRS".toList),
   ("soa_USD".toList, "USD".toList), ("soa_EUR".toList, "EUR".toList)]

/-- The initialiser `{pattern, baseForm, presentTense, pastTense}`. -/
def actionOf (pattern baseForm presentTense pastTense : String) : ActionMapping :=
  { pattern := pattern.toList, baseForm := baseForm.toList,
    presentTense := presentTense.toList, pastTense := pastTense.toList }

/-- The table `actionMappings` that `loadDefaultMappings` fills. -/
def defaultActionMappings : List (Str × ActionMapping) :=
  [("soaMoor".toList, actionOf "moor" "moor" "moors" "moored"),
   ("soaPay".toList, actionOf "pay" "pay" "pays" "paid"),
   ("soaLeave".toList, actionOf "leave" "leave" "leaves" "left"),
   ("soaArrive".toList, actionOf "arrive" "arrive" "arrives" "arrived"),
   ("soaDock".toList, actionOf "dock" "dock" "docks" "docked"),
   ("soaDeliver".toList, actionOf "deliver" "deliver" "delivers" "delivered"),
   ("soaLoad".toList, actionOf "load" "load" "loads" "loaded"),
   ("soaUnload".toList, actionOf "unload" "unload" "unloads" "unloaded"),
   ("soa_emam".toList, actionOf "moor" "moor" "moors" "moored"),
   ("soa_enmam".toList, actionOf "moor" "moor" "moors" "moored"),
   ("soa_eplm".toList, actionOf "pay" "pay" "pays" "paid"),
   ("soa_enplm".toList, actionOf "pay" "pay" "pays" "paid"),
   ("soa_elam".toList, actionOf "leave" "leave" "leaves" "left"),
   ("soa_enlam".toList, actionOf "leave" "leave" "leaves" "left"),
   ("soa_epam".toList, actionOf "pay" "pay" "pays" "paid"),
   ("soa_enpam".toList, actionOf "pay" "pay" "pays" "paid")]

/-- `EntityResolver::EntityResolver()`, which runs `loadDefaultMappings` on empty
tables; `special` is `defaultSpecialCharMappings` in the order in which the map happens
to be iterated. -/
def loadDefaultMappings (special : List (Str × Str)) : EntityResolver :=
  { entityMappings := defaultEntityMappings, specialCharMappings := special,
    actionMappings := defaultActionMappings, instrumentMappings := defaultInstrumentMappings,
    portMappings := [] }

/-- `EntityResolver::applySpecialChars`; `none` when one of its loops does not end. -/
def applySpecialChars (r : EntityResolver) (text : Str) : Option Str :=
  applySpecialCharsLoop r.specialCharMappings text

/-- `EntityResolver::entityToHumanReadable`. -/
def entityToHumanReadable (r : EntityResolver) (soaEntity : Str) : Option Str :=
  if soaEntity.take 4 ≠ "soa_".toList then some soaEntity
  else
    let entity := soaEntity.drop 4
    let entity := entity.map (fun c => if c = '_' then ' ' else c)
    r.applySpecialChars entity

/-- `EntityResolver::resolveEntity`. -/
def resolveEntity (r : EntityResolver) (entity : Str) : Option Str :=
  match mapFind entity r.entityMappings with
  | some displayName => some displayName
  | none => r.entityToHumanReadable entity

/-- `EntityResolver::isNegatedEntity`. -/
def isNegatedEntity (entity : Str) : Bool :=
  entity.length > 6 && entity.take 6 == "soa_en".toList

/-- `EntityResolver::getNegatedForm`. -/
def getNegatedForm (entity : Str) : Str :=
  if isNegatedEntity entity then entity
  else if entity.take 5 = "soa_e".toList then "soa_en".toList ++ entity.drop 5
  else "not_".toList ++ entity

/-- `EntityResolver::getBaseForm`. -/
def getBaseForm (entity : Str) : Str :=
  if !isNegatedEntity entity then entity
  else "soa_e".toList ++ entity.drop 6

/-- Spec, entity resolution: the table entry on a hit; on a miss the identifier with the
`"soa_"` prefix stripped, every `_` replaced by a space, and the special-character
replacements then applied. -/
def specResolveEntity (r : EntityResolver) (id : Str) : Option Str :=
  match mapFind id r.entityMappings with
  | some displayName => some displayName
  | none =>
    let stripped := if "soa_".toList.isPrefixOf id then id.drop 4 else id
    r.applySpecialChars (stripped.map (fun c => if c = '_' then ' ' else c))

end EntityResolver

/-! ## Token sequences -/

/-- The token sequence that the tokenizer has still to deliver. -/
def remainingTokens (t : Tokenizer) : List Str := tokens t.rest.length t

/-- Spec, tokenization rule, read character by character: a bracket character is a
token of its own, a whitespace character separates, and any other character extends the
current run `run`; a run that ends is a token. -/
def specTokensFrom : Str → Str → List Str
  | [], run => if run.isEmpty then [] else [run]
  | c :: cs, run =>
    if isBracket c then
      (if run.isEmpty then [] else [run]) ++ [c] :: specTokensFrom cs []
    else if isspace c then
      (if run.isEmpty then [] else [run]) ++ specTokensFrom cs []
    else specTokensFrom cs (run ++ [c])

/-- Spec, tokenization rule: the token sequence of a text, a token being a single
bracket character or a maximal run of non-whitespace, non-bracket characters. -/
def specTokens (input : Str) : List Str := specTokensFrom input []

/-- What the result of a parser call shows of the tokenizer: the tokens left. -/
def resultTokens (r : Except ParseError (SExpr × Tokenizer)) :
    Except ParseError (SExpr × List Str) :=
  match r with
  | .error e => .error e
  | .ok (e, t) => .ok (e, remainingTokens t)

/-- Reads the brackets of a whole token sequence; `expected` holds the closing brackets
of the lists that are open, innermost first.  True when every opening bracket is closed
by the closing bracket of its own kind and no closing bracket comes without an opening
one. -/
def bracketsBalanced : List Str → List Str → Bool
  | [], expected => expected.isEmpty
  | tok :: rest, expected =>
    if tok = sOpenParen then bracketsBalanced rest (sCloseParen :: expected)
    else if tok = sOpenSquare then bracketsBalanced rest (sCloseSquare :: expected)
    else if tok = sCloseParen || tok = sCloseSquare then
      match expected with
      | [] => false
      | close :: outer => if tok = close then bracketsBalanced rest outer else false
    else bracketsBalanced rest expected

mutual
/-- The tokens of an expression, in order, its lists written with round brackets. -/
def exprTokens : SExpr → List Str
  | .atom a => [a]
  | .list l => sOpenParen :: (exprTokensList l ++ [sCloseParen])
/-- The tokens of a sequence of expressions, in order. -/
def exprTokensList : List SExpr → List Str
  | [] => []
  | e :: es => exprTokens e ++ exprTokensList es
end

/-- A token with a square bracket turned into the round one (a tree does not record
which kind of bracket a list was written with). -/
def roundBracket (tok : Str) : Str :=
  if tok = sOpenSquare then sOpenParen
  else if tok = sCloseSquare then sCloseParen
  else tok

namespace EntityResolver

/-- `EntityResolver::resolveAction` (the caller passes `tense`; the C++ default argument
is `"present"`). -/
def resolveAction (r : EntityResolver) (action tense : Str) : Str :=
  match mapFind action r.actionMappings with
  | some mapping =>
    if tense = "present".toList then mapping.presentTense
    else if tense = "past".toList then mapping.pastTense
    else mapping.baseForm
  | none =>
    if action.take 3 = "soa".toList then
      match action.drop 3 with
      | [] => action
      | c :: rest =>
        let baseAction := tolower c :: rest
        if tense = "present".toList then baseAction ++ "s".toList else baseAction
    else action

/-- Spec, `resolveAction` on a miss, as the claim words it: the text of `id` from the
4th character onward converted to lowercase, with `"s"` appended for the present
tense. -/
def specResolveActionFallback (id tense : Str) : Str :=
  (id.drop 3).map tolower ++ (if tense = "present".toList then "s".toList else [])

end EntityResolver

/-! ## `SemanticAnalyzer` (`semantic_analyzer.hpp`, `semantic_analyzer.cpp`) -/

/-- What stops a call of the analyzer that does not return a value.  Element accesses
of vectors, `asList`/`asAtom` and `substr` are checked in this model; a character access
that directly follows an emptiness test is a pattern match. -/
inductive Fault where
  /-- The access `v[i]` with `i ≥ v.size()` (undefined behaviour), or `s.substr(pos)` with
  `pos > s.size()` (`std::out_of_range`). -/
  | outOfRange
  /-- The call `asList()` on an atom (`std::runtime_error`). -/
  | notAList
  /-- The call `asAtom()` on a list (`std::runtime_error`). -/
  | notAnAtom
  /-- A loop of the Entity Resolver does not end. -/
  | endless
deriving DecidableEq

/-- `SExpr::asList`. -/
def SExpr.asList : SExpr → Except Fault (List SExpr)
  | .list l => .ok l
  | .atom _ => .error .notAList

/-- `SExpr::asAtom`. -/
def SExpr.asAtom : SExpr → Except Fault Str
  | .atom a => .ok a
  | .list _ => .error .notAnAtom

/-- The element access `v[i]`. -/
def elemAt {α : Type} : List α → Nat → Except Fault α
  | [], _ => .error .outOfRange
  | a :: _, 0 => .ok a
  | _ :: rest, i + 1 => elemAt rest i

/-- The call `s.substr(pos)`. -/
def substrFrom (s : Str) (pos : Nat) : Except Fault Str :=
  if pos ≤ s.length then .ok (s.drop pos) else .error .outOfRange

/-- The test `s.find(sub) != std::string::npos`. -/
def containsText (s sub : Str) : Bool := (strFind sub s 0).isSome

/-- The test `s.find(sub) == 0`. -/
def findsAtStart (s sub : Str) : Bool := decide (strFind sub s 0 = some 0)

/-- A `for` loop over a vector whose body may fault: `step` is the body, the state holds
the variables the loop changes. -/
def forEach {σ α : Type} (step : σ → α → Except Fault σ) : List α → σ → Except Fault σ
  | [], state => .ok state
  | a :: rest, state =>
    match step state a with
    | .ok next => forEach step rest next
    | .error fault => .error fault

/-- `struct MetaExpr`. -/
structure MetaExpr where
  id : Str := []
  type : Str := []
  property : Str := []
  value : Str := []
deriving DecidableEq

/-- `MetaExpr::fromSExpr`. -/
def MetaExpr.fromSExpr (expr : SExpr) : Except Fault (Option MetaExpr) :=
  if !expr.isList then pure none
  else do
    let list ← expr.asList
    if list.length < 2 then pure none
    else do
      let first ← elemAt list 0
      if first.getSymbol ≠ some "meta-id".toList then pure none
      else do
        let second ← elemAt list 1
        match second.getSymbol with
        | none => pure none
        | some id => do
          let type ← (if list.length ≥ 3 then do
            let e ← elemAt list 2
            pure (e.getSymbol.getD [])
            else pure [])
          let property ← (if list.length ≥ 4 then do
            let e ← elemAt list 3
            pure (e.getSymbol.getD [])
            else pure [])
          let value ← (if list.length ≥ 5 then do
            let e ← elemAt list 4
            pure (e.getSymbol.getD [])
            else pure [])
          pure (some { id := id, type := type, property := property, value := value })

namespace SemanticAnalyzer

/-- `struct StateOfAffairs` of `semantic_analyzer.hpp`, the classifier's proposition
(the member `exists` is called `existsFlag` here). -/
structure StateOfAffairs where
  entity : Str := []
  action : Str := []
  agent : Str := []
  instrument : Str := []
  existsFlag : Bool := true
  properties : List (Str × Str) := []
deriving DecidableEq

/-- `struct LogicalContradiction`. -/
structure LogicalContradiction where
  positive : StateOfAffairs := {}
  negative : StateOfAffairs := {}
  type : Str := []
deriving DecidableEq

/-- `struct RegulatoryConflict`. -/
structure RegulatoryConflict where
  regulation1 : Str := []
  regulation2 : Str := []
  conflictingRequirement : Str := []
  affectedEntity : Str := []
deriving DecidableEq

/-- `struct NecessaryViolation`. -/
structure NecessaryViolation where
  violatedRule : Str := []
  violator : Str := []
  reason : Str := []
deriving DecidableEq

/-- `struct ComplianceRelation`. -/
structure ComplianceRelation where
  entity : Str := []
  obligation : Str := []
  fulfilledBy : Str := []
deriving DecidableEq

/-- `struct SemanticAnalyzer::AnalysisResult`. -/
structure AnalysisResult where
  inferredFacts : List StateOfAffairs := []
  contradictions : List LogicalContradiction := []
  conflicts : List RegulatoryConflict := []
  violations : List NecessaryViolation := []
  compliances : List ComplianceRelation := []
deriving DecidableEq

/-- The call `entityResolver->resolveEntity(entity)`. -/
def resolve (r : EntityResolver) (entity : Str) : Except Fault Str :=
  match r.resolveEntity entity with
  | some displayName => .ok displayName
  | none => .error .endless

/-- The body of the loop `for (const auto& elem : list)` of `extractStateOfAffairs`,
which files a nested triple under its subject. -/
def collectTriple (entityTriples : List (Str × List SExpr)) (elem : SExpr) :
    Except Fault (List (Str × List SExpr)) :=
  if elem.isList then do
    let subList ← elem.asList
    if subList.length ≥ 4 then do
      let head ← elemAt subList 0
      if head.getSymbol = some "triple".toList then do
        let second ← elemAt subList 1
        match second.getSymbol with
        | some subject =>
          if findsAtStart subject "soa_".toList then
            pure (mapUpdate subject [] (fun triples => triples ++ [elem]) entityTriples)
          else pure entityTriples
        | none => pure entityTriples
      else pure entityTriples
    else pure entityTriples
  else pure entityTriples

/-- The body of the loop `for (const auto& expr : expressions)` of
`extractStateOfAffairs`. -/
def collectTriples (entityTriples : List (Str × List SExpr)) (expr : SExpr) :
    Except Fault (List (Str × List SExpr)) :=
  if !expr.isList then pure entityTriples
  else do
    let list ← expr.asList
    forEach collectTriple list entityTriples

/-- The conversion of an action type such as `soaLeave` to `leave` in
`extractStateOfAffairs`. -/
def actionVerb (object : Str) : Except Fault Str :=
  if object.length > 3 && object.take 3 = "soa".toList then do
    let stripped ← substrFrom object 3
    match stripped with
    | [] => pure stripped
    | c :: rest => pure (tolower c :: rest)
  else pure object

/-- The variables `soa`, `hasAction` and `exists` of `extractStateOfAffairs`. -/
structure SoaBuild where
  soa : StateOfAffairs
  hasAction : Bool := false
  existsSeen : Bool := false

/-- The body of the loop `for (const auto& triple : triples)` of
`extractStateOfAffairs`. -/
def readTriple (r : EntityResolver) (build : SoaBuild) (triple : SExpr) :
    Except Fault SoaBuild := do
  let tripleList ← triple.asList
  if tripleList.length ≥ 4 then do
    let third ← elemAt tripleList 2
    let fourth ← elemAt tripleList 3
    match third.getSymbol, fourth.getSymbol with
    | some predicate, some object =>
      if predicate = "type".toList then
        if object = "rexist".toList then
          pure { build with existsSeen := true, soa := { build.soa with existsFlag := true } }
        else if findsAtStart object "soa".toList then do
          let actionType ← actionVerb object
          pure { build with hasAction := true, soa := { build.soa with action := actionType } }
        else pure build
      else if predicate = "soaHas_agent".toList then do
        let agent ← resolve r object
        pure { build with soa := { build.soa with agent := agent } }
      else if predicate = "soaHas_instrument".toList then do
        let instrument ← resolve r object
        pure { build with soa := { build.soa with instrument := instrument } }
      else pure build
    | _, _ => pure build
  else pure build

/-- The variables `results` and `processed` of `extractStateOfAffairs`. -/
structure SoaResults where
  results : List StateOfAffairs := []
  processed : List Str := []

/-- The body of the loop `for (const auto& [entity, triples] : entityTriples)` of
`extractStateOfAffairs`. -/
def buildStateOfAffairs (r : EntityResolver) (state : SoaResults) (entry : Str × List SExpr) :
    Except Fault SoaResults :=
  if state.processed.contains entry.1 then pure state
  else if entry.1 = "soa_eo".toList || entry.1 = "soa_ea".toList then pure state
  else if containsText entry.1 "disjunction".toList then pure state
  else if containsText entry.1 "id_not_not_false".toList then pure state
  else do
    let build ← forEach (readTriple r) entry.2 { soa := { entity := entry.1 } }
    if build.hasAction && build.existsSeen then
      pure { results := state.results ++ [build.soa],
             processed := state.processed ++ [entry.1] }
    else pure state

/-- `SemanticAnalyzer::extractStateOfAffairs`. -/
def extractStateOfAffairs (r : EntityResolver) (expressions : List SExpr) :
    Except Fault (List StateOfAffairs) := do
  let entityTriples ← forEach collectTriples expressions []
  let state ← forEach (buildStateOfAffairs r) entityTriples {}
  pure state.results

end SemanticAnalyzer

namespace SemanticAnalyzer

/-- `SemanticAnalyzer::extractBaseAction`. -/
def extractBaseAction (soaEntity : Str) : Except Fault Str :=
  if soaEntity.length < 7 || soaEntity.take 4 ≠ "soa_".toList then pure []
  else do
    let suffix ← substrFrom soaEntity 4
    let suffix ← (if suffix.length > 2 && suffix.take 2 = "en".toList then substrFrom suffix 2
      else pure suffix)
    let suffix ← (if suffix.length > 1 && suffix.head? = some 'e' then substrFrom suffix 1
      else pure suffix)
    pure suffix

/-- The test `v.size() > i && v[i]->isList()`, which yields the list `v[i]` when it
holds. -/
def listAt (v : List SExpr) (i : Nat) : Except Fault (Option (List SExpr)) :=
  if v.length > i then do
    let e ← elemAt v i
    if e.isList then do
      let l ← e.asList
      pure (some l)
    else pure none
  else pure none

/-- The test `!l.empty() && l[0]->getSymbol() && *l[0]->getSymbol() == name`. -/
def headedBy (l : List SExpr) (name : Str) : Except Fault Bool :=
  if !l.isEmpty then do
    let e ← elemAt l 0
    pure (decide (e.getSymbol = some name))
  else pure false

/-- The branch `if (valueSymbol && *valueSymbol == "false")` of
`parseMetaContradiction`. -/
def existenceContradiction (list : List SExpr) (entityName : Str) :
    Except Fault LogicalContradiction := do
  let contradiction : LogicalContradiction :=
    { positive := { entity := entityName },
      negative := { entity := "not_".toList ++ entityName },
      type := "existence".toList }
  let detail ← listAt list 1
  match detail with
  | none => pure contradiction
  | some detailList =>
    if !detailList.isEmpty then do
      let e ← elemAt detailList 0
      match e.getSymbol with
      | some detailType =>
        if containsText detailType "inrs-not-usds".toList then
          pure { positive := { contradiction.positive with action := "uses INRS".toList },
                 negative := { contradiction.negative with action := "uses USDS".toList },
                 type := "payment_method".toList }
        else pure contradiction
      | none => pure contradiction
    else pure contradiction

/-- The block that follows `if (secondSymbol && *secondSymbol == "id_not_not_false")` in
`parseMetaContradiction`. -/
def actionContradiction (r : EntityResolver) (entityName : Str) :
    Except Fault LogicalContradiction := do
  let resolvedEntity ← resolve r entityName
  let action := r.resolveAction entityName "present".toList
  if entityName.length > 6 && entityName.take 6 = "soa_en".toList then do
    let rest ← substrFrom entityName 6
    let baseEntity := "soa_e".toList ++ rest
    let positiveEntity ← resolve r baseEntity
    pure { negative := { entity := resolvedEntity, action := action },
           positive := { entity := positiveEntity,
                         action := r.resolveAction baseEntity "present".toList },
           type := "action".toList }
  else do
    let negatedEntity ← (if entityName.length > 4 && entityName.take 4 = "soa_e".toList
      then do
        let rest ← substrFrom entityName 4
        pure ("soa_en".toList ++ rest)
      else pure entityName)
    let negativeEntity ← resolve r negatedEntity
    pure { positive := { entity := resolvedEntity, action := action },
           negative := { entity := negativeEntity, action := "not ".toList ++ action },
           type := "action".toList }

/-- The block `if (metaList.size() >= 5) { ... }` of `parseMetaContradiction`: the
contradiction it returns, or `none` when control leaves the block. -/
def parseMetaIdBlock (r : EntityResolver) (list metaList : List SExpr) :
    Except Fault (Option LogicalContradiction) :=
  if metaList.length ≥ 5 then do
    let m0 ← elemAt metaList 0
    if m0.getSymbol = some "meta-id".toList then do
      let m1 ← elemAt metaList 1
      let m2 ← elemAt metaList 2
      let m3 ← elemAt metaList 3
      let m4 ← elemAt metaList 4
      match m1.getSymbol with
      | some entityName =>
        if m2.getSymbol = some "type".toList && m3.getSymbol = some "rexist".toList then
          if m4.getSymbol = some "false".toList then do
            let contradiction ← existenceContradiction list entityName
            pure (some contradiction)
          else if m4.getSymbol = some "true".toList then do
            let second ← listAt list 1
            match second with
            | none => pure none
            | some secondList => do
              let marked ← headedBy secondList "id_not_not_false".toList
              if marked then do
                let contradiction ← actionContradiction r entityName
                pure (some contradiction)
              else pure none
          else pure none
        else pure none
      | none => pure none
    else pure none
  else pure none

/-- `SemanticAnalyzer::parseMetaContradiction`. -/
def parseMetaContradiction (r : EntityResolver) (expr : SExpr) :
    Except Fault (Option LogicalContradiction) :=
  if !expr.isList then pure none
  else do
    let list ← expr.asList
    if list.length < 2 then pure none
    else do
      let first ← elemAt list 0
      if first.isList then do
        let metaList ← first.asList
        let found ← parseMetaIdBlock r list metaList
        match found with
        | some contradiction => pure (some contradiction)
        | none => do
          let metaExpr ← MetaExpr.fromSExpr first
          match metaExpr with
          | some m => do
            let second ← listAt list 1
            pure (some { positive := { entity := m.id }, type := "property".toList,
                         negative := { entity := if second.isSome then "not_".toList ++ m.id
                                                 else [] } })
          | none => pure (some {})
      else pure (some {})

/-- The variables `results`, `contradictoryEntitiesByAction` and `idNotNotFalseEntities`
of `findContradictions`. -/
structure ContradictionState where
  results : List LogicalContradiction := []
  contradictoryEntitiesByAction : List (Str × List Str) := []
  idNotNotFalseEntities : List Str := []

/-- The test `elem->isAtom() && elem->asAtom() == ","`. -/
def isComma (elem : SExpr) : Except Fault Bool :=
  if elem.isAtom then do
    let a ← elem.asAtom
    pure (decide (a = ",".toList))
  else pure false

/-- The condition of `findContradictions` that the first list is
`(meta-id _ _ _ true ...)`. -/
def metaIdTrue (firstList : List SExpr) : Except Fault Bool :=
  if !firstList.isEmpty then do
    let f0 ← elemAt firstList 0
    if f0.getSymbol = some "meta-id".toList && firstList.length ≥ 5 then do
      let f4 ← elemAt firstList 4
      pure (decide (f4.getSymbol = some "true".toList))
    else pure false
  else pure false

/-- The block of `findContradictions` that records an entity marked by
`id_not_not_false`. -/
def recordMarked (state : ContradictionState) (subList firstList : List SExpr) :
    Except Fault ContradictionState := do
  let second ← listAt subList 1
  match second with
  | none => pure state
  | some secondList => do
    let marked ← headedBy secondList "id_not_not_false".toList
    if marked then do
      let f1 ← elemAt firstList 1
      match f1.getSymbol with
      | some entity => do
        let baseAction ← extractBaseAction entity
        pure { state with
          idNotNotFalseEntities := state.idNotNotFalseEntities ++ [entity],
          contradictoryEntitiesByAction :=
            if !baseAction.isEmpty then
              mapUpdate baseAction [] (fun entities => entities ++ [entity])
                state.contradictoryEntitiesByAction
            else state.contradictoryEntitiesByAction }
      | none => pure state
    else pure state

/-- The lines `if (contradiction) { results.push_back(*contradiction); }`. -/
def pushContradiction (state : ContradictionState) (found : Option LogicalContradiction) :
    ContradictionState :=
  match found with
  | some contradiction => { state with results := state.results ++ [contradiction] }
  | none => state

/-- The body of the loop `for (const auto& elem : list)` of `findContradictions`. -/
def contradictionElem (r : EntityResolver) (state : ContradictionState) (elem : SExpr) :
    Except Fault ContradictionState := do
  let comma ← isComma elem
  if comma then pure state
  else if elem.isList then do
    let subList ← elem.asList
    if subList.length ≥ 2 then do
      let first ← elemAt subList 0
      if first.isList then do
        let firstList ← first.asList
        let isTrue ← metaIdTrue firstList
        if isTrue then recordMarked state subList firstList
        else do
          let found ← parseMetaContradiction r elem
          pure (pushContradiction state found)
      else pure state
    else pure state
  else pure state

/-- The block "Also check the top-level expression itself" of `findContradictions`. -/
def contradictionTopLevel (r : EntityResolver) (state : ContradictionState) (expr : SExpr)
    (list : List SExpr) : Except Fault ContradictionState :=
  if list.length ≥ 2 then do
    let first ← elemAt list 0
    if first.isList then do
      let firstList ← first.asList
      let headed ← headedBy firstList "meta-id".toList
      if headed then do
        let found ← parseMetaContradiction r expr
        pure (pushContradiction state found)
      else pure state
    else pure state
  else pure state

/-- The body of the loop `for (const auto& expr : expressions)` of
`findContradictions`. -/
def contradictionExpr (r : EntityResolver) (state : ContradictionState) (expr : SExpr) :
    Except Fault ContradictionState :=
  if !expr.isList then pure state
  else do
    let list ← expr.asList
    let state1 ← forEach (contradictionElem r) list state
    contradictionTopLevel r state1 expr list

/-- The body of the loop that makes a `payment_method` contradiction of each marked
entity. -/
def paymentContradiction (r : EntityResolver) (results : List LogicalContradiction)
    (entity : Str) : Except Fault (List LogicalContradiction) := do
  let instrument : Str :=
    if containsText entity "INRS".toList then "INRS".toList else "USDS".toList
  let positiveEntity ← resolve r entity
  let negativeEntity ← resolve r entity
  pure (results ++ [{
    positive := { entity := positiveEntity, action := "pays in ".toList ++ instrument,
                  instrument := instrument, existsFlag := true },
    negative := { entity := negativeEntity, action := "does not pay in ".toList ++ instrument,
                  instrument := instrument, existsFlag := false },
    type := "payment_method".toList }])

/-- The block `if (!idNotNotFalseEntities.empty()) { ... }` of `findContradictions`; the
loop that sets `arePaymentEntities` is the conjunction over the entities. -/
def paymentContradictions (r : EntityResolver) (results : List LogicalContradiction)
    (idNotNotFalseEntities : List Str) : Except Fault (List LogicalContradiction) :=
  if !idNotNotFalseEntities.isEmpty then
    if idNotNotFalseEntities.all (fun entity =>
        containsText entity "INRS".toList || containsText entity "USDS".toList) then
      forEach (paymentContradiction r) idNotNotFalseEntities results
    else pure results
  else pure results

/-- The loop `for (const auto& entity : entities)` that picks the positive and the
negative entity of a group. -/
def pickPair (pair : Str × Str) (entity : Str) : Str × Str :=
  if EntityResolver.isNegatedEntity entity then (pair.1, entity) else (entity, pair.2)

/-- The body of the loop over `contradictoryEntitiesByAction` of `findContradictions`. -/
def actionGroupContradiction (r : EntityResolver) (results : List LogicalContradiction)
    (entry : Str × List Str) : Except Fault (List LogicalContradiction) :=
  if entry.2.length ≥ 2 then
    let pair := entry.2.foldl pickPair ([], [])
    if !pair.1.isEmpty && !pair.2.isEmpty then do
      let positiveEntity ← resolve r pair.1
      let negativeEntity ← resolve r pair.2
      pure (results ++ [{
        positive := { entity := positiveEntity,
                      action := r.resolveAction pair.1 "present".toList },
        negative := { entity := negativeEntity,
                      action := "not ".toList ++ r.resolveAction pair.2 "present".toList },
        type := "action".toList }])
    else pure results
  else pure results

/-- The pattern `{"id_not_not_false", "?"}`. -/
def notNotFalsePattern : List Str := ["id_not_not_false".toList, sWildcard]

/-- The body of the loop `for (const auto& expr : notNotFalse)`; the set
`contradictoryEntities` is held as the list of its members. -/
def collectMarked (contradictoryEntities : List Str) (expr : SExpr) :
    Except Fault (List Str) :=
  let values := SExprMatcher.extract expr notNotFalsePattern
  if !values.isEmpty then do
    let entity ← elemAt values 0
    pure (if contradictoryEntities.contains entity then contradictoryEntities
          else contradictoryEntities ++ [entity])
  else pure contradictoryEntities

/-- The body of the loop `for (const auto& entity : contradictoryEntities)`. -/
def existencePair (contradictoryEntities : List Str) (results : List LogicalContradiction)
    (entity : Str) : List LogicalContradiction :=
  if EntityResolver.isNegatedEntity entity then
    if contradictoryEntities.contains (EntityResolver.getBaseForm entity) then
      results ++ [{ positive := { entity := EntityResolver.getBaseForm entity },
                    negative := { entity := entity },
                    type := "existence".toList }]
    else results
  else results

/-- `SemanticAnalyzer::findContradictions`.  The set `contradictoryEntities` is iterated
in the order of insertion (the language leaves the order open). -/
def findContradictions (r : EntityResolver) (expressions : List SExpr) :
    Except Fault (List LogicalContradiction) := do
  let state ← forEach (contradictionExpr r) expressions {}
  let results1 ← paymentContradictions r state.results state.idNotNotFalseEntities
  let results2 ← forEach (actionGroupContradiction r) state.contradictoryEntitiesByAction
    results1
  let notNotFalse := SExprMatcher.findAll expressions notNotFalsePattern
  let contradictoryEntities ← forEach collectMarked notNotFalse []
  pure (contradictoryEntities.foldl (existencePair contradictoryEntities) results2)

end SemanticAnalyzer

namespace SemanticAnalyzer

/-- The expression `v.size() > i && v[i]->getSymbol()`, which yields the symbol
`*v[i]->getSymbol()` when it holds. -/
def symbolAt (v : List SExpr) (i : Nat) : Except Fault (Option Str) :=
  if v.length > i then do
    let e ← elemAt v i
    pure e.getSymbol
  else pure none

/-- The block "Parse first regulation" of `parseConflictExpr`. -/
def conflictRegulation1 (r : EntityResolver) (conflict : RegulatoryConflict) (arg : SExpr) :
    Except Fault RegulatoryConflict :=
  if arg.isList then do
    let reg1 ← arg.asList
    if !reg1.isEmpty then do
      let head ← elemAt reg1 0
      match head.getSymbol with
      | some regulation => do
        let entitySymbol ← symbolAt reg1 1
        let conflict1 : RegulatoryConflict :=
          match entitySymbol with
          | some entity => { conflict with affectedEntity := entity }
          | none => conflict
        if regulation = "inrs-prohibited-id".toList then
          pure { conflict1 with regulation1 := "EU MiCA regulation (INRS prohibition)".toList }
        else if regulation = "mod-not-id".toList then do
          let modalitySymbol ← symbolAt reg1 2
          let resolved ← resolve r (entitySymbol.getD [])
          pure { conflict1 with
            regulation1 := resolved ++ " is not ".toList ++ modalitySymbol.getD [],
            affectedEntity := entitySymbol.getD [] }
        else pure { conflict1 with regulation1 := regulation }
      | none => pure conflict
    else pure conflict
  else
    match arg.getSymbol with
    | some regulation =>
      if regulation = "not_opt".toList then
        pure { conflict with regulation1 := "Not optional (prohibited)".toList }
      else do
        let resolved ← resolve r regulation
        pure { conflict with regulation1 := resolved }
    | none => pure conflict

/-- The block "Parse second regulation" of `parseConflictExpr`. -/
def conflictRegulation2 (r : EntityResolver) (conflict : RegulatoryConflict) (arg : SExpr) :
    Except Fault RegulatoryConflict :=
  if arg.isList then do
    let reg2 ← arg.asList
    if !reg2.isEmpty then do
      let head ← elemAt reg2 0
      match head.getSymbol with
      | some regulation =>
        if regulation = "pay-obligatory-id".toList && reg2.length > 2 then do
          let port ← elemAt reg2 2
          if port.getSymbol = some "soa_sptMICT".toList then
            pure { conflict with
              regulation2 := "MICT Smart Port payment obligation".toList }
          else pure { conflict with regulation2 := "Payment obligation".toList }
        else if regulation = "inrs-only-id".toList then
          pure { conflict with regulation2 := "INRS-only requirement".toList }
        else pure { conflict with regulation2 := regulation }
      | none => pure conflict
    else pure conflict
  else
    match arg.getSymbol with
    | some entity => do
      let resolved ← resolve r entity
      pure { conflict with
        regulation2 := resolved,
        affectedEntity :=
          if conflict.affectedEntity.isEmpty then entity else conflict.affectedEntity }
    | none => pure conflict

/-- The end of `parseConflictExpr`: the affected entity is resolved and the
requirement is named. -/
def conflictFinish (r : EntityResolver) (conflict : RegulatoryConflict) :
    Except Fault RegulatoryConflict := do
  let affected ← (if !conflict.affectedEntity.isEmpty then resolve r conflict.affectedEntity
    else pure conflict.affectedEntity)
  pure { conflict with
    affectedEntity := affected,
    conflictingRequirement :=
      if containsText conflict.regulation1 "Not optional".toList
          && containsText conflict.regulation2 "ALEXANDRA".toList then
        "permission vs prohibition to leave".toList
      else "regulatory requirements".toList }

/-- `SemanticAnalyzer::parseConflictExpr`. -/
def parseConflictExpr (r : EntityResolver) (expr : SExpr) :
    Except Fault (Option RegulatoryConflict) :=
  if !expr.isList then pure none
  else do
    let list ← expr.asList
    if list.length < 3 then pure none
    else do
      let first ← elemAt list 0
      if first.getSymbol ≠ some "conflict".toList then pure none
      else do
        let arg1 ← elemAt list 1
        let conflict1 ← conflictRegulation1 r {} arg1
        let arg2 ← elemAt list 2
        let conflict2 ← conflictRegulation2 r conflict1 arg2
        let conflict ← conflictFinish r conflict2
        pure (some conflict)

/-- The variables `results` and `foundConflictInList` of `findConflicts`. -/
structure ConflictState where
  results : List RegulatoryConflict
  foundConflictInList : Bool := false

/-- The body of the loop `for (const auto& elem : list)` of `findConflicts`. -/
def conflictElem (r : EntityResolver) (state : ConflictState) (elem : SExpr) :
    Except Fault ConflictState := do
  let comma ← isComma elem
  if comma then pure state
  else if elem.isList then do
    let conflict ← parseConflictExpr r elem
    match conflict with
    | some c => pure { results := state.results ++ [c], foundConflictInList := true }
    | none => pure state
  else pure state

/-- The body of the loop `for (const auto& expr : expressions)` of `findConflicts`. -/
def conflictExpr (r : EntityResolver) (results : List RegulatoryConflict) (expr : SExpr) :
    Except Fault (List RegulatoryConflict) :=
  if !expr.isList then pure results
  else do
    let list ← expr.asList
    let state ← forEach (conflictElem r) list { results := results }
    if state.foundConflictInList then pure state.results
    else do
      let inner ← (if list.length = 1 then listAt list 0 else pure none)
      let wrapped ← (match inner with
        | some _ => do
          let e ← elemAt list 0
          parseConflictExpr r e
        | none => pure none)
      match wrapped with
      | some c => pure (state.results ++ [c])
      | none => do
        let conflict ← parseConflictExpr r expr
        match conflict with
        | some c => pure (state.results ++ [c])
        | none => pure state.results

/-- `SemanticAnalyzer::findConflicts`. -/
def findConflicts (r : EntityResolver) (expressions : List SExpr) :
    Except Fault (List RegulatoryConflict) :=
  forEach (conflictExpr r) expressions []

/-- The block "Parse violator (first element)" of `parseViolationExpr`. -/
def violationViolator (r : EntityResolver) (violation : NecessaryViolation)
    (violationPair : List SExpr) : Except Fault NecessaryViolation := do
  let first ← listAt violationPair 0
  match first with
  | none => pure violation
  | some violatorExpr =>
    if !violatorExpr.isEmpty then do
      let head ← elemAt violatorExpr 0
      match head.getSymbol with
      | some violatorId =>
        if violatorId = "inrs-prohibited-id".toList then do
          let entitySymbol ← symbolAt violatorExpr 1
          match entitySymbol with
          | some entitySymbol => do
            let entity ← resolve r entitySymbol
            pure { violation with
              violator := "EU MiCA regulation prohibiting ".toList ++ entity
                ++ " from using INRS".toList }
          | none =>
            pure { violation with
              violator := "EU MiCA regulation (INRS prohibition)".toList }
        else pure { violation with violator := violatorId }
      | none => pure violation
    else pure violation

/-- The block "Parse violated rule (second element)" of `parseViolationExpr`. -/
def violationRule (violation : NecessaryViolation) (violationPair : List SExpr) :
    Except Fault NecessaryViolation := do
  let second ← listAt violationPair 1
  match second with
  | none => pure violation
  | some ruleExpr =>
    if !ruleExpr.isEmpty then do
      let head ← elemAt ruleExpr 0
      match head.getSymbol with
      | some ruleId =>
        if ruleId = "inrs-only-id".toList then do
          let payment ← listAt ruleExpr 1
          match payment with
          | some paymentExpr => do
            let _ ← headedBy paymentExpr "pay-obligatory-id".toList
            pure { violation with
              violatedRule := "MICT port INRS-only payment requirement".toList }
          | none =>
            pure { violation with
              violatedRule := "MICT port INRS-only payment requirement".toList }
        else if ruleId = "pay-obligatory-id".toList then
          pure { violation with violatedRule := "Port payment obligation".toList }
        else pure { violation with violatedRule := ruleId }
      | none => pure violation
    else pure violation

/-- `SemanticAnalyzer::parseViolationExpr`. -/
def parseViolationExpr (r : EntityResolver) (expr : SExpr) :
    Except Fault (Option NecessaryViolation) :=
  if !expr.isList then pure none
  else do
    let list ← expr.asList
    if list.length < 2 then pure none
    else do
      let first ← elemAt list 0
      if first.getSymbol ≠ some "quote".toList then pure none
      else do
        let second ← elemAt list 1
        let violation ← (if second.isList then do
          let violationPair ← second.asList
          let violation1 ← violationViolator r {} violationPair
          violationRule violation1 violationPair
          else pure {})
        pure (some { violation with reason := "conflicting regulatory requirements".toList })

/-- The body of the loop `for (const auto& expr : expressions)` of `findViolations`. -/
def violationExpr (r : EntityResolver) (results : List NecessaryViolation) (expr : SExpr) :
    Except Fault (List NecessaryViolation) :=
  if !expr.isList then pure results
  else do
    let list ← expr.asList
    let inner ← (if list.length = 1 then listAt list 0 else pure none)
    let wrapped ← (match inner with
      | some _ => do
        let e ← elemAt list 0
        parseViolationExpr r e
      | none => pure none)
    match wrapped with
    | some v => pure (results ++ [v])
    | none => do
      let violation ← parseViolationExpr r expr
      match violation with
      | some v => pure (results ++ [v])
      | none => pure results

/-- `SemanticAnalyzer::findViolations`. -/
def findViolations (r : EntityResolver) (expressions : List SExpr) :
    Except Fault (List NecessaryViolation) :=
  forEach (violationExpr r) expressions []

/-- The pattern `{"is_complied_with_by", "?", "?"}`. -/
def compliancePattern : List Str := ["is_complied_with_by".toList, sWildcard, sWildcard]

/-- `SemanticAnalyzer::parseComplianceExpr`. -/
def parseComplianceExpr (expr : SExpr) : Except Fault (Option ComplianceRelation) :=
  if !SExprMatcher.matches expr compliancePattern then pure none
  else
    let values := SExprMatcher.extract expr compliancePattern
    if values.length < 2 then pure none
    else do
      let obligation ← elemAt values 0
      let entity ← elemAt values 1
      pure (some { obligation := obligation, entity := entity,
                   fulfilledBy := "action".toList })

/-- The body of the loop `for (const auto& expr : compliances)` of `findCompliances`. -/
def explicitCompliance (results : List ComplianceRelation) (expr : SExpr) :
    Except Fault (List ComplianceRelation) := do
  let compliance ← parseComplianceExpr expr
  match compliance with
  | some c => pure (results ++ [c])
  | none => pure results

/-- The compliance relation with obligation `obligation` that `fulfilled` fulfils. -/
def complianceOf (r : EntityResolver) (obligation fulfilled : Str) :
    Except Fault ComplianceRelation := do
  let resolvedObligation ← resolve r obligation
  let resolvedEntity ← resolve r fulfilled
  pure { obligation := resolvedObligation, entity := resolvedEntity, fulfilledBy := fulfilled }

/-- The block "Check if this is a single-element list containing a pair" of
`findCompliances`. -/
def wrappedPair (r : EntityResolver) (results : List ComplianceRelation)
    (outerList : List SExpr) : Except Fault (List ComplianceRelation) := do
  let inner ← (if outerList.length = 1 then listAt outerList 0 else pure none)
  match inner with
  | none => pure results
  | some innerList =>
    if innerList.length = 2 then do
      let e0 ← elemAt innerList 0
      let e1 ← elemAt innerList 1
      match e0.getSymbol, e1.getSymbol with
      | some first, some second =>
        if first.take 4 = "soa_".toList && second.take 4 = "soa_".toList then do
          let compliance ←
            (if containsText first "en".toList && !containsText second "en".toList then
              complianceOf r first second
            else if containsText second "en".toList && !containsText first "en".toList then
              complianceOf r second first
            else complianceOf r first second)
          pure (results ++ [compliance])
        else pure results
      | _, _ => pure results
    else pure results

/-- The block "Also check for direct 2-element lists at top level" of
`findCompliances`. -/
def barePair (r : EntityResolver) (results : List ComplianceRelation)
    (outerList : List SExpr) : Except Fault (List ComplianceRelation) :=
  if outerList.length = 2 then do
    let e0 ← elemAt outerList 0
    let e1 ← elemAt outerList 1
    match e0.getSymbol, e1.getSymbol with
    | some first, some second =>
      if first.take 4 = "soa_".toList && second.take 4 = "soa_".toList then do
        let compliance ←
          (if containsText first "en".toList && !containsText second "en".toList then
            complianceOf r first second
          else complianceOf r first second)
        pure (results ++ [compliance])
      else pure results
    | _, _ => pure results
  else pure results

/-- The body of the second loop `for (const auto& expr : expressions)` of
`findCompliances`. -/
def tupleCompliance (r : EntityResolver) (results : List ComplianceRelation) (expr : SExpr) :
    Except Fault (List ComplianceRelation) :=
  if !expr.isList then pure results
  else do
    let outerList ← expr.asList
    let results1 ← wrappedPair r results outerList
    barePair r results1 outerList

/-- `SemanticAnalyzer::findCompliances`. -/
def findCompliances (r : EntityResolver) (expressions : List SExpr) :
    Except Fault (List ComplianceRelation) := do
  let compliances := SExprMatcher.findAll expressions compliancePattern
  let results ← forEach explicitCompliance compliances []
  forEach (tupleCompliance r) expressions results

/-- The body of the loop `while (std::getline(iss, line))` of `analyze`. -/
def fallbackLine (expressions : List SExpr) (line : Str) : List SExpr :=
  match line with
  | [] => expressions
  | c :: _ =>
    if c ≠ '(' && c ≠ '[' then expressions
    else
      match parse line with
      | .ok expr => expressions ++ [expr]
      | .error _ => expressions

/-- The expressions that `analyze` classifies: those of `parseMultiple`, or, when it
raises, those of the lines. -/
def analyzeExpressions (mettaOutput : Str) : List SExpr :=
  match parseMultiple mettaOutput with
  | .ok expressions => expressions
  | .error _ => (getLines mettaOutput).foldl fallbackLine []

/-- The five calls at the end of `analyze`. -/
def classify (r : EntityResolver) (expressions : List SExpr) : Except Fault AnalysisResult := do
  let inferredFacts ← extractStateOfAffairs r expressions
  let contradictions ← findContradictions r expressions
  let conflicts ← findConflicts r expressions
  let violations ← findViolations r expressions
  let compliances ← findCompliances r expressions
  pure { inferredFacts := inferredFacts, contradictions := contradictions,
         conflicts := conflicts, violations := violations, compliances := compliances }

/-- `SemanticAnalyzer::analyze`. -/
def analyze (r : EntityResolver) (mettaOutput : Str) : Except Fault AnalysisResult :=
  classify r (analyzeExpressions mettaOutput)

/-- The line `metrics.compliances = static_cast<int>(compliances.size())` of
`AnalysisResult::toMetrics`. -/
def AnalysisResult.metricsCompliances (result : AnalysisResult) : Int :=
  (result.compliances.length : Int)

end SemanticAnalyzer

namespace SemanticAnalyzer

/-- Spec, failure policy of the classifier: the expressions that a line-by-line
re-parse yields when only the lines that the reader cannot parse are discarded; `parse`
gives the first expression of a line. -/
def specLineExpressionsAll (mettaOutput : Str) : List SExpr :=
  (getLines mettaOutput).filterMap (fun line => (parse line).toOption)

/-- The expressions that the line-by-line re-parse of `analyze` keeps: the first
expression of each line whose first character is `(` or `[` and that the reader can
parse. -/
def specLineExpressions (mettaOutput : Str) : List SExpr :=
  (getLines mettaOutput).filterMap (fun line =>
    if line.head? = some '(' ∨ line.head? = some '[' then (parse line).toOption else none)

end SemanticAnalyzer

namespace SemanticAnalyzer

/-- The expression `(meta-id E type rexist false)`. -/
def metaIdExistence (entity : Str) : SExpr :=
  SExpr.list [SExpr.atom "meta-id".toList, SExpr.atom entity, SExpr.atom "type".toList,
    SExpr.atom "rexist".toList, SExpr.atom "false".toList]

/-- The contradiction `{positive = E, negative = "not_" + E, kind = "existence"}`. -/
def existenceOf (entity : Str) : LogicalContradiction :=
  { positive := { entity := entity },
    negative := { entity := "not_".toList ++ entity },
    type := "existence".toList }

/-- The detail expression that follows a meta-id expression is a list headed by an atom
that contains `inrs-not-usds`. -/
def isInrsDetail (detail : SExpr) : Bool :=
  match detail with
  | .list (.atom detailType :: _) => containsText detailType "inrs-not-usds".toList
  | _ => false

end SemanticAnalyzer

namespace SemanticAnalyzer

/-- Spec, compliance role assignment: of two identifiers the one that contains `"en"`
is the obligation and the other is what fulfils it; when neither or both contain
`"en"`, the first is the obligation. -/
def specRoles (first second : Str) : Str × Str :=
  if containsText first "en".toList && !containsText second "en".toList then (first, second)
  else if containsText second "en".toList && !containsText first "en".toList then
    (second, first)
  else (first, second)

end SemanticAnalyzer

namespace SemanticAnalyzer

/-- A list of at least three elements headed by the atom `conflict`: what
`parseConflictExpr` accepts. -/
def isConflictExpr (e : SExpr) : Bool :=
  match e with
  | .list (head :: _ :: _ :: _) => decide (head.getSymbol = some "conflict".toList)
  | _ => false

/-- The conflict expressions that `findConflicts` reads in a top-level expression: its
children that are conflict expressions, in order, or, when it has none, the expression
itself if it is one. -/
def conflictExprsOf (expr : SExpr) : List SExpr :=
  match expr with
  | .atom _ => []
  | .list children =>
    if (children.filter isConflictExpr).isEmpty then
      (if isConflictExpr expr then [expr] else [])
    else children.filter isConflictExpr

/-- Spec, conflict detection: an expression `(conflict Arg1 Arg2)`. -/
def specIsConflict (e : SExpr) : Bool :=
  match e with
  | .list [head, _, _] => decide (head.getSymbol = some "conflict".toList)
  | _ => false

/-- Spec, conflict detection: the expressions that yield a conflict, namely every
top-level `(conflict Arg1 Arg2)` and every child of a top-level list that is one. -/
def specConflictExprs (expressions : List SExpr) : List SExpr :=
  expressions.flatMap (fun expr =>
    (if specIsConflict expr then [expr] else [])
      ++ (match expr with
          | .list children => children.filter specIsConflict
          | .atom _ => []))

end SemanticAnalyzer

namespace SemanticAnalyzer

/-- A list of at least two elements headed by the atom `quote`: what
`parseViolationExpr` accepts. -/
def isViolationExpr (e : SExpr) : Bool :=
  match e with
  | .list (head :: _ :: _) => decide (head.getSymbol = some "quote".toList)
  | _ => false

/-- The violation expression that `findViolations` reads in a top-level expression: the
only child of a one-element list, or else the expression itself. -/
def violationExprOf (expr : SExpr) : Option SExpr :=
  match expr with
  | .list [inner] => if isViolationExpr inner then some inner else none
  | _ => if isViolationExpr expr then some expr else none

/-- Spec, violation detection: an expression `(quote (ViolatorExpr RuleExpr))`. -/
def specIsViolation (e : SExpr) : Bool :=
  match e with
  | .list [head, .list [_, _]] => decide (head.getSymbol = some "quote".toList)
  | _ => false

/-- Spec, violation detection: the top-level expressions that yield a violation, namely
`(quote (ViolatorExpr RuleExpr))` and a one-element wrapper list around it. -/
def specViolationExprs (expressions : List SExpr) : List SExpr :=
  expressions.filter (fun expr =>
    specIsViolation expr ||
      (match expr with
       | .list [inner] => specIsViolation inner
       | _ => false))

end SemanticAnalyzer

namespace SemanticAnalyzer

/-- A list of four or more elements headed by the atom `triple`: what
`extractStateOfAffairs` collects. -/
def isTripleList (e : SExpr) : Bool :=
  match e with
  | .list (head :: _ :: _ :: _ :: _) => decide (head.getSymbol = some "triple".toList)
  | _ => false

/-- The subject of a triple list: its second element, when that is an atom. -/
def tripleSubject (e : SExpr) : Option Str :=
  match e with
  | .list (_ :: subject :: _) => subject.getSymbol
  | _ => none

/-- A triple list with subject `S`. -/
def isTripleOf (S : Str) (e : SExpr) : Bool :=
  isTripleList e && decide (tripleSubject e = some S)

/-- The triple lists with subject `S` nested one level deep, in source order: the
children of the top-level lists that are triple lists with subject `S`. -/
def triplesOf (S : Str) (expressions : List SExpr) : List SExpr :=
  expressions.flatMap (fun expr =>
    match expr with
    | .list children => children.filter (isTripleOf S)
    | .atom _ => [])

/-- The predicate and the object of a triple list, when both are atoms. -/
def tripleFact (e : SExpr) : Option (Str × Str) :=
  match e with
  | .list (_ :: _ :: .atom predicate :: .atom object :: _) => some (predicate, object)
  | _ => none

/-- The facts stated about `S`: predicate and object of its triple lists. -/
def factsOf (S : Str) (expressions : List SExpr) : List (Str × Str) :=
  (triplesOf S expressions).filterMap tripleFact

/-- The fact `type rexist`. -/
def isExistenceFact (f : Str × Str) : Bool :=
  decide (f.1 = "type".toList) && decide (f.2 = "rexist".toList)

/-- A fact `type A` where `A` is not `rexist` and starts with `soa`. -/
def isActionFact (f : Str × Str) : Bool :=
  decide (f.1 = "type".toList) && !decide (f.2 = "rexist".toList)
    && findsAtStart f.2 "soa".toList

/-- A fact `soaHas_agent X`. -/
def isAgentFact (f : Str × Str) : Bool := decide (f.1 = "soaHas_agent".toList)

/-- A fact `soaHas_instrument X`. -/
def isInstrumentFact (f : Str × Str) : Bool := decide (f.1 = "soaHas_instrument".toList)

/-- The markers that `extractStateOfAffairs` skips. -/
def isExcludedMarker (S : Str) : Bool :=
  decide (S = "soa_eo".toList) || decide (S = "soa_ea".toList)
    || containsText S "disjunction".toList || containsText S "id_not_not_false".toList

/-- The verb of an action type: `soaPay` gives `pay`. -/
def verbOf (object : Str) : Str :=
  if object.length > 3 && object.take 3 = "soa".toList then
    match object.drop 3 with
    | [] => []
    | c :: rest => tolower c :: rest
  else object

/-- The object of the last fact that `select` accepts. -/
def lastObject (select : Str × Str → Bool) : List (Str × Str) → Option Str
  | [] => none
  | f :: rest =>
    match lastObject select rest with
    | some object => some object
    | none => if select f then some f.2 else none

/-- The Proposition that the facts about `S` describe. -/
def propositionOf (r : EntityResolver) (S : Str) (facts : List (Str × Str)) : StateOfAffairs :=
  { entity := S,
    action := ((lastObject isActionFact facts).map verbOf).getD [],
    agent := ((lastObject isAgentFact facts).bind r.resolveEntity).getD [],
    instrument := ((lastObject isInstrumentFact facts).bind r.resolveEntity).getD [] }

/-- The effect of one triple of the loop `for (const auto& triple : triples)` on the
variables `soa`, `hasAction` and `exists`. -/
def applyFact (r : EntityResolver) (build : SoaBuild) (f : Str × Str) : SoaBuild :=
  if f.1 = "type".toList then
    if f.2 = "rexist".toList then
      { build with existsSeen := true, soa := { build.soa with existsFlag := true } }
    else if findsAtStart f.2 "soa".toList then
      { build with hasAction := true, soa := { build.soa with action := verbOf f.2 } }
    else build
  else if f.1 = "soaHas_agent".toList then
    { build with soa := { build.soa with agent := (r.resolveEntity f.2).getD [] } }
  else if f.1 = "soaHas_instrument".toList then
    { build with soa := { build.soa with instrument := (r.resolveEntity f.2).getD [] } }
  else build

/-- The Proposition, if any, that one entry of `entityTriples` yields. -/
def entryProposition (r : EntityResolver) (entry : Str × List SExpr) : Option StateOfAffairs :=
  if isExcludedMarker entry.1 then none
  else if (entry.2.filterMap tripleFact).any isActionFact
      && (entry.2.filterMap tripleFact).any isExistenceFact then
    some (propositionOf r entry.1 (entry.2.filterMap tripleFact))
  else none

/-- Spec, proposition extraction: the four-element list `(triple S predicate object)`. -/
def specIsFact (S predicate : Str) (object : Str → Bool) (e : SExpr) : Bool :=
  match e with
  | .list [head, .atom subject, .atom p, .atom o] =>
    decide (head.getSymbol = some "triple".toList) && decide (subject = S)
      && decide (p = predicate) && object o
  | _ => false

/-- Spec, proposition extraction: the lists nested one level deep include both
`(triple S type rexist)` and `(triple S type A)` for an action type `A`. -/
def specHasProposition (S : Str) (expressions : List SExpr) : Bool :=
  findsAtStart S "soa_".toList && !isExcludedMarker S
    && expressions.any (fun expr =>
        match expr with
        | .list children =>
          children.any (specIsFact S "type".toList (fun o => decide (o = "rexist".toList)))
        | .atom _ => false)
    && expressions.any (fun expr =>
        match expr with
        | .list children =>
          children.any (specIsFact S "type".toList
            (fun o => !decide (o = "rexist".toList) && findsAtStart o "soa".toList))
        | .atom _ => false)

end SemanticAnalyzer

/-! ## Renderings joined by whitespace -/

/-- The renderings of the expressions, each followed by its separator. -/
def joinRenderings : List (SExpr × Str) → Str
  | [] => []
  | item :: rest => item.1.toString ++ item.2 ++ joinRenderings rest

/-- Every separator is whitespace, and every separator but the last is non-empty. -/
def separatorsOk : List (SExpr × Str) → Bool
  | [] => true
  | [item] => item.2.all isspace
  | item :: item2 :: rest =>
    !item.2.isEmpty && item.2.all isspace && separatorsOk (item2 :: rest)

namespace SemanticAnalyzer

/-- Two wrapper lists that mention `soa_b` before `soa_a` and state `soa_a type rexist`
twice. -/
def unorderedTriples : List SExpr :=
  [SExpr.list [
    SExpr.list [SExpr.atom "triple".toList, SExpr.atom "soa_b".toList,
      SExpr.atom "type".toList, SExpr.atom "rexist".toList],
    SExpr.list [SExpr.atom "triple".toList, SExpr.atom "soa_a".toList,
      SExpr.atom "type".toList, SExpr.atom "soaPay".toList]],
   SExpr.list [
    SExpr.list [SExpr.atom "triple".toList, SExpr.atom "soa_a".toList,
      SExpr.atom "type".toList, SExpr.atom "rexist".toList],
    SExpr.list [SExpr.atom "triple".toList, SExpr.atom "soa_b".toList,
      SExpr.atom "type".toList, SExpr.atom "soaMoor".toList],
    SExpr.list [SExpr.atom "triple".toList, SExpr.atom "soa_a".toList,
      SExpr.atom "type".toList, SExpr.atom "rexist".toList]]]

end SemanticAnalyzer

namespace SemanticAnalyzer

/-- The symbol of the `i`-th argument of a nested call, or the empty string when there
is none or it is a list. -/
def argSymbol (args : List SExpr) (i : Nat) : Str :=
  ((args.get? i).bind SExpr.getSymbol).getD []

/-- The description `regulation1` of the first argument of a conflict expression. -/
def describeFirst (r : EntityResolver) (arg : SExpr) : Str :=
  match arg with
  | .atom a =>
    if a = "not_opt".toList then "Not optional (prohibited)".toList
    else (r.resolveEntity a).getD []
  | .list (.atom head :: args) =>
    if head = "inrs-prohibited-id".toList then "EU MiCA regulation (INRS prohibition)".toList
    else if head = "mod-not-id".toList then
      (r.resolveEntity (argSymbol args 0)).getD [] ++ " is not ".toList ++ argSymbol args 1
    else head
  | .list _ => []

/-- The description `regulation2` of the second argument of a conflict expression. -/
def describeSecond (r : EntityResolver) (arg : SExpr) : Str :=
  match arg with
  | .atom a => (r.resolveEntity a).getD []
  | .list (.atom head :: args) =>
    if head = "pay-obligatory-id".toList && args.length ≥ 2 then
      if (args.get? 1).bind SExpr.getSymbol = some "soa_sptMICT".toList then
        "MICT Smart Port payment obligation".toList
      else "Payment obligation".toList
    else if head = "inrs-only-id".toList then "INRS-only requirement".toList
    else head
  | .list _ => []

/-- Spec, conflict arguments: one rule for both positions. An atom is resolved; a call
headed by one of the four regulation names is replaced by that regulation's description;
a call with any other head contributes its head verbatim. -/
def specDescribe (r : EntityResolver) (arg : SExpr) : Str :=
  match arg with
  | .atom a => (r.resolveEntity a).getD []
  | .list (.atom head :: args) =>
    if head = "inrs-prohibited-id".toList then "EU MiCA regulation (INRS prohibition)".toList
    else if head = "mod-not-id".toList then
      (r.resolveEntity (argSymbol args 0)).getD [] ++ " is not ".toList ++ argSymbol args 1
    else if head = "pay-obligatory-id".toList then
      if (args.get? 1).bind SExpr.getSymbol = some "soa_sptMICT".toList then
        "MICT Smart Port payment obligation".toList
      else "Payment obligation".toList
    else if head = "inrs-only-id".toList then "INRS-only requirement".toList
    else head
  | .list _ => []

end SemanticAnalyzer

namespace SemanticAnalyzer

/-- The top-level expression `(id_not_not_false E)`. -/
def markedExpr (entity : Str) : SExpr :=
  SExpr.list [SExpr.atom "id_not_not_false".toList, SExpr.atom entity]

/-- The contradiction that pairs a negated entity with its base form. -/
def existencePairOf (entity : Str) : LogicalContradiction :=
  { positive := { entity := EntityResolver.getBaseForm entity },
    negative := { entity := entity },
    type := "existence".toList }

/-- The insertion `contradictoryEntities.insert(entity)`. -/
def insertNew (entities : List Str) (entity : Str) : List Str :=
  if entities.contains entity then entities else entities ++ [entity]

end SemanticAnalyzer

namespace SemanticAnalyzer

/-- The top-level list `[((meta-id E type rexist true) (id_not_not_false E))]`: the
wrapper of a marked entity, nested one level. -/
def markedWrapper (entity : Str) : SExpr :=
  SExpr.list [SExpr.list [
    SExpr.list [SExpr.atom "meta-id".toList, SExpr.atom entity, SExpr.atom "type".toList,
      SExpr.atom "rexist".toList, SExpr.atom "true".toList],
    markedExpr entity]]

/-- The grouping key of an entity: `"soa_"` is stripped, then a leading `"en"`, then a
leading `"e"`; empty for an identifier shorter than 7 characters or without the
prefix. -/
def baseActionKey (soaEntity : Str) : Str :=
  if soaEntity.length < 7 || soaEntity.take 4 ≠ "soa_".toList then []
  else
    let suffix := soaEntity.drop 4
    let suffix := if suffix.length > 2 && suffix.take 2 = "en".toList then suffix.drop 2
      else suffix
    if suffix.length > 1 && suffix.head? = some 'e' then suffix.drop 1 else suffix

/-- The marked entities whose grouping key is the non-empty key `key`, in source
order. -/
def membersOf (key : Str) (entities : List Str) : List Str :=
  entities.filter (fun entity => !key.isEmpty && decide (baseActionKey entity = key))

/-- The instrument of a payment entity. -/
def instrumentOf (entity : Str) : Str :=
  if containsText entity "INRS".toList then "INRS".toList else "USDS".toList

/-- The `payment_method` contradiction of a marked entity. -/
def paymentOf (r : EntityResolver) (entity : Str) : LogicalContradiction :=
  { positive := { entity := (r.resolveEntity entity).getD [],
                  action := "pays in ".toList ++ instrumentOf entity,
                  instrument := instrumentOf entity, existsFlag := true },
    negative := { entity := (r.resolveEntity entity).getD [],
                  action := "does not pay in ".toList ++ instrumentOf entity,
                  instrument := instrumentOf entity, existsFlag := false },
    type := "payment_method".toList }

/-- Every marked entity contains `INRS` or `USDS`, and there is at least one. -/
def arePaymentEntities (entities : List Str) : Bool :=
  !entities.isEmpty && entities.all (fun entity =>
    containsText entity "INRS".toList || containsText entity "USDS".toList)

/-- The `action` contradiction, if any, of a group: it needs two members or more, and
pairs the last member that is not negated with the last member that is. -/
def groupPairOf (r : EntityResolver) (members : List Str) : Option LogicalContradiction :=
  if members.length ≥ 2 then
    let pair := members.foldl pickPair ([], [])
    if !pair.1.isEmpty && !pair.2.isEmpty then
      some { positive := { entity := (r.resolveEntity pair.1).getD [],
                           action := r.resolveAction pair.1 "present".toList },
             negative := { entity := (r.resolveEntity pair.2).getD [],
                           action := "not ".toList ++ r.resolveAction pair.2 "present".toList },
             type := "action".toList }
    else none
  else none

/-- The update of `contradictoryEntitiesByAction` for one marked entity. -/
def groupStep (groups : List (Str × List Str)) (entity : Str) : List (Str × List Str) :=
  if !(baseActionKey entity).isEmpty then
    mapUpdate (baseActionKey entity) [] (fun entities => entities ++ [entity]) groups
  else groups

end SemanticAnalyzer

namespace SemanticAnalyzer

/-- The top-level wrapper `((meta-id E type rexist true) (id_not_not_false ...))`. -/
def topWrapper (entity : Str) (rest : List SExpr) : SExpr :=
  SExpr.list [
    SExpr.list [SExpr.atom "meta-id".toList, SExpr.atom entity, SExpr.atom "type".toList,
      SExpr.atom "rexist".toList, SExpr.atom "true".toList],
    SExpr.list (SExpr.atom "id_not_not_false".toList :: rest)]

end SemanticAnalyzer

namespace SemanticAnalyzer

/-- The expression wrapped in its own one-element list. -/
def wrapExpr (e : SExpr) : SExpr := SExpr.list [e]

/-- An argument of a conflict expression that no other pattern reads: an atom, the empty
list, or a call headed by an atom other than `triple` and `conflict`. -/
def isPlainArg (arg : SExpr) : Bool :=
  match arg with
  | .atom _ => true
  | .list [] => true
  | .list (.atom head :: _) =>
    !decide (head = "triple".toList) && !decide (head = "conflict".toList)
  | .list (.list _ :: _) => false

/-- The expression `(conflict A B)` with plain arguments. -/
def isPlainConflict (e : SExpr) : Bool :=
  match e with
  | .list [head, a, b] =>
    decide (head.getSymbol = some "conflict".toList) && isPlainArg a && isPlainArg b
  | _ => false

/-- An expression that is not a one-element list. -/
def notSingleton (e : SExpr) : Bool :=
  match e with
  | .list [_] => false
  | _ => true

end SemanticAnalyzer

/-! ## `StateOfAffairs::validateEntities` -/

/-- The message of the type check of `validateEntities`. -/
def errMissingType (name : Str) : Str :=
  "Entity '".toList ++ name ++ "' is missing a type".toList

/-- The message of the name check of `validateEntities`. -/
def errNameConflict (name : Str) : Str :=
  "Entity '".toList ++ name ++ "' conflicts with eventuality name".toList

/-- The body of the loop of `validateEntities` for one map entry; the state is
`(errors, valid)`. -/
def validateEntityStep (soa : MettaInference.StateOfAffairs) (st : List Str × Bool)
    (entry : Str × Entity) : List Str × Bool :=
  let st1 : List Str × Bool :=
    if entry.2.type.isEmpty then (st.1 ++ [errMissingType entry.1], false) else st
  if (mapFind entry.1 soa.eventualities).isSome then
    (st1.1 ++ [errNameConflict entry.1], false)
  else st1

/-- `StateOfAffairs::validateEntities(errors)`: the returned flag and the error vector
after the call. -/
def StateOfAffairs.validateEntities (soa : MettaInference.StateOfAffairs) (errors : List Str) :
    Bool × List Str :=
  let st := soa.entities.foldl (validateEntityStep soa) (errors, true)
  (st.2, st.1)

/-- The two key sets of a document are apart: every eventuality key starts with
`"soa_e"`, no entity key does. -/
def KeysApart (soa : MettaInference.StateOfAffairs) : Prop :=
  (∀ entry ∈ soa.eventualities, entry.1.take 5 = "soa_e".toList) ∧
  (∀ entry ∈ soa.entities, entry.1.take 5 ≠ "soa_e".toList)

/-! ## Replacing every occurrence -/

/-- The scan behind `replaceAll`: `skip` characters of a replaced occurrence are still
to be passed over. -/
def replaceScan (fromText toText : Str) : Str → Nat → Str
  | [], _ => []
  | _ :: cs, skip + 1 => replaceScan fromText toText cs skip
  | c :: cs, 0 =>
    if fromText.isPrefixOf (c :: cs) then
      toText ++ replaceScan fromText toText cs (fromText.length - 1)
    else c :: replaceScan fromText toText cs 0

/-- The text with every occurrence of `fromText`, found from left to right without
overlap, replaced by `toText`; the replacements are not searched again. -/
def replaceAll (fromText toText : Str) (text : Str) : Str :=
  replaceScan fromText toText text 0

/-! ## The reader on a bounded call stack -/

/-- What a call ends with when the call stack is bounded: it ends as it does when the
stack is not bounded, or the recursion of the reader runs out of stack, which stops the
process (a stack overflow is no C++ exception, so no `catch` sees it). -/
inductive Run (α : Type) where
  | ended (outcome : α) : Run α
  | stackOverflow : Run α

mutual
/-- `SExprParser::parseExpression` when the stack has room for `depth` more nested calls
of `parseList`: the call `parseList(tokenizer)` overflows the stack when no room is
left. -/
def parseExpressionWithin :
    Nat → Nat → Tokenizer → Run (Except ParseError (SExpr × Tokenizer))
  | 0, _, _ => .ended (.error .outOfFuel)
  | n + 1, depth, t =>
    if !t.hasNext then
      .ended (.error (.runtimeError "Unexpected end of input".toList))
    else
      let token := t.peek
      if token = sOpenParen || token = sOpenSquare then
        match depth with
        | 0 => .stackOverflow
        | room + 1 => parseListWithin n room t
      else if token = sCloseParen || token = sCloseSquare then
        .ended (.error (.runtimeError "Unexpected closing bracket".toList))
      else
        .ended (.ok (SExpr.atom token, t.consume))
/-- `SExprParser::parseList` when the stack has room for `depth` more nested calls of
`parseList` below this one. -/
def parseListWithin :
    Nat → Nat → Tokenizer → Run (Except ParseError (SExpr × Tokenizer))
  | 0, _, _ => .ended (.error .outOfFuel)
  | n + 1, depth, t =>
    let opening := t.next.1
    let t1 := t.next.2
    if opening ≠ sOpenParen && opening ≠ sOpenSquare then
      .ended (.error (.runtimeError "Expected '(' or '['".toList))
    else
      let expectedClose := if opening = sOpenParen then sCloseParen else sCloseSquare
      parseListLoopWithin n depth expectedClose t1 []
/-- The `while` loop of `parseList` and the check that follows it, when the stack has
room for `depth` more nested calls of `parseList`. -/
def parseListLoopWithin :
    Nat → Nat → Str → Tokenizer → List SExpr →
      Run (Except ParseError (SExpr × Tokenizer))
  | 0, _, _, _, _ => .ended (.error .outOfFuel)
  | n + 1, depth, expectedClose, t, elements =>
    if t.hasNext && t.peek ≠ expectedClose then
      match parseExpressionWithin n depth t with
      | .stackOverflow => .stackOverflow
      | .ended (.error e) => .ended (.error e)
      | .ended (.ok (e, t1)) =>
        parseListLoopWithin n depth expectedClose t1 (elements ++ [e])
    else if !t.hasNext || t.next.1 ≠ expectedClose then
      .ended (.error (.runtimeError ("Expected '".toList ++ expectedClose ++ "'".toList)))
    else
      .ended (.ok (SExpr.list elements, t.next.2))
end

/-- `SExprParser::parse` when the stack has room for `depth` nested calls of
`parseList`. -/
def parseWithin (depth : Nat) (input : Str) : Run (Except ParseError SExpr) :=
  let tokenizer := Tokenizer.new input
  if !tokenizer.hasNext then
    .ended (.error (.runtimeError "Empty input".toList))
  else
    match parseExpressionWithin (parseFuel input) depth tokenizer with
    | .stackOverflow => .stackOverflow
    | .ended (.error e) => .ended (.error e)
    | .ended (.ok (e, _)) => .ended (.ok e)

/-- The loop of `SExprParser::parseMultiple` when the stack has room for `depth` nested
calls of `parseList`. -/
def parseMultipleLoopWithin :
    Nat → Nat → Tokenizer → List SExpr → Run (Except ParseError (List SExpr))
  | 0, _, _, _ => .ended (.error .outOfFuel)
  | n + 1, depth, t, results =>
    if t.hasNext then
      match parseExpressionWithin n depth t with
      | .stackOverflow => .stackOverflow
      | .ended (.error e) => .ended (.error e)
      | .ended (.ok (e, t1)) => parseMultipleLoopWithin n depth t1 (results ++ [e])
    else
      .ended (.ok results)

/-- `SExprParser::parseMultiple` when the stack has room for `depth` nested calls of
`parseList`. -/
def parseMultipleWithin (depth : Nat) (input : Str) : Run (Except ParseError (List SExpr)) :=
  parseMultipleLoopWithin (parseFuel input) depth (Tokenizer.new input) []

/-- The deepest nesting of lists that a reading of the text from left to right reaches
when it starts with `level` lists open: an opening bracket opens a list, a closing
bracket closes one when one is open. -/
def nestingFrom : Str → Nat → Nat
  | [], level => level
  | c :: cs, level =>
    if c = '(' ∨ c = '[' then nestingFrom cs (level + 1)
    else if c = ')' ∨ c = ']' then max level (nestingFrom cs (level - 1))
    else nestingFrom cs level

/-- The nesting depth of a text: the largest number of lists that are open at one
time. -/
def nestingDepth (text : Str) : Nat := nestingFrom text 0

/-- `EntityResolver::addSpecialCharMapping`, the assignment `specialCharMappings[from] =
to`: the entry of the key is replaced, or a new entry is added (the language leaves its
place in the iteration order open; it is put last). -/
def EntityResolver.addSpecialCharMapping (r : EntityResolver) (fromText toText : Str) :
    EntityResolver :=
  let table := r.specialCharMappings
  let updated :=
    if table.any (fun kv => kv.1 == fromText) then
      table.map (fun kv => if kv.1 = fromText then (kv.1, toText) else kv)
    else table ++ [(fromText, toText)]
  { entityMappings := r.entityMappings, specialCharMappings := updated,
    actionMappings := r.actionMappings, instrumentMappings := r.instrumentMappings,
    portMappings := r.portMappings }

namespace SemanticAnalyzer

/-- The body of the loop `while (std::getline(iss, line))` of `analyze` on a bounded
stack; `catch (...)` skips a line that raises, not one that overflows the stack. -/
def fallbackLineWithin (depth : Nat) (state : Run (List SExpr)) (line : Str) :
    Run (List SExpr) :=
  match state with
  | .stackOverflow => .stackOverflow
  | .ended expressions =>
    match line with
    | [] => .ended expressions
    | c :: _ =>
      if c ≠ '(' && c ≠ '[' then .ended expressions
      else
        match parseWithin depth line with
        | .stackOverflow => .stackOverflow
        | .ended (.ok expr) => .ended (expressions ++ [expr])
        | .ended (.error _) => .ended expressions

/-- The expressions that `analyze` classifies, read on a bounded stack: those of
`parseMultiple`, or, when it raises, those of the lines. -/
def analyzeExpressionsWithin (depth : Nat) (mettaOutput : Str) : Run (List SExpr) :=
  match parseMultipleWithin depth mettaOutput with
  | .stackOverflow => .stackOverflow
  | .ended (.ok expressions) => .ended expressions
  | .ended (.error _) =>
    (getLines mettaOutput).foldl (fallbackLineWithin depth) (.ended [])

/-- `SemanticAnalyzer::analyze` when the stack has room for `depth` nested calls of
`parseList`; the passes that follow the reader look at most two lists deep into an
expression. -/
def analyzeWithin (depth : Nat) (r : EntityResolver) (mettaOutput : Str) :
    Run (Except Fault AnalysisResult) :=
  match analyzeExpressionsWithin depth mettaOutput with
  | .stackOverflow => .stackOverflow
  | .ended expressions => .ended (classify r expressions)

end SemanticAnalyzer

/-! # Theorems -/

/-! ## Pattern matcher -/

theorem matchesLoop_iff (l : List SExpr) (pattern : List Str)
    (hlen : l.length = pattern.length) :
    matchesLoop l pattern = true ↔
      ∀ (i : Nat) (p : Str), pattern[i]? = some p → p ≠ sWildcard →
        l[i]? = some (SExpr.atom p) := by
  induction l generalizing pattern with
  | nil =>
    cases pattern with
    | nil => simp [matchesLoop]
    | cons p ps => simp at hlen
  | cons e es ih =>
    cases pattern with
    | nil => simp at hlen
    | cons p ps =>
      have hlen2 : es.length = ps.length := by simpa using hlen
      have ih2 := ih ps hlen2
      constructor
      · intro h i q hq hne
        cases i with
        | zero =>
          simp only [List.getElem?_cons_zero, Option.some.injEq] at hq ⊢
          subst hq
          unfold matchesLoop at h
          rw [if_neg hne] at h
          cases e with
          | atom a =>
            simp only [SExpr.getSymbol] at h
            by_cases hap : a = p
            · rw [hap]
            · simp [hap] at h
          | list c => simp [SExpr.getSymbol] at h
        | succ j =>
          simp only [List.getElem?_cons_succ] at hq ⊢
          have hrest : matchesLoop es ps = true := by
            unfold matchesLoop at h
            by_cases hw : p = sWildcard
            · rw [if_pos hw] at h; exact h
            · rw [if_neg hw] at h
              cases e with
              | atom a =>
                simp only [SExpr.getSymbol] at h
                by_cases hap : a = p
                · simpa [hap] using h
                · simp [hap] at h
              | list c => simp [SExpr.getSymbol] at h
          exact (ih2.mp hrest) j q hq hne
      · intro h
        have hrest : matchesLoop es ps = true :=
          ih2.mpr (fun j q hq hne => by
            have := h (j + 1) q (by simpa using hq) hne
            simpa using this)
        unfold matchesLoop
        by_cases hw : p = sWildcard
        · rw [if_pos hw]; exact hrest
        · rw [if_neg hw]
          have h0 := h 0 p (by simp) hw
          simp only [List.getElem?_cons_zero, Option.some.injEq] at h0
          subst h0
          simpa [SExpr.getSymbol] using hrest

theorem extractLoop_length (l : List SExpr) (pattern : List Str)
    (hlen : l.length = pattern.length)
    (hatoms : ∀ (i : Nat), pattern[i]? = some sWildcard → ∃ a, l[i]? = some (SExpr.atom a)) :
    (extractLoop l pattern).length = pattern.count sWildcard := by
  induction l generalizing pattern with
  | nil =>
    cases pattern with
    | nil => simp [extractLoop]
    | cons p ps => simp at hlen
  | cons e es ih =>
    cases pattern with
    | nil => simp at hlen
    | cons p ps =>
      have hlen2 : es.length = ps.length := by simpa using hlen
      have ih2 := ih ps hlen2 (fun j hj => by
        have := hatoms (j + 1) (by simpa using hj)
        simpa using this)
      unfold extractLoop
      by_cases hw : p = sWildcard
      · rw [if_pos hw]
        obtain ⟨a, ha⟩ := hatoms 0 (by simp [hw])
        simp only [List.getElem?_cons_zero, Option.some.injEq] at ha
        subst ha
        subst hw
        simp [SExpr.getSymbol, ih2]
      · rw [if_neg hw]
        rw [ih2, List.count_cons_of_ne (Ne.symm hw)]

/-- C7: `SExprMatcher::matches(expr, pattern)` is true iff either `expr` is a list
whose length equals the pattern length and, at every position `i` with
`pattern[i] != "?"`, the child is an atom exactly equal to `pattern[i]` (a wildcard
position accepts any child), or `expr` is a bare atom, the pattern has length 1 and
`pattern[0]` is `"?"` or equals the atom. -/
theorem C7_matches_iff (expr : SExpr) (pattern : List Str) :
    SExprMatcher.matches expr pattern = true ↔
      ((∃ l, expr = SExpr.list l ∧ l.length = pattern.length ∧
          ∀ (i : Nat) (p : Str), pattern[i]? = some p → p ≠ sWildcard →
            l[i]? = some (SExpr.atom p)) ∨
       (∃ a, expr = SExpr.atom a ∧ pattern.length = 1 ∧
          (pattern[0]? = some sWildcard ∨ pattern[0]? = some a))) := by
  cases expr with
  | atom a =>
    simp only [SExprMatcher.matches, reduceCtorEq, false_and, exists_false, false_or,
      SExpr.atom.injEq, exists_eq_left']
    match pattern with
    | [] => simp
    | [p] =>
      simp only [Bool.or_eq_true, decide_eq_true_eq, List.length_singleton,
        List.getElem?_cons_zero, Option.some.injEq, true_and]
      constructor
      · rintro (h | h)
        · exact Or.inr h.symm
        · exact Or.inl h
      · rintro (h | h)
        · exact Or.inr h
        · exact Or.inl h.symm
    | p :: q :: r => simp
  | list l =>
    simp only [SExprMatcher.matches, SExpr.list.injEq, exists_eq_left', reduceCtorEq,
      false_and, exists_false, or_false]
    by_cases hlen : l.length = pattern.length
    · simp only [hlen, ne_eq, not_true_eq_false, if_false, true_and]
      exact matchesLoop_iff l pattern hlen
    · simp [hlen]

/-- C8 as stated fails: the list `(a b)` does not match the pattern `x ?` (the
literal position differs), yet `extract` returns the atom at the wildcard position. -/
theorem C8_counterexample :
    SExprMatcher.matches (SExpr.list [SExpr.atom ['a'], SExpr.atom ['b']])
        [['x'], sWildcard] = false ∧
    SExprMatcher.extract (SExpr.list [SExpr.atom ['a'], SExpr.atom ['b']])
        [['x'], sWildcard] = [['b']] := by
  decide

/-- C8 (amended): for every expression `e` and pattern `p`, if `e` is not a list of
exactly `p.length` children (a bare atom, or a list of another length), then
`SExprMatcher::extract(e, p)` is the empty sequence. -/
theorem C8_extract_empty_of_shape_mismatch (e : SExpr) (p : List Str)
    (h : ∀ l, e = SExpr.list l → l.length ≠ p.length) :
    SExprMatcher.extract e p = [] := by
  cases e with
  | atom a => rfl
  | list l =>
    have := h l rfl
    simp [SExprMatcher.extract, this]

theorem C8_extract_empty_of_shape_mismatch_witness :
    SExprMatcher.extract (SExpr.list [SExpr.atom ['a']]) [['x'], sWildcard] = [] :=
  C8_extract_empty_of_shape_mismatch (SExpr.list [SExpr.atom ['a']]) [['x'], sWildcard]
    (by intro l hl; cases hl; decide)

/-- C9 as stated fails: the bare atom `a` matches the pattern `?`, which has one
wildcard, but `extract` returns nothing for an expression that is not a list. -/
theorem C9_counterexample :
    SExprMatcher.matches (SExpr.atom ['a']) [sWildcard] = true ∧
    (SExprMatcher.extract (SExpr.atom ['a']) [sWildcard]).length = 0 ∧
    List.count sWildcard [sWildcard] = 1 := by
  decide

/-- C9 (amended): for every list expression `e` and pattern `p`, if
`SExprMatcher::matches(e, p)` is true and the child of `e` at every `"?"` position
of `p` is an atom, then the length of `SExprMatcher::extract(e, p)` equals the
number of `"?"` entries in `p`. -/
theorem C9_extract_length_eq_wildcards (l : List SExpr) (p : List Str)
    (hm : SExprMatcher.matches (SExpr.list l) p = true)
    (hatoms : ∀ (i : Nat), p[i]? = some sWildcard → ∃ a, l[i]? = some (SExpr.atom a)) :
    (SExprMatcher.extract (SExpr.list l) p).length = p.count sWildcard := by
  have hlen : l.length = p.length := by
    by_contra hne
    simp [SExprMatcher.matches, hne] at hm
  simp only [SExprMatcher.extract, hlen, ne_eq, not_true_eq_false, if_false]
  exact extractLoop_length l p hlen hatoms

theorem C9_extract_length_eq_wildcards_witness :
    (SExprMatcher.extract
      (SExpr.list [SExpr.atom "id_not_not_false".toList, SExpr.atom "soa_epmuam".toList])
      ["id_not_not_false".toList, sWildcard]).length
      = List.count sWildcard ["id_not_not_false".toList, sWildcard] :=
  C9_extract_length_eq_wildcards
    [SExpr.atom "id_not_not_false".toList, SExpr.atom "soa_epmuam".toList]
    ["id_not_not_false".toList, sWildcard] (by decide)
    (by
      intro i hi
      match i with
      | 0 => simp [sWildcard] at hi
      | 1 => exact ⟨_, rfl⟩
      | (k + 2) => simp at hi)

/-! ## Naming convention -/

theorem agentInitialsLoop_acc (s : Str) (newWord : Bool) (acc : Str) :
    agentInitialsLoop s newWord acc = acc ++ agentInitialsLoop s newWord [] := by
  induction s generalizing newWord acc with
  | nil => simp [agentInitialsLoop]
  | cons c cs ih =>
    unfold agentInitialsLoop
    split_ifs
    · exact ih _ _
    · rw [ih false (acc ++ [tolower c]), ih false ([] ++ [tolower c])]
      simp
    · exact ih _ _

theorem agentInitialsLoop_spec (s : Str) :
    agentInitialsLoop s true [] =
      (s.splitOnP (fun c => c == '_' || c == '-')).filterMap
        (fun word => (word.find? isalpha).map tolower) ∧
    agentInitialsLoop s false [] =
      ((s.splitOnP (fun c => c == '_' || c == '-')).tail).filterMap
        (fun word => (word.find? isalpha).map tolower) := by
  induction s with
  | nil => simp [agentInitialsLoop, List.splitOnP_nil]
  | cons c cs ih =>
    obtain ⟨ihT, ihF⟩ := ih
    rw [List.splitOnP_cons]
    by_cases hsep : (c == '_' || c == '-') = true
    · have hsep2 : (decide (c = '_') || decide (c = '-')) = true := by simpa using hsep
      simp only [hsep, if_true, List.tail_cons]
      constructor
      · unfold agentInitialsLoop
        rw [if_pos hsep2, ihT]
        simp [List.filterMap_cons]
      · unfold agentInitialsLoop
        rw [if_pos hsep2, ihT]
    · have hsep2 : ¬ (decide (c = '_') || decide (c = '-')) = true := by simpa using hsep
      simp only [hsep, Bool.false_eq_true, if_false]
      obtain ⟨w, ws, hw⟩ := List.exists_cons_of_ne_nil
        (List.splitOnP_ne_nil (fun c => c == '_' || c == '-') cs)
      rw [hw] at ihT ihF ⊢
      simp only [List.modifyHead_cons, List.tail_cons] at ihF ⊢
      constructor
      · unfold agentInitialsLoop
        rw [if_neg hsep2]
        by_cases ha : isalpha c = true
        · simp only [ha, Bool.and_self, if_true, List.nil_append]
          rw [agentInitialsLoop_acc, ihF]
          simp [List.filterMap_cons, List.find?_cons, ha]
        · simp only [ha, Bool.and_false, Bool.false_eq_true, if_false]
          rw [ihT]
          simp only [List.filterMap_cons, List.find?_cons]
          simp [ha]
      · unfold agentInitialsLoop
        rw [if_neg hsep2]
        simp only [Bool.false_and, Bool.false_eq_true, if_false]
        exact ihF

theorem take_eq_iff_isPrefixOf (pre s : Str) :
    (s.take pre.length = pre) ↔ pre.isPrefixOf s = true := by
  rw [List.isPrefixOf_iff_prefix, List.prefix_iff_eq_take]
  exact eq_comm

theorem getExpectedName_eq_spec (e : Eventuality) (ht : e.type ≠ []) (ha : e.agent ≠ []) :
    e.getExpectedName = specExpectedName e.type e.agent := by
  obtain ⟨name, type, modality, agent, roles⟩ := e
  simp only at ht ha
  have h1 : (type.isEmpty || agent.isEmpty) = false := by
    cases type with
    | nil => exact absurd rfl ht
    | cons t ts =>
      cases agent with
      | nil => exact absurd rfl ha
      | cons a as => rfl
  have hpre3 : decide (type.take 3 = "soa".toList) = "soa".toList.isPrefixOf type := by
    have := take_eq_iff_isPrefixOf "soa".toList type
    rw [Bool.eq_iff_iff]
    simpa using this
  have hpre4 : decide (agent.take 4 = "soa_".toList) = "soa_".toList.isPrefixOf agent := by
    have := take_eq_iff_isPrefixOf "soa_".toList agent
    rw [Bool.eq_iff_iff]
    simpa using this
  simp only [Eventuality.getExpectedName, h1, Bool.false_eq_true, if_false, specExpectedName,
    specTypeInitial, specAgentInitials]
  congr 1
  · congr 1
    rw [hpre3]
    by_cases hc : ("soa".toList.isPrefixOf type && decide (type.length > 3)) = true
    · rw [if_pos hc, if_pos hc]
      have hlen : 3 < type.length := by simpa using (Bool.and_eq_true_iff.mp hc).2
      simp [List.getD, List.getElem?_eq_getElem hlen]
    · rw [if_neg hc, if_neg hc]
      cases type with
      | nil => exact absurd rfl ht
      | cons t ts => simp [List.getD]
  · have hsplit := (agentInitialsLoop_spec
      (if agent.take 4 = "soa_".toList then agent.drop 4 else agent)).1
    rw [hsplit]
    congr 2
    by_cases hp : "soa_".toList.isPrefixOf agent = true
    · have : agent.take 4 = "soa_".toList := by
        have := (take_eq_iff_isPrefixOf "soa_".toList agent).mpr hp
        simpa using this
      rw [if_pos this, if_pos hp]
    · have : ¬ agent.take 4 = "soa_".toList := by
        intro h
        exact hp ((take_eq_iff_isPrefixOf "soa_".toList agent).mp (by simpa using h))
      rw [if_neg this, if_neg hp]

/-- C5: for every non-empty type and agent, `Eventuality::getExpectedName()` equals
`"soa_e" + typeInitial + agentInitials` as the naming-convention algorithm words it
(the lowercased 4th character of `type` when it starts with `"soa"` and is longer than
3, otherwise the lowercased 1st character; then, for each word of the agent, with a
leading `"soa_"` removed, split on `_` and `-`, the lowercased first alphabetic
character). `(soaMoor, soa_ALEXANDRA_MAERSK)` gives `"soa_emam"` and
`(soaPay, soa_ALEXANDRA_MAERSK)` gives `"soa_epam"`. -/
theorem C5_getExpectedName_naming_convention :
    (∀ e : Eventuality, e.type ≠ [] → e.agent ≠ [] →
      e.getExpectedName = specExpectedName e.type e.agent) ∧
    Eventuality.getExpectedName
      { type := "soaMoor".toList, agent := "soa_ALEXANDRA_MAERSK".toList }
      = "soa_emam".toList ∧
    Eventuality.getExpectedName
      { type := "soaPay".toList, agent := "soa_ALEXANDRA_MAERSK".toList }
      = "soa_epam".toList :=
  ⟨getExpectedName_eq_spec, by decide, by decide⟩

theorem C5_getExpectedName_naming_convention_witness :
    Eventuality.getExpectedName
      { type := "soaLeave".toList, agent := "soa_CONTAINER-SHIP_2b".toList }
      = specExpectedName "soaLeave".toList "soa_CONTAINER-SHIP_2b".toList ∧
    specExpectedName "soaLeave".toList "soa_CONTAINER-SHIP_2b".toList = "soa_elcsb".toList :=
  ⟨C5_getExpectedName_naming_convention.1
      { type := "soaLeave".toList, agent := "soa_CONTAINER-SHIP_2b".toList }
      (by decide) (by decide),
   by decide⟩

/-! ## Validation of eventualities -/

theorem validateRolesLoop_eq (name : Str) (roles : List (Str × Str)) (errors : List Str)
    (valid : Bool) :
    validateRolesLoop name roles (errors, valid) =
      (errors ++ (roles.filter (fun r => !isValidRole r.1)).map
          (fun r => errInvalidRole r.1 name),
       valid && ((roles.filter (fun r => !isValidRole r.1)).map
          (fun r => errInvalidRole r.1 name)).isEmpty) := by
  induction roles generalizing errors valid with
  | nil => simp [validateRolesLoop]
  | cons r rs ih =>
    obtain ⟨role, value⟩ := r
    unfold validateRolesLoop
    by_cases hr : isValidRole role = true
    · simp [hr, ih]
    · simp [hr, ih]

theorem validateEventualityStep_eq (name : Str) (ev : Eventuality) (errors : List Str)
    (valid : Bool) :
    validateEventualityStep name ev (errors, valid) =
      (errors ++ specEventualityMessages name ev,
       valid && (specEventualityMessages name ev).isEmpty) := by
  unfold validateEventualityStep specEventualityMessages
  by_cases h1 : ev.isValid = true <;>
  by_cases h2 : name = ev.getExpectedName <;>
  by_cases h3 : isValidEventualityType ev.type = true <;>
  simp [h1, h2, h3, validateRolesLoop_eq]

theorem validateEventualitiesLoop_eq (evs : List (Str × Eventuality)) (errors : List Str)
    (valid : Bool) :
    validateEventualitiesLoop evs (errors, valid) =
      (errors ++ evs.flatMap (fun p => specEventualityMessages p.1 p.2),
       valid && (evs.flatMap (fun p => specEventualityMessages p.1 p.2)).isEmpty) := by
  induction evs generalizing errors valid with
  | nil => simp [validateEventualitiesLoop]
  | cons p ps ih =>
    obtain ⟨name, ev⟩ := p
    unfold validateEventualitiesLoop
    rw [validateEventualityStep_eq, ih]
    have happ : ∀ a b : List Str, (a ++ b).isEmpty = (a.isEmpty && b.isEmpty) := by
      intro a b
      cases a <;> simp
    simp [List.flatMap_cons, Bool.and_assoc, happ]

/-- C6: `StateOfAffairs::validateEventualities` is total and runs all checks
independently: the error list after the call is the list before it followed by, for
each eventuality in map order, one message for each failed check (`isValid()` false;
key different from `getExpectedName()`; type not a known eventuality type; one per role
key that is not a known role), and it returns true iff it appended no message. For
`soa_wrongname` (soaMoor, rexist, soa_ALEXANDRA_MAERSK) it returns false with exactly
the naming message, which names `soa_emam`; the conforming eventuality `soa_emam` with
role `soaHas_location` yields no message. -/
theorem C6_validateEventualities_accumulates :
    (∀ (soa : StateOfAffairs) (errors : List Str),
      (soa.validateEventualities errors).2 =
        errors ++ soa.eventualities.flatMap (fun p => specEventualityMessages p.1 p.2) ∧
      ((soa.validateEventualities errors).1 = true ↔
        soa.eventualities.flatMap (fun p => specEventualityMessages p.1 p.2) = [])) ∧
    StateOfAffairs.validateEventualities
        { eventualities := [("soa_wrongname".toList, wrongNameEventuality)] } []
      = (false, ["Eventuality 'soa_wrongname' does not follow naming convention. ".toList
                  ++ "Expected: '".toList ++ "soa_emam".toList ++ "'".toList]) ∧
    StateOfAffairs.validateEventualities
        { eventualities := [("soa_emam".toList, conformingEventuality)] } []
      = (true, []) := by
  refine ⟨?_, by decide, by decide⟩
  intro soa errors
  simp only [StateOfAffairs.validateEventualities, validateEventualitiesLoop_eq,
    Bool.true_and, List.isEmpty_iff, and_self]

/-! ## Tokenizer -/

theorem isBracket_isDelimiter {c : Char} (h : isBracket c = true) : isDelimiter c = true := by
  simp only [isBracket, Bool.or_eq_true] at h
  simp only [isDelimiter, Bool.or_eq_true]
  tauto

theorem isspace_isDelimiter {c : Char} (h : isspace c = true) : isDelimiter c = true := by
  simp [isDelimiter, h]

theorem isDelimiter_cases {c : Char} (h : isDelimiter c = true) :
    isBracket c = true ∨ isspace c = true := by
  simp only [isDelimiter, Bool.or_eq_true] at h
  simp only [isBracket, Bool.or_eq_true]
  tauto

theorem skipWhitespace_length_le (s : Str) : (skipWhitespace s).length ≤ s.length := by
  induction s with
  | nil => simp [skipWhitespace]
  | cons c cs ih =>
    simp only [skipWhitespace, List.dropWhile_cons] at ih ⊢
    split
    · exact Nat.le_succ_of_le ih
    · exact Nat.le_refl _

theorem dropWhile_length_le (p : Char → Bool) (s : Str) :
    (s.dropWhile p).length ≤ s.length := by
  induction s with
  | nil => simp
  | cons c cs ih =>
    simp only [List.dropWhile_cons]
    split
    · exact Nat.le_succ_of_le ih
    · exact Nat.le_refl _

theorem skipWhitespace_of_not_space {c : Char} {cs : Str} (h : isspace c = false) :
    skipWhitespace (c :: cs) = c :: cs := by
  simp [skipWhitespace, List.dropWhile_cons, h]

theorem skipWhitespace_nil : skipWhitespace [] = [] := rfl

theorem Tokenizer.hasNext_iff (t : Tokenizer) : t.hasNext = true ↔ t.rest ≠ [] := by
  cases t with
  | mk r => cases r <;> simp [Tokenizer.hasNext]

theorem Tokenizer.consume_length_lt (t : Tokenizer) (h : t.rest ≠ []) :
    t.consume.rest.length < t.rest.length := by
  obtain ⟨r⟩ := t
  cases r with
  | nil => exact absurd rfl h
  | cons c cs =>
    simp only [Tokenizer.consume]
    by_cases hb : isBracket c = true
    · simp only [hb, if_true]
      exact Nat.lt_succ_of_le (skipWhitespace_length_le cs)
    · simp only [hb, Bool.false_eq_true, if_false]
      by_cases hd : isDelimiter c = true
      · have hs : isspace c = true := by
          rcases isDelimiter_cases hd with h1 | h1
          · exact absurd h1 hb
          · exact h1
        simp only [List.dropWhile_cons, hd, Bool.not_true, Bool.false_eq_true, if_false,
          skipWhitespace, hs, if_true]
        exact Nat.lt_succ_of_le (dropWhile_length_le _ cs)
      · simp only [List.dropWhile_cons, hd, Bool.not_false, if_true]
        exact Nat.lt_succ_of_le
          (Nat.le_trans (skipWhitespace_length_le _) (dropWhile_length_le _ cs))

theorem Tokenizer.consume_length_le (t : Tokenizer) :
    t.consume.rest.length ≤ t.rest.length := by
  by_cases h : t.rest = []
  · obtain ⟨r⟩ := t
    simp only at h
    subst h
    simp [Tokenizer.consume]
  · exact Nat.le_of_lt (t.consume_length_lt h)

/-! ## The parser consumes input, and its fuel is enough -/

theorem parseExpression_succ (n : Nat) (t : Tokenizer) :
    parseExpression (n + 1) t =
      if !t.hasNext then
        .error (.runtimeError "Unexpected end of input".toList)
      else
        if t.peek = sOpenParen || t.peek = sOpenSquare then
          parseList n t
        else if t.peek = sCloseParen || t.peek = sCloseSquare then
          .error (.runtimeError "Unexpected closing bracket".toList)
        else
          .ok (SExpr.atom t.peek, t.consume) := by
  rw [parseExpression]

theorem parseList_succ (n : Nat) (t : Tokenizer) :
    parseList (n + 1) t =
      if t.next.1 ≠ sOpenParen && t.next.1 ≠ sOpenSquare then
        .error (.runtimeError "Expected '(' or '['".toList)
      else
        parseListLoop n (if t.next.1 = sOpenParen then sCloseParen else sCloseSquare)
          t.next.2 [] := by
  rw [parseList]

theorem parseListLoop_succ (n : Nat) (close : Str) (t : Tokenizer) (elements : List SExpr) :
    parseListLoop (n + 1) close t elements =
      if t.hasNext && t.peek ≠ close then
        match parseExpression n t with
        | .error e => .error e
        | .ok (e, t1) => parseListLoop n close t1 (elements ++ [e])
      else if !t.hasNext || t.next.1 ≠ close then
        .error (.runtimeError ("Expected '".toList ++ close ++ "'".toList))
      else
        .ok (SExpr.list elements, t.next.2) := by
  rw [parseListLoop]

theorem parser_length (n : Nat) :
    (∀ t e t1, parseExpression n t = .ok (e, t1) → t1.rest.length < t.rest.length) ∧
    (∀ t e t1, parseList n t = .ok (e, t1) → t1.rest.length < t.rest.length) ∧
    (∀ close t acc e t1, parseListLoop n close t acc = .ok (e, t1) →
      t1.rest.length < t.rest.length) := by
  induction n with
  | zero =>
    refine ⟨?_, ?_, ?_⟩
    · intro t e t1 h; simp [parseExpression] at h
    · intro t e t1 h; simp [parseList] at h
    · intro close t acc e t1 h; simp [parseListLoop] at h
  | succ n ih =>
    obtain ⟨ihE, ihL, ihLoop⟩ := ih
    refine ⟨?_, ?_, ?_⟩
    · intro t e t1 h
      unfold parseExpression at h
      split at h
      · simp at h
      · rename_i hn
        have hne : t.rest ≠ [] := by
          have : t.hasNext = true := by simpa using hn
          exact (Tokenizer.hasNext_iff t).mp this
        simp only at h
        split at h
        · exact ihL t e t1 h
        · split at h
          · simp at h
          · simp only [Except.ok.injEq, Prod.mk.injEq] at h
            rw [← h.2]
            exact t.consume_length_lt hne
    · intro t e t1 h
      unfold parseList at h
      simp only at h
      split at h
      · simp at h
      · have := ihLoop _ _ _ e t1 h
        exact Nat.lt_of_lt_of_le this (by simpa [Tokenizer.next] using t.consume_length_le)
    · intro close t acc e t1 h
      unfold parseListLoop at h
      split at h
      · cases hpe : parseExpression n t with
        | error err => rw [hpe] at h; simp at h
        | ok r =>
          obtain ⟨e2, t2⟩ := r
          rw [hpe] at h
          simp only at h
          exact Nat.lt_trans (ihLoop _ _ _ e t1 h) (ihE t e2 t2 hpe)
      · rename_i hc
        split at h
        · simp at h
        · rename_i hc2
          simp only [Except.ok.injEq, Prod.mk.injEq] at h
          rw [← h.2]
          have hn : t.hasNext = true := by
            by_contra hcon
            simp [hcon] at hc2
          simpa [Tokenizer.next] using t.consume_length_lt ((Tokenizer.hasNext_iff t).mp hn)

theorem parser_mono (n : Nat) :
    (∀ t, Settled (parseExpression n t) → parseExpression (n + 1) t = parseExpression n t) ∧
    (∀ t, Settled (parseList n t) → parseList (n + 1) t = parseList n t) ∧
    (∀ close t acc, Settled (parseListLoop n close t acc) →
      parseListLoop (n + 1) close t acc = parseListLoop n close t acc) := by
  induction n with
  | zero =>
    refine ⟨?_, ?_, ?_⟩
    · intro t h; exact absurd (by simp [parseExpression]) h
    · intro t h; exact absurd (by simp [parseList]) h
    · intro close t acc h; exact absurd (by simp [parseListLoop]) h
  | succ n ih =>
    obtain ⟨ihE, ihL, ihLoop⟩ := ih
    refine ⟨?_, ?_, ?_⟩
    · intro t h
      rw [parseExpression_succ] at h
      rw [parseExpression_succ (n + 1), parseExpression_succ n]
      split
      · rfl
      · split
        · rename_i h1 h2
          simp only [h1, h2, if_false, if_true, Bool.false_eq_true] at h
          exact ihL t h
        · rfl
    · intro t h
      rw [parseList_succ] at h
      rw [parseList_succ (n + 1), parseList_succ n]
      split
      · rfl
      · rename_i h1
        simp only [h1, if_false, Bool.false_eq_true] at h
        exact ihLoop _ _ _ h
    · intro close t acc h
      rw [parseListLoop_succ] at h
      rw [parseListLoop_succ (n + 1), parseListLoop_succ n]
      split
      · rename_i h1
        simp only [h1, if_true] at h
        cases hpe : parseExpression n t with
        | error err =>
          rw [hpe] at h
          simp only at h
          have hs : Settled (parseExpression n t) := by
            rw [hpe]; exact h
          rw [ihE t hs, hpe]
        | ok r =>
          obtain ⟨e2, t2⟩ := r
          rw [hpe] at h
          simp only at h
          have hs : Settled (parseExpression n t) := by
            rw [hpe]; simp [Settled]
          rw [ihE t hs, hpe]
          simp only
          exact ihLoop _ _ _ h
      · rfl

theorem parseExpression_mono_le {n m : Nat} (h : n ≤ m) (t : Tokenizer)
    (hs : Settled (parseExpression n t)) : parseExpression m t = parseExpression n t := by
  induction m, h using Nat.le_induction with
  | base => rfl
  | succ k _ ih =>
    have hk : Settled (parseExpression k t) := by rw [ih]; exact hs
    rw [(parser_mono k).1 t hk, ih]

theorem parseListLoop_mono_le {n m : Nat} (h : n ≤ m) (close : Str) (t : Tokenizer)
    (acc : List SExpr) (hs : Settled (parseListLoop n close t acc)) :
    parseListLoop m close t acc = parseListLoop n close t acc := by
  induction m, h using Nat.le_induction with
  | base => rfl
  | succ k _ ih =>
    have hk : Settled (parseListLoop k close t acc) := by rw [ih]; exact hs
    rw [(parser_mono k).2.2 close t acc hk, ih]

theorem settled_ok {α : Type} (a : α) : Settled (Except.ok a : Except ParseError α) := by
  simp [Settled]

theorem settled_runtimeError {α : Type} (m : Str) :
    Settled (Except.error (ParseError.runtimeError m) : Except ParseError α) := by
  simp [Settled]

theorem parser_total (n : Nat) :
    (∀ t, 3 * t.rest.length + 1 ≤ n → Settled (parseExpression n t)) ∧
    (∀ t, 0 < n → 3 * t.rest.length ≤ n → Settled (parseList n t)) ∧
    (∀ close t acc, 3 * t.rest.length + 2 ≤ n → Settled (parseListLoop n close t acc)) := by
  induction n with
  | zero =>
    refine ⟨?_, ?_, ?_⟩
    · intro t h; omega
    · intro t h; omega
    · intro close t acc h; omega
  | succ n ih =>
    obtain ⟨ihE, ihL, ihLoop⟩ := ih
    refine ⟨?_, ?_, ?_⟩
    · intro t h
      rw [parseExpression_succ]
      split
      · exact settled_runtimeError _
      · rename_i hn
        have hne : t.rest ≠ [] := by
          have : t.hasNext = true := by simpa using hn
          exact (Tokenizer.hasNext_iff t).mp this
        have hpos : 0 < t.rest.length := List.length_pos.mpr hne
        split
        · exact ihL t (by omega) (by omega)
        · split
          · exact settled_runtimeError _
          · exact settled_ok _
    · intro t _ h
      rw [parseList_succ]
      split
      · exact settled_runtimeError _
      · by_cases hne : t.rest = []
        · have hlen : t.next.2.rest.length = 0 := by
            have := t.consume_length_le
            simp only [hne, List.length_nil, Nat.le_zero_eq] at this
            simpa [Tokenizer.next] using this
          rename_i hc
          exfalso
          apply hc
          obtain ⟨r⟩ := t
          simp only at hne
          subst hne
          decide
        · have hlt := t.consume_length_lt hne
          exact ihLoop _ _ _ (by simp only [Tokenizer.next]; omega)
    · intro close t acc h
      rw [parseListLoop_succ]
      split
      · have hE := ihE t (by omega)
        cases hpe : parseExpression n t with
        | error err =>
          rw [hpe] at hE
          exact hE
        | ok r =>
          obtain ⟨e2, t2⟩ := r
          have hlt := (parser_length n).1 t e2 t2 hpe
          exact ihLoop _ _ _ (by omega)
      · split
        · exact settled_runtimeError _
        · exact settled_ok _

theorem parseExpression_of_settled {n m : Nat} {t : Tokenizer}
    {r : Except ParseError (SExpr × Tokenizer)}
    (hn : parseExpression n t = r) (hr : Settled r) (hm : Settled (parseExpression m t)) :
    parseExpression m t = r := by
  rcases Nat.le_total n m with h | h
  · rw [parseExpression_mono_le h t (by rw [hn]; exact hr), hn]
  · rw [← hn]
    exact (parseExpression_mono_le h t hm).symm

theorem skipWhitespace_length_new (input : Str) :
    (Tokenizer.new input).rest.length ≤ input.length :=
  skipWhitespace_length_le input

/-- With the fuel `parse` supplies, the parser never runs out of fuel. -/
theorem parseExpression_parseFuel_settled (input : Str) :
    Settled (parseExpression (parseFuel input) (Tokenizer.new input)) := by
  apply (parser_total _).1
  have := skipWhitespace_length_new input
  simp only [parseFuel]
  omega

theorem parse_eq_of_parseExpression {input : Str} {n : Nat} {e : SExpr} {t1 : Tokenizer}
    (hne : (Tokenizer.new input).rest ≠ [])
    (h : parseExpression n (Tokenizer.new input) = .ok (e, t1)) :
    parse input = .ok e := by
  have hs := parseExpression_parseFuel_settled input
  have := parseExpression_of_settled h (settled_ok _) hs
  have hn : (Tokenizer.new input).hasNext = true := (Tokenizer.hasNext_iff _).mpr hne
  simp [parse, hn, this]

/-! ## Reading back a rendered expression -/

theorem takeWhile_append_of_all {p : Char → Bool} (a rest : Str)
    (ha : ∀ c ∈ a, p c = true) (hrest : ∀ c cs, rest = c :: cs → p c = false) :
    (a ++ rest).takeWhile p = a ∧ (a ++ rest).dropWhile p = rest := by
  induction a with
  | nil =>
    cases rest with
    | nil => simp
    | cons c cs => simp [List.takeWhile_cons, List.dropWhile_cons, hrest c cs rfl]
  | cons x xs ih =>
    have hx : p x = true := ha x (List.mem_cons_self _ _)
    have := ih (fun c hc => ha c (List.mem_cons_of_mem _ hc))
    simp [List.takeWhile_cons, List.dropWhile_cons, hx, this]

theorem isAtomText_iff (a : Str) :
    isAtomText a = true ↔ a ≠ [] ∧ ∀ c ∈ a, isDelimiter c = false := by
  cases a with
  | nil => simp [isAtomText]
  | cons x xs => simp [isAtomText]

theorem restOk_cons {c : Char} {cs : Str} (h : restOk (c :: cs) = true) :
    isDelimiter c = true := h

theorem Tokenizer.peek_atom (a rest : Str) (ha : isAtomText a = true)
    (hrest : restOk rest = true) : Tokenizer.peek ⟨a ++ rest⟩ = a := by
  obtain ⟨hne, hall⟩ := (isAtomText_iff a).mp ha
  cases a with
  | nil => exact absurd rfl hne
  | cons x xs =>
    have hx : isDelimiter x = false := hall x (List.mem_cons_self _ _)
    have hb : isBracket x = false := by
      by_contra hcon
      have := isBracket_isDelimiter (by simpa using hcon)
      rw [hx] at this
      exact absurd this (by decide)
    have h := (takeWhile_append_of_all (p := fun c => !isDelimiter c) (x :: xs) rest
      (fun c hc => by simp [hall c hc])
      (fun c cs hcs => by subst hcs; simp [restOk_cons hrest])).1
    simp only [Tokenizer.peek, List.cons_append, hb, Bool.false_eq_true, if_false]
    simpa using h

theorem Tokenizer.consume_atom (a rest : Str) (ha : isAtomText a = true)
    (hrest : restOk rest = true) :
    Tokenizer.consume ⟨a ++ rest⟩ = ⟨skipWhitespace rest⟩ := by
  obtain ⟨hne, hall⟩ := (isAtomText_iff a).mp ha
  cases a with
  | nil => exact absurd rfl hne
  | cons x xs =>
    have hx : isDelimiter x = false := hall x (List.mem_cons_self _ _)
    have hb : isBracket x = false := by
      by_contra hcon
      have := isBracket_isDelimiter (by simpa using hcon)
      rw [hx] at this
      exact absurd this (by decide)
    have h := (takeWhile_append_of_all (p := fun c => !isDelimiter c) (x :: xs) rest
      (fun c hc => by simp [hall c hc])
      (fun c cs hcs => by subst hcs; simp [restOk_cons hrest])).2
    simp only [Tokenizer.consume, List.cons_append, hb, Bool.false_eq_true, if_false]
    rw [← List.cons_append, h]

theorem isAtomText_not_bracket_token (a : Str) (ha : isAtomText a = true) :
    a ≠ sOpenParen ∧ a ≠ sOpenSquare ∧ a ≠ sCloseParen ∧ a ≠ sCloseSquare := by
  obtain ⟨_, hall⟩ := (isAtomText_iff a).mp ha
  refine ⟨?_, ?_, ?_, ?_⟩ <;>
  · intro h
    subst h
    have := hall _ (List.mem_cons_self _ _)
    exact absurd this (by decide)

theorem toStringItems_cons (e : SExpr) (es : List SExpr) :
    SExpr.toStringItems (e :: es) =
      e.toString ++ (if es.isEmpty then [] else ' ' :: SExpr.toStringItems es) := by
  cases es with
  | nil => simp [SExpr.toStringItems]
  | cons e2 es2 => simp [SExpr.toStringItems]

/-- The rendering of a well-formed expression starts with `(` or with a character
that is no delimiter. -/
theorem toString_head (e : SExpr) (hwf : e.wellFormed = true) :
    ∃ c cs, e.toString = c :: cs ∧ (c = '(' ∨ isDelimiter c = false) := by
  cases e with
  | atom a =>
    simp only [SExpr.wellFormed] at hwf
    obtain ⟨hne, hall⟩ := (isAtomText_iff a).mp hwf
    cases a with
    | nil => exact absurd rfl hne
    | cons x xs => exact ⟨x, xs, by simp [SExpr.toString], Or.inr (hall x (List.mem_cons_self _ _))⟩
  | list l => exact ⟨'(', SExpr.toStringItems l ++ [')'], by simp [SExpr.toString], Or.inl rfl⟩

theorem head_not_space {c : Char} (h : c = '(' ∨ isDelimiter c = false) : isspace c = false := by
  rcases h with h | h
  · subst h; decide
  · by_contra hcon
    have := isspace_isDelimiter (by simpa using hcon)
    rw [h] at this
    exact absurd this (by decide)

theorem skipWhitespace_toString_append (e : SExpr) (hwf : e.wellFormed = true) (rest : Str) :
    skipWhitespace (e.toString ++ rest) = e.toString ++ rest := by
  obtain ⟨c, cs, hc, hh⟩ := toString_head e hwf
  rw [hc, List.cons_append]
  exact skipWhitespace_of_not_space (head_not_space hh)

theorem skipWhitespace_space_cons (s : Str) :
    skipWhitespace (' ' :: s) = skipWhitespace s := by
  simp [skipWhitespace, List.dropWhile_cons, isspace]

theorem skipWhitespace_closeParen (rest : Str) :
    skipWhitespace (')' :: rest) = ')' :: rest :=
  skipWhitespace_of_not_space (by decide)

/-- After one child of a list has been read, the tokenizer stands at the next
child or at the closing bracket. -/
theorem skipWhitespace_items (es : List SExpr) (hwf : SExpr.wellFormedList es = true)
    (rest : Str) :
    skipWhitespace ((if es.isEmpty then [] else ' ' :: SExpr.toStringItems es) ++ ')' :: rest)
      = SExpr.toStringItems es ++ ')' :: rest := by
  cases es with
  | nil => simp [SExpr.toStringItems, skipWhitespace_closeParen]
  | cons e2 es2 =>
    simp only [List.isEmpty_cons, Bool.false_eq_true, if_false, List.cons_append]
    rw [skipWhitespace_space_cons, toStringItems_cons, List.append_assoc]
    simp only [SExpr.wellFormedList, Bool.and_eq_true] at hwf
    exact skipWhitespace_toString_append e2 hwf.1 _

theorem Tokenizer.peek_toString (e : SExpr) (hwf : e.wellFormed = true) (rest : Str) :
    Tokenizer.peek ⟨e.toString ++ rest⟩ ≠ sCloseParen := by
  obtain ⟨c, cs, hc, hh⟩ := toString_head e hwf
  rw [hc, List.cons_append]
  simp only [Tokenizer.peek]
  rcases hh with h | h
  · subst h
    simp [isBracket, sCloseParen]
  · have hb : isBracket c = false := by
      by_contra hcon
      have := isBracket_isDelimiter (by simpa using hcon)
      rw [h] at this
      exact absurd this (by decide)
    simp only [hb, Bool.false_eq_true, if_false, List.takeWhile_cons, h, Bool.not_false,
      if_true]
    intro hcon
    simp only [sCloseParen, List.cons.injEq] at hcon
    rw [hcon.1] at h
    exact absurd h (by decide)

theorem restOk_sep_close (es : List SExpr) (rest : Str) :
    restOk ((if es.isEmpty then [] else ' ' :: SExpr.toStringItems es) ++ ')' :: rest)
      = true := by
  cases es with
  | nil => simp [restOk, isDelimiter]
  | cons e2 es2 => simp [restOk, isDelimiter, isspace]

mutual
/-- The parser reads the rendering of a well-formed expression back as that expression
and stops at the next token after it. -/
theorem parseExpression_toString : ∀ (e : SExpr), e.wellFormed = true →
    ∀ rest : Str, restOk rest = true →
    ∃ n, parseExpression n ⟨e.toString ++ rest⟩ = .ok (e, ⟨skipWhitespace rest⟩)
  | .atom a, hwf, rest, hrest => by
    refine ⟨1, ?_⟩
    simp only [SExpr.wellFormed] at hwf
    have hpeek := Tokenizer.peek_atom a rest hwf hrest
    have hcons := Tokenizer.consume_atom a rest hwf hrest
    obtain ⟨h1, h2, h3, h4⟩ := isAtomText_not_bracket_token a hwf
    have hn : Tokenizer.hasNext ⟨a ++ rest⟩ = true := by
      apply (Tokenizer.hasNext_iff _).mpr
      have := ((isAtomText_iff a).mp hwf).1
      simpa using fun h => absurd h this
    rw [parseExpression_succ]
    simp [SExpr.toString, hn, hpeek, hcons, h1, h2, h3, h4]
  | .list l, hwf, rest, _ => by
    simp only [SExpr.wellFormed] at hwf
    obtain ⟨n, hn⟩ := parseListLoop_toStringItems l hwf [] rest
    refine ⟨n + 2, ?_⟩
    have hskip : skipWhitespace (SExpr.toStringItems l ++ ')' :: rest)
        = SExpr.toStringItems l ++ ')' :: rest := by
      cases l with
      | nil => simp [SExpr.toStringItems, skipWhitespace_closeParen]
      | cons e es =>
        rw [toStringItems_cons, List.append_assoc]
        simp only [SExpr.wellFormedList, Bool.and_eq_true] at hwf
        exact skipWhitespace_toString_append e hwf.1 _
    have hrest : SExpr.toString (SExpr.list l) ++ rest
        = '(' :: (SExpr.toStringItems l ++ ')' :: rest) := by
      simp [SExpr.toString]
    rw [hrest, parseExpression_succ, parseList_succ]
    simp only [Tokenizer.hasNext, Tokenizer.peek, Tokenizer.next, Tokenizer.consume, isBracket,
      sOpenParen, sOpenSquare, hskip]
    simpa [sCloseParen] using hn
/-- The loop of `parseList` reads the rendered children of a list back, up to and
including the closing bracket. -/
theorem parseListLoop_toStringItems : ∀ (l : List SExpr), SExpr.wellFormedList l = true →
    ∀ (acc : List SExpr) (rest : Str),
    ∃ n, parseListLoop n sCloseParen ⟨SExpr.toStringItems l ++ ')' :: rest⟩ acc
      = .ok (SExpr.list (acc ++ l), ⟨skipWhitespace rest⟩)
  | [], _, acc, rest => by
    refine ⟨1, ?_⟩
    rw [parseListLoop_succ]
    simp [SExpr.toStringItems, Tokenizer.hasNext, Tokenizer.peek, Tokenizer.next,
      Tokenizer.consume, isBracket, sCloseParen]
  | e :: es, hwf, acc, rest => by
    simp only [SExpr.wellFormedList, Bool.and_eq_true] at hwf
    obtain ⟨n1, h1⟩ := parseExpression_toString e hwf.1
      ((if es.isEmpty then [] else ' ' :: SExpr.toStringItems es) ++ ')' :: rest)
      (restOk_sep_close es rest)
    obtain ⟨n2, h2⟩ := parseListLoop_toStringItems es hwf.2 (acc ++ [e]) rest
    refine ⟨max n1 n2 + 1, ?_⟩
    rw [skipWhitespace_items es hwf.2 rest] at h1
    have hE : parseExpression (max n1 n2)
        ⟨SExpr.toStringItems (e :: es) ++ ')' :: rest⟩
        = .ok (e, ⟨SExpr.toStringItems es ++ ')' :: rest⟩) := by
      rw [toStringItems_cons, List.append_assoc]
      rw [parseExpression_mono_le (Nat.le_max_left n1 n2) _ (by rw [h1]; exact settled_ok _),
        h1]
    have hL : parseListLoop (max n1 n2) sCloseParen
        ⟨SExpr.toStringItems es ++ ')' :: rest⟩ (acc ++ [e])
        = .ok (SExpr.list (acc ++ [e] ++ es), ⟨skipWhitespace rest⟩) := by
      rw [parseListLoop_mono_le (Nat.le_max_right n1 n2) _ _ _
        (by rw [h2]; exact settled_ok _), h2]
    have hn : Tokenizer.hasNext ⟨SExpr.toStringItems (e :: es) ++ ')' :: rest⟩ = true := by
      apply (Tokenizer.hasNext_iff _).mpr
      simp
    have hp : Tokenizer.peek ⟨SExpr.toStringItems (e :: es) ++ ')' :: rest⟩ ≠ sCloseParen := by
      rw [toStringItems_cons, List.append_assoc]
      exact Tokenizer.peek_toString e hwf.1 _
    rw [parseListLoop_succ]
    simp only [hn, hp, ne_eq, not_false_eq_true, decide_True, Bool.and_self, if_true, hE, hL]
    simp
end

/-- `SExprParser::parse` reads the rendering of a well-formed expression, followed by
any text that starts with a delimiter, back as that expression. -/
theorem parse_toString_append (e : SExpr) (hwf : e.wellFormed = true) (rest : Str)
    (hrest : restOk rest = true) : parse (e.toString ++ rest) = .ok e := by
  obtain ⟨n, hn⟩ := parseExpression_toString e hwf rest hrest
  have hnew : Tokenizer.new (e.toString ++ rest) = ⟨e.toString ++ rest⟩ := by
    simp [Tokenizer.new, skipWhitespace_toString_append e hwf rest]
  have hne : (Tokenizer.new (e.toString ++ rest)).rest ≠ [] := by
    rw [hnew]
    obtain ⟨c, cs, hc, _⟩ := toString_head e hwf
    simp [hc]
  rw [← hnew] at hn
  exact parse_eq_of_parseExpression hne hn

theorem parse_toString (e : SExpr) (hwf : e.wellFormed = true) :
    parse e.toString = .ok e := by
  have := parse_toString_append e hwf [] rfl
  simpa using this

/-! ## Round trips of the knowledge model -/

/-- C1: for every Triple `t` whose `tripleType` is `"ct-triple"` or `"meta-triple"`,
whose subject and predicate are atoms (non-empty, no whitespace or bracket characters)
and whose object is either such an atom with `objectIsExpression = false` or the
canonical rendering of a list expression (a list of expressions whose atoms are such
atoms) with `objectIsExpression = true`, `KnowledgeIO::parseTriple(t.toString())`
returns a Triple equal to `t` in all five fields. -/
theorem C1_parseTriple_toString (t : Triple)
    (htype : t.tripleType = "ct-triple".toList ∨ t.tripleType = "meta-triple".toList)
    (hs : isAtomText t.subject = true) (hp : isAtomText t.predicate = true)
    (hobj : (t.objectIsExpression = false ∧ isAtomText t.object = true) ∨
      (t.objectIsExpression = true ∧
        ∃ l, SExpr.wellFormedList l = true ∧ t.object = (SExpr.list l).toString)) :
    parseTriple t.toString = some t := by
  obtain ⟨subject, predicate, object, tripleType, objectIsExpression⟩ := t
  simp only at htype hs hp hobj
  have htt : isAtomText tripleType = true := by
    rcases htype with h | h <;> subst h <;> decide
  have htt2 : (decide (tripleType ≠ "ct-triple".toList)
      && decide (tripleType ≠ "meta-triple".toList)) = false := by
    rcases htype with h | h <;> subst h <;> decide
  rcases hobj with ⟨hflag, hatom⟩ | ⟨hflag, l, hl, hobject⟩
  · subst hflag
    have hrender : Triple.toString
        { subject := subject, predicate := predicate, object := object,
          tripleType := tripleType, objectIsExpression := false }
        = (SExpr.list [SExpr.atom tripleType, SExpr.atom subject, SExpr.atom predicate,
            SExpr.atom object]).toString := by
      simp [Triple.toString, SExpr.toString, SExpr.toStringItems]
    have hwf : (SExpr.list [SExpr.atom tripleType, SExpr.atom subject, SExpr.atom predicate,
        SExpr.atom object]).wellFormed = true := by
      simp only [SExpr.wellFormed, SExpr.wellFormedList, htt, hs, hp, hatom, Bool.and_self]
    rw [parseTriple, hrender, parse_toString _ hwf]
    simp only [parseTripleFromExpr, SExpr.getSymbol, htt2, Bool.false_eq_true, if_false]
  · subst hflag
    subst hobject
    have hrender : Triple.toString
        { subject := subject, predicate := predicate, object := (SExpr.list l).toString,
          tripleType := tripleType, objectIsExpression := true }
        = (SExpr.list [SExpr.atom tripleType, SExpr.atom subject, SExpr.atom predicate,
            SExpr.list l]).toString := by
      simp [Triple.toString, SExpr.toString, SExpr.toStringItems]
    have hwf : (SExpr.list [SExpr.atom tripleType, SExpr.atom subject, SExpr.atom predicate,
        SExpr.list l]).wellFormed = true := by
      simp only [SExpr.wellFormed, SExpr.wellFormedList, htt, hs, hp, hl, Bool.and_self]
    rw [parseTriple, hrender, parse_toString _ hwf]
    simp only [parseTripleFromExpr, SExpr.getSymbol, htt2, Bool.false_eq_true, if_false]

theorem C1_parseTriple_toString_witness :
    parseTriple (Triple.toString
      { subject := "soa_ep15kiam".toList, predicate := "soaHas_amount".toList,
        object := "(15000USD)".toList, tripleType := "ct-triple".toList,
        objectIsExpression := true })
    = some { subject := "soa_ep15kiam".toList, predicate := "soaHas_amount".toList,
             object := "(15000USD)".toList, tripleType := "ct-triple".toList,
             objectIsExpression := true } :=
  C1_parseTriple_toString _ (Or.inl rfl) (by decide) (by decide)
    (Or.inr ⟨rfl, [SExpr.atom "15000USD".toList], by decide, by decide⟩)

/-- C3: for every Negation `n` whose name and negatedEntity are atoms,
`SExprParser::parse(n.toString())` succeeds and `KnowledgeIO::parseNegation` of the
parsed expression returns a Negation equal to `n`. -/
theorem C3_parseNegation_toString (n : Negation)
    (hname : isAtomText n.name = true) (hneg : isAtomText n.negatedEntity = true) :
    ∃ e, parse n.toString = .ok e ∧ parseNegation e = some n := by
  obtain ⟨name, negatedEntity⟩ := n
  simp only at hname hneg
  refine ⟨SExpr.list [SExpr.atom "ct-simple-not".toList, SExpr.atom name,
    SExpr.atom negatedEntity], ?_, ?_⟩
  · have hne : name.isEmpty = false := by
      cases name with
      | nil => simp [isAtomText] at hname
      | cons c cs => rfl
    have hrender : Negation.toString { name := name, negatedEntity := negatedEntity }
        = (SExpr.list [SExpr.atom "ct-simple-not".toList, SExpr.atom name,
            SExpr.atom negatedEntity]).toString
          ++ ("\n(ct-triple ".toList ++ name ++ " type rexist)".toList) := by
      simp [Negation.toString, SExpr.toString, SExpr.toStringItems, hne]
    rw [hrender]
    apply parse_toString_append
    · have h0 : isAtomText "ct-simple-not".toList = true := by decide
      simp only [SExpr.wellFormed, SExpr.wellFormedList, h0, hname, hneg, Bool.and_self]
    · rfl
  · simp [parseNegation, SExpr.getSymbol]

theorem C3_parseNegation_toString_witness :
    ∃ e, parse (Negation.toString
          { name := "soa_enmam".toList, negatedEntity := "soa_emam".toList }) = .ok e ∧
      parseNegation e
        = some { name := "soa_enmam".toList, negatedEntity := "soa_emam".toList } :=
  C3_parseNegation_toString _ (by decide) (by decide)

theorem joinedOperands_eq_toStringItems (ops : List Str) :
    joinedOperands ops = SExpr.toStringItems (ops.map SExpr.atom) := by
  induction ops with
  | nil => rfl
  | cons o os ih =>
    cases os with
    | nil => simp [joinedOperands, SExpr.toStringItems, SExpr.toString]
    | cons o2 os2 =>
      simp only [joinedOperands, List.map_cons, SExpr.toStringItems, SExpr.toString]
      rw [ih]
      simp [SExpr.toStringItems]

theorem wellFormedList_atoms (ops : List Str) (h : ∀ o ∈ ops, isAtomText o = true) :
    SExpr.wellFormedList (ops.map SExpr.atom) = true := by
  induction ops with
  | nil => rfl
  | cons o os ih =>
    simp only [List.map_cons, SExpr.wellFormedList, SExpr.wellFormed, Bool.and_eq_true]
    exact ⟨h o (List.mem_cons_self _ _), ih (fun x hx => h x (List.mem_cons_of_mem _ hx))⟩

theorem symbolsOf_atoms (ops : List Str) : symbolsOf (ops.map SExpr.atom) = ops := by
  induction ops with
  | nil => rfl
  | cons o os ih =>
    simp only [symbolsOf, List.map_cons, List.filterMap_cons, SExpr.getSymbol] at ih ⊢
    rw [ih]

/-- The expression that `LogicalExpression::toString` renders for an AND, OR or NOT
variant headed by the operator atom `op`. -/
theorem logical_render (op name : Str) (ops : List Str) :
    "(= (".toList ++ op ++ " ".toList ++ name ++ ")".toList
      ++ (if !ops.isEmpty then " (".toList ++ joinedOperands ops ++ ")".toList else [])
      ++ ")".toList
    = (SExpr.list ([SExpr.atom "=".toList, SExpr.list [SExpr.atom op, SExpr.atom name]]
        ++ (if ops.isEmpty then [] else [SExpr.list (ops.map SExpr.atom)]))).toString := by
  cases ops with
  | nil => simp [SExpr.toString, SExpr.toStringItems]
  | cons o os =>
    simp [SExpr.toString, SExpr.toStringItems, joinedOperands_eq_toStringItems]

/-- C2 as stated fails. A NOT variant is rendered with the head `ct-not`, which the
parser reads as a general equality: the result is the EQUAL variant named `ct-not`
whose operands start with the original name. An EQUAL variant named `foo` with
operands `a b` is rendered as `(= (foo) (b))`, which is read back without a name and
with the single operand `b`, whatever the indeterminate initial `type` is. -/
theorem C2_counterexample :
    (∃ e, parse (LogicalExpression.toString
            { type := .NOT, name := ['n'], operands := [['a']] }) = .ok e ∧
      ∀ u, parseLogicalExpression u e
        = some { type := .EQUAL, name := "ct-not".toList, operands := [['n'], ['a']] }) ∧
    (∃ e, parse (LogicalExpression.toString
            { type := .EQUAL, name := "foo".toList, operands := [['a'], ['b']] }) = .ok e ∧
      ∀ u, parseLogicalExpression u e
        = some { type := u, name := [], operands := [['b']] }) := by
  refine ⟨⟨SExpr.list [SExpr.atom "=".toList,
      SExpr.list [SExpr.atom "ct-not".toList, SExpr.atom ['n']],
      SExpr.list [SExpr.atom ['a']]], ?_, ?_⟩,
    ⟨SExpr.list [SExpr.atom "=".toList, SExpr.list [SExpr.atom "foo".toList],
      SExpr.list [SExpr.atom ['b']]], ?_, ?_⟩⟩
  · exact parse_toString (SExpr.list [SExpr.atom "=".toList,
      SExpr.list [SExpr.atom "ct-not".toList, SExpr.atom ['n']],
      SExpr.list [SExpr.atom ['a']]]) (by decide)
  · intro u; rfl
  · exact parse_toString (SExpr.list [SExpr.atom "=".toList,
      SExpr.list [SExpr.atom "foo".toList], SExpr.list [SExpr.atom ['b']]]) (by decide)
  · intro u; rfl

theorem logical_wellFormed (op name : Str) (ops : List Str)
    (hop : isAtomText op = true) (hname : isAtomText name = true)
    (hops : ∀ o ∈ ops, isAtomText o = true) :
    (SExpr.list ([SExpr.atom "=".toList, SExpr.list [SExpr.atom op, SExpr.atom name]]
        ++ (if ops.isEmpty then [] else [SExpr.list (ops.map SExpr.atom)]))).wellFormed
      = true := by
  have heq : isAtomText "=".toList = true := by decide
  have hwfops := wellFormedList_atoms ops hops
  cases ops with
  | nil =>
    simp only [List.isEmpty_nil, if_true, List.append_nil, SExpr.wellFormed,
      SExpr.wellFormedList, heq, hop, hname, Bool.and_self]
  | cons o os =>
    simp only [List.isEmpty_cons, Bool.false_eq_true, if_false, List.cons_append,
      List.nil_append, SExpr.wellFormed, SExpr.wellFormedList, heq, hop, hname,
      Bool.true_and, Bool.and_true]
    simpa only [List.map_cons, SExpr.wellFormedList, SExpr.wellFormed] using hwfops

theorem parseLogicalExpression_and (uninit : LogicalExpressionType) (name : Str)
    (ops : List Str) :
    parseLogicalExpression uninit
      (SExpr.list ([SExpr.atom "=".toList,
        SExpr.list [SExpr.atom "ct-and".toList, SExpr.atom name]]
        ++ (if ops.isEmpty then [] else [SExpr.list (ops.map SExpr.atom)])))
      = some { type := .AND, name := name, operands := ops } := by
  cases ops with
  | nil => rfl
  | cons o os =>
    have hsym := symbolsOf_atoms (o :: os)
    simp only [List.map_cons] at hsym
    simp [parseLogicalExpression, parseLogicalHeader, parseLogicalOperands, SExpr.getSymbol,
      hsym]

theorem parseLogicalExpression_or (uninit : LogicalExpressionType) (name : Str)
    (ops : List Str) :
    parseLogicalExpression uninit
      (SExpr.list ([SExpr.atom "=".toList,
        SExpr.list [SExpr.atom "ct-or".toList, SExpr.atom name]]
        ++ (if ops.isEmpty then [] else [SExpr.list (ops.map SExpr.atom)])))
      = some { type := .OR, name := name, operands := ops } := by
  cases ops with
  | nil => rfl
  | cons o os =>
    have hsym := symbolsOf_atoms (o :: os)
    simp only [List.map_cons] at hsym
    simp [parseLogicalExpression, parseLogicalHeader, parseLogicalOperands, SExpr.getSymbol,
      hsym]

/-- C2 (amended): for every LogicalExpression `x` of the variant AND or OR whose name
and operands are atoms, `SExprParser::parse(x.toString())` succeeds and
`KnowledgeIO::parseLogicalExpression` of the parsed expression returns a
LogicalExpression with the same variant, name and operand sequence as `x`. -/
theorem C2_parseLogicalExpression_toString_and_or (x : LogicalExpression)
    (htype : x.type = .AND ∨ x.type = .OR)
    (hname : isAtomText x.name = true) (hops : ∀ o ∈ x.operands, isAtomText o = true)
    (uninit : LogicalExpressionType) :
    ∃ e, parse x.toString = .ok e ∧ parseLogicalExpression uninit e = some x := by
  obtain ⟨type, name, ops⟩ := x
  simp only at htype hname hops
  rcases htype with h | h
  · subst h
    refine ⟨_, ?_, parseLogicalExpression_and uninit name ops⟩
    have hrender : LogicalExpression.toString { type := .AND, name := name, operands := ops }
        = (SExpr.list ([SExpr.atom "=".toList,
            SExpr.list [SExpr.atom "ct-and".toList, SExpr.atom name]]
            ++ (if ops.isEmpty then [] else [SExpr.list (ops.map SExpr.atom)]))).toString := by
      rw [← logical_render]
      simp [LogicalExpression.toString]
    rw [hrender]
    exact parse_toString _ (logical_wellFormed _ name ops (by decide) hname hops)
  · subst h
    refine ⟨_, ?_, parseLogicalExpression_or uninit name ops⟩
    have hrender : LogicalExpression.toString { type := .OR, name := name, operands := ops }
        = (SExpr.list ([SExpr.atom "=".toList,
            SExpr.list [SExpr.atom "ct-or".toList, SExpr.atom name]]
            ++ (if ops.isEmpty then [] else [SExpr.list (ops.map SExpr.atom)]))).toString := by
      rw [← logical_render]
      simp [LogicalExpression.toString]
    rw [hrender]
    exact parse_toString _ (logical_wellFormed _ name ops (by decide) hname hops)

theorem C2_parseLogicalExpression_toString_and_or_witness :
    ∃ e, parse (LogicalExpression.toString
          { type := .OR, name := "soa_eo".toList,
            operands := ["soa_elam".toList, "soa_ea".toList] }) = .ok e ∧
      parseLogicalExpression .NOT e
        = some { type := .OR, name := "soa_eo".toList,
                 operands := ["soa_elam".toList, "soa_ea".toList] } :=
  C2_parseLogicalExpression_toString_and_or _ (Or.inr rfl) (by decide) (by decide) .NOT

/-! ## Malformed input -/

theorem tokens_fuel (n : Nat) : ∀ (m : Nat) (t : Tokenizer),
    t.rest.length ≤ n → t.rest.length ≤ m → tokens n t = tokens m t := by
  induction n with
  | zero =>
    intro m t hn _
    have hnil : t.rest = [] := List.length_eq_zero.mp (Nat.le_zero.mp hn)
    have hno : t.hasNext = false := by
      obtain ⟨r⟩ := t
      simp only at hnil
      subst hnil
      rfl
    cases m with
    | zero => rfl
    | succ m => simp [tokens, hno]
  | succ n ih =>
    intro m t hn hm
    cases m with
    | zero =>
      have hnil : t.rest = [] := List.length_eq_zero.mp (Nat.le_zero.mp hm)
      have hno : t.hasNext = false := by
        obtain ⟨r⟩ := t
        simp only at hnil
        subst hnil
        rfl
      simp [tokens, hno]
    | succ m =>
      simp only [tokens]
      by_cases hnext : t.hasNext = true
      · have hlt := t.consume_length_lt ((Tokenizer.hasNext_iff t).mp hnext)
        simp only [hnext, if_true]
        rw [ih m t.consume (by omega) (by omega)]
      · simp [hnext]

theorem tokens_unfold (t : Tokenizer) (h : t.hasNext = true) :
    tokens t.rest.length t = t.peek :: tokens t.consume.rest.length t.consume := by
  have hne := (Tokenizer.hasNext_iff t).mp h
  have hlt := t.consume_length_lt hne
  obtain ⟨k, hk⟩ : ∃ k, t.rest.length = k + 1 :=
    ⟨t.rest.length - 1, by have := List.length_pos.mpr hne; omega⟩
  rw [hk]
  simp only [tokens, h, if_true]
  rw [tokens_fuel k t.consume.rest.length t.consume (by omega) (Nat.le_refl _)]

/-- What `scanFirst` has left to do once one more expression is complete. -/
theorem scan_step_atom (tok : Str) (rest expected : List Str)
    (h1 : tok ≠ sOpenParen) (h2 : tok ≠ sOpenSquare) (h3 : tok ≠ sCloseParen)
    (h4 : tok ≠ sCloseSquare) :
    scanFirst (tok :: rest) expected =
      if expected.isEmpty then .complete else scanFirst rest expected := by
  simp [scanFirst, h1, h2, h3, h4]

theorem scan_step_close (close : Str) (rest outer : List Str)
    (hclose : close = sCloseParen ∨ close = sCloseSquare) :
    scanFirst (close :: rest) (close :: outer) =
      if outer.isEmpty then .complete else scanFirst rest outer := by
  rcases hclose with h | h <;> subst h <;> simp [scanFirst, sCloseParen, sCloseSquare,
    sOpenParen, sOpenSquare]

theorem parser_scan (n : Nat) :
    (∀ t e t1, parseExpression n t = .ok (e, t1) → ∀ expected,
      scanFirst (tokens t.rest.length t) expected =
        if expected.isEmpty then .complete
        else scanFirst (tokens t1.rest.length t1) expected) ∧
    (∀ t e t1, parseList n t = .ok (e, t1) → ∀ expected,
      scanFirst (tokens t.rest.length t) expected =
        if expected.isEmpty then .complete
        else scanFirst (tokens t1.rest.length t1) expected) ∧
    (∀ close t acc e t1, (close = sCloseParen ∨ close = sCloseSquare) →
      parseListLoop n close t acc = .ok (e, t1) → ∀ outer,
      scanFirst (tokens t.rest.length t) (close :: outer) =
        if outer.isEmpty then .complete
        else scanFirst (tokens t1.rest.length t1) outer) := by
  induction n with
  | zero =>
    refine ⟨?_, ?_, ?_⟩
    · intro t e t1 h; simp [parseExpression] at h
    · intro t e t1 h; simp [parseList] at h
    · intro close t acc e t1 _ h; simp [parseListLoop] at h
  | succ n ih =>
    obtain ⟨ihE, ihL, ihLoop⟩ := ih
    refine ⟨?_, ?_, ?_⟩
    · intro t e t1 h expected
      rw [parseExpression_succ] at h
      split at h
      · simp at h
      · rename_i hn
        have hnext : t.hasNext = true := by simpa using hn
        split at h
        · exact ihL t e t1 h expected
        · rename_i hopen
          split at h
          · simp at h
          · rename_i hclose
            simp only [Except.ok.injEq, Prod.mk.injEq] at h
            rw [tokens_unfold t hnext, ← h.2]
            simp only [Bool.or_eq_true, decide_eq_true_eq, not_or] at hopen hclose
            exact scan_step_atom _ _ _ hopen.1 hopen.2 hclose.1 hclose.2
    · intro t e t1 h expected
      rw [parseList_succ] at h
      split at h
      · simp at h
      · rename_i hopen
        by_cases hnext : t.hasNext = true
        · rw [tokens_unfold t hnext]
          simp only [Tokenizer.next] at h hopen
          by_cases hp : t.peek = sOpenParen
          · simp only [hp, if_true] at h
            have := ihLoop sCloseParen t.consume [] e t1 (Or.inl rfl) h expected
            rw [hp]
            simpa [scanFirst] using this
          · have hs : t.peek = sOpenSquare := by
              by_contra hcon
              simp [hp, hcon] at hopen
            simp only [hp, if_false] at h
            have := ihLoop sCloseSquare t.consume [] e t1 (Or.inr rfl) h expected
            rw [hs]
            simpa [scanFirst, sOpenSquare, sOpenParen] using this
        · exfalso
          apply hopen
          obtain ⟨r⟩ := t
          cases r with
          | nil => decide
          | cons c cs => simp [Tokenizer.hasNext] at hnext
    · intro close t acc e t1 hclose h outer
      rw [parseListLoop_succ] at h
      split at h
      · rename_i hcond
        simp only [Bool.and_eq_true, decide_eq_true_eq] at hcond
        cases hpe : parseExpression n t with
        | error err => rw [hpe] at h; simp at h
        | ok r =>
          obtain ⟨e2, t2⟩ := r
          rw [hpe] at h
          simp only at h
          have h1 := ihE t e2 t2 hpe (close :: outer)
          have h2 := ihLoop close t2 _ e t1 hclose h outer
          rw [h1]
          simpa using h2
      · split at h
        · simp at h
        · rename_i hc2
          simp only [Bool.or_eq_true, Bool.not_eq_true', decide_eq_true_eq, not_or,
            Bool.not_eq_false, ne_eq, not_not, Tokenizer.next] at hc2
          simp only [Except.ok.injEq, Prod.mk.injEq, Tokenizer.next] at h
          rw [tokens_unfold t hc2.1, hc2.2, ← h.2]
          exact scan_step_close close _ outer hclose

/-- If `parse` returns a tree, the brackets of the first expression are complete. -/
theorem scanFirst_complete_of_parse {input : Str} {e : SExpr} (h : parse input = .ok e) :
    scanFirst (tokenize input) [] = .complete := by
  unfold parse at h
  simp only at h
  split at h
  · simp at h
  · cases hpe : parseExpression (parseFuel input) (Tokenizer.new input) with
    | error err => rw [hpe] at h; simp at h
    | ok r =>
      obtain ⟨e2, t2⟩ := r
      have := (parser_scan _).1 _ e2 t2 hpe []
      simpa [tokenize] using this

/-- `parse` either returns a tree or raises a `std::runtime_error`. -/
theorem parse_settled (input : Str) :
    (∃ e, parse input = .ok e) ∨ (∃ msg, parse input = .error (.runtimeError msg)) := by
  unfold parse
  simp only
  split
  · exact Or.inr ⟨_, rfl⟩
  · have hs := parseExpression_parseFuel_settled input
    cases hpe : parseExpression (parseFuel input) (Tokenizer.new input) with
    | error err =>
      rw [hpe] at hs
      cases err with
      | runtimeError m => exact Or.inr ⟨m, rfl⟩
      | outOfFuel => exact absurd rfl hs
    | ok r =>
      obtain ⟨e2, t2⟩ := r
      exact Or.inl ⟨e2, rfl⟩

theorem parse_fails_of_scan {input : Str} (h : scanFirst (tokenize input) [] ≠ .complete) :
    ∃ msg, parse input = .error (.runtimeError msg) := by
  rcases parse_settled input with ⟨e, he⟩ | hfail
  · exact absurd (scanFirst_complete_of_parse he) h
  · exact hfail

theorem skipWhitespace_all_space (input : Str) (h : ∀ c ∈ input, isspace c = true) :
    skipWhitespace input = [] := by
  induction input with
  | nil => rfl
  | cons c cs ih =>
    have hc := h c (List.mem_cons_self _ _)
    simp only [skipWhitespace, List.dropWhile_cons, hc, if_true]
    exact ih (fun x hx => h x (List.mem_cons_of_mem _ hx))

/-- C10: `SExprParser::parse` raises a `std::runtime_error` (and yields no tree) for
every text that is empty or whitespace-only, for every text that ends before the lists
opened in its first expression are closed, for every text whose first token is a
closing bracket, and for every text in which a list of the first expression opened by
`(` meets `]` (or one opened by `[` meets `)`) where its closing bracket is expected. -/
theorem C10_parse_fails_on_malformed (input : Str) :
    ((∀ c ∈ input, isspace c = true) →
      parse input = .error (.runtimeError "Empty input".toList)) ∧
    (scanFirst (tokenize input) [] = .truncated →
      ∃ msg, parse input = .error (.runtimeError msg)) ∧
    (((tokenize input).head? = some sCloseParen ∨ (tokenize input).head? = some sCloseSquare) →
      ∃ msg, parse input = .error (.runtimeError msg)) ∧
    (scanFirst (tokenize input) [] = .mismatched →
      ∃ msg, parse input = .error (.runtimeError msg)) := by
  refine ⟨?_, ?_, ?_, ?_⟩
  · intro h
    have hnil := skipWhitespace_all_space input h
    simp [parse, Tokenizer.new, hnil, Tokenizer.hasNext]
  · intro h
    exact parse_fails_of_scan (by rw [h]; decide)
  · intro h
    apply parse_fails_of_scan
    cases htok : tokenize input with
    | nil => rw [htok] at h; simp at h
    | cons tok rest =>
      rw [htok] at h
      simp only [List.head?_cons, Option.some.injEq] at h
      rcases h with h | h <;> subst h <;>
        simp [scanFirst, sCloseParen, sCloseSquare, sOpenParen, sOpenSquare]
  · intro h
    exact parse_fails_of_scan (by rw [h]; decide)

theorem C10_parse_fails_on_malformed_witness :
    parse "  \n\t ".toList = .error (.runtimeError "Empty input".toList) ∧
    scanFirst (tokenize "(a (b c)".toList) [] = .truncated ∧
    (∃ msg, parse "(a (b c)".toList = .error (.runtimeError msg)) ∧
    (tokenize ") a".toList).head? = some sCloseParen ∧
    (∃ msg, parse ") a".toList = .error (.runtimeError msg)) ∧
    scanFirst (tokenize "(a [b c) d]".toList) [] = .mismatched ∧
    (∃ msg, parse "(a [b c) d]".toList = .error (.runtimeError msg)) :=
  ⟨(C10_parse_fails_on_malformed "  \n\t ".toList).1 (by decide),
   by decide,
   (C10_parse_fails_on_malformed "(a (b c)".toList).2.1 (by decide),
   by decide,
   (C10_parse_fails_on_malformed ") a".toList).2.2.1 (Or.inl (by decide)),
   by decide,
   (C10_parse_fails_on_malformed "(a [b c) d]".toList).2.2.2 (by decide)⟩

/-! ## What the reader returns is well formed -/

theorem headNonSpace_skipWhitespace (s : Str) : headNonSpace (skipWhitespace s) = true := by
  induction s with
  | nil => rfl
  | cons c cs ih =>
    simp only [skipWhitespace, List.dropWhile_cons]
    by_cases hc : isspace c = true
    · simp only [hc, if_true]
      exact ih
    · simp only [hc, Bool.false_eq_true, if_false]
      simp [headNonSpace, hc]

theorem headNonSpace_new (input : Str) : headNonSpace (Tokenizer.new input).rest = true :=
  headNonSpace_skipWhitespace input

theorem headNonSpace_consume (t : Tokenizer) (h : headNonSpace t.rest = true) :
    headNonSpace t.consume.rest = true := by
  obtain ⟨r⟩ := t
  cases r with
  | nil => exact h
  | cons c cs =>
    simp only [Tokenizer.consume]
    split <;> exact headNonSpace_skipWhitespace _

theorem takeWhile_all {p : Char → Bool} (s : Str) : ∀ c ∈ s.takeWhile p, p c = true := by
  induction s with
  | nil => simp
  | cons x xs ih =>
    intro c hc
    simp only [List.takeWhile_cons] at hc
    split at hc
    · rename_i hx
      rcases List.mem_cons.mp hc with h | h
      · rw [h]; exact hx
      · exact ih c h
    · simp at hc

theorem isAtomText_peek (t : Tokenizer) (h : headNonSpace t.rest = true)
    (hne : t.rest ≠ []) (h1 : t.peek ≠ sOpenParen) (h2 : t.peek ≠ sOpenSquare)
    (h3 : t.peek ≠ sCloseParen) (h4 : t.peek ≠ sCloseSquare) :
    isAtomText t.peek = true := by
  obtain ⟨r⟩ := t
  cases r with
  | nil => exact absurd rfl hne
  | cons c cs =>
    simp only [Tokenizer.peek] at h1 h2 h3 h4 ⊢
    have hs : isspace c = false := by simpa [headNonSpace] using h
    by_cases hb : isBracket c = true
    · exfalso
      simp only [hb, if_true, sOpenParen, sOpenSquare, sCloseParen, sCloseSquare,
        List.cons.injEq, and_true] at h1 h2 h3 h4
      simp only [isBracket, Bool.or_eq_true, beq_iff_eq] at hb
      tauto
    · have hd : isDelimiter c = false := by
        by_contra hcon
        rcases isDelimiter_cases (by simpa using hcon) with h5 | h5
        · exact hb h5
        · rw [hs] at h5; exact absurd h5 (by decide)
      simp only [hb, Bool.false_eq_true, if_false]
      rw [isAtomText_iff]
      constructor
      · simp [List.takeWhile_cons, hd]
      · intro x hx
        have := takeWhile_all (p := fun x => !isDelimiter x) (c :: cs) x hx
        simpa using this

theorem wellFormedList_append (l1 l2 : List SExpr) :
    SExpr.wellFormedList (l1 ++ l2)
      = (SExpr.wellFormedList l1 && SExpr.wellFormedList l2) := by
  induction l1 with
  | nil => simp [SExpr.wellFormedList]
  | cons e es ih => simp [SExpr.wellFormedList, ih, Bool.and_assoc]

theorem wellFormedList_iff (l : List SExpr) :
    SExpr.wellFormedList l = true ↔ ∀ e ∈ l, e.wellFormed = true := by
  induction l with
  | nil => simp [SExpr.wellFormedList]
  | cons e es ih => simp [SExpr.wellFormedList, ih]

theorem parser_wellFormed (n : Nat) :
    (∀ t e t1, headNonSpace t.rest = true → parseExpression n t = .ok (e, t1) →
      e.wellFormed = true ∧ headNonSpace t1.rest = true) ∧
    (∀ t e t1, headNonSpace t.rest = true → parseList n t = .ok (e, t1) →
      e.wellFormed = true ∧ headNonSpace t1.rest = true) ∧
    (∀ close t acc e t1, headNonSpace t.rest = true → SExpr.wellFormedList acc = true →
      parseListLoop n close t acc = .ok (e, t1) →
      e.wellFormed = true ∧ headNonSpace t1.rest = true) := by
  induction n with
  | zero =>
    refine ⟨?_, ?_, ?_⟩
    · intro t e t1 _ h; simp [parseExpression] at h
    · intro t e t1 _ h; simp [parseList] at h
    · intro close t acc e t1 _ _ h; simp [parseListLoop] at h
  | succ n ih =>
    obtain ⟨ihE, ihL, ihLoop⟩ := ih
    refine ⟨?_, ?_, ?_⟩
    · intro t e t1 hinv h
      rw [parseExpression_succ] at h
      split at h
      · simp at h
      · rename_i hn
        have hne : t.rest ≠ [] := by
          have : t.hasNext = true := by simpa using hn
          exact (Tokenizer.hasNext_iff t).mp this
        split at h
        · exact ihL t e t1 hinv h
        · rename_i hopen
          split at h
          · simp at h
          · rename_i hclose
            simp only [Except.ok.injEq, Prod.mk.injEq] at h
            simp only [Bool.or_eq_true, decide_eq_true_eq, not_or] at hopen hclose
            rw [← h.1, ← h.2]
            exact ⟨isAtomText_peek t hinv hne hopen.1 hopen.2 hclose.1 hclose.2,
              headNonSpace_consume t hinv⟩
    · intro t e t1 hinv h
      rw [parseList_succ] at h
      split at h
      · simp at h
      · exact ihLoop _ _ [] e t1 (headNonSpace_consume t hinv) rfl h
    · intro close t acc e t1 hinv hacc h
      rw [parseListLoop_succ] at h
      split at h
      · cases hpe : parseExpression n t with
        | error err => rw [hpe] at h; simp at h
        | ok r =>
          obtain ⟨e2, t2⟩ := r
          rw [hpe] at h
          simp only at h
          obtain ⟨hwf2, hinv2⟩ := ihE t e2 t2 hinv hpe
          refine ihLoop close t2 (acc ++ [e2]) e t1 hinv2 ?_ h
          rw [wellFormedList_append]
          simp [hacc, SExpr.wellFormedList, hwf2]
      · split at h
        · simp at h
        · simp only [Except.ok.injEq, Prod.mk.injEq, Tokenizer.next] at h
          rw [← h.1, ← h.2]
          exact ⟨hacc, headNonSpace_consume t hinv⟩

theorem parse_wellFormed {input : Str} {e : SExpr} (h : parse input = .ok e) :
    e.wellFormed = true := by
  unfold parse at h
  simp only at h
  split at h
  · simp at h
  · cases hpe : parseExpression (parseFuel input) (Tokenizer.new input) with
    | error err => rw [hpe] at h; simp at h
    | ok r =>
      obtain ⟨e2, t2⟩ := r
      rw [hpe] at h
      simp only [Except.ok.injEq] at h
      rw [← h]
      exact ((parser_wellFormed _).1 _ e2 t2 (headNonSpace_new input) hpe).1

theorem parseMultipleLoop_succ (n : Nat) (t : Tokenizer) (results : List SExpr) :
    parseMultipleLoop (n + 1) t results =
      if t.hasNext then
        match parseExpression n t with
        | .error e => .error e
        | .ok (e, t1) => parseMultipleLoop n t1 (results ++ [e])
      else
        .ok results := by
  rw [parseMultipleLoop]

theorem parseMultipleLoop_wellFormed (n : Nat) : ∀ (t : Tokenizer) (acc es : List SExpr),
    headNonSpace t.rest = true → (∀ e ∈ acc, e.wellFormed = true) →
    parseMultipleLoop n t acc = .ok es → ∀ e ∈ es, e.wellFormed = true := by
  induction n with
  | zero => intro t acc es _ _ h; simp [parseMultipleLoop] at h
  | succ n ih =>
    intro t acc es hinv hacc h
    rw [parseMultipleLoop_succ] at h
    split at h
    · cases hpe : parseExpression n t with
      | error err => rw [hpe] at h; simp at h
      | ok r =>
        obtain ⟨e2, t2⟩ := r
        rw [hpe] at h
        simp only at h
        obtain ⟨hwf2, hinv2⟩ := (parser_wellFormed n).1 t e2 t2 hinv hpe
        refine ih t2 (acc ++ [e2]) es hinv2 ?_ h
        intro x hx
        rcases List.mem_append.mp hx with hx | hx
        · exact hacc x hx
        · simp only [List.mem_singleton] at hx
          rw [hx]; exact hwf2
    · simp only [Except.ok.injEq] at h
      rw [← h]
      exact hacc

theorem parseMultiple_wellFormed {input : Str} {es : List SExpr}
    (h : parseMultiple input = .ok es) : ∀ e ∈ es, e.wellFormed = true :=
  parseMultipleLoop_wellFormed _ _ [] es (headNonSpace_new input) (by simp) h

/-! ## The documents that the extraction returns -/

theorem parseTripleFromExpr_ok {e : SExpr} {t : Triple} (hwf : e.wellFormed = true)
    (h : parseTripleFromExpr e = some t) : TripleOk t := by
  cases e with
  | atom a => simp [parseTripleFromExpr] at h
  | list l =>
    match l, hwf, h with
    | [e0, e1, e2, e3], hwf, h =>
      simp only [SExpr.wellFormed, SExpr.wellFormedList, Bool.and_eq_true, and_true] at hwf
      obtain ⟨_, hw1, hw2, hw3⟩ := hwf
      cases e0 with
      | list l0 => simp [parseTripleFromExpr, SExpr.getSymbol] at h
      | atom tt =>
        cases e1 with
        | list l1 =>
          simp only [parseTripleFromExpr, SExpr.getSymbol] at h
          split at h <;> simp at h
        | atom subject =>
          cases e2 with
          | list l2 =>
            simp only [parseTripleFromExpr, SExpr.getSymbol] at h
            split at h <;> simp at h
          | atom predicate =>
            simp only [parseTripleFromExpr, SExpr.getSymbol] at h
            split at h
            · simp at h
            · rename_i htt
              have htt2 : tt = "ct-triple".toList ∨ tt = "meta-triple".toList := by
                simp only [Bool.and_eq_true, decide_eq_true_eq, ne_eq, not_and, not_not] at htt
                by_cases h1 : tt = "ct-triple".toList
                · exact Or.inl h1
                · exact Or.inr (htt h1)
              simp only [SExpr.wellFormed] at hw1 hw2
              cases e3 with
              | atom a =>
                simp only [Option.some.injEq] at h
                subst h
                simp only [SExpr.wellFormed] at hw3
                exact ⟨htt2, hw1, hw2, Or.inl ⟨rfl, hw3⟩⟩
              | list l3 =>
                simp only [Option.some.injEq] at h
                subst h
                simp only [SExpr.wellFormed] at hw3
                exact ⟨htt2, hw1, hw2, Or.inr ⟨rfl, l3, hw3, rfl⟩⟩
    | [], _, h => simp [parseTripleFromExpr] at h
    | [_], _, h => simp [parseTripleFromExpr] at h
    | [_, _], _, h => simp [parseTripleFromExpr] at h
    | [_, _, _], _, h => simp [parseTripleFromExpr] at h
    | _ :: _ :: _ :: _ :: _ :: _, _, h => simp [parseTripleFromExpr] at h

theorem parseNegation_ok {e : SExpr} {n : Negation} (hwf : e.wellFormed = true)
    (h : parseNegation e = some n) : NegationOk n := by
  cases e with
  | atom a => simp [parseNegation] at h
  | list l =>
    match l, hwf, h with
    | [e0, e1, e2], hwf, h =>
      simp only [SExpr.wellFormed, SExpr.wellFormedList, Bool.and_eq_true, and_true] at hwf
      obtain ⟨_, hw1, hw2⟩ := hwf
      cases e0 with
      | list l0 => simp [parseNegation, SExpr.getSymbol] at h
      | atom op =>
        cases e1 with
        | list l1 =>
          simp only [parseNegation, SExpr.getSymbol] at h
          split at h <;> simp at h
        | atom name =>
          cases e2 with
          | list l2 =>
            simp only [parseNegation, SExpr.getSymbol] at h
            split at h <;> simp at h
          | atom negated =>
            simp only [parseNegation, SExpr.getSymbol] at h
            split at h
            · simp at h
            · simp only [Option.some.injEq] at h
              subst h
              simp only [SExpr.wellFormed] at hw1 hw2
              exact ⟨hw1, hw2⟩
    | [], _, h => simp [parseNegation] at h
    | [_], _, h => simp [parseNegation] at h
    | [_, _], _, h => simp [parseNegation] at h
    | _ :: _ :: _ :: _ :: _, _, h => simp [parseNegation] at h

theorem symbolsOf_ok (l : List SExpr) (hwf : SExpr.wellFormedList l = true) :
    ∀ o ∈ symbolsOf l, isAtomText o = true := by
  induction l with
  | nil => simp [symbolsOf]
  | cons e es ih =>
    simp only [SExpr.wellFormedList, Bool.and_eq_true] at hwf
    intro o ho
    cases e with
    | atom a =>
      simp only [symbolsOf, List.filterMap_cons, SExpr.getSymbol, List.mem_cons] at ho
      rcases ho with h | h
      · rw [h]; exact hwf.1
      · exact ih hwf.2 o h
    | list c =>
      simp only [symbolsOf, List.filterMap_cons, SExpr.getSymbol] at ho
      exact ih hwf.2 o ho

theorem parseLogicalHeader_ok (uninit : LogicalExpressionType) (e1 : SExpr)
    (hwf : e1.wellFormed = true) :
    LogicalOk (parseLogicalHeader { type := uninit, name := [], operands := [] } e1) := by
  have hblank : LogicalOk { type := uninit, name := [], operands := [] } :=
    ⟨Or.inl rfl, by simp⟩
  cases e1 with
  | atom a => exact hblank
  | list opList =>
    match opList, hwf with
    | [], _ => exact hblank
    | [_], _ => exact hblank
    | o0 :: o1 :: orest, hwf =>
      simp only [SExpr.wellFormed, SExpr.wellFormedList, Bool.and_eq_true] at hwf
      obtain ⟨h0, h1, _⟩ := hwf
      cases o0 with
      | list c => simpa [parseLogicalHeader, SExpr.getSymbol] using hblank
      | atom opType =>
        cases o1 with
        | list c => simpa [parseLogicalHeader, SExpr.getSymbol] using hblank
        | atom opName =>
          simp only [SExpr.wellFormed] at h0 h1
          simp only [parseLogicalHeader, List.length_cons, ge_iff_le, Nat.le_add_left,
            if_true, List.headD_cons, List.tail_cons, SExpr.getSymbol]
          split
          · exact ⟨Or.inr h1, by simp⟩
          · split
            · exact ⟨Or.inr h1, by simp⟩
            · exact ⟨Or.inr h0, by simp [h1]⟩

theorem parseLogicalOperands_ok (x : LogicalExpression) (l : List SExpr)
    (hx : LogicalOk x) (hwf : SExpr.wellFormedList l = true) :
    LogicalOk (parseLogicalOperands x l) := by
  unfold parseLogicalOperands
  split
  · match l, hwf with
    | [], _ => exact hx
    | [_], _ => exact hx
    | [_, _], _ => exact hx
    | _ :: _ :: e2 :: _, hwf =>
      simp only [SExpr.wellFormedList, Bool.and_eq_true] at hwf
      cases e2 with
      | atom a => exact hx
      | list operandList =>
        simp only [List.drop_succ_cons, List.drop_zero, List.headD_cons]
        refine ⟨hx.1, ?_⟩
        intro o ho
        rcases List.mem_append.mp ho with ho | ho
        · exact hx.2 o ho
        · exact symbolsOf_ok operandList hwf.2.2.1 o ho
  · exact hx

theorem parseLogicalExpression_ok {uninit : LogicalExpressionType} {e : SExpr}
    {x : LogicalExpression} (hwf : e.wellFormed = true)
    (h : parseLogicalExpression uninit e = some x) : LogicalOk x := by
  cases e with
  | atom a => simp [parseLogicalExpression] at h
  | list l =>
    simp only [SExpr.wellFormed] at hwf
    simp only [parseLogicalExpression] at h
    split at h
    · simp at h
    · rename_i hlen
      split at h
      · simp at h
      · split at h
        · simp at h
        · simp only [Option.some.injEq] at h
          subst h
          apply parseLogicalOperands_ok _ _ _ hwf
          apply parseLogicalHeader_ok
          match l, hwf, hlen with
          | [], _, hlen => simp at hlen
          | [_], _, hlen => simp at hlen
          | _ :: e1 :: _, hwf, _ =>
            simp only [SExpr.wellFormedList, Bool.and_eq_true] at hwf
            exact hwf.2.1

theorem mapInsert_forall {α : Type} (P : α → Prop) (key : Str) (value : α)
    (m : List (Str × α)) (hm : ∀ entry ∈ m, P entry.2) (hv : P value) :
    ∀ entry ∈ mapInsert key value m, P entry.2 := by
  induction m with
  | nil =>
    intro entry he
    simp only [mapInsert, List.mem_singleton] at he
    rw [he]; exact hv
  | cons kv rest ih =>
    obtain ⟨k, v⟩ := kv
    intro entry he
    simp only [mapInsert] at he
    split at he
    · rcases List.mem_cons.mp he with h | h
      · rw [h]; exact hv
      · exact hm entry (List.mem_cons_of_mem _ h)
    · split at he
      · rcases List.mem_cons.mp he with h | h
        · rw [h]; exact hv
        · exact hm entry h
      · rcases List.mem_cons.mp he with h | h
        · rw [h]; exact hm (k, v) (List.mem_cons_self _ _)
        · exact ih (fun x hx => hm x (List.mem_cons_of_mem _ hx)) entry h

theorem mapFind_forall {α : Type} (P : α → Prop) (key : Str) (m : List (Str × α))
    (hm : ∀ entry ∈ m, P entry.2) (v : α) (h : mapFind key m = some v) : P v := by
  induction m with
  | nil => simp [mapFind] at h
  | cons kv rest ih =>
    obtain ⟨k, w⟩ := kv
    simp only [mapFind] at h
    split at h
    · simp only [Option.some.injEq] at h
      rw [← h]
      exact hm (k, w) (List.mem_cons_self _ _)
    · exact ih (fun x hx => hm x (List.mem_cons_of_mem _ hx)) h

theorem mapUpdate_forall {α : Type} (P : α → Prop) (key : Str) (dflt : α) (f : α → α)
    (m : List (Str × α)) (hm : ∀ entry ∈ m, P entry.2)
    (hsome : (mapFind key m).isSome = true) (hf : ∀ v, P v → P (f v)) :
    ∀ entry ∈ mapUpdate key dflt f m, P entry.2 := by
  obtain ⟨v, hv⟩ := Option.isSome_iff_exists.mp hsome
  unfold mapUpdate
  apply mapInsert_forall P _ _ _ hm
  rw [hv]
  exact hf v (mapFind_forall P key m hm v hv)

theorem objectText_of_tripleOk {t : Triple} (h : TripleOk t) : ObjectText t.object := by
  obtain ⟨_, _, _, hobj⟩ := h
  rcases hobj with ⟨_, ha⟩ | ⟨_, l, hl, ho⟩
  · exact Or.inl ha
  · exact Or.inr ⟨l, hl, ho⟩

theorem addEntity_entities (soa : StateOfAffairs) (t : Triple) (ht : TripleOk t)
    (h : ∀ entry ∈ soa.entities, EntityOk entry.2) :
    ∀ entry ∈ (addEntity soa t).entities, EntityOk entry.2 := by
  unfold addEntity
  cases hpe : parseEntity t with
  | none => exact h
  | some entity =>
    simp only
    apply mapInsert_forall EntityOk _ _ _ h
    unfold parseEntity at hpe
    split at hpe
    · simp at hpe
    · split at hpe
      · simp at hpe
      · simp only [Option.some.injEq] at hpe
        rw [← hpe]
        exact ⟨ht.2.1, objectText_of_tripleOk ht, by simp⟩

theorem addEntity_other (soa : StateOfAffairs) (t : Triple) :
    (addEntity soa t).facts = soa.facts ∧ (addEntity soa t).negations = soa.negations ∧
    (addEntity soa t).logicalExpressions = soa.logicalExpressions ∧
    (addEntity soa t).description = soa.description := by
  unfold addEntity
  cases parseEntity t <;> exact ⟨rfl, rfl, rfl, rfl⟩

theorem addEventuality_other (soa : StateOfAffairs) (t : Triple) :
    (addEventuality soa t).facts = soa.facts ∧
    (addEventuality soa t).negations = soa.negations ∧
    (addEventuality soa t).logicalExpressions = soa.logicalExpressions ∧
    (addEventuality soa t).description = soa.description ∧
    (addEventuality soa t).entities = soa.entities := by
  unfold addEventuality setEventuality
  simp only
  split_ifs <;> exact ⟨rfl, rfl, rfl, rfl, rfl⟩

theorem addEntityProperty_other (soa : StateOfAffairs) (t : Triple) :
    (addEntityProperty soa t).facts = soa.facts ∧
    (addEntityProperty soa t).negations = soa.negations ∧
    (addEntityProperty soa t).logicalExpressions = soa.logicalExpressions ∧
    (addEntityProperty soa t).description = soa.description := by
  unfold addEntityProperty
  simp only
  split_ifs <;> exact ⟨rfl, rfl, rfl, rfl⟩

theorem mapInsert_properties (key value : Str) (hk : isAtomText key = true)
    (hv : ObjectText value) (m : List (Str × Str))
    (hm : ∀ kv ∈ m, isAtomText kv.1 = true ∧ ObjectText kv.2) :
    ∀ kv ∈ mapInsert key value m, isAtomText kv.1 = true ∧ ObjectText kv.2 := by
  induction m with
  | nil =>
    intro kv hkv
    simp only [mapInsert, List.mem_singleton] at hkv
    rw [hkv]
    exact ⟨hk, hv⟩
  | cons p rest ih =>
    obtain ⟨k, v⟩ := p
    intro kv hkv
    simp only [mapInsert] at hkv
    split at hkv
    · rcases List.mem_cons.mp hkv with h | h
      · rw [h]; exact ⟨hk, hv⟩
      · exact hm kv (List.mem_cons_of_mem _ h)
    · split at hkv
      · rcases List.mem_cons.mp hkv with h | h
        · rw [h]; exact ⟨hk, hv⟩
        · exact hm kv h
      · rcases List.mem_cons.mp hkv with h | h
        · rw [h]; exact hm (k, v) (List.mem_cons_self _ _)
        · exact ih (fun x hx => hm x (List.mem_cons_of_mem _ hx)) kv h

theorem addEntityProperty_entities (soa : StateOfAffairs) (t : Triple) (ht : TripleOk t)
    (h : ∀ entry ∈ soa.entities, EntityOk entry.2) :
    ∀ entry ∈ (addEntityProperty soa t).entities, EntityOk entry.2 := by
  unfold addEntityProperty
  simp only
  split_ifs with h1 h2 h3
  · exact mapUpdate_forall EntityOk t.subject { name := [], type := [] }
      (fun en =>
        { en with properties := mapInsert t.predicate t.object en.properties })
      soa.entities h h2
      (fun en hen => ⟨hen.1, hen.2.1,
        mapInsert_properties t.predicate t.object ht.2.2.1 (objectText_of_tripleOk ht)
          en.properties hen.2.2⟩)
  · exact h
  · exact h
  · exact h

theorem processTriple_ok (soa : StateOfAffairs) (t : Triple) (ht : TripleOk t)
    (h : DocumentOk soa) : DocumentOk (processTriple soa t) := by
  obtain ⟨hf, hn, hl, he⟩ := h
  unfold processTriple
  simp only
  have h1 := addEntity_other { soa with facts := soa.facts ++ [t] } t
  have h2 := addEventuality_other (addEntity { soa with facts := soa.facts ++ [t] } t) t
  have h3 := addEntityProperty_other
    (addEventuality (addEntity { soa with facts := soa.facts ++ [t] } t) t) t
  refine ⟨?_, ?_, ?_, ?_⟩
  · rw [h3.1, h2.1, h1.1]
    intro x hx
    rcases List.mem_append.mp hx with hx | hx
    · exact hf x hx
    · simp only [List.mem_singleton] at hx
      rw [hx]; exact ht
  · rw [h3.2.1, h2.2.1, h1.2.1]; exact hn
  · rw [h3.2.2.1, h2.2.2.1, h1.2.2.1]; exact hl
  · apply addEntityProperty_entities _ t ht
    rw [h2.2.2.2.2]
    exact addEntity_entities _ t ht he

theorem processTriple_facts (soa : StateOfAffairs) (t : Triple) :
    (processTriple soa t).facts = soa.facts ++ [t] ∧
    (processTriple soa t).negations = soa.negations ∧
    (processTriple soa t).description = soa.description := by
  unfold processTriple
  simp only
  have h1 := addEntity_other { soa with facts := soa.facts ++ [t] } t
  have h2 := addEventuality_other (addEntity { soa with facts := soa.facts ++ [t] } t) t
  have h3 := addEntityProperty_other
    (addEventuality (addEntity { soa with facts := soa.facts ++ [t] } t) t) t
  refine ⟨?_, ?_, ?_⟩
  · rw [h3.1, h2.1, h1.1]
  · rw [h3.2.1, h2.2.1, h1.2.1]
  · rw [h3.2.2.2, h2.2.2.2.1, h1.2.2.2]

theorem parseTripleFromExpr_head {head : SExpr} {tl : List SExpr} {t : Triple}
    (h : parseTripleFromExpr (SExpr.list (head :: tl)) = some t) :
    ∃ first, head.getSymbol = some first ∧
      (first = "ct-triple".toList ∨ first = "meta-triple".toList) := by
  match tl, h with
  | [e1, e2, e3], h =>
    simp only [parseTripleFromExpr] at h
    cases hs : head.getSymbol with
    | none => rw [hs] at h; simp at h
    | some first =>
      rw [hs] at h
      simp only at h
      split at h
      · simp at h
      · rename_i htt
        simp only [Bool.and_eq_true, decide_eq_true_eq, ne_eq, not_and, not_not] at htt
        refine ⟨first, rfl, ?_⟩
        by_cases h1 : first = "ct-triple".toList
        · exact Or.inl h1
        · exact Or.inr (htt h1)
  | [], h => simp [parseTripleFromExpr] at h
  | [_], h => simp [parseTripleFromExpr] at h
  | [_, _], h => simp [parseTripleFromExpr] at h
  | _ :: _ :: _ :: _ :: _, h => simp [parseTripleFromExpr] at h

theorem parseNegation_head {head : SExpr} {tl : List SExpr} {n : Negation}
    (h : parseNegation (SExpr.list (head :: tl)) = some n) :
    head.getSymbol = some "ct-simple-not".toList := by
  match tl, h with
  | [e1, e2], h =>
    simp only [parseNegation] at h
    cases hs : head.getSymbol with
    | none => rw [hs] at h; simp at h
    | some first =>
      rw [hs] at h
      simp only at h
      split at h
      · simp at h
      · rename_i hop
        simp only [ne_eq, not_not] at hop
        rw [hop]
  | [], h => simp [parseNegation] at h
  | [_], h => simp [parseNegation] at h
  | _ :: _ :: _ :: _, h => simp [parseNegation] at h

/-- What one step of the processing loop does to the facts and to the negations. -/
theorem processExpr_facts_negations (uninit : LogicalExpressionType) (soa : StateOfAffairs)
    (e : SExpr) :
    (processExpr uninit soa e).facts = soa.facts ++ (parseTripleFromExpr e).toList ∧
    (processExpr uninit soa e).negations = soa.negations ++ (parseNegation e).toList ∧
    (processExpr uninit soa e).description = soa.description := by
  cases e with
  | atom a => simp [processExpr, parseTripleFromExpr, parseNegation]
  | list l =>
    cases l with
    | nil => simp [processExpr, parseTripleFromExpr, parseNegation]
    | cons head tl =>
      simp only [processExpr]
      cases hs : head.getSymbol with
      | none =>
        have h1 : parseTripleFromExpr (SExpr.list (head :: tl)) = none := by
          cases hp : parseTripleFromExpr (SExpr.list (head :: tl)) with
          | none => rfl
          | some t =>
            obtain ⟨first, hf, _⟩ := parseTripleFromExpr_head hp
            rw [hs] at hf; simp at hf
        have h2 : parseNegation (SExpr.list (head :: tl)) = none := by
          cases hp : parseNegation (SExpr.list (head :: tl)) with
          | none => rfl
          | some n =>
            have := parseNegation_head hp
            rw [hs] at this; simp at this
        simp [h1, h2]
      | some first =>
        simp only
        by_cases hct : (decide (first = "ct-triple".toList)
            || decide (first = "meta-triple".toList)) = true
        · rw [if_pos hct]
          have h2 : parseNegation (SExpr.list (head :: tl)) = none := by
            cases hp : parseNegation (SExpr.list (head :: tl)) with
            | none => rfl
            | some n =>
              have := parseNegation_head hp
              rw [hs] at this
              simp only [Option.some.injEq] at this
              subst this
              exact absurd hct (by decide)
          cases hp : parseTripleFromExpr (SExpr.list (head :: tl)) with
          | none => simp [h2]
          | some t =>
            have := processTriple_facts soa t
            simp [h2, this.1, this.2.1, this.2.2]
        · rw [if_neg hct]
          have h1 : parseTripleFromExpr (SExpr.list (head :: tl)) = none := by
            cases hp : parseTripleFromExpr (SExpr.list (head :: tl)) with
            | none => rfl
            | some t =>
              obtain ⟨f2, hf, hor⟩ := parseTripleFromExpr_head hp
              rw [hs] at hf
              simp only [Option.some.injEq] at hf
              subst hf
              exfalso
              apply hct
              rcases hor with h | h <;> simp [h]
          by_cases hneg : first = "ct-simple-not".toList
          · rw [if_pos hneg]
            cases hp : parseNegation (SExpr.list (head :: tl)) with
            | none => simp [h1]
            | some n => simp [h1]
          · rw [if_neg hneg]
            have h2 : parseNegation (SExpr.list (head :: tl)) = none := by
              cases hp : parseNegation (SExpr.list (head :: tl)) with
              | none => rfl
              | some n =>
                have := parseNegation_head hp
                rw [hs] at this
                simp only [Option.some.injEq] at this
                exact absurd this hneg
            split
            · split <;> simp [h1, h2]
            · simp [h1, h2]

theorem processExpr_ok (uninit : LogicalExpressionType) (soa : StateOfAffairs) (e : SExpr)
    (hwf : e.wellFormed = true) (h : DocumentOk soa) :
    DocumentOk (processExpr uninit soa e) := by
  cases e with
  | atom a => exact h
  | list l =>
    cases l with
    | nil => exact h
    | cons head tl =>
      simp only [processExpr]
      cases head.getSymbol with
      | none => exact h
      | some first =>
        simp only
        split
        · cases hp : parseTripleFromExpr (SExpr.list (head :: tl)) with
          | none => exact h
          | some t => exact processTriple_ok soa t (parseTripleFromExpr_ok hwf hp) h
        · split
          · cases hp : parseNegation (SExpr.list (head :: tl)) with
            | none => exact h
            | some n =>
              obtain ⟨hf, hn, hl, he⟩ := h
              refine ⟨hf, ?_, hl, he⟩
              intro x hx
              rcases List.mem_append.mp hx with hx | hx
              · exact hn x hx
              · simp only [List.mem_singleton] at hx
                rw [hx]; exact parseNegation_ok hwf hp
          · split
            · cases hp : parseLogicalExpression uninit (SExpr.list (head :: tl)) with
              | none => exact h
              | some x =>
                obtain ⟨hf, hn, hl, he⟩ := h
                refine ⟨hf, hn, ?_, he⟩
                intro y hy
                rcases List.mem_append.mp hy with hy | hy
                · exact hl y hy
                · simp only [List.mem_singleton] at hy
                  rw [hy]; exact parseLogicalExpression_ok hwf hp
            · exact h

theorem processLoop_facts_negations (uninit : LogicalExpressionType) (es : List SExpr) :
    ∀ soa : StateOfAffairs,
    (es.foldl (processExpr uninit) soa).facts
      = soa.facts ++ es.filterMap parseTripleFromExpr ∧
    (es.foldl (processExpr uninit) soa).negations
      = soa.negations ++ es.filterMap parseNegation ∧
    (es.foldl (processExpr uninit) soa).description = soa.description := by
  induction es with
  | nil => intro soa; simp
  | cons e rest ih =>
    intro soa
    obtain ⟨h1, h2, h3⟩ := processExpr_facts_negations uninit soa e
    obtain ⟨i1, i2, i3⟩ := ih (processExpr uninit soa e)
    simp only [List.foldl_cons]
    refine ⟨?_, ?_, ?_⟩
    · rw [i1, h1]
      cases hp : parseTripleFromExpr e <;> simp [List.filterMap_cons, hp]
    · rw [i2, h2]
      cases hp : parseNegation e <;> simp [List.filterMap_cons, hp]
    · rw [i3, h3]

theorem processLoop_ok (uninit : LogicalExpressionType) (es : List SExpr)
    (hes : ∀ e ∈ es, e.wellFormed = true) :
    ∀ soa : StateOfAffairs, DocumentOk soa → DocumentOk (es.foldl (processExpr uninit) soa) := by
  induction es with
  | nil => intro soa h; exact h
  | cons e rest ih =>
    intro soa h
    simp only [List.foldl_cons]
    exact ih (fun x hx => hes x (List.mem_cons_of_mem _ hx)) _
      (processExpr_ok uninit soa e (hes e (List.mem_cons_self _ _)) h)

theorem finishExpr_wellFormed (st : LineState)
    (h : ∀ e ∈ st.expressions, e.wellFormed = true) :
    ∀ e ∈ (finishExpr st).expressions, e.wellFormed = true := by
  unfold finishExpr
  cases hp : parse st.currentExpr with
  | error err => exact h
  | ok expr =>
    intro e he
    rcases List.mem_append.mp he with he | he
    · exact h e he
    · simp only [List.mem_singleton] at he
      rw [he]; exact parse_wellFormed hp

theorem commentStep_expressions (st : LineState) (line : Str) :
    (commentStep st line).expressions = st.expressions := by
  unfold commentStep
  split
  · split <;> rfl
  · rfl

theorem exprStep_wellFormed (st : LineState) (line : Str)
    (h : ∀ e ∈ st.expressions, e.wellFormed = true) :
    ∀ e ∈ (exprStep st line).expressions, e.wellFormed = true := by
  unfold exprStep
  simp only
  split
  · split
    · split
      · exact finishExpr_wellFormed _ h
      · exact h
    · exact h
  · split
    · split
      · exact finishExpr_wellFormed _ h
      · exact h
    · exact h

theorem lineStep_wellFormed (st : LineState) (line : Str)
    (h : ∀ e ∈ st.expressions, e.wellFormed = true) :
    ∀ e ∈ (lineStep st line).expressions, e.wellFormed = true := by
  unfold lineStep
  simp only
  split
  · rw [commentStep_expressions]; exact h
  · exact exprStep_wellFormed _ line h

theorem lineLoop_wellFormed (lines : List Str) : ∀ (st : LineState),
    (∀ e ∈ st.expressions, e.wellFormed = true) →
    ∀ e ∈ (lines.foldl lineStep st).expressions, e.wellFormed = true := by
  induction lines with
  | nil => intro st h; exact h
  | cons line rest ih =>
    intro st h
    simp only [List.foldl_cons]
    exact ih _ (lineStep_wellFormed st line h)

theorem documentOk_empty (d : Str) : DocumentOk { description := d } :=
  ⟨by simp, by simp, by simp, by simp⟩

/-- The document that `extractStateOfAffairsFromMetta` returns is the result of the
processing loop on expressions of the reader. -/
theorem extract_eq_processLoop (uninit : LogicalExpressionType) (text : Str) :
    ∃ (es : List SExpr) (d : Str), (∀ e ∈ es, e.wellFormed = true) ∧
      extractStateOfAffairsFromMetta uninit text
        = es.foldl (processExpr uninit) { description := d } := by
  unfold extractStateOfAffairsFromMetta
  cases hp : parseMultiple text with
  | ok es => exact ⟨es, [], parseMultiple_wellFormed hp, rfl⟩
  | error err =>
    exact ⟨_, _, lineLoop_wellFormed (getLines text) {} (by simp), rfl⟩

theorem extract_ok (uninit : LogicalExpressionType) (text : Str) :
    DocumentOk (extractStateOfAffairsFromMetta uninit text) := by
  obtain ⟨es, d, hes, heq⟩ := extract_eq_processLoop uninit text
  rw [heq]
  exact processLoop_ok uninit es hes _ (documentOk_empty d)

/-! ## Reading back a rendered document -/

theorem goodRender_toString (e : SExpr) (hwf : e.wellFormed = true) :
    GoodRender e.toString e :=
  ⟨fun rest hrest => parseExpression_toString e hwf rest hrest, toString_head e hwf⟩

theorem skipWhitespace_of_headNonSpace (s : Str) (h : headNonSpace s = true) :
    skipWhitespace s = s := by
  cases s with
  | nil => rfl
  | cons c cs =>
    have hc : isspace c = false := by simpa [headNonSpace] using h
    exact skipWhitespace_of_not_space hc

theorem goodRender_head {s : Str} {e : SExpr} (h : GoodRender s e) (rest : Str) :
    headNonSpace (s ++ rest) = true ∧ Tokenizer.hasNext ⟨s ++ rest⟩ = true ∧
    Tokenizer.peek ⟨s ++ rest⟩ ≠ sCloseParen := by
  obtain ⟨_, c, cs, hs, hc⟩ := h
  subst hs
  refine ⟨?_, rfl, ?_⟩
  · simp [headNonSpace, head_not_space hc]
  · simp only [List.cons_append, Tokenizer.peek]
    rcases hc with h | h
    · subst h
      simp [isBracket, sCloseParen]
    · have hb : isBracket c = false := by
        by_contra hcon
        have := isBracket_isDelimiter (by simpa using hcon)
        rw [h] at this
        exact absurd this (by decide)
      simp only [hb, Bool.false_eq_true, if_false, List.takeWhile_cons, h, Bool.not_false,
        if_true]
      intro hcon
      simp only [sCloseParen, List.cons.injEq] at hcon
      rw [hcon.1] at h
      exact absurd h (by decide)

theorem joinTexts_cons (item : Str × SExpr) (items : List (Str × SExpr)) :
    joinTexts (item :: items)
      = item.1 ++ (if items.isEmpty then [] else ' ' :: joinTexts items) := by
  cases items with
  | nil => simp [joinTexts]
  | cons i2 is => simp [joinTexts]

theorem skipWhitespace_append_spaces (trail rest : Str) (h : ∀ c ∈ trail, isspace c = true) :
    skipWhitespace (trail ++ rest) = skipWhitespace rest := by
  induction trail with
  | nil => rfl
  | cons c cs ih =>
    have hc := h c (List.mem_cons_self _ _)
    simp only [List.cons_append, skipWhitespace, List.dropWhile_cons, hc, if_true]
    exact ih (fun x hx => h x (List.mem_cons_of_mem _ hx))

theorem restOk_spaces_close (trail rest : Str) (h : ∀ c ∈ trail, isspace c = true) :
    restOk (trail ++ ')' :: rest) = true := by
  cases trail with
  | nil => simp [restOk, isDelimiter]
  | cons c cs =>
    simp only [List.cons_append, restOk]
    exact isspace_isDelimiter (h c (List.mem_cons_self _ _))

/-- The loop of `parseList` reads a run of rendered items, separated by one space and
followed by any whitespace, up to and including the closing bracket. -/
theorem parseListLoop_items (items : List (Str × SExpr))
    (hgood : ∀ item ∈ items, GoodRender item.1 item.2)
    (trail : Str) (htrail : ∀ c ∈ trail, isspace c = true) :
    ∀ (acc : List SExpr) (rest : Str),
    ∃ n, parseListLoop n sCloseParen
        ⟨skipWhitespace (joinTexts items ++ (trail ++ ')' :: rest))⟩ acc
      = .ok (SExpr.list (acc ++ items.map Prod.snd), ⟨skipWhitespace rest⟩) := by
  induction items with
  | nil =>
    intro acc rest
    refine ⟨1, ?_⟩
    rw [parseListLoop_succ]
    simp only [joinTexts, List.nil_append, skipWhitespace_append_spaces trail _ htrail,
      skipWhitespace_closeParen]
    simp [Tokenizer.hasNext, Tokenizer.peek, Tokenizer.next, Tokenizer.consume, isBracket,
      sCloseParen]
  | cons item items ih =>
    intro acc rest
    have hitem := hgood item (List.mem_cons_self _ _)
    have hrestOk : restOk ((if items.isEmpty then [] else ' ' :: joinTexts items)
        ++ (trail ++ ')' :: rest)) = true := by
      cases items with
      | nil => simpa using restOk_spaces_close trail rest htrail
      | cons i2 is => simp [restOk, isDelimiter, isspace]
    have hskip : skipWhitespace ((if items.isEmpty then [] else ' ' :: joinTexts items)
        ++ (trail ++ ')' :: rest))
        = skipWhitespace (joinTexts items ++ (trail ++ ')' :: rest)) := by
      cases items with
      | nil => simp [joinTexts]
      | cons i2 is =>
        simp only [List.isEmpty_cons, Bool.false_eq_true, if_false, List.cons_append]
        exact skipWhitespace_space_cons _
    obtain ⟨n1, h1⟩ := hitem.1 _ hrestOk
    obtain ⟨n2, h2⟩ := ih (fun x hx => hgood x (List.mem_cons_of_mem _ hx))
      (acc ++ [item.2]) rest
    obtain ⟨hhead, hnext, hpeek⟩ := goodRender_head hitem
      ((if items.isEmpty then [] else ' ' :: joinTexts items) ++ (trail ++ ')' :: rest))
    refine ⟨max n1 n2 + 1, ?_⟩
    rw [joinTexts_cons, List.append_assoc, skipWhitespace_of_headNonSpace _ hhead,
      parseListLoop_succ]
    rw [hskip] at h1
    have hE := parseExpression_mono_le (Nat.le_max_left n1 n2) _
      (by rw [h1]; exact settled_ok _)
    have hL := parseListLoop_mono_le (Nat.le_max_right n1 n2) _ _ _
      (by rw [h2]; exact settled_ok _)
    rw [h1] at hE
    rw [h2] at hL
    simp only [hnext, hpeek, ne_eq, not_false_eq_true, decide_True, Bool.and_self, if_true,
      hE, hL]
    simp

/-- A bracketed run of rendered items is read as the list of their expressions. -/
theorem goodRender_list (items : List (Str × SExpr))
    (hgood : ∀ item ∈ items, GoodRender item.1 item.2)
    (trail : Str) (htrail : ∀ c ∈ trail, isspace c = true) :
    GoodRender ('(' :: (joinTexts items ++ (trail ++ [')'])))
      (SExpr.list (items.map Prod.snd)) := by
  refine ⟨?_, '(', _, rfl, Or.inl rfl⟩
  intro rest _
  obtain ⟨n, hn⟩ := parseListLoop_items items hgood trail htrail [] rest
  refine ⟨n + 2, ?_⟩
  have htext : '(' :: (joinTexts items ++ (trail ++ [')'])) ++ rest
      = '(' :: (joinTexts items ++ (trail ++ ')' :: rest)) := by
    simp
  rw [htext, parseExpression_succ, parseList_succ]
  simp only [Tokenizer.hasNext, Tokenizer.peek, Tokenizer.next, Tokenizer.consume, isBracket,
    sOpenParen, sOpenSquare]
  simpa [sCloseParen] using hn

theorem settled_error_iff {α : Type} (err : ParseError) :
    Settled (Except.error err : Except ParseError α) ↔ err ≠ .outOfFuel := by
  simp [Settled]

theorem parseMultipleLoop_mono (n : Nat) : ∀ (t : Tokenizer) (acc : List SExpr),
    Settled (parseMultipleLoop n t acc) →
    parseMultipleLoop (n + 1) t acc = parseMultipleLoop n t acc := by
  induction n with
  | zero => intro t acc h; exact absurd (by simp [parseMultipleLoop]) h
  | succ n ih =>
    intro t acc h
    rw [parseMultipleLoop_succ] at h
    rw [parseMultipleLoop_succ (n + 1), parseMultipleLoop_succ n]
    split
    · rename_i hn
      simp only [hn, if_true] at h
      cases hpe : parseExpression n t with
      | error err =>
        rw [hpe] at h
        simp only at h
        have hs : Settled (parseExpression n t) := by
          rw [hpe]
          exact (settled_error_iff err).mpr ((settled_error_iff err).mp h)
        rw [(parser_mono n).1 t hs, hpe]
      | ok r =>
        obtain ⟨e2, t2⟩ := r
        rw [hpe] at h
        simp only at h
        have hs : Settled (parseExpression n t) := by rw [hpe]; exact settled_ok _
        rw [(parser_mono n).1 t hs, hpe]
        simp only
        exact ih t2 _ h
    · rfl

theorem parseMultipleLoop_mono_le {n m : Nat} (h : n ≤ m) (t : Tokenizer)
    (acc : List SExpr) (hs : Settled (parseMultipleLoop n t acc)) :
    parseMultipleLoop m t acc = parseMultipleLoop n t acc := by
  induction m, h using Nat.le_induction with
  | base => rfl
  | succ k _ ih =>
    have hk : Settled (parseMultipleLoop k t acc) := by rw [ih]; exact hs
    rw [parseMultipleLoop_mono k t acc hk, ih]

theorem parseMultipleLoop_total (n : Nat) : ∀ (t : Tokenizer) (acc : List SExpr),
    3 * t.rest.length + 2 ≤ n → Settled (parseMultipleLoop n t acc) := by
  induction n with
  | zero => intro t acc h; omega
  | succ n ih =>
    intro t acc h
    rw [parseMultipleLoop_succ]
    split
    · have hE := (parser_total n).1 t (by omega)
      cases hpe : parseExpression n t with
      | error err =>
        rw [hpe] at hE
        exact (settled_error_iff err).mpr ((settled_error_iff err).mp hE)
      | ok r =>
        obtain ⟨e2, t2⟩ := r
        have hlt := (parser_length n).1 t e2 t2 hpe
        exact ih t2 _ (by omega)
    · exact settled_ok _

theorem parseMultiple_of_loop {input : Str} {n : Nat} {es : List SExpr}
    (h : parseMultipleLoop n (Tokenizer.new input) [] = .ok es) :
    parseMultiple input = .ok es := by
  have hs : Settled (parseMultipleLoop (parseFuel input) (Tokenizer.new input) []) := by
    apply parseMultipleLoop_total
    have := skipWhitespace_length_new input
    simp only [parseFuel]
    omega
  unfold parseMultiple
  rcases Nat.le_total n (parseFuel input) with hle | hle
  · rw [parseMultipleLoop_mono_le hle _ _ (by rw [h]; exact settled_ok _), h]
  · rw [← h]
    exact (parseMultipleLoop_mono_le hle _ _ hs).symm

theorem headNonSpace_append (s rest : Str) (hs : headNonSpace s = true)
    (hrest : headNonSpace rest = true) : headNonSpace (s ++ rest) = true := by
  cases s with
  | nil => exact hrest
  | cons c cs => exact hs

theorem chunk_nil : Chunk [] [] := by
  intro rest acc r _ h
  simpa using h

theorem chunk_append {s1 s2 : Str} {es1 es2 : List SExpr} (h1 : Chunk s1 es1)
    (h2 : Chunk s2 es2) (hs2 : headNonSpace s2 = true) : Chunk (s1 ++ s2) (es1 ++ es2) := by
  intro rest acc r hrest h
  rw [List.append_assoc]
  apply h1 (s2 ++ rest) acc r (headNonSpace_append s2 rest hs2 hrest)
  apply h2 rest (acc ++ es1) r hrest
  rw [List.append_assoc]
  exact h

theorem chunk_line {s : Str} {e : SExpr} (h : GoodRender s e) :
    Chunk (s ++ "\n".toList) [e] := by
  intro rest acc r hrest hloop
  obtain ⟨n2, h2⟩ := hloop
  obtain ⟨n1, h1⟩ := h.1 ('\n' :: rest) (by simp [restOk, isDelimiter, isspace])
  have hskip : skipWhitespace ('\n' :: rest) = rest := by
    have : skipWhitespace ('\n' :: rest) = skipWhitespace rest := by
      simp [skipWhitespace, List.dropWhile_cons, isspace]
    rw [this]
    exact skipWhitespace_of_headNonSpace rest hrest
  rw [hskip] at h1
  obtain ⟨_, hnext, _⟩ := goodRender_head h ('\n' :: rest)
  refine ⟨max n1 n2 + 1, ?_⟩
  have htext : s ++ "\n".toList ++ rest = s ++ '\n' :: rest := by simp
  rw [htext, parseMultipleLoop_succ]
  have hE := parseExpression_mono_le (Nat.le_max_left n1 n2) _
    (by rw [h1]; exact settled_ok _)
  have hL := parseMultipleLoop_mono_le (Nat.le_max_right n1 n2) _ _
    (by rw [h2]; exact settled_ok _)
  rw [h1] at hE
  rw [h2] at hL
  simp only [hnext, if_true, hE, hL]

theorem section_nil : Section [] [] [] :=
  ⟨rfl, [], chunk_nil, rfl, rfl⟩

theorem section_append {s1 s2 : Str} {f1 f2 : List Triple} {n1 n2 : List Negation}
    (h1 : Section s1 f1 n1) (h2 : Section s2 f2 n2) :
    Section (s1 ++ s2) (f1 ++ f2) (n1 ++ n2) := by
  obtain ⟨hs1, es1, hc1, hf1, hn1⟩ := h1
  obtain ⟨hs2, es2, hc2, hf2, hn2⟩ := h2
  refine ⟨headNonSpace_append s1 s2 hs1 hs2, es1 ++ es2, chunk_append hc1 hc2 hs2, ?_, ?_⟩
  · rw [List.filterMap_append, hf1, hf2]
  · rw [List.filterMap_append, hn1, hn2]

theorem section_flatMap {α : Type} (xs : List α) (text : α → Str) (facts : α → List Triple)
    (negations : α → List Negation)
    (h : ∀ x ∈ xs, Section (text x) (facts x) (negations x)) :
    Section (xs.flatMap text) (xs.flatMap facts) (xs.flatMap negations) := by
  induction xs with
  | nil => exact section_nil
  | cons x rest ih =>
    simp only [List.flatMap_cons]
    exact section_append (h x (List.mem_cons_self _ _))
      (ih (fun y hy => h y (List.mem_cons_of_mem _ hy)))

theorem section_line {s : Str} {e : SExpr} (h : GoodRender s e) :
    Section (s ++ "\n".toList) (parseTripleFromExpr e).toList (parseNegation e).toList := by
  refine ⟨(goodRender_head h _).1, [e], chunk_line h, ?_, ?_⟩
  · cases hp : parseTripleFromExpr e <;> simp [List.filterMap_cons, hp]
  · cases hp : parseNegation e <;> simp [List.filterMap_cons, hp]

/-- What `extractStateOfAffairsFromMetta` returns for a text that is a run of rendered
lines. -/
theorem extract_of_section (uninit : LogicalExpressionType) {s : Str} {facts : List Triple}
    {negations : List Negation} (h : Section s facts negations) :
    (extractStateOfAffairsFromMetta uninit s).facts = facts ∧
    (extractStateOfAffairsFromMetta uninit s).negations = negations := by
  obtain ⟨hs, es, hc, hf, hn⟩ := h
  obtain ⟨n, hloop⟩ := hc [] [] es rfl ⟨1, by simp [parseMultipleLoop, Tokenizer.hasNext]⟩
  have hnew : Tokenizer.new s = ⟨s⟩ := by
    simp [Tokenizer.new, skipWhitespace_of_headNonSpace s hs]
  rw [List.append_nil, ← hnew] at hloop
  have hparse := parseMultiple_of_loop hloop
  unfold extractStateOfAffairsFromMetta
  rw [hparse]
  simp only
  obtain ⟨h1, h2, _⟩ := processLoop_facts_negations uninit es { description := [] }
  rw [h1, h2, hf, hn]
  simp

theorem isAtomText_head_ne_paren {o : Str} (h : isAtomText o = true) :
    decide (o.head? = some '(') = false := by
  obtain ⟨hne, hall⟩ := (isAtomText_iff o).mp h
  cases o with
  | nil => exact absurd rfl hne
  | cons c cs =>
    have hc := hall c (List.mem_cons_self _ _)
    simp only [List.head?_cons, Option.some.injEq, decide_eq_false_iff_not]
    intro hcon
    rw [hcon] at hc
    exact absurd hc (by decide)

/-- A rendered triple line is read as a 4-element list that `parseTripleFromExpr`
maps to the triple of its fields. -/
theorem goodRender_tripleLine (tt s p o : Str)
    (htt : tt = "ct-triple".toList ∨ tt = "meta-triple".toList)
    (hs : isAtomText s = true) (hp : isAtomText p = true) (ho : ObjectText o) :
    ∃ e, GoodRender ("(".toList ++ tt ++ " ".toList ++ s ++ " ".toList ++ p ++ " ".toList
            ++ o ++ ")".toList) e ∧
      parseTripleFromExpr e
        = some { subject := s, predicate := p, object := o, tripleType := tt,
                 objectIsExpression := decide (o.head? = some '(') } ∧
      parseNegation e = none := by
  have hatt : isAtomText tt = true := by
    rcases htt with h | h <;> subst h <;> decide
  have htt2 : (decide (tt ≠ "ct-triple".toList)
      && decide (tt ≠ "meta-triple".toList)) = false := by
    rcases htt with h | h <;> subst h <;> decide
  rcases ho with hatom | ⟨l, hl, hol⟩
  · refine ⟨SExpr.list [SExpr.atom tt, SExpr.atom s, SExpr.atom p, SExpr.atom o], ?_, ?_, ?_⟩
    · have hrender : "(".toList ++ tt ++ " ".toList ++ s ++ " ".toList ++ p ++ " ".toList
          ++ o ++ ")".toList
          = (SExpr.list [SExpr.atom tt, SExpr.atom s, SExpr.atom p, SExpr.atom o]).toString := by
        simp [SExpr.toString, SExpr.toStringItems]
      rw [hrender]
      apply goodRender_toString
      simp only [SExpr.wellFormed, SExpr.wellFormedList, hatt, hs, hp, hatom, Bool.and_self]
    · simp only [parseTripleFromExpr, SExpr.getSymbol, htt2, Bool.false_eq_true, if_false,
        isAtomText_head_ne_paren hatom]
    · simp [parseNegation]
  · subst hol
    refine ⟨SExpr.list [SExpr.atom tt, SExpr.atom s, SExpr.atom p, SExpr.list l], ?_, ?_, ?_⟩
    · have hrender : "(".toList ++ tt ++ " ".toList ++ s ++ " ".toList ++ p ++ " ".toList
          ++ (SExpr.list l).toString ++ ")".toList
          = (SExpr.list [SExpr.atom tt, SExpr.atom s, SExpr.atom p, SExpr.list l]).toString := by
        simp [SExpr.toString, SExpr.toStringItems]
      rw [hrender]
      apply goodRender_toString
      simp only [SExpr.wellFormed, SExpr.wellFormedList, hatt, hs, hp, hl, Bool.and_self]
    · simp only [parseTripleFromExpr, SExpr.getSymbol, htt2, Bool.false_eq_true, if_false]
      simp [SExpr.toString]
    · simp [parseNegation]

theorem section_fact (t : Triple) (ht : TripleOk t) :
    Section (t.toString ++ "\n".toList) [t] [] := by
  obtain ⟨subject, predicate, object, tripleType, flag⟩ := t
  obtain ⟨htt, hs, hp, hobj⟩ := ht
  simp only at htt hs hp hobj
  have ho : ObjectText object := by
    rcases hobj with ⟨_, ha⟩ | ⟨_, l, hl, hol⟩
    · exact Or.inl ha
    · exact Or.inr ⟨l, hl, hol⟩
  have hflag : flag = decide (object.head? = some '(') := by
    rcases hobj with ⟨hf, ha⟩ | ⟨hf, l, hl, hol⟩
    · rw [hf, isAtomText_head_ne_paren ha]
    · rw [hf, hol]
      simp [SExpr.toString]
  obtain ⟨e, hgood, hpt, hpn⟩ := goodRender_tripleLine tripleType subject predicate object
    htt hs hp ho
  have htext : Triple.toString
      { subject := subject, predicate := predicate, object := object,
        tripleType := tripleType, objectIsExpression := flag }
      = "(".toList ++ tripleType ++ " ".toList ++ subject ++ " ".toList ++ predicate
          ++ " ".toList ++ object ++ ")".toList := by
    simp [Triple.toString]
  have := section_line hgood
  rw [hpt, hpn, ← hflag] at this
  rw [htext]
  exact this

/-- The rendered line `(ct-triple subject predicate object)`. -/
theorem section_renderedTriple (s p o : Str) (hs : isAtomText s = true)
    (hp : isAtomText p = true) (ho : ObjectText o) :
    Section ("(".toList ++ "ct-triple".toList ++ " ".toList ++ s ++ " ".toList ++ p
        ++ " ".toList ++ o ++ ")".toList ++ "\n".toList) [renderedTriple s p o] [] := by
  obtain ⟨e, hgood, hpt, hpn⟩ := goodRender_tripleLine "ct-triple".toList s p o (Or.inl rfl)
    hs hp ho
  have := section_line hgood
  rw [hpt, hpn] at this
  exact this

theorem section_negation (n : Negation) (hn : NegationOk n) :
    Section (n.toString ++ "\n".toList)
      [renderedTriple n.name "type".toList "rexist".toList] [n] := by
  obtain ⟨name, negated⟩ := n
  obtain ⟨hname, hneg⟩ := hn
  simp only at hname hneg
  have hne : name.isEmpty = false := by
    cases name with
    | nil => simp [isAtomText] at hname
    | cons c cs => rfl
  have h1 : Section
      ((SExpr.list [SExpr.atom "ct-simple-not".toList, SExpr.atom name,
          SExpr.atom negated]).toString ++ "\n".toList) [] [{ name := name, negatedEntity := negated }] := by
    have hwf : (SExpr.list [SExpr.atom "ct-simple-not".toList, SExpr.atom name,
        SExpr.atom negated]).wellFormed = true := by
      have h0 : isAtomText "ct-simple-not".toList = true := by decide
      simp only [SExpr.wellFormed, SExpr.wellFormedList, h0, hname, hneg, Bool.and_self]
    have := section_line (goodRender_toString _ hwf)
    have hpt : parseTripleFromExpr (SExpr.list [SExpr.atom "ct-simple-not".toList,
        SExpr.atom name, SExpr.atom negated]) = none := by
      simp [parseTripleFromExpr]
    have hpn : parseNegation (SExpr.list [SExpr.atom "ct-simple-not".toList,
        SExpr.atom name, SExpr.atom negated])
        = some { name := name, negatedEntity := negated } := by
      simp [parseNegation, SExpr.getSymbol]
    rw [hpt, hpn] at this
    exact this
  have h2 := section_renderedTriple name "type".toList "rexist".toList hname (by decide)
    (Or.inl (by decide))
  have h12 := section_append h1 h2
  have htext : Negation.toString { name := name, negatedEntity := negated } ++ "\n".toList
      = (SExpr.list [SExpr.atom "ct-simple-not".toList, SExpr.atom name,
          SExpr.atom negated]).toString ++ "\n".toList
        ++ ("(".toList ++ "ct-triple".toList ++ " ".toList ++ name ++ " ".toList
          ++ "type".toList ++ " ".toList ++ "rexist".toList ++ ")".toList ++ "\n".toList) := by
    simp [Negation.toString, SExpr.toString, SExpr.toStringItems, hne]
  rw [htext]
  simpa using h12

theorem lines_shift {β : Type} (f : β → Str) (xs : List β) : ∀ (line : Str),
    line ++ xs.flatMap (fun x => '\n' :: f x) ++ ['\n']
      = (line ++ ['\n']) ++ xs.flatMap (fun x => f x ++ ['\n']) := by
  induction xs with
  | nil => intro line; simp
  | cons x rest ih =>
    intro line
    have := ih (f x)
    simp only [List.flatMap_cons, List.append_assoc, List.cons_append] at this ⊢
    rw [this]
    simp

theorem flatMap_unit {α β : Type} (f : α → β) (xs : List α) :
    xs.flatMap (fun x => [f x]) = xs.map f := by
  induction xs with
  | nil => rfl
  | cons x rest ih => simp only [List.flatMap_cons, List.map_cons, List.singleton_append, ih]

theorem flatMap_none {α β : Type} (xs : List α) :
    xs.flatMap (fun _ => ([] : List β)) = [] := by
  induction xs with
  | nil => rfl
  | cons x rest ih => simp only [List.flatMap_cons, List.nil_append, ih]

theorem section_entity (en : Entity) (hen : EntityOk en) :
    Section (en.toString ++ "\n".toList)
      (renderedTriple en.name "type".toList en.type
        :: en.properties.map (fun kv => renderedTriple en.name kv.1 kv.2)) [] := by
  obtain ⟨name, type, props⟩ := en
  obtain ⟨hname, htype, hprops⟩ := hen
  simp only at hname htype hprops
  have h0 := section_renderedTriple name "type".toList type hname (by decide) htype
  have hrest := section_flatMap props
    (fun kv => "(".toList ++ "ct-triple".toList ++ " ".toList ++ name ++ " ".toList ++ kv.1
        ++ " ".toList ++ kv.2 ++ ")".toList ++ "\n".toList)
    (fun kv => [renderedTriple name kv.1 kv.2]) (fun _ => [])
    (fun kv hkv => section_renderedTriple name kv.1 kv.2 hname (hprops kv hkv).1
      (hprops kv hkv).2)
  have hall := section_append h0 hrest
  have htext : Entity.toString { name := name, type := type, properties := props }
      ++ "\n".toList
      = ("(".toList ++ "ct-triple".toList ++ " ".toList ++ name ++ " ".toList
          ++ "type".toList ++ " ".toList ++ type ++ ")".toList ++ "\n".toList)
        ++ props.flatMap (fun kv => "(".toList ++ "ct-triple".toList ++ " ".toList ++ name
            ++ " ".toList ++ kv.1 ++ " ".toList ++ kv.2 ++ ")".toList ++ "\n".toList) := by
    have hs := lines_shift
      (fun kv : Str × Str => "(".toList ++ "ct-triple".toList ++ " ".toList ++ name
        ++ " ".toList ++ kv.1 ++ " ".toList ++ kv.2 ++ ")".toList) props
      ("(".toList ++ "ct-triple".toList ++ " ".toList ++ name ++ " ".toList
          ++ "type".toList ++ " ".toList ++ type ++ ")".toList)
    simp only [Entity.toString]
    simpa using hs
  rw [htext]
  rw [flatMap_unit, flatMap_none] at hall
  simpa using hall

theorem headed_by_equals (tl : List SExpr) :
    parseTripleFromExpr (SExpr.list (SExpr.atom "=".toList :: tl)) = none ∧
    parseNegation (SExpr.list (SExpr.atom "=".toList :: tl)) = none := by
  constructor
  · cases hp : parseTripleFromExpr (SExpr.list (SExpr.atom "=".toList :: tl)) with
    | none => rfl
    | some t =>
      obtain ⟨first, hf, hor⟩ := parseTripleFromExpr_head hp
      simp only [SExpr.getSymbol, Option.some.injEq] at hf
      subst hf
      rcases hor with h | h <;> exact absurd h (by decide)
  · cases hp : parseNegation (SExpr.list (SExpr.atom "=".toList :: tl)) with
    | none => rfl
    | some n =>
      have := parseNegation_head hp
      simp only [SExpr.getSymbol, Option.some.injEq] at this
      exact absurd this (by decide)

theorem spacedOperands_eq (o : Str) (os : List Str) :
    o ++ spacedOperands os = SExpr.toStringItems ((o :: os).map SExpr.atom) := by
  induction os generalizing o with
  | nil => simp [spacedOperands, SExpr.toStringItems, SExpr.toString]
  | cons o2 rest ih =>
    simp only [spacedOperands, List.map_cons, SExpr.toStringItems, SExpr.toString]
    have := ih o2
    simp only [List.map_cons] at this
    rw [this]

theorem isAtomText_contains_space {o : Str} (h : isAtomText o = true) :
    o.contains ' ' = false := by
  obtain ⟨_, hall⟩ := (isAtomText_iff o).mp h
  by_contra hcon
  have hmem : ' ' ∈ o := by simpa using hcon
  have := hall ' ' hmem
  exact absurd this (by decide)

/-- The rendering of an EQUAL variant is the canonical text of a list headed by `=`. -/
theorem logical_render_equal (name : Str) (ops : List Str)
    (hname : name = [] ∨ isAtomText name = true) (hops : ∀ o ∈ ops, isAtomText o = true) :
    ∃ tl, SExpr.wellFormedList tl = true ∧
      LogicalExpression.toString { type := .EQUAL, name := name, operands := ops }
        = (SExpr.list (SExpr.atom "=".toList :: tl)).toString := by
  have hsecond : ∀ (o1 : Str) (r : List Str), (∀ o ∈ o1 :: r, isAtomText o = true) →
      SExpr.wellFormed (SExpr.list ((o1 :: r).map SExpr.atom)) = true := by
    intro o1 r h
    simp only [SExpr.wellFormed]
    exact wellFormedList_atoms (o1 :: r) h
  rcases hname with hn | hn
  · subst hn
    match ops, hops with
    | [], _ =>
      exact ⟨[SExpr.list []], by decide, by decide⟩
    | [o], hops =>
      have ho := hops o (List.mem_cons_self _ _)
      refine ⟨[SExpr.list [SExpr.atom o]], ?_, ?_⟩
      · simp only [SExpr.wellFormedList, SExpr.wellFormed, ho, Bool.and_self]
      · simp [LogicalExpression.toString, SExpr.toString, SExpr.toStringItems]
    | o :: o1 :: r, hops =>
      have ho := hops o (List.mem_cons_self _ _)
      have hr := hsecond o1 r (fun x hx => hops x (List.mem_cons_of_mem _ hx))
      refine ⟨[SExpr.list [SExpr.atom o], SExpr.list ((o1 :: r).map SExpr.atom)], ?_, ?_⟩
      · simp only [SExpr.wellFormedList, SExpr.wellFormed, ho, Bool.and_self, Bool.true_and,
          Bool.and_true]
        exact hr
      · have hsp := spacedOperands_eq o1 r
        simp only [LogicalExpression.toString, SExpr.toString, SExpr.toStringItems]
        simp only [← hsp]
        simp
  · have hne : name.isEmpty = false := by
      cases name with
      | nil => simp [isAtomText] at hn
      | cons c cs => rfl
    match ops, hops with
    | [], _ =>
      refine ⟨[SExpr.list [SExpr.atom name]], ?_, ?_⟩
      · simp only [SExpr.wellFormedList, SExpr.wellFormed, hn, Bool.and_self]
      · simp [LogicalExpression.toString, SExpr.toString, SExpr.toStringItems, hne]
    | [o], hops =>
      have ho := hops o (List.mem_cons_self _ _)
      have hsp := isAtomText_contains_space ho
      refine ⟨[SExpr.list [SExpr.atom name]], ?_, ?_⟩
      · simp only [SExpr.wellFormedList, SExpr.wellFormed, hn, Bool.and_self]
      · have hsp2 : ' ' ∉ o := by simpa using hsp
        simp [LogicalExpression.toString, SExpr.toString, SExpr.toStringItems, hne, hsp2]
    | o :: o1 :: r, hops =>
      have hr := hsecond o1 r (fun x hx => hops x (List.mem_cons_of_mem _ hx))
      refine ⟨[SExpr.list [SExpr.atom name], SExpr.list ((o1 :: r).map SExpr.atom)], ?_, ?_⟩
      · simp only [SExpr.wellFormedList, SExpr.wellFormed, hn, Bool.and_self, Bool.true_and,
          Bool.and_true]
        exact hr
      · have hsp := spacedOperands_eq o1 r
        simp only [LogicalExpression.toString, SExpr.toString, SExpr.toStringItems]
        simp only [← hsp]
        simp [hne]

/-- The rendering `(= (op ) ...)` of a variant without a name, which is not the
canonical text of a list, is still read as a list headed by `=`. -/
theorem goodRender_logical_unnamed (op : Str) (ops : List Str) (hop : isAtomText op = true)
    (hops : ∀ o ∈ ops, isAtomText o = true) :
    ∃ tl, GoodRender ("(= (".toList ++ op ++ " ".toList ++ [] ++ ")".toList
        ++ (if !ops.isEmpty then " (".toList ++ joinedOperands ops ++ ")".toList else [])
        ++ ")".toList) (SExpr.list (SExpr.atom "=".toList :: tl)) := by
  have hinner := goodRender_list [(op, SExpr.atom op)]
    (fun item hitem => by
      simp only [List.mem_singleton] at hitem
      rw [hitem]
      exact goodRender_toString (SExpr.atom op) hop)
    [' '] (fun c hc => by
      simp only [List.mem_singleton] at hc
      rw [hc]; decide)
  have heq : GoodRender "=".toList (SExpr.atom "=".toList) :=
    goodRender_toString (SExpr.atom "=".toList) (by decide)
  cases ops with
  | nil =>
    have houter := goodRender_list
      [("=".toList, SExpr.atom "=".toList),
       ('(' :: (joinTexts [(op, SExpr.atom op)] ++ ([' '] ++ [')'])),
        SExpr.list ([(op, SExpr.atom op)].map Prod.snd))]
      (fun item hitem => by
        simp only [List.mem_cons, List.mem_singleton, List.not_mem_nil, or_false] at hitem
        rcases hitem with h | h
        · rw [h]; exact heq
        · rw [h]; exact hinner)
      [] (by simp)
    refine ⟨[SExpr.list [SExpr.atom op]], ?_⟩
    have htext : "(= (".toList ++ op ++ " ".toList ++ [] ++ ")".toList
        ++ (if !([] : List Str).isEmpty then " (".toList ++ joinedOperands [] ++ ")".toList
            else [])
        ++ ")".toList
        = '(' :: (joinTexts [("=".toList, SExpr.atom "=".toList),
            ('(' :: (joinTexts [(op, SExpr.atom op)] ++ ([' '] ++ [')'])),
              SExpr.list ([(op, SExpr.atom op)].map Prod.snd))] ++ ([] ++ [')'])) := by
      simp [joinTexts]
    rw [htext]
    exact houter
  | cons o os =>
    have hwfops : (SExpr.list ((o :: os).map SExpr.atom)).wellFormed = true := by
      simp only [SExpr.wellFormed]
      exact wellFormedList_atoms (o :: os) hops
    have hopsr := goodRender_toString _ hwfops
    have houter := goodRender_list
      [("=".toList, SExpr.atom "=".toList),
       ('(' :: (joinTexts [(op, SExpr.atom op)] ++ ([' '] ++ [')'])),
        SExpr.list ([(op, SExpr.atom op)].map Prod.snd)),
       ((SExpr.list ((o :: os).map SExpr.atom)).toString,
        SExpr.list ((o :: os).map SExpr.atom))]
      (fun item hitem => by
        simp only [List.mem_cons, List.mem_singleton, List.not_mem_nil, or_false] at hitem
        rcases hitem with h | h | h
        · rw [h]; exact heq
        · rw [h]; exact hinner
        · rw [h]; exact hopsr)
      [] (by simp)
    refine ⟨[SExpr.list [SExpr.atom op], SExpr.list ((o :: os).map SExpr.atom)], ?_⟩
    have htext : "(= (".toList ++ op ++ " ".toList ++ [] ++ ")".toList
        ++ (if !(o :: os).isEmpty then " (".toList ++ joinedOperands (o :: os) ++ ")".toList
            else [])
        ++ ")".toList
        = '(' :: (joinTexts [("=".toList, SExpr.atom "=".toList),
            ('(' :: (joinTexts [(op, SExpr.atom op)] ++ ([' '] ++ [')'])),
              SExpr.list ([(op, SExpr.atom op)].map Prod.snd)),
            ((SExpr.list ((o :: os).map SExpr.atom)).toString,
              SExpr.list ((o :: os).map SExpr.atom))] ++ ([] ++ [')'])) := by
      rw [joinedOperands_eq_toStringItems]
      simp [joinTexts, SExpr.toString]
    rw [htext]
    exact houter

/-- The rendering of a logical expression of a parsed document is read as a list headed
by `=`. -/
theorem goodRender_logical (x : LogicalExpression) (hx : LogicalOk x) :
    ∃ tl, GoodRender x.toString (SExpr.list (SExpr.atom "=".toList :: tl)) := by
  obtain ⟨type, name, ops⟩ := x
  obtain ⟨hname, hops⟩ := hx
  simp only at hname hops
  by_cases hty : type = .EQUAL
  · subst hty
    obtain ⟨tl, hwf, htext⟩ := logical_render_equal name ops hname hops
    refine ⟨tl, ?_⟩
    rw [htext]
    apply goodRender_toString
    have heq : isAtomText "=".toList = true := by decide
    simp only [SExpr.wellFormed, SExpr.wellFormedList, heq, hwf, Bool.and_self]
  · have hop : ∃ op : Str, isAtomText op = true ∧
        LogicalExpression.toString { type := type, name := name, operands := ops }
          = "(= (".toList ++ op ++ " ".toList ++ name ++ ")".toList
            ++ (if !ops.isEmpty then " (".toList ++ joinedOperands ops ++ ")".toList else [])
            ++ ")".toList := by
      cases type with
      | EQUAL => exact absurd rfl hty
      | AND => exact ⟨"ct-and".toList, by decide, by simp [LogicalExpression.toString]⟩
      | OR => exact ⟨"ct-or".toList, by decide, by simp [LogicalExpression.toString]⟩
      | NOT => exact ⟨"ct-not".toList, by decide, by simp [LogicalExpression.toString]⟩
    obtain ⟨op, hopa, htext⟩ := hop
    rw [htext]
    rcases hname with hn | hn
    · subst hn
      exact goodRender_logical_unnamed op ops hopa hops
    · refine ⟨[SExpr.list [SExpr.atom op, SExpr.atom name]]
        ++ (if ops.isEmpty then [] else [SExpr.list (ops.map SExpr.atom)]), ?_⟩
      rw [logical_render]
      exact goodRender_toString _ (logical_wellFormed op name ops hopa hn hops)

theorem section_logical (x : LogicalExpression) (hx : LogicalOk x) :
    Section (x.toString ++ "\n".toList) [] [] := by
  obtain ⟨tl, hgood⟩ := goodRender_logical x hx
  have := section_line hgood
  rw [(headed_by_equals tl).1, (headed_by_equals tl).2] at this
  exact this

/-- The rendering of a parsed document without a description is a run of lines from
which the processing loop takes the facts of the document, followed by the type triple
of each negation and the triples of each entity, and the negations of the document. -/
theorem section_document (soa : StateOfAffairs) (hok : DocumentOk soa)
    (hdesc : soa.description = []) :
    Section soa.toString (soa.facts ++ addedFacts soa) soa.negations := by
  obtain ⟨hf, hn, hl, he⟩ := hok
  have hL := section_flatMap soa.logicalExpressions
    (fun x => x.toString ++ "\n".toList) (fun _ => []) (fun _ => [])
    (fun x hx => section_logical x (hl x hx))
  have hF := section_flatMap soa.facts
    (fun t => t.toString ++ "\n".toList) (fun t => [t]) (fun _ => [])
    (fun t ht => section_fact t (hf t ht))
  have hN := section_flatMap soa.negations
    (fun n => n.toString ++ "\n".toList)
    (fun n => [renderedTriple n.name "type".toList "rexist".toList]) (fun n => [n])
    (fun n hn2 => section_negation n (hn n hn2))
  have hE := section_flatMap soa.entities
    (fun entry => entry.2.toString ++ "\n".toList)
    (fun entry => renderedTriple entry.2.name "type".toList entry.2.type
      :: entry.2.properties.map (fun kv => renderedTriple entry.2.name kv.1 kv.2))
    (fun _ => [])
    (fun entry hentry => section_entity entry.2 (he entry hentry))
  have hall := section_append (section_append (section_append hL hF) hN) hE
  simp only [flatMap_unit, flatMap_none, List.map_id', List.nil_append, List.append_nil,
    List.append_assoc] at hall
  have htext : soa.toString
      = soa.logicalExpressions.flatMap (fun x => x.toString ++ "\n".toList)
        ++ (soa.facts.flatMap (fun t => t.toString ++ "\n".toList)
        ++ (soa.negations.flatMap (fun n => n.toString ++ "\n".toList)
        ++ soa.entities.flatMap (fun entry => entry.2.toString ++ "\n".toList))) := by
    simp [StateOfAffairs.toString, hdesc]
  rw [htext]
  simpa [addedFacts] using hall

set_option maxRecDepth 100000 in
/-- C4 as stated fails. For the document `reparseText` the rendering repeats the triple
of the entity `p` and adds a type triple for each negation, so the re-parsed document
has four facts where the document has one; the general equality `(= (foo a) (b))` is
rendered without its first operand and read back without a name; the negation names
`x` and `soa_ex` become an entity and an eventuality that the document does not have.
For `describedText` the description is rendered as text that the reader takes for a
negation, so even the negations differ. -/
theorem C4_counterexample :
    (extractStateOfAffairsFromMetta .NOT reparseText).facts
      = [{ subject := ['p'], predicate := "type".toList, object := ['q'] }] ∧
    (extractStateOfAffairsFromMetta .NOT
        (extractStateOfAffairsFromMetta .NOT reparseText).toString).facts
      = [{ subject := ['p'], predicate := "type".toList, object := ['q'] },
         { subject := "soa_ex".toList, predicate := "type".toList, object := "rexist".toList },
         { subject := ['x'], predicate := "type".toList, object := "rexist".toList },
         { subject := ['p'], predicate := "type".toList, object := ['q'] }] ∧
    (extractStateOfAffairsFromMetta .NOT reparseText).logicalExpressions
      = [{ type := .EQUAL, name := "foo".toList, operands := [['a'], ['b']] }] ∧
    (extractStateOfAffairsFromMetta .NOT
        (extractStateOfAffairsFromMetta .NOT reparseText).toString).logicalExpressions
      = [{ type := .NOT, name := [], operands := [['b']] }] ∧
    (extractStateOfAffairsFromMetta .NOT reparseText).entities.map Prod.fst = [['p']] ∧
    (extractStateOfAffairsFromMetta .NOT
        (extractStateOfAffairsFromMetta .NOT reparseText).toString).entities.map Prod.fst
      = [['p'], ['x']] ∧
    (extractStateOfAffairsFromMetta .NOT reparseText).eventualities = [] ∧
    (extractStateOfAffairsFromMetta .NOT
        (extractStateOfAffairsFromMetta .NOT reparseText).toString).eventualities.map Prod.fst
      = ["soa_ex".toList] ∧
    (extractStateOfAffairsFromMetta .NOT describedText).negations = [] ∧
    (extractStateOfAffairsFromMetta .NOT
        (extractStateOfAffairsFromMetta .NOT describedText).toString).negations
      = [{ name := ['a'], negatedEntity := ['b'] }] := by
  decide

/-- C4 (amended): for every KnowledgeSet `ks` returned by
`KnowledgeIO::extractStateOfAffairsFromMetta` whose description is empty (as it is
whenever `parseMultiple` accepts the text), `extractStateOfAffairsFromMetta(ks.toString())`
has the same negations as `ks`, and its facts are the facts of `ks` in the same order
(none dropped) followed by the triples that the rendering adds: `(ct-triple name type
rexist)` for each negation, then the type triple and the property triples of each
entity. -/
theorem C4_reparse_facts_and_negations (uninit uninit2 : LogicalExpressionType) (text : Str)
    (hdesc : (extractStateOfAffairsFromMetta uninit text).description = []) :
    (extractStateOfAffairsFromMetta uninit2
        (extractStateOfAffairsFromMetta uninit text).toString).negations
      = (extractStateOfAffairsFromMetta uninit text).negations ∧
    (extractStateOfAffairsFromMetta uninit2
        (extractStateOfAffairsFromMetta uninit text).toString).facts
      = (extractStateOfAffairsFromMetta uninit text).facts
        ++ addedFacts (extractStateOfAffairsFromMetta uninit text) := by
  have hsec := section_document _ (extract_ok uninit text) hdesc
  obtain ⟨h1, h2⟩ := extract_of_section uninit2 hsec
  exact ⟨h2, h1⟩

set_option maxRecDepth 100000 in
theorem C4_reparse_facts_and_negations_witness :
    (extractStateOfAffairsFromMetta .NOT portText).description = [] ∧
    (extractStateOfAffairsFromMetta .AND
        (extractStateOfAffairsFromMetta .NOT portText).toString).negations
      = (extractStateOfAffairsFromMetta .NOT portText).negations ∧
    (extractStateOfAffairsFromMetta .AND
        (extractStateOfAffairsFromMetta .NOT portText).toString).facts
      = (extractStateOfAffairsFromMetta .NOT portText).facts
        ++ addedFacts (extractStateOfAffairsFromMetta .NOT portText) ∧
    (addedFacts (extractStateOfAffairsFromMetta .NOT portText)).length = 3 :=
  ⟨by decide,
   (C4_reparse_facts_and_negations .NOT .AND portText (by decide)).1,
   (C4_reparse_facts_and_negations .NOT .AND portText (by decide)).2,
   by decide⟩

/-! ## The shapes that the Knowledge Model parsers accept -/

/-- C14: for every 4-element list `(K S P O)` in which `K` is the atom `"ct-triple"` or
`"meta-triple"` and `S` and `P` are atoms, `KnowledgeIO::parseTripleFromExpr` returns a
Triple with `tripleType = K`, `subject = S`, `predicate = P`; when `O` is an atom,
`object` is `O` verbatim and `objectIsExpression` is false; when `O` is a list, `object`
is the canonical text rendering of `O` and `objectIsExpression` is true. -/
theorem C14_parseTripleFromExpr_fields (K S P : Str)
    (hK : K = "ct-triple".toList ∨ K = "meta-triple".toList) :
    (∀ o : Str,
      parseTripleFromExpr
          (SExpr.list [SExpr.atom K, SExpr.atom S, SExpr.atom P, SExpr.atom o])
        = some { tripleType := K, subject := S, predicate := P, object := o,
                 objectIsExpression := false }) ∧
    (∀ l : List SExpr,
      parseTripleFromExpr
          (SExpr.list [SExpr.atom K, SExpr.atom S, SExpr.atom P, SExpr.list l])
        = some { tripleType := K, subject := S, predicate := P,
                 object := (SExpr.list l).toString, objectIsExpression := true }) := by
  have hK2 : (decide (K ≠ "ct-triple".toList) && decide (K ≠ "meta-triple".toList))
      = false := by
    rcases hK with h | h <;> subst h <;> decide
  constructor
  · intro o
    simp only [parseTripleFromExpr, SExpr.getSymbol, hK2, Bool.false_eq_true, if_false]
  · intro l
    simp only [parseTripleFromExpr, SExpr.getSymbol, hK2, Bool.false_eq_true, if_false]

theorem C14_parseTripleFromExpr_fields_witness :
    parseTripleFromExpr
        (SExpr.list [SExpr.atom "ct-triple".toList, SExpr.atom "soa_ep15kiam".toList,
          SExpr.atom "soaHas_amount".toList, SExpr.list [SExpr.atom "15000USD".toList]])
      = some { tripleType := "ct-triple".toList, subject := "soa_ep15kiam".toList,
               predicate := "soaHas_amount".toList,
               object := (SExpr.list [SExpr.atom "15000USD".toList]).toString,
               objectIsExpression := true } ∧
    (SExpr.list [SExpr.atom "15000USD".toList]).toString = "(15000USD)".toList ∧
    parse "(ct-triple soa_ep15kiam soaHas_amount (15000USD))".toList
      = .ok (SExpr.list [SExpr.atom "ct-triple".toList, SExpr.atom "soa_ep15kiam".toList,
          SExpr.atom "soaHas_amount".toList, SExpr.list [SExpr.atom "15000USD".toList]]) :=
  ⟨(C14_parseTripleFromExpr_fields "ct-triple".toList "soa_ep15kiam".toList
      "soaHas_amount".toList (Or.inl rfl)).2 [SExpr.atom "15000USD".toList],
   by decide,
   parse_toString (SExpr.list [SExpr.atom "ct-triple".toList,
      SExpr.atom "soa_ep15kiam".toList, SExpr.atom "soaHas_amount".toList,
      SExpr.list [SExpr.atom "15000USD".toList]]) (by decide)⟩

theorem parseTripleFromExpr_shape {e : SExpr} {t : Triple}
    (h : parseTripleFromExpr e = some t) :
    ∃ K S P O, e = SExpr.list [SExpr.atom K, S, P, O] ∧
      (K = "ct-triple".toList ∨ K = "meta-triple".toList) := by
  cases e with
  | atom a => simp [parseTripleFromExpr] at h
  | list l =>
    match l, h with
    | [e0, e1, e2, e3], h =>
      obtain ⟨first, hf, hor⟩ := parseTripleFromExpr_head h
      cases e0 with
      | list c => simp [SExpr.getSymbol] at hf
      | atom a =>
        simp only [SExpr.getSymbol, Option.some.injEq] at hf
        subst hf
        exact ⟨a, e1, e2, e3, rfl, hor⟩
    | [], h => simp [parseTripleFromExpr] at h
    | [_], h => simp [parseTripleFromExpr] at h
    | [_, _], h => simp [parseTripleFromExpr] at h
    | [_, _, _], h => simp [parseTripleFromExpr] at h
    | _ :: _ :: _ :: _ :: _ :: _, h => simp [parseTripleFromExpr] at h

theorem parseNegation_shape {e : SExpr} {n : Negation} (h : parseNegation e = some n) :
    ∃ A B, e = SExpr.list [SExpr.atom "ct-simple-not".toList, A, B] := by
  cases e with
  | atom a => simp [parseNegation] at h
  | list l =>
    match l, h with
    | [e0, e1, e2], h =>
      have hf := parseNegation_head h
      cases e0 with
      | list c => simp [SExpr.getSymbol] at hf
      | atom a =>
        simp only [SExpr.getSymbol, Option.some.injEq] at hf
        subst hf
        exact ⟨e1, e2, rfl⟩
    | [], h => simp [parseNegation] at h
    | [_], h => simp [parseNegation] at h
    | [_, _], h => simp [parseNegation] at h
    | _ :: _ :: _ :: _ :: _, h => simp [parseNegation] at h

theorem parseLogicalExpression_shape {uninit : LogicalExpressionType} {e : SExpr}
    {x : LogicalExpression} (h : parseLogicalExpression uninit e = some x) :
    ∃ second rest, e = SExpr.list (SExpr.atom "=".toList :: second :: rest) := by
  cases e with
  | atom a => simp [parseLogicalExpression] at h
  | list l =>
    match l, h with
    | [], h => simp [parseLogicalExpression] at h
    | [_], h => simp [parseLogicalExpression] at h
    | e0 :: e1 :: rest, h =>
      cases e0 with
      | list c => simp [parseLogicalExpression, SExpr.getSymbol] at h
      | atom a =>
        simp only [parseLogicalExpression, List.length_cons, List.headD_cons,
          SExpr.getSymbol] at h
        split at h
        · simp at h
        · split at h
          · simp at h
          · rename_i hne
            simp only [ne_eq, not_not] at hne
            subst hne
            exact ⟨e1, rest, rfl⟩

/-- C15 as stated fails for `parseLogicalExpression`: the list `(= a)`, whose second
element is an atom and no list, still gets a result (with no name, no operands and
the indeterminate initial type). -/
theorem C15_counterexample :
    parseLogicalExpression .NOT (SExpr.list [SExpr.atom "=".toList, SExpr.atom ['a']])
      = some { type := .NOT, name := [], operands := [] } ∧
    SExpr.isList (SExpr.atom ['a']) = false := by
  decide

/-- C15 (amended): a structural mismatch is "no result"; the parsers are total and
raise nothing. `parseTripleFromExpr` returns a result only for a 4-element list headed
by the atom `ct-triple` or `meta-triple`, `parseNegation` only for a 3-element list
headed by the atom `ct-simple-not`, and `parseLogicalExpression` only for a list of at
least two elements headed by the atom `=`; and for every string that the Expression
Reader cannot parse, `KnowledgeIO::parseTriple` returns nothing. -/
theorem C15_structural_mismatch_is_no_result :
    (∀ (e : SExpr) (t : Triple), parseTripleFromExpr e = some t →
      ∃ K S P O, e = SExpr.list [SExpr.atom K, S, P, O] ∧
        (K = "ct-triple".toList ∨ K = "meta-triple".toList)) ∧
    (∀ (e : SExpr) (n : Negation), parseNegation e = some n →
      ∃ A B, e = SExpr.list [SExpr.atom "ct-simple-not".toList, A, B]) ∧
    (∀ (uninit : LogicalExpressionType) (e : SExpr) (x : LogicalExpression),
      parseLogicalExpression uninit e = some x →
      ∃ second rest, e = SExpr.list (SExpr.atom "=".toList :: second :: rest)) ∧
    (∀ (s : Str) (err : ParseError), parse s = .error err → parseTriple s = none) := by
  refine ⟨fun e t h => parseTripleFromExpr_shape h, fun e n h => parseNegation_shape h,
    fun u e x h => parseLogicalExpression_shape h, ?_⟩
  intro s err h
  simp [parseTriple, h]

theorem C15_structural_mismatch_is_no_result_witness :
    parseTriple "(ct-triple a b".toList = none ∧
    parseTripleFromExpr (SExpr.list [SExpr.atom "triple".toList, SExpr.atom ['a'],
      SExpr.atom ['b'], SExpr.atom ['c']]) = none ∧
    parseNegation (SExpr.list [SExpr.atom "ct-simple-not".toList, SExpr.atom ['a']]) = none ∧
    parseLogicalExpression .NOT (SExpr.list [SExpr.atom "=".toList]) = none := by
  refine ⟨?_, by decide, by decide, by decide⟩
  obtain ⟨msg, hmsg⟩ :=
    parse_fails_of_scan (show scanFirst (tokenize "(ct-triple a b".toList) [] ≠ .complete
      by decide)
  exact C15_structural_mismatch_is_no_result.2.2.2 _ _ hmsg

/-- C16 as stated fails when the second element `X` of the inner list `(H X)` is itself
a list: for `(= (foo (a)))` the result is neither EQUAL nor named `foo`; it keeps the
indeterminate initial type (here `NOT`) and the empty name. -/
theorem C16_counterexample :
    parseLogicalExpression .NOT
        (SExpr.list [SExpr.atom "=".toList,
          SExpr.list [SExpr.atom "foo".toList, SExpr.list [SExpr.atom ['a']]]])
      = some { type := .NOT, name := [], operands := [] } := by
  decide

/-- C16 (amended): for every atom `N` and atoms `o1..ok`,
`KnowledgeIO::parseLogicalExpression` maps `(= (ct-or N) (o1 ... ok))` to the OR variant
named `N` and `(= (ct-and N) (o1 ... ok))` to the AND variant named `N`, in both cases
with operands exactly `[o1, ..., ok]` in order (no operands when the third element is
absent); for an inner list `(H X)` whose head `H` is any other atom and whose second
element `X` is an atom it yields the EQUAL variant named `H` (whose operands are `X`
followed by `o1..ok`). -/
theorem C16_parseLogicalExpression_variants (uninit : LogicalExpressionType) (N : Str)
    (os : List Str) (H X : Str) (hor : H ≠ "ct-or".toList) (hand : H ≠ "ct-and".toList) :
    parseLogicalExpression uninit
        (SExpr.list [SExpr.atom "=".toList,
          SExpr.list [SExpr.atom "ct-or".toList, SExpr.atom N],
          SExpr.list (os.map SExpr.atom)])
      = some { type := .OR, name := N, operands := os } ∧
    parseLogicalExpression uninit
        (SExpr.list [SExpr.atom "=".toList,
          SExpr.list [SExpr.atom "ct-or".toList, SExpr.atom N]])
      = some { type := .OR, name := N, operands := [] } ∧
    parseLogicalExpression uninit
        (SExpr.list [SExpr.atom "=".toList,
          SExpr.list [SExpr.atom "ct-and".toList, SExpr.atom N],
          SExpr.list (os.map SExpr.atom)])
      = some { type := .AND, name := N, operands := os } ∧
    parseLogicalExpression uninit
        (SExpr.list [SExpr.atom "=".toList,
          SExpr.list [SExpr.atom "ct-and".toList, SExpr.atom N]])
      = some { type := .AND, name := N, operands := [] } ∧
    parseLogicalExpression uninit
        (SExpr.list [SExpr.atom "=".toList, SExpr.list [SExpr.atom H, SExpr.atom X],
          SExpr.list (os.map SExpr.atom)])
      = some { type := .EQUAL, name := H, operands := X :: os } ∧
    parseLogicalExpression uninit
        (SExpr.list [SExpr.atom "=".toList, SExpr.list [SExpr.atom H, SExpr.atom X]])
      = some { type := .EQUAL, name := H, operands := [X] } := by
  have hsym := symbolsOf_atoms os
  refine ⟨?_, ?_, ?_, ?_, ?_, ?_⟩
  · simp [parseLogicalExpression, parseLogicalHeader, parseLogicalOperands, SExpr.getSymbol,
      hsym]
  · simp [parseLogicalExpression, parseLogicalHeader, parseLogicalOperands, SExpr.getSymbol]
  · simp [parseLogicalExpression, parseLogicalHeader, parseLogicalOperands, SExpr.getSymbol,
      hsym]
  · simp [parseLogicalExpression, parseLogicalHeader, parseLogicalOperands, SExpr.getSymbol]
  · have h1 : ¬ H = ['c', 't', '-', 'o', 'r'] := hor
    have h2 : ¬ H = ['c', 't', '-', 'a', 'n', 'd'] := hand
    simp [parseLogicalExpression, parseLogicalHeader, parseLogicalOperands, SExpr.getSymbol,
      hsym, h1, h2]
  · have h1 : ¬ H = ['c', 't', '-', 'o', 'r'] := hor
    have h2 : ¬ H = ['c', 't', '-', 'a', 'n', 'd'] := hand
    simp [parseLogicalExpression, parseLogicalHeader, parseLogicalOperands, SExpr.getSymbol,
      h1, h2]

theorem C16_parseLogicalExpression_variants_witness :
    parse "(= (ct-or soa_eo) (soa_elam soa_ea))".toList
      = .ok (SExpr.list [SExpr.atom "=".toList,
          SExpr.list [SExpr.atom "ct-or".toList, SExpr.atom "soa_eo".toList],
          SExpr.list (["soa_elam".toList, "soa_ea".toList].map SExpr.atom)]) ∧
    parseLogicalExpression .NOT
        (SExpr.list [SExpr.atom "=".toList,
          SExpr.list [SExpr.atom "ct-or".toList, SExpr.atom "soa_eo".toList],
          SExpr.list (["soa_elam".toList, "soa_ea".toList].map SExpr.atom)])
      = some { type := .OR, name := "soa_eo".toList,
               operands := ["soa_elam".toList, "soa_ea".toList] } ∧
    parseLogicalExpression .NOT
        (SExpr.list [SExpr.atom "=".toList,
          SExpr.list [SExpr.atom "soa_rule".toList, SExpr.atom "soa_x".toList]])
      = some { type := .EQUAL, name := "soa_rule".toList, operands := ["soa_x".toList] } :=
  ⟨parse_toString (SExpr.list [SExpr.atom "=".toList,
      SExpr.list [SExpr.atom "ct-or".toList, SExpr.atom "soa_eo".toList],
      SExpr.list [SExpr.atom "soa_elam".toList, SExpr.atom "soa_ea".toList]]) (by decide),
   (C16_parseLogicalExpression_variants .NOT "soa_eo".toList
      ["soa_elam".toList, "soa_ea".toList] "soa_rule".toList "soa_x".toList
      (by decide) (by decide)).1,
   (C16_parseLogicalExpression_variants .NOT "soa_eo".toList
      ["soa_elam".toList, "soa_ea".toList] "soa_rule".toList "soa_x".toList
      (by decide) (by decide)).2.2.2.2.2⟩

/-! ## Norms -/

theorem strip_rendering (c : List SExpr) :
    (((SExpr.list c).toString.drop 1).take ((SExpr.list c).toString.length - 2)
        = SExpr.toStringItems c) ∧
    specStripOuterParens (SExpr.list c).toString = SExpr.toStringItems c := by
  simp [SExpr.toString, specStripOuterParens]

theorem normCondition_binding (v : Str) (c : List SExpr) :
    normCondition (SExpr.list [SExpr.atom v, SExpr.list c])
      = some { variableName := v,
               expression := specStripOuterParens (SExpr.list c).toString } := by
  have h1 := (strip_rendering c).1
  have h2 := (strip_rendering c).2
  have h3 : (SExpr.list c).toString.head? = some '(' := by simp [SExpr.toString]
  have h4 : (SExpr.list c).toString.isEmpty = false := by simp [SExpr.toString]
  simp only [normCondition, List.length_cons, List.length_nil, List.headD_cons,
    List.tail_cons, SExpr.getSymbol, h1, h2, h3, h4]
  simp

theorem normConditions_bindings (bindings : List (Str × List SExpr)) :
    (bindings.map (fun b => SExpr.list [SExpr.atom b.1, SExpr.list b.2])).filterMap
        normCondition
      = bindings.map (fun b =>
          ({ variableName := b.1,
             expression := specStripOuterParens (SExpr.list b.2).toString } : Condition)) := by
  induction bindings with
  | nil => rfl
  | cons b bs ih =>
    simp only [List.map_cons, List.filterMap_cons, normCondition_binding, ih]

/-- C17: for every text that the reader parses to the tree of
`(= (name p1 ... pn) (let* ((v1 C1) ... (vk Ck)) True))`, with atoms `name`, `pi`, `vi`
and list expressions `Ci`, `KnowledgeIO::parseNorm` returns a Norm whose name is `name`,
whose parameters are `[p1..pn]` in order and whose conditions are, in order,
`{variable = vi, expression = the canonical rendering of Ci with its outer parentheses
removed}`; when the body is not a list headed by `let*` (or there is no body) the Norm
is returned with no conditions. -/
theorem C17_parseNorm_conditions (text name : Str) (params : List Str)
    (bindings : List (Str × List SExpr)) (body : SExpr) :
    (parse text = .ok (normTree name params bindings) →
      parseNorm text
        = some { name := name, parameters := params,
                 conditions := bindings.map (fun b =>
                   { variableName := b.1,
                     expression := specStripOuterParens (SExpr.list b.2).toString }),
                 consequences := [], description := [] }) ∧
    (parse text = .ok (SExpr.list [SExpr.atom "=".toList,
        SExpr.list (SExpr.atom name :: params.map SExpr.atom), body]) →
      (∀ rest, body ≠ SExpr.list (SExpr.atom "let*".toList :: rest)) →
      parseNorm text
        = some { name := name, parameters := params, conditions := [],
                 consequences := [], description := [] }) ∧
    (parse text = .ok (SExpr.list [SExpr.atom "=".toList,
        SExpr.list (SExpr.atom name :: params.map SExpr.atom)]) →
      parseNorm text
        = some { name := name, parameters := params, conditions := [],
                 consequences := [], description := [] }) := by
  have hsym := symbolsOf_atoms params
  refine ⟨?_, ?_, ?_⟩
  · intro h
    have hb : normBodyConditions [SExpr.atom "=".toList,
        SExpr.list (SExpr.atom name :: params.map SExpr.atom),
        SExpr.list [SExpr.atom "let*".toList,
          SExpr.list (bindings.map (fun b => SExpr.list [SExpr.atom b.1, SExpr.list b.2])),
          SExpr.atom "True".toList]]
        = bindings.map (fun b =>
          ({ variableName := b.1,
             expression := specStripOuterParens (SExpr.list b.2).toString } : Condition)) := by
      rw [← normConditions_bindings]
      simp [normBodyConditions, SExpr.getSymbol]
    simp only [parseNorm, h, normTree, List.length_cons, List.length_nil, List.headD_cons,
      List.tail_cons, SExpr.getSymbol, hsym, hb]
    simp
  · intro h hbody
    have hb : normBodyConditions [SExpr.atom "=".toList,
        SExpr.list (SExpr.atom name :: params.map SExpr.atom), body] = [] := by
      cases body with
      | atom a => simp [normBodyConditions]
      | list b =>
        cases b with
        | nil => simp [normBodyConditions]
        | cons b0 brest =>
          cases b0 with
          | list c => simp [normBodyConditions, SExpr.getSymbol]
          | atom a =>
            have hne : a ≠ "let*".toList := by
              intro ha
              exact hbody brest (by rw [ha])
            have hne2 : ¬ a = ['l', 'e', 't', '*'] := hne
            simp [normBodyConditions, SExpr.getSymbol, hne2]
    simp only [parseNorm, h, List.length_cons, List.length_nil, List.headD_cons,
      List.tail_cons, SExpr.getSymbol, hsym, hb]
    simp
  · intro h
    simp only [parseNorm, h, List.length_cons, List.length_nil, List.headD_cons,
      List.tail_cons, SExpr.getSymbol, hsym]
    simp [normBodyConditions]

theorem C17_parseNorm_conditions_witness :
    parseNorm
        "(= (pay-obligatory $v $spt) (let* (($a (ct-triple $v type soaPay)) ($b (is $spt))) True))".toList
      = some { name := "pay-obligatory".toList, parameters := ["$v".toList, "$spt".toList],
               conditions := [
                 { variableName := "$a".toList,
                   expression := "ct-triple $v type soaPay".toList },
                 { variableName := "$b".toList, expression := "is $spt".toList }],
               consequences := [], description := [] } ∧
    parseNorm "(= (pay-obligatory $v) (ct-triple $v type soaPay))".toList
      = some { name := "pay-obligatory".toList, parameters := ["$v".toList],
               conditions := [], consequences := [], description := [] } :=
  ⟨(C17_parseNorm_conditions
      "(= (pay-obligatory $v $spt) (let* (($a (ct-triple $v type soaPay)) ($b (is $spt))) True))".toList
      "pay-obligatory".toList ["$v".toList, "$spt".toList]
      [("$a".toList, [SExpr.atom "ct-triple".toList, SExpr.atom "$v".toList,
          SExpr.atom "type".toList, SExpr.atom "soaPay".toList]),
       ("$b".toList, [SExpr.atom "is".toList, SExpr.atom "$spt".toList])]
      (SExpr.atom [])).1
      (parse_toString (normTree "pay-obligatory".toList ["$v".toList, "$spt".toList]
        [("$a".toList, [SExpr.atom "ct-triple".toList, SExpr.atom "$v".toList,
            SExpr.atom "type".toList, SExpr.atom "soaPay".toList]),
         ("$b".toList, [SExpr.atom "is".toList, SExpr.atom "$spt".toList])]) (by decide)),
   (C17_parseNorm_conditions "(= (pay-obligatory $v) (ct-triple $v type soaPay))".toList
      "pay-obligatory".toList ["$v".toList] []
      (SExpr.list [SExpr.atom "ct-triple".toList, SExpr.atom "$v".toList,
        SExpr.atom "type".toList, SExpr.atom "soaPay".toList])).2.1
      (parse_toString (SExpr.list [SExpr.atom "=".toList,
        SExpr.list [SExpr.atom "pay-obligatory".toList, SExpr.atom "$v".toList],
        SExpr.list [SExpr.atom "ct-triple".toList, SExpr.atom "$v".toList,
          SExpr.atom "type".toList, SExpr.atom "soaPay".toList]]) (by decide))
      (fun rest h => by
        have h2 := congrArg (fun e => (SExpr.getSymbol ((match e with
          | SExpr.list l => l | SExpr.atom _ => []).headD (SExpr.atom [])))) h
        simp [SExpr.getSymbol] at h2)⟩

/-! ## `EntityResolver`: the negation algebra -/

open EntityResolver

theorem take_split {p x : Str} {n : Nat} (h : x.take n = p) :
    x = p ++ x.drop n := by
  rw [← h, List.take_append_drop]

theorem isNegatedEntity_iff (entity : Str) :
    isNegatedEntity entity = true ↔
      ∃ rest, rest ≠ [] ∧ entity = "soa_en".toList ++ rest := by
  constructor
  · intro h
    simp only [isNegatedEntity, Bool.and_eq_true, decide_eq_true_eq, beq_iff_eq] at h
    have hx := take_split (p := "soa_en".toList) h.2
    refine ⟨entity.drop 6, ?_, hx⟩
    intro hnil
    have hlen : (entity.drop 6).length = 0 := by rw [hnil]; rfl
    rw [List.length_drop] at hlen
    omega
  · rintro ⟨rest, hne, rfl⟩
    have hlen : 0 < rest.length := List.length_pos.mpr hne
    simp only [isNegatedEntity, Bool.and_eq_true, decide_eq_true_eq, beq_iff_eq,
      List.length_append]
    refine ⟨?_, List.take_left' (by decide)⟩
    have : "soa_en".toList.length = 6 := by decide
    omega

theorem getNegatedForm_cases (x : Str) :
    (isNegatedEntity x = true ∧ getNegatedForm x = x) ∨
    (isNegatedEntity x = false ∧ ∃ rest, x = "soa_e".toList ++ rest ∧
      getNegatedForm x = "soa_en".toList ++ rest) ∨
    (isNegatedEntity x = false ∧ x.take 5 ≠ "soa_e".toList ∧
      getNegatedForm x = "not_".toList ++ x) := by
  cases hneg : isNegatedEntity x with
  | true => left; simp [getNegatedForm, hneg]
  | false =>
    right
    by_cases h5 : x.take 5 = "soa_e".toList
    · left
      refine ⟨rfl, x.drop 5, take_split h5, ?_⟩
      simp only [getNegatedForm, hneg, Bool.false_eq_true, if_false, h5, if_true]
    · right
      refine ⟨rfl, h5, ?_⟩
      simp only [getNegatedForm, hneg, Bool.false_eq_true, if_false, h5]

theorem getBaseForm_negated (rest : Str) (h : rest ≠ []) :
    getBaseForm ("soa_en".toList ++ rest) = "soa_e".toList ++ rest := by
  have hneg := (isNegatedEntity_iff _).mpr ⟨rest, h, rfl⟩
  have hdrop : ("soa_en".toList ++ rest).drop 6 = rest := List.drop_left' (by decide)
  simp only [getBaseForm, hneg, Bool.not_true, Bool.false_eq_true, if_false, hdrop]

theorem getBaseForm_not_negated (x : Str) (h : isNegatedEntity x = false) :
    getBaseForm x = x := by
  simp [getBaseForm, h]

/-- C18 as stated fails: `"soa_enmam"` starts with `"soa_e"` but is already negated, so
its negated form is itself and the base form of that is `"soa_emam"`; and the negated
form `"soa_en"` of `"soa_e"` is too short to count as negated, so it is its own base
form. -/
theorem C18_counterexample :
    "soa_e".toList.isPrefixOf "soa_enmam".toList = true ∧
    getBaseForm (getNegatedForm "soa_enmam".toList) = "soa_emam".toList ∧
    "soa_e".toList.isPrefixOf "soa_e".toList = true ∧
    getBaseForm (getNegatedForm "soa_e".toList) = "soa_en".toList := by
  decide

/-- C18 (amended): `EntityResolver::getBaseForm(getNegatedForm(x)) == x` holds exactly
for the identifiers `x` that start with `"soa_e"`, have more than 5 characters and are
not themselves negated (`isNegatedEntity(x)` is false). -/
theorem C18_getBaseForm_getNegatedForm (x : Str) :
    getBaseForm (getNegatedForm x) = x ↔
      ("soa_e".toList.isPrefixOf x = true ∧ x.length > 5 ∧ isNegatedEntity x = false) := by
  rcases getNegatedForm_cases x with ⟨hneg, hform⟩ | ⟨hneg, rest, hx, hform⟩ |
      ⟨hneg, h5, hform⟩
  · rw [hform]
    obtain ⟨rest, hne, rfl⟩ := (isNegatedEntity_iff x).mp hneg
    rw [getBaseForm_negated rest hne]
    constructor
    · intro h
      have := congrArg List.length h
      simp at this
    · rintro ⟨_, _, h⟩
      rw [hneg] at h
      cases h
  · rw [hform]
    subst hx
    cases rest with
    | nil =>
      constructor
      · intro h; revert h; decide
      · rintro ⟨_, h, _⟩; revert h; decide
    | cons c cs =>
      rw [getBaseForm_negated (c :: cs) (by simp)]
      simp only [true_iff]
      refine ⟨?_, ?_, hneg⟩
      · simp
      · simp
  · rw [hform]
    have hnn : isNegatedEntity ("not_".toList ++ x) = false := by
      cases hn : isNegatedEntity ("not_".toList ++ x) with
      | false => rfl
      | true =>
        obtain ⟨rest, _, hr⟩ := (isNegatedEntity_iff _).mp hn
        simp at hr
    rw [getBaseForm_not_negated _ hnn]
    constructor
    · intro h
      have := congrArg List.length h
      simp at this
      omega
    · rintro ⟨hp, _, _⟩
      exfalso
      apply h5
      rw [List.isPrefixOf_iff_prefix] at hp
      have := List.prefix_iff_eq_take.mp hp
      exact this.symm


theorem C18_getBaseForm_getNegatedForm_witness :
    getBaseForm (getNegatedForm "soa_emam".toList) = "soa_emam".toList ∧
    getNegatedForm "soa_emam".toList = "soa_enmam".toList :=
  ⟨(C18_getBaseForm_getNegatedForm "soa_emam".toList).mpr (by decide), by decide⟩

/-- C19 as stated fails: `"soa_en"` starts with the 6-character prefix `"soa_en"`, but
`isNegatedEntity` is false for it. -/
theorem C19_counterexample :
    isNegatedEntity "soa_en".toList = false ∧
    "soa_en".toList.isPrefixOf "soa_en".toList = true := by
  decide

/-- C19 (amended): for every identifier `id`, `EntityResolver::isNegatedEntity(id)` is
true iff `id` starts with the 6-character prefix `"soa_en"` and has more than 6
characters. -/
theorem C19_isNegatedEntity_iff (id : Str) :
    isNegatedEntity id = true ↔ ("soa_en".toList.isPrefixOf id = true ∧ id.length > 6) := by
  simp only [isNegatedEntity, Bool.and_eq_true, decide_eq_true_eq, beq_iff_eq,
    List.isPrefixOf_iff_prefix]
  constructor
  · rintro ⟨hlen, htake⟩
    exact ⟨List.prefix_iff_eq_take.mpr htake.symm, hlen⟩
  · rintro ⟨hp, hlen⟩
    exact ⟨hlen, (List.prefix_iff_eq_take.mp hp).symm⟩

theorem C19_isNegatedEntity_iff_witness :
    isNegatedEntity "soa_enmam".toList = true ∧ isNegatedEntity "soa_emam".toList = false :=
  ⟨(C19_isNegatedEntity_iff "soa_enmam".toList).mpr (by decide), by decide⟩

/-! ## `EntityResolver`: resolving an entity -/

theorem strFind_bounds (needle : Str) (hne : needle ≠ []) :
    ∀ (str : Str) (pos found : Nat), strFind needle str pos = some found →
      pos ≤ found ∧ (found - pos) + needle.length ≤ str.length := by
  intro str
  induction str with
  | nil =>
    intro pos found h
    have : needle.isEmpty = false := by
      cases needle with
      | nil => exact absurd rfl hne
      | cons c cs => rfl
    simp [strFind, this] at h
  | cons c cs ih =>
    intro pos found h
    simp only [strFind] at h
    split at h
    · rename_i hp
      simp only [Option.some.injEq] at h
      subst h
      have hlen := (List.isPrefixOf_iff_prefix.mp hp).length_le
      simp only [le_refl, Nat.sub_self, Nat.zero_add, true_and]
      exact hlen
    · have := ih (pos + 1) found h
      simp only [List.length_cons]
      omega

theorem replaceLoop_total (fromText toText : Str) (hne : fromText ≠ []) :
    ∀ (fuel : Nat) (result : Str) (pos : Nat), result.length - pos < fuel →
      ∃ out, replaceLoop fromText toText fuel result pos = some out := by
  have hpos : 0 < fromText.length := List.length_pos.mpr hne
  intro fuel
  induction fuel with
  | zero => intro result pos h; omega
  | succ n ih =>
    intro result pos h
    simp only [replaceLoop]
    cases hfind : strFindFrom fromText result pos with
    | none => exact ⟨result, rfl⟩
    | some found =>
      simp only []
      apply ih
      simp only [strFindFrom] at hfind
      split at hfind
      · rename_i hle
        have hb := strFind_bounds fromText hne _ _ _ hfind
        simp only [List.length_drop] at hb
        simp only [strReplace, List.length_append, List.length_take, List.length_drop]
        omega
      · cases hfind

theorem applySpecialCharsLoop_total :
    ∀ (table : List (Str × Str)) (text : Str), (∀ kv ∈ table, kv.1 ≠ []) →
      ∃ out, applySpecialCharsLoop table text = some out := by
  intro table
  induction table with
  | nil => intro text _; exact ⟨text, rfl⟩
  | cons kv rest ih =>
    intro text h
    obtain ⟨fromText, toText⟩ := kv
    obtain ⟨replaced, hr⟩ :=
      replaceLoop_total fromText toText (h _ (List.mem_cons_self _ _)) (text.length + 1) text 0
        (by omega)
    simp only [applySpecialCharsLoop, hr]
    exact ih replaced (fun kv hkv => h kv (List.mem_cons_of_mem _ hkv))

theorem strFind_empty_needle (str : Str) (pos : Nat) : strFind [] str pos = some pos := by
  cases str <;> simp [strFind]

theorem replaceLoop_empty_key (toText : Str) :
    ∀ (fuel : Nat) (result : Str) (pos : Nat), pos ≤ result.length →
      replaceLoop [] toText fuel result pos = none := by
  intro fuel
  induction fuel with
  | zero => intro result pos _; rfl
  | succ n ih =>
    intro result pos h
    simp only [replaceLoop, strFindFrom, h, if_true, strFind_empty_needle]
    apply ih
    simp only [strReplace, List.length_append, List.length_take, List.length_drop,
      List.length_nil]
    omega

/-- C20 as stated fails for an identifier that misses the table and does not start with
`"soa_"`: `"A_B"` is returned unchanged, with its underscore, where the stated steps
give `"A B"`. -/
theorem C20_counterexample :
    mapFind "A_B".toList (loadDefaultMappings defaultSpecialCharMappings).entityMappings
      = none ∧
    resolveEntity (loadDefaultMappings defaultSpecialCharMappings) "A_B".toList
      = some "A_B".toList ∧
    specResolveEntity (loadDefaultMappings defaultSpecialCharMappings) "A_B".toList
      = some "A B".toList := by
  decide

/-- C20 (amended): `EntityResolver::resolveEntity(id)` returns the table entry whenever
`id` is a key of the entity table; for every `id` that misses the table and starts with
`"soa_"` it returns `id` with the `"soa_"` prefix stripped, every `_` replaced by a
space, and the special-character replacements then applied (as the specification words
it; a result exists whenever no key of the special-character table is empty); every
other `id` that misses the table is returned unchanged. -/
theorem C20_resolveEntity (r : EntityResolver) (id : Str) :
    (∀ displayName, mapFind id r.entityMappings = some displayName →
      resolveEntity r id = some displayName) ∧
    (mapFind id r.entityMappings = none → "soa_".toList.isPrefixOf id = true →
      resolveEntity r id
          = r.applySpecialChars ((id.drop 4).map (fun c => if c = '_' then ' ' else c)) ∧
      resolveEntity r id = specResolveEntity r id ∧
      ((∀ kv ∈ r.specialCharMappings, kv.1 ≠ []) → ∃ out, resolveEntity r id = some out)) ∧
    (mapFind id r.entityMappings = none → "soa_".toList.isPrefixOf id = false →
      resolveEntity r id = some id) := by
  refine ⟨?_, ?_, ?_⟩
  · intro v h
    simp only [resolveEntity, h]
  · intro hmiss hpre
    have htake : id.take 4 = "soa_".toList :=
      (List.prefix_iff_eq_take.mp (List.isPrefixOf_iff_prefix.mp hpre)).symm
    have h1 : resolveEntity r id
        = r.applySpecialChars ((id.drop 4).map (fun c => if c = '_' then ' ' else c)) := by
      simp only [resolveEntity, hmiss, entityToHumanReadable, htake, ne_eq, not_true_eq_false,
        if_false]
    refine ⟨h1, ?_, ?_⟩
    · rw [h1]
      simp only [specResolveEntity, hmiss, hpre, if_true]
    · intro hkeys
      rw [h1]
      exact applySpecialCharsLoop_total _ _ hkeys
  · intro hmiss hpre
    have htake : id.take 4 ≠ "soa_".toList := by
      intro h
      have : "soa_".toList.isPrefixOf id = true :=
        List.isPrefixOf_iff_prefix.mpr (List.prefix_iff_eq_take.mpr h.symm)
      rw [hpre] at this
      cases this
    simp only [resolveEntity, hmiss, entityToHumanReadable, htake, ne_eq, not_false_eq_true,
      if_true]

theorem C20_resolveEntity_witness :
    resolveEntity (loadDefaultMappings defaultSpecialCharMappings) "soa_LAURA_MAERSK_II".toList
      = some (sLAURA_MAERSK ++ " II".toList) ∧
    resolveEntity (loadDefaultMappings defaultSpecialCharMappings.reverse)
        "soa_LAURA_MAERSK_II".toList
      = some (sLAURA_MAERSK ++ " II".toList) ∧
    resolveEntity (loadDefaultMappings defaultSpecialCharMappings) "soa_MICT".toList
      = some "MICT Smart Port".toList ∧
    resolveEntity (loadDefaultMappings defaultSpecialCharMappings) "LAURA_MAERSK".toList
      = some "LAURA_MAERSK".toList :=
  ⟨((C20_resolveEntity (loadDefaultMappings defaultSpecialCharMappings)
      "soa_LAURA_MAERSK_II".toList).2.1 (by decide) (by decide)).1.trans (by decide),
   ((C20_resolveEntity (loadDefaultMappings defaultSpecialCharMappings.reverse)
      "soa_LAURA_MAERSK_II".toList).2.1 (by decide) (by decide)).1.trans (by decide),
   (C20_resolveEntity (loadDefaultMappings defaultSpecialCharMappings)
      "soa_MICT".toList).1 _ (by decide),
   (C20_resolveEntity (loadDefaultMappings defaultSpecialCharMappings)
      "LAURA_MAERSK".toList).2.2 (by decide) (by decide)⟩

/-! ## Whitespace is only a separator -/

theorem remainingTokens_nil (t : Tokenizer) (h : t.hasNext = false) :
    remainingTokens t = [] := by
  unfold remainingTokens
  cases hn : t.rest.length with
  | zero => rfl
  | succ k => simp [tokens, h]

theorem remainingTokens_cons (t : Tokenizer) (h : t.hasNext = true) :
    remainingTokens t = t.peek :: remainingTokens t.consume :=
  tokens_unfold t h

theorem remainingTokens_hasNext {t1 t2 : Tokenizer}
    (h : remainingTokens t1 = remainingTokens t2) : t1.hasNext = t2.hasNext := by
  cases h1 : t1.hasNext <;> cases h2 : t2.hasNext
  · rfl
  · rw [remainingTokens_nil t1 h1, remainingTokens_cons t2 h2] at h
    cases h
  · rw [remainingTokens_nil t2 h2, remainingTokens_cons t1 h1] at h
    cases h
  · rfl

theorem remainingTokens_peek {t1 t2 : Tokenizer}
    (h : remainingTokens t1 = remainingTokens t2) (h1 : t1.hasNext = true) :
    t1.peek = t2.peek ∧ remainingTokens t1.consume = remainingTokens t2.consume := by
  have h2 : t2.hasNext = true := by rw [← remainingTokens_hasNext h]; exact h1
  rw [remainingTokens_cons t1 h1, remainingTokens_cons t2 h2] at h
  exact ⟨(List.cons.inj h).1, (List.cons.inj h).2⟩

theorem parser_tokens_only (n : Nat) :
    (∀ t1 t2, remainingTokens t1 = remainingTokens t2 →
      resultTokens (parseExpression n t1) = resultTokens (parseExpression n t2)) ∧
    (∀ t1 t2, remainingTokens t1 = remainingTokens t2 → t1.hasNext = true →
      resultTokens (parseList n t1) = resultTokens (parseList n t2)) ∧
    (∀ close t1 t2 acc, remainingTokens t1 = remainingTokens t2 →
      resultTokens (parseListLoop n close t1 acc)
        = resultTokens (parseListLoop n close t2 acc)) := by
  induction n with
  | zero =>
    refine ⟨?_, ?_, ?_⟩
    · intro t1 t2 _; simp [parseExpression]
    · intro t1 t2 _ _; simp [parseList]
    · intro close t1 t2 acc _; simp [parseListLoop]
  | succ n ih =>
    obtain ⟨ihE, ihL, ihLoop⟩ := ih
    refine ⟨?_, ?_, ?_⟩
    · intro t1 t2 h
      have hn := remainingTokens_hasNext h
      rw [parseExpression_succ, parseExpression_succ, ← hn]
      cases h1 : t1.hasNext with
      | false => rfl
      | true =>
        obtain ⟨hp, hc⟩ := remainingTokens_peek h h1
        simp only [Bool.not_true, Bool.false_eq_true, if_false, ← hp]
        split
        · exact ihL t1 t2 h h1
        · split
          · rfl
          · simp only [resultTokens, hc]
    · intro t1 t2 h h1
      obtain ⟨hp, hc⟩ := remainingTokens_peek h h1
      rw [parseList_succ, parseList_succ]
      simp only [Tokenizer.next, ← hp]
      split
      · rfl
      · exact ihLoop _ _ _ _ hc
    · intro close t1 t2 acc h
      have hn := remainingTokens_hasNext h
      rw [parseListLoop_succ, parseListLoop_succ, ← hn]
      cases h1 : t1.hasNext with
      | false => rfl
      | true =>
        obtain ⟨hp, hc⟩ := remainingTokens_peek h h1
        simp only [Tokenizer.next, ← hp, Bool.true_and, Bool.not_true, Bool.false_or]
        split
        · have hE := ihE t1 t2 h
          cases hpe1 : parseExpression n t1 with
          | error e1 =>
            cases hpe2 : parseExpression n t2 with
            | error e2 =>
              rw [hpe1, hpe2] at hE
              simp only [resultTokens, Except.error.injEq] at hE
              simp only [resultTokens, hE]
            | ok r2 =>
              rw [hpe1, hpe2] at hE
              simp [resultTokens] at hE
          | ok r1 =>
            cases hpe2 : parseExpression n t2 with
            | error e2 =>
              rw [hpe1, hpe2] at hE
              simp [resultTokens] at hE
            | ok r2 =>
              obtain ⟨e1, u1⟩ := r1
              obtain ⟨e2, u2⟩ := r2
              rw [hpe1, hpe2] at hE
              simp only [resultTokens, Except.ok.injEq, Prod.mk.injEq] at hE
              simp only []
              rw [hE.1]
              exact ihLoop close u1 u2 _ hE.2
        · simp only [resultTokens, hc]

theorem parseMultipleLoop_tokens_only (n : Nat) : ∀ (t1 t2 : Tokenizer) (acc : List SExpr),
    remainingTokens t1 = remainingTokens t2 →
    parseMultipleLoop n t1 acc = parseMultipleLoop n t2 acc := by
  induction n with
  | zero => intro t1 t2 acc _; rfl
  | succ n ih =>
    intro t1 t2 acc h
    have hn := remainingTokens_hasNext h
    rw [parseMultipleLoop_succ, parseMultipleLoop_succ, ← hn]
    cases h1 : t1.hasNext with
    | false => rfl
    | true =>
      simp only [if_true]
      have hE := (parser_tokens_only n).1 t1 t2 h
      cases hpe1 : parseExpression n t1 with
      | error e1 =>
        cases hpe2 : parseExpression n t2 with
        | error e2 =>
          rw [hpe1, hpe2] at hE
          simp only [resultTokens, Except.error.injEq] at hE
          simp only [hE]
        | ok r2 =>
          rw [hpe1, hpe2] at hE
          simp [resultTokens] at hE
      | ok r1 =>
        cases hpe2 : parseExpression n t2 with
        | error e2 =>
          rw [hpe1, hpe2] at hE
          simp [resultTokens] at hE
        | ok r2 =>
          obtain ⟨e1, u1⟩ := r1
          obtain ⟨e2, u2⟩ := r2
          rw [hpe1, hpe2] at hE
          simp only [resultTokens, Except.ok.injEq, Prod.mk.injEq] at hE
          simp only []
          rw [hE.1]
          exact ih u1 u2 _ hE.2

theorem parseMultiple_settled_fuel (input : Str) {n : Nat} (h : parseFuel input ≤ n) :
    parseMultipleLoop n (Tokenizer.new input) [] = parseMultiple input := by
  have hs : Settled (parseMultipleLoop (parseFuel input) (Tokenizer.new input) []) := by
    apply parseMultipleLoop_total
    have := skipWhitespace_length_new input
    simp only [parseFuel]
    omega
  exact parseMultipleLoop_mono_le h _ _ hs

theorem parseMultiple_of_tokenize {a b : Str} (h : tokenize a = tokenize b) :
    parseMultiple a = parseMultiple b := by
  rw [← parseMultiple_settled_fuel a (Nat.le_max_left _ (parseFuel b)),
    ← parseMultiple_settled_fuel b (Nat.le_max_right (parseFuel a) _)]
  exact parseMultipleLoop_tokens_only _ _ _ _ h

theorem isBracket_not_space {c : Char} (h : isBracket c = true) : isspace c = false := by
  simp only [isBracket, Bool.or_eq_true, beq_iff_eq] at h
  rcases h with ((h | h) | h) | h <;> subst h <;> decide

theorem isDelimiter_eq (c : Char) : isDelimiter c = (isBracket c || isspace c) := rfl

theorem remainingTokens_bracket (c : Char) (cs : Str) (h : isBracket c = true) :
    remainingTokens ⟨c :: cs⟩ = [c] :: remainingTokens ⟨skipWhitespace cs⟩ := by
  rw [remainingTokens_cons ⟨c :: cs⟩ rfl]
  simp only [Tokenizer.peek, Tokenizer.consume, h, if_true]

theorem remainingTokens_run (c : Char) (cs : Str) (h : isDelimiter c = false) :
    remainingTokens ⟨c :: cs⟩
      = (c :: cs.takeWhile (fun x => !isDelimiter x))
        :: remainingTokens ⟨skipWhitespace (cs.dropWhile (fun x => !isDelimiter x))⟩ := by
  have hb : isBracket c = false := by
    rw [isDelimiter_eq] at h
    cases hb : isBracket c with
    | false => rfl
    | true => rw [hb] at h; simp at h
  rw [remainingTokens_cons ⟨c :: cs⟩ rfl]
  simp only [Tokenizer.peek, Tokenizer.consume, hb, Bool.false_eq_true, if_false,
    List.takeWhile_cons, List.dropWhile_cons, h, Bool.not_false, if_true]

theorem specTokensFrom_eq (s : Str) :
    (∀ run : Str, run ≠ [] →
      specTokensFrom s run
        = (run ++ s.takeWhile (fun x => !isDelimiter x))
          :: remainingTokens ⟨skipWhitespace (s.dropWhile (fun x => !isDelimiter x))⟩) ∧
    specTokensFrom s [] = remainingTokens ⟨skipWhitespace s⟩ := by
  induction s with
  | nil =>
    constructor
    · intro run hrun
      have : run.isEmpty = false := by cases run with
        | nil => exact absurd rfl hrun
        | cons _ _ => rfl
      simp [specTokensFrom, this, skipWhitespace, remainingTokens, tokens]
    · rfl
  | cons c cs ih =>
    obtain ⟨ih1, ih2⟩ := ih
    by_cases hb : isBracket c = true
    · have hs := isBracket_not_space hb
      have hd : isDelimiter c = true := by rw [isDelimiter_eq, hb]; rfl
      have hskip : skipWhitespace (c :: cs) = c :: cs := by
        simp [skipWhitespace, List.dropWhile_cons, hs]
      constructor
      · intro run hrun
        have : run.isEmpty = false := by cases run with
          | nil => exact absurd rfl hrun
          | cons _ _ => rfl
        simp only [specTokensFrom, hb, if_true, this, Bool.false_eq_true, if_false,
          List.takeWhile_cons, List.dropWhile_cons, hd, Bool.not_true, List.append_nil,
          hskip, remainingTokens_bracket c cs hb, ih2, List.singleton_append]
      · simp only [specTokensFrom, hb, if_true, List.isEmpty_nil, List.nil_append, hskip,
          remainingTokens_bracket c cs hb, ih2]
    · have hb2 : isBracket c = false := by simpa using hb
      by_cases hs : isspace c = true
      · have hd : isDelimiter c = true := by rw [isDelimiter_eq, hs]; simp
        have hskip : skipWhitespace (c :: cs) = skipWhitespace cs := by
          simp [skipWhitespace, List.dropWhile_cons, hs]
        constructor
        · intro run hrun
          have : run.isEmpty = false := by cases run with
            | nil => exact absurd rfl hrun
            | cons _ _ => rfl
          simp only [specTokensFrom, hb2, Bool.false_eq_true, if_false, hs, if_true, this,
            List.takeWhile_cons, List.dropWhile_cons, hd, Bool.not_true, List.append_nil,
            hskip, ih2, List.singleton_append]
        · simp only [specTokensFrom, hb2, Bool.false_eq_true, if_false, hs, if_true,
            List.isEmpty_nil, List.nil_append, hskip, ih2]
      · have hs2 : isspace c = false := by simpa using hs
        have hd : isDelimiter c = false := by rw [isDelimiter_eq, hb2, hs2]; rfl
        have hskip : skipWhitespace (c :: cs) = c :: cs := by
          simp [skipWhitespace, List.dropWhile_cons, hs2]
        constructor
        · intro run hrun
          simp only [specTokensFrom, hb2, Bool.false_eq_true, if_false, hs2,
            List.takeWhile_cons, List.dropWhile_cons, hd, Bool.not_false, if_true]
          rw [ih1 (run ++ [c]) (by simp)]
          simp
        · simp only [specTokensFrom, hb2, Bool.false_eq_true, if_false, hs2, hskip,
            List.nil_append]
          rw [ih1 [c] (by simp), remainingTokens_run c cs hd]
          simp

theorem specTokens_eq_tokenize (input : Str) : specTokens input = tokenize input :=
  (specTokensFrom_eq input).2

/-- C13: whitespace is only a separator: for any two texts that have the same token
sequence (a token being a single bracket character or a maximal run of non-whitespace,
non-bracket characters), `SExprParser::parseMultiple` gives the same outcome on both:
both fail (with the same error) or both return the same sequence of trees. -/
theorem C13_parseMultiple_whitespace_insensitive (a b : Str)
    (h : specTokens a = specTokens b) : parseMultiple a = parseMultiple b := by
  rw [specTokens_eq_tokenize, specTokens_eq_tokenize] at h
  exact parseMultiple_of_tokenize h

theorem C13_parseMultiple_whitespace_insensitive_witness :
    specTokens "(a  [b c])\n d".toList = specTokens " ( a [ b\tc ] )d".toList ∧
    parseMultiple "(a  [b c])\n d".toList = parseMultiple " ( a [ b\tc ] )d".toList ∧
    parseMultiple "(a  [b c])\n d".toList
      = .ok [SExpr.list [SExpr.atom ['a'], SExpr.list [SExpr.atom ['b'], SExpr.atom ['c']]],
          SExpr.atom ['d']] :=
  ⟨by decide,
   C13_parseMultiple_whitespace_insensitive _ _ (by decide),
   rfl⟩

/-! ## The expressions that `parseMultiple` returns -/

theorem exprTokensList_append (xs ys : List SExpr) :
    exprTokensList (xs ++ ys) = exprTokensList xs ++ exprTokensList ys := by
  induction xs with
  | nil => rfl
  | cons x xs ih =>
    show exprTokens x ++ exprTokensList (xs ++ ys) = (exprTokens x ++ exprTokensList xs) ++ _
    rw [ih, List.append_assoc]

theorem hasNext_of_peek_ne_nil (t : Tokenizer) (h : t.peek ≠ []) : t.hasNext = true := by
  obtain ⟨r⟩ := t
  cases r with
  | nil => exact absurd rfl h
  | cons c cs => rfl

theorem parser_tokens (n : Nat) :
    (∀ t e t1, parseExpression n t = .ok (e, t1) →
      (remainingTokens t).map roundBracket
        = exprTokens e ++ (remainingTokens t1).map roundBracket) ∧
    (∀ t e t1, parseList n t = .ok (e, t1) →
      (remainingTokens t).map roundBracket
        = exprTokens e ++ (remainingTokens t1).map roundBracket) ∧
    (∀ close t acc e t1, (close = sCloseParen ∨ close = sCloseSquare) →
      parseListLoop n close t acc = .ok (e, t1) →
      ∃ items, e = SExpr.list (acc ++ items) ∧
        (remainingTokens t).map roundBracket
          = exprTokensList items ++ sCloseParen :: (remainingTokens t1).map roundBracket) := by
  induction n with
  | zero =>
    refine ⟨?_, ?_, ?_⟩
    · intro t e t1 h; simp [parseExpression] at h
    · intro t e t1 h; simp [parseList] at h
    · intro close t acc e t1 _ h; simp [parseListLoop] at h
  | succ n ih =>
    obtain ⟨ihE, ihL, ihLoop⟩ := ih
    refine ⟨?_, ?_, ?_⟩
    · intro t e t1 h
      rw [parseExpression_succ] at h
      split at h
      · simp at h
      · rename_i hn
        have hnext : t.hasNext = true := by simpa using hn
        split at h
        · exact ihL t e t1 h
        · rename_i hopen
          split at h
          · simp at h
          · rename_i hclose
            simp only [Except.ok.injEq, Prod.mk.injEq] at h
            rw [remainingTokens_cons t hnext, ← h.1, ← h.2]
            simp only [Bool.or_eq_true, decide_eq_true_eq, not_or] at hopen hclose
            simp only [List.map_cons, exprTokens, roundBracket, hopen.2, hclose.2, if_false,
              List.singleton_append]
    · intro t e t1 h
      rw [parseList_succ] at h
      split at h
      · simp at h
      · rename_i hopen
        simp only [Tokenizer.next] at h hopen
        have hnext : t.hasNext = true := by
          apply hasNext_of_peek_ne_nil
          intro hnil
          apply hopen
          simp only [hnil]
          decide
        rw [remainingTokens_cons t hnext]
        by_cases hp : t.peek = sOpenParen
        · simp only [hp, if_true] at h
          obtain ⟨items, he, htok⟩ := ihLoop sCloseParen t.consume [] e t1 (Or.inl rfl) h
          rw [he, hp, List.map_cons, htok]
          simp [exprTokens, roundBracket, sOpenParen, sOpenSquare, sCloseSquare]
        · have hs : t.peek = sOpenSquare := by
            by_contra hcon
            simp [hp, hcon] at hopen
          simp only [hp, if_false] at h
          obtain ⟨items, he, htok⟩ := ihLoop sCloseSquare t.consume [] e t1 (Or.inr rfl) h
          rw [he, hs, List.map_cons, htok]
          simp [exprTokens, roundBracket, sOpenParen, sOpenSquare, sCloseSquare]
    · intro close t acc e t1 hclose h
      rw [parseListLoop_succ] at h
      split at h
      · rename_i hcond
        simp only [Bool.and_eq_true, decide_eq_true_eq] at hcond
        cases hpe : parseExpression n t with
        | error err => rw [hpe] at h; simp at h
        | ok r =>
          obtain ⟨e2, t2⟩ := r
          rw [hpe] at h
          simp only at h
          have h1 := ihE t e2 t2 hpe
          obtain ⟨items, he, htok⟩ := ihLoop close t2 _ e t1 hclose h
          refine ⟨e2 :: items, ?_, ?_⟩
          · rw [he]; simp
          · rw [h1, htok]
            simp [exprTokensList]
      · split at h
        · simp at h
        · rename_i hc2
          simp only [Bool.or_eq_true, Bool.not_eq_true', decide_eq_true_eq, not_or,
            Bool.not_eq_false, ne_eq, not_not, Tokenizer.next] at hc2
          simp only [Except.ok.injEq, Prod.mk.injEq, Tokenizer.next] at h
          refine ⟨[], ?_, ?_⟩
          · rw [← h.1]; simp
          · rw [remainingTokens_cons t hc2.1, hc2.2, ← h.2]
            rcases hclose with hcl | hcl <;> subst hcl <;>
              simp [exprTokensList, roundBracket, sOpenParen, sOpenSquare, sCloseSquare,
                sCloseParen]

theorem parseMultipleLoop_tokens (n : Nat) : ∀ (t : Tokenizer) (acc es : List SExpr),
    parseMultipleLoop n t acc = .ok es →
    ∃ items, es = acc ++ items ∧
      (remainingTokens t).map roundBracket = exprTokensList items := by
  induction n with
  | zero => intro t acc es h; simp [parseMultipleLoop] at h
  | succ n ih =>
    intro t acc es h
    rw [parseMultipleLoop_succ] at h
    split at h
    · cases hpe : parseExpression n t with
      | error err => rw [hpe] at h; simp at h
      | ok r =>
        obtain ⟨e2, t2⟩ := r
        rw [hpe] at h
        simp only at h
        obtain ⟨items, he, htok⟩ := ih t2 _ es h
        refine ⟨e2 :: items, ?_, ?_⟩
        · rw [he]; simp
        · rw [(parser_tokens n).1 t e2 t2 hpe, htok]
          simp [exprTokensList]
    · rename_i hn
      simp only [Except.ok.injEq] at h
      refine ⟨[], ?_, ?_⟩
      · rw [← h]; simp
      · rw [remainingTokens_nil t (by simpa using hn)]
        rfl

theorem balanced_step_atom (tok : Str) (rest expected : List Str)
    (h1 : tok ≠ sOpenParen) (h2 : tok ≠ sOpenSquare) (h3 : tok ≠ sCloseParen)
    (h4 : tok ≠ sCloseSquare) :
    bracketsBalanced (tok :: rest) expected = bracketsBalanced rest expected := by
  simp [bracketsBalanced, h1, h2, h3, h4]

theorem balanced_step_close (close : Str) (rest outer : List Str)
    (hclose : close = sCloseParen ∨ close = sCloseSquare) :
    bracketsBalanced (close :: rest) (close :: outer) = bracketsBalanced rest outer := by
  rcases hclose with h | h <;> subst h <;> simp [bracketsBalanced, sCloseParen, sCloseSquare,
    sOpenParen, sOpenSquare]

theorem parser_balanced (n : Nat) :
    (∀ t e t1, parseExpression n t = .ok (e, t1) → ∀ expected,
      bracketsBalanced (remainingTokens t) expected
        = bracketsBalanced (remainingTokens t1) expected) ∧
    (∀ t e t1, parseList n t = .ok (e, t1) → ∀ expected,
      bracketsBalanced (remainingTokens t) expected
        = bracketsBalanced (remainingTokens t1) expected) ∧
    (∀ close t acc e t1, (close = sCloseParen ∨ close = sCloseSquare) →
      parseListLoop n close t acc = .ok (e, t1) → ∀ outer,
      bracketsBalanced (remainingTokens t) (close :: outer)
        = bracketsBalanced (remainingTokens t1) outer) := by
  induction n with
  | zero =>
    refine ⟨?_, ?_, ?_⟩
    · intro t e t1 h; simp [parseExpression] at h
    · intro t e t1 h; simp [parseList] at h
    · intro close t acc e t1 _ h; simp [parseListLoop] at h
  | succ n ih =>
    obtain ⟨ihE, ihL, ihLoop⟩ := ih
    refine ⟨?_, ?_, ?_⟩
    · intro t e t1 h expected
      rw [parseExpression_succ] at h
      split at h
      · simp at h
      · rename_i hn
        have hnext : t.hasNext = true := by simpa using hn
        split at h
        · exact ihL t e t1 h expected
        · rename_i hopen
          split at h
          · simp at h
          · rename_i hclose
            simp only [Except.ok.injEq, Prod.mk.injEq] at h
            rw [remainingTokens_cons t hnext, ← h.2]
            simp only [Bool.or_eq_true, decide_eq_true_eq, not_or] at hopen hclose
            exact balanced_step_atom _ _ _ hopen.1 hopen.2 hclose.1 hclose.2
    · intro t e t1 h expected
      rw [parseList_succ] at h
      split at h
      · simp at h
      · rename_i hopen
        simp only [Tokenizer.next] at h hopen
        have hnext : t.hasNext = true := by
          apply hasNext_of_peek_ne_nil
          intro hnil
          apply hopen
          simp only [hnil]
          decide
        rw [remainingTokens_cons t hnext]
        by_cases hp : t.peek = sOpenParen
        · simp only [hp, if_true] at h
          have := ihLoop sCloseParen t.consume [] e t1 (Or.inl rfl) h expected
          rw [hp]
          simpa [bracketsBalanced] using this
        · have hs : t.peek = sOpenSquare := by
            by_contra hcon
            simp [hp, hcon] at hopen
          simp only [hp, if_false] at h
          have := ihLoop sCloseSquare t.consume [] e t1 (Or.inr rfl) h expected
          rw [hs]
          simpa [bracketsBalanced, sOpenSquare, sOpenParen] using this
    · intro close t acc e t1 hclose h outer
      rw [parseListLoop_succ] at h
      split at h
      · rename_i hcond
        simp only [Bool.and_eq_true, decide_eq_true_eq] at hcond
        cases hpe : parseExpression n t with
        | error err => rw [hpe] at h; simp at h
        | ok r =>
          obtain ⟨e2, t2⟩ := r
          rw [hpe] at h
          simp only at h
          rw [ihE t e2 t2 hpe (close :: outer)]
          exact ihLoop close t2 _ e t1 hclose h outer
      · split at h
        · simp at h
        · rename_i hc2
          simp only [Bool.or_eq_true, Bool.not_eq_true', decide_eq_true_eq, not_or,
            Bool.not_eq_false, ne_eq, not_not, Tokenizer.next] at hc2
          simp only [Except.ok.injEq, Prod.mk.injEq, Tokenizer.next] at h
          rw [remainingTokens_cons t hc2.1, hc2.2, ← h.2]
          exact balanced_step_close close _ outer hclose

theorem scan_close_unexpected (tok : Str) (rest expected : List Str)
    (htok : tok = sCloseParen ∨ tok = sCloseSquare)
    (hexp : ∀ close outer, expected = close :: outer → tok ≠ close) :
    scanFirst (tok :: rest) expected ≠ .complete ∧
    bracketsBalanced (tok :: rest) expected = false := by
  cases expected with
  | nil =>
    rcases htok with h | h <;> subst h <;>
      simp [scanFirst, bracketsBalanced, sCloseParen, sCloseSquare, sOpenParen, sOpenSquare]
  | cons close outer =>
    have hne := hexp close outer rfl
    rcases htok with h | h <;> subst h <;>
      simp [scanFirst, bracketsBalanced, sCloseParen, sCloseSquare, sOpenParen, sOpenSquare]
        at hne ⊢ <;> simp [sCloseParen, sCloseSquare, hne]

theorem parser_error_scan (n : Nat) :
    (∀ t msg, t.hasNext = true → parseExpression n t = .error (.runtimeError msg) →
      ∀ expected, (∀ close outer, expected = close :: outer → t.peek ≠ close) →
      scanFirst (remainingTokens t) expected ≠ .complete ∧
      bracketsBalanced (remainingTokens t) expected = false) ∧
    (∀ t msg, t.hasNext = true → (t.peek = sOpenParen ∨ t.peek = sOpenSquare) →
      parseList n t = .error (.runtimeError msg) → ∀ expected,
      scanFirst (remainingTokens t) expected ≠ .complete ∧
      bracketsBalanced (remainingTokens t) expected = false) ∧
    (∀ close t acc msg, (close = sCloseParen ∨ close = sCloseSquare) →
      parseListLoop n close t acc = .error (.runtimeError msg) → ∀ outer,
      scanFirst (remainingTokens t) (close :: outer) ≠ .complete ∧
      bracketsBalanced (remainingTokens t) (close :: outer) = false) := by
  induction n with
  | zero =>
    refine ⟨?_, ?_, ?_⟩
    · intro t msg _ h; simp [parseExpression] at h
    · intro t msg _ _ h; simp [parseList] at h
    · intro close t acc msg _ h; simp [parseListLoop] at h
  | succ n ih =>
    obtain ⟨ihE, ihL, ihLoop⟩ := ih
    refine ⟨?_, ?_, ?_⟩
    · intro t msg hnext h expected hexp
      rw [parseExpression_succ] at h
      simp only [hnext, Bool.not_true, Bool.false_eq_true, if_false] at h
      split at h
      · rename_i hopen
        simp only [Bool.or_eq_true, decide_eq_true_eq] at hopen
        exact ihL t msg hnext hopen h expected
      · split at h
        · rename_i hclose
          simp only [Bool.or_eq_true, decide_eq_true_eq] at hclose
          rw [remainingTokens_cons t hnext]
          exact scan_close_unexpected _ _ _ hclose hexp
        · simp at h
    · intro t msg hnext hopen h expected
      rw [parseList_succ] at h
      simp only [Tokenizer.next] at h
      rw [remainingTokens_cons t hnext]
      rcases hopen with hp | hp
      · simp only [hp] at h
        have h2 : parseListLoop n sCloseParen t.consume [] = .error (.runtimeError msg) := by
          simpa [sOpenParen, sOpenSquare] using h
        have := ihLoop sCloseParen t.consume [] msg (Or.inl rfl) h2 expected
        rw [hp]
        simpa [scanFirst, bracketsBalanced] using this
      · simp only [hp] at h
        have h2 : parseListLoop n sCloseSquare t.consume [] = .error (.runtimeError msg) := by
          simpa [sOpenParen, sOpenSquare] using h
        have := ihLoop sCloseSquare t.consume [] msg (Or.inr rfl) h2 expected
        rw [hp]
        simpa [scanFirst, bracketsBalanced, sOpenSquare, sOpenParen] using this
    · intro close t acc msg hclose h outer
      rw [parseListLoop_succ] at h
      split at h
      · rename_i hcond
        simp only [Bool.and_eq_true, decide_eq_true_eq] at hcond
        cases hpe : parseExpression n t with
        | error err =>
          rw [hpe] at h
          simp only [Except.error.injEq] at h
          subst h
          exact ihE t msg hcond.1 hpe (close :: outer) (fun c o hco => by
            simp only [List.cons.injEq] at hco
            rw [← hco.1]
            exact hcond.2)
        | ok r =>
          obtain ⟨e2, t2⟩ := r
          rw [hpe] at h
          simp only at h
          have hs := (parser_scan n).1 t e2 t2 hpe (close :: outer)
          have hb := (parser_balanced n).1 t e2 t2 hpe (close :: outer)
          have := ihLoop close t2 _ msg hclose h outer
          simp only [List.isEmpty_cons, Bool.false_eq_true, if_false] at hs
          refine ⟨?_, ?_⟩
          · show scanFirst (tokens t.rest.length t) (close :: outer) ≠ .complete
            rw [hs]
            exact this.1
          · rw [hb]
            exact this.2
      · rename_i hcond
        by_cases hnext : t.hasNext = true
        · exfalso
          have hpk : t.peek = close := by
            by_contra hcon
            apply hcond
            simp [hnext, hcon]
          simp [hnext, Tokenizer.next, hpk] at h
        · have hno : t.hasNext = false := by simpa using hnext
          rw [remainingTokens_nil t hno]
          simp [scanFirst, bracketsBalanced]

theorem parseMultipleLoop_balanced (n : Nat) : ∀ (t : Tokenizer) (acc : List SExpr),
    (∀ es, parseMultipleLoop n t acc = .ok es →
      bracketsBalanced (remainingTokens t) [] = true) ∧
    (∀ msg, parseMultipleLoop n t acc = .error (.runtimeError msg) →
      bracketsBalanced (remainingTokens t) [] = false) := by
  induction n with
  | zero =>
    intro t acc
    constructor
    · intro es h; simp [parseMultipleLoop] at h
    · intro msg h; simp [parseMultipleLoop] at h
  | succ n ih =>
    intro t acc
    rw [parseMultipleLoop_succ]
    cases hnext : t.hasNext with
    | false =>
      simp only [Bool.false_eq_true, if_false]
      rw [remainingTokens_nil t hnext]
      constructor
      · intro es _; rfl
      · intro msg h; simp at h
    | true =>
      simp only [if_true]
      cases hpe : parseExpression n t with
      | error err =>
        constructor
        · intro es h; simp at h
        · intro msg h
          simp only [Except.error.injEq] at h
          subst h
          exact ((parser_error_scan n).1 t msg hnext hpe []
            (fun c o hco => by cases hco)).2
      | ok r =>
        obtain ⟨e2, t2⟩ := r
        simp only
        rw [(parser_balanced n).1 t e2 t2 hpe []]
        exact ih t2 _

theorem parseMultiple_settled (input : Str) :
    (∃ es, parseMultiple input = .ok es) ∨
    (∃ msg, parseMultiple input = .error (.runtimeError msg)) := by
  have hs : Settled (parseMultipleLoop (parseFuel input) (Tokenizer.new input) []) := by
    apply parseMultipleLoop_total
    have := skipWhitespace_length_new input
    simp only [parseFuel]
    omega
  unfold parseMultiple
  cases hpm : parseMultipleLoop (parseFuel input) (Tokenizer.new input) [] with
  | ok es => exact Or.inl ⟨es, rfl⟩
  | error err =>
    rw [hpm] at hs
    cases err with
    | runtimeError m => exact Or.inr ⟨m, rfl⟩
    | outOfFuel => exact absurd rfl hs

theorem parseMultiple_ok_iff_balanced (input : Str) :
    (∃ es, parseMultiple input = .ok es) ↔ bracketsBalanced (tokenize input) [] = true := by
  have hb := parseMultipleLoop_balanced (parseFuel input) (Tokenizer.new input) []
  constructor
  · rintro ⟨es, h⟩
    exact hb.1 es h
  · intro h
    rcases parseMultiple_settled input with hok | ⟨msg, herr⟩
    · exact hok
    · have := hb.2 msg herr
      rw [show remainingTokens (Tokenizer.new input) = tokenize input from rfl, h] at this
      cases this

theorem parse_ok_iff_scan (input : Str) :
    (∃ e, parse input = .ok e) ↔ scanFirst (tokenize input) [] = .complete := by
  constructor
  · rintro ⟨e, h⟩
    exact scanFirst_complete_of_parse h
  · intro h
    rcases parse_settled input with hok | ⟨msg, herr⟩
    · exact hok
    · exfalso
      unfold parse at herr
      simp only at herr
      cases hnext : (Tokenizer.new input).hasNext with
      | false =>
        have : tokenize input = [] := remainingTokens_nil _ hnext
        rw [this] at h
        simp [scanFirst] at h
      | true =>
        simp only [hnext, Bool.not_true, Bool.false_eq_true, if_false] at herr
        cases hpe : parseExpression (parseFuel input) (Tokenizer.new input) with
        | ok r => rw [hpe] at herr; simp at herr
        | error err =>
          rw [hpe] at herr
          simp only [Except.error.injEq] at herr
          subst herr
          exact ((parser_error_scan _).1 _ msg hnext hpe []
            (fun c o hco => by cases hco)).1 h

theorem parse_ok_of_balanced (input : Str) (hb : bracketsBalanced (tokenize input) [] = true)
    (hne : tokenize input ≠ []) : ∃ e, parse input = .ok e := by
  obtain ⟨es, hes⟩ := (parseMultiple_ok_iff_balanced input).mpr hb
  have hnext : (Tokenizer.new input).hasNext = true := by
    cases hn : (Tokenizer.new input).hasNext with
    | true => rfl
    | false => exact absurd (remainingTokens_nil _ hn) hne
  unfold parseMultiple at hes
  have hfuel : parseFuel input = (3 * input.length + 1) + 1 := rfl
  rw [hfuel, parseMultipleLoop_succ] at hes
  simp only [hnext, if_true] at hes
  cases hpe : parseExpression (3 * input.length + 1) (Tokenizer.new input) with
  | error err => rw [hpe] at hes; simp at hes
  | ok r =>
    obtain ⟨e, t1⟩ := r
    exact ⟨e, parse_eq_of_parseExpression ((Tokenizer.hasNext_iff _).mp hnext) hpe⟩

/-- C11 as stated fails: the brackets of `"(a) )"` and of `"(a) (b"` do not balance (a
closing bracket without an opening one; an opening bracket that is never closed), yet
`parse` returns the tree of `(a)` for both, because it stops after the first
expression. -/
theorem C11_counterexample :
    parse "(a) )".toList = .ok (SExpr.list [SExpr.atom ['a']]) ∧
    bracketsBalanced (specTokens "(a) )".toList) [] = false ∧
    parse "(a) (b".toList = .ok (SExpr.list [SExpr.atom ['a']]) ∧
    bracketsBalanced (specTokens "(a) (b".toList) [] = false :=
  ⟨rfl, by decide, rfl, by decide⟩

/-- C11 (amended): `SExprParser::parse` fails exactly for the texts in which the
brackets of the first expression do not balance: the text has no token, or it ends
before the lists opened in its first expression are closed, or its first token is a
closing bracket, or a list of the first expression meets the closing bracket of the
other kind.  What follows the first complete expression is not read; a text that is
not blank and whose brackets balance throughout is parsed. -/
theorem C11_parse_fails_iff_first_expression_unbalanced (input : Str) :
    ((∃ msg, parse input = .error (.runtimeError msg)) ↔
      scanFirst (specTokens input) [] ≠ .complete) ∧
    ((∃ e, parse input = .ok e) ↔ scanFirst (specTokens input) [] = .complete) ∧
    (bracketsBalanced (specTokens input) [] = true → specTokens input ≠ [] →
      ∃ e, parse input = .ok e) := by
  rw [specTokens_eq_tokenize]
  refine ⟨?_, parse_ok_iff_scan input, parse_ok_of_balanced input⟩
  constructor
  · rintro ⟨msg, hmsg⟩ hscan
    obtain ⟨e, he⟩ := (parse_ok_iff_scan input).mpr hscan
    rw [he] at hmsg
    cases hmsg
  · intro hscan
    exact parse_fails_of_scan hscan

theorem C11_parse_fails_iff_first_expression_unbalanced_witness :
    scanFirst (specTokens "(a (b) c".toList) [] = .truncated ∧
    (∃ msg, parse "(a (b) c".toList = .error (.runtimeError msg)) ∧
    scanFirst (specTokens "a ) (".toList) [] = .complete ∧
    (∃ e, parse "a ) (".toList = .ok e) :=
  ⟨by decide,
   (C11_parse_fails_iff_first_expression_unbalanced "(a (b) c".toList).1.mpr (by decide),
   by decide,
   (C11_parse_fails_iff_first_expression_unbalanced "a ) (".toList).2.1.mpr (by decide)⟩

/-- C12: `SExprParser::parseMultiple` is all-or-nothing: on empty or whitespace-only
text it returns the empty sequence; otherwise it either returns every top-level
expression of the text in source order (the tokens of the returned trees, in order, are
the tokens of the text), or, if the brackets of the text do not balance (some top-level
expression is malformed), it fails as a whole with a `std::runtime_error` and yields no
expressions, even when earlier expressions in the text were well formed. -/
theorem C12_parseMultiple_all_or_nothing (input : Str) :
    ((∀ c ∈ input, isspace c = true) → parseMultiple input = .ok []) ∧
    ((∃ es, parseMultiple input = .ok es) ∨
      (∃ msg, parseMultiple input = .error (.runtimeError msg))) ∧
    (∀ es, parseMultiple input = .ok es →
      exprTokensList es = (specTokens input).map roundBracket) ∧
    ((∃ es, parseMultiple input = .ok es) ↔
      bracketsBalanced (specTokens input) [] = true) ∧
    ((∃ msg, parseMultiple input = .error (.runtimeError msg)) ↔
      bracketsBalanced (specTokens input) [] = false) := by
  rw [specTokens_eq_tokenize]
  have hiff := parseMultiple_ok_iff_balanced input
  refine ⟨?_, parseMultiple_settled input, ?_, hiff, ?_⟩
  · intro h
    have hnil := skipWhitespace_all_space input h
    have hfuel : parseFuel input = (3 * input.length + 1) + 1 := rfl
    unfold parseMultiple
    rw [hfuel, parseMultipleLoop_succ]
    simp [Tokenizer.new, hnil, Tokenizer.hasNext]
  · intro es h
    obtain ⟨items, hitems, htok⟩ := parseMultipleLoop_tokens _ _ _ _ h
    simp only [List.nil_append] at hitems
    rw [hitems, ← htok]
    rfl
  · constructor
    · rintro ⟨msg, hmsg⟩
      cases hb : bracketsBalanced (tokenize input) [] with
      | false => rfl
      | true =>
        obtain ⟨es, hes⟩ := hiff.mpr hb
        rw [hes] at hmsg
        cases hmsg
    · intro hb
      rcases parseMultiple_settled input with ⟨es, hes⟩ | herr
      · have := hiff.mp ⟨es, hes⟩
        rw [hb] at this
        cases this
      · exact herr

theorem C12_parseMultiple_all_or_nothing_witness :
    parseMultiple " \n\t ".toList = .ok [] ∧
    parseMultiple "(a b) c [d]".toList
      = .ok [SExpr.list [SExpr.atom ['a'], SExpr.atom ['b']], SExpr.atom ['c'],
          SExpr.list [SExpr.atom ['d']]] ∧
    parse "(a b) (c".toList = .ok (SExpr.list [SExpr.atom ['a'], SExpr.atom ['b']]) ∧
    (∃ msg, parseMultiple "(a b) (c".toList = .error (.runtimeError msg)) :=
  ⟨(C12_parseMultiple_all_or_nothing " \n\t ".toList).1 (by decide),
   rfl,
   rfl,
   (C12_parseMultiple_all_or_nothing "(a b) (c".toList).2.2.2.2.mpr (by decide)⟩

/-! ## `EntityResolver`: resolving an action -/

/-- C21 as stated fails on a miss: only the first character after `"soa"` is lowercased
(`"soaPayNow"` gives `"payNow"`, not `"paynow"`), and the bare prefix `"soa"` is
returned unchanged even for the present tense (not `"s"`). -/
theorem C21_counterexample :
    mapFind "soaPayNow".toList (loadDefaultMappings defaultSpecialCharMappings).actionMappings
      = none ∧
    resolveAction (loadDefaultMappings defaultSpecialCharMappings) "soaPayNow".toList
        "past".toList = "payNow".toList ∧
    specResolveActionFallback "soaPayNow".toList "past".toList = "paynow".toList ∧
    resolveAction (loadDefaultMappings defaultSpecialCharMappings) "soa".toList
        "present".toList = "soa".toList ∧
    specResolveActionFallback "soa".toList "present".toList = "s".toList := by
  decide

/-- C21 (amended): `EntityResolver::resolveAction(id, tense)`: when `id` is a key of the
action table it returns that entry's `presentTense` for tense `"present"`, `pastTense`
for tense `"past"` and `baseForm` for any other tense; on a miss, if `id` starts with
`"soa"` and is longer than 3 characters, it returns the text of `id` from the 4th
character onward with its first character converted to lowercase, with `"s"` appended
when tense is `"present"`; otherwise (`id` does not start with `"soa"`, or is `"soa"`
itself) it returns `id` unchanged. -/
theorem C21_resolveAction (r : EntityResolver) (id tense : Str) :
    (∀ mapping, mapFind id r.actionMappings = some mapping →
      resolveAction r id "present".toList = mapping.presentTense ∧
      resolveAction r id "past".toList = mapping.pastTense ∧
      (tense ≠ "present".toList → tense ≠ "past".toList →
        resolveAction r id tense = mapping.baseForm)) ∧
    (mapFind id r.actionMappings = none →
      (∀ c rest, id = "soa".toList ++ c :: rest →
        resolveAction r id "present".toList = tolower c :: rest ++ "s".toList ∧
        (tense ≠ "present".toList → resolveAction r id tense = tolower c :: rest)) ∧
      (id = "soa".toList → resolveAction r id tense = id) ∧
      ("soa".toList.isPrefixOf id = false → resolveAction r id tense = id)) := by
  constructor
  · intro mapping h
    refine ⟨?_, ?_, ?_⟩
    · simp only [resolveAction, h, if_true]
    · have hne : ¬ "past".toList = "present".toList := by decide
      simp only [resolveAction, h, hne, if_false, if_true]
    · intro h1 h2
      simp only [resolveAction, h, h1, h2, if_false]
  · intro hmiss
    refine ⟨?_, ?_, ?_⟩
    · intro c rest hid
      have htake : id.take 3 = "soa".toList := by rw [hid]; rfl
      have hdrop : id.drop 3 = c :: rest := by rw [hid]; rfl
      constructor
      · simp only [resolveAction, hmiss, htake, hdrop, if_true]
      · intro h1
        simp only [resolveAction, hmiss, htake, hdrop, if_true, h1, if_false]
    · intro hid
      subst hid
      simp only [resolveAction, hmiss]
      rfl
    · intro hpre
      have htake : id.take 3 ≠ "soa".toList := by
        intro h
        have : "soa".toList.isPrefixOf id = true :=
          List.isPrefixOf_iff_prefix.mpr (List.prefix_iff_eq_take.mpr h.symm)
        rw [hpre] at this
        cases this
      simp only [resolveAction, hmiss, htake, if_false]

theorem C21_resolveAction_witness :
    resolveAction (loadDefaultMappings defaultSpecialCharMappings) "soaPay".toList
      "present".toList = "pays".toList ∧
    resolveAction (loadDefaultMappings defaultSpecialCharMappings) "soaPay".toList
      "past".toList = "paid".toList ∧
    resolveAction (loadDefaultMappings defaultSpecialCharMappings) "soaPay".toList
      "future".toList = "pay".toList ∧
    resolveAction (loadDefaultMappings defaultSpecialCharMappings) "soaSail".toList
      "present".toList = "sails".toList :=
  ⟨((C21_resolveAction (loadDefaultMappings defaultSpecialCharMappings) "soaPay".toList
      "future".toList).1 (actionOf "pay" "pay" "pays" "paid") (by decide)).1,
   ((C21_resolveAction (loadDefaultMappings defaultSpecialCharMappings) "soaPay".toList
      "future".toList).1 (actionOf "pay" "pay" "pays" "paid") (by decide)).2.1,
   ((C21_resolveAction (loadDefaultMappings defaultSpecialCharMappings) "soaPay".toList
      "future".toList).1 (actionOf "pay" "pay" "pays" "paid") (by decide)).2.2
      (by decide) (by decide),
   (((C21_resolveAction (loadDefaultMappings defaultSpecialCharMappings) "soaSail".toList
      "present".toList).2 (by decide)).1 'S' "ail".toList rfl).1⟩

/-! ## The analyzer returns -/

open SemanticAnalyzer

@[simp]
theorem bind_ok {α β : Type} (a : α) (f : α → Except Fault β) :
    (Except.ok a >>= f) = f a := rfl

@[simp]
theorem bind_error {α β : Type} (e : Fault) (f : α → Except Fault β) :
    ((Except.error e : Except Fault α) >>= f) = Except.error e := rfl

@[simp]
theorem pure_ok {α : Type} (a : α) : (pure a : Except Fault α) = Except.ok a := rfl

theorem returns_pure {α : Type} (a : α) : ∃ v, (pure a : Except Fault α) = .ok v := ⟨a, rfl⟩

theorem returns_bind {α β : Type} {x : Except Fault α} {f : α → Except Fault β}
    (hx : ∃ v, x = .ok v) (hf : ∀ v, x = .ok v → ∃ w, f v = .ok w) :
    ∃ w, (x >>= f) = .ok w := by
  obtain ⟨v, hv⟩ := hx
  obtain ⟨w, hw⟩ := hf v hv
  exact ⟨w, by rw [hv, bind_ok, hw]⟩

theorem returns_ite {α : Type} {c : Prop} [Decidable c] {a b : Except Fault α}
    (ha : c → ∃ v, a = .ok v) (hb : ¬ c → ∃ v, b = .ok v) :
    ∃ v, (if c then a else b) = .ok v := by
  by_cases h : c
  · simpa [h] using ha h
  · simpa [h] using hb h

theorem elemAt_returns {α : Type} : ∀ (l : List α) (i : Nat), i < l.length →
    ∃ v, elemAt l i = .ok v := by
  intro l
  induction l with
  | nil => intro i h; simp at h
  | cons a rest ih =>
    intro i h
    cases i with
    | zero => exact ⟨a, rfl⟩
    | succ i => exact ih i (by simpa using h)

theorem asList_returns (e : SExpr) (h : e.isList = true) : ∃ v, e.asList = .ok v := by
  cases e with
  | atom a => simp [SExpr.isList] at h
  | list l => exact ⟨l, rfl⟩

theorem asAtom_returns (e : SExpr) (h : e.isAtom = true) : ∃ v, e.asAtom = .ok v := by
  cases e with
  | atom a => exact ⟨a, rfl⟩
  | list l => simp [SExpr.isAtom] at h

theorem substrFrom_returns (s : Str) (pos : Nat) (h : pos ≤ s.length) :
    ∃ v, substrFrom s pos = .ok v := by
  simp [substrFrom, h]

theorem forEach_returns {σ α : Type} (step : σ → α → Except Fault σ) (P : σ → Prop) :
    ∀ (l : List α) (state : σ), P state →
      (∀ s a, a ∈ l → P s → ∃ s1, step s a = .ok s1 ∧ P s1) →
      ∃ s1, forEach step l state = .ok s1 ∧ P s1 := by
  intro l
  induction l with
  | nil => intro state hP _; exact ⟨state, rfl, hP⟩
  | cons a rest ih =>
    intro state hP hstep
    obtain ⟨s1, hs1, hP1⟩ := hstep state a (List.mem_cons_self _ _) hP
    obtain ⟨s2, hs2, hP2⟩ := ih s1 hP1 (fun s b hb hs => hstep s b (List.mem_cons_of_mem _ hb) hs)
    exact ⟨s2, by simp only [forEach, hs1, hs2], hP2⟩

theorem forEach_returns_simple {σ α : Type} (step : σ → α → Except Fault σ)
    (hstep : ∀ s a, ∃ s1, step s a = .ok s1) (l : List α) (state : σ) :
    ∃ s1, forEach step l state = .ok s1 := by
  obtain ⟨s1, h, _⟩ := forEach_returns step (fun _ => True) l state trivial
    (fun s a _ _ => by obtain ⟨s1, h⟩ := hstep s a; exact ⟨s1, h, trivial⟩)
  exact ⟨s1, h⟩

theorem fromSExpr_returns (expr : SExpr) : ∃ v, MetaExpr.fromSExpr expr = .ok v := by
  unfold MetaExpr.fromSExpr
  repeat' first
    | exact returns_pure _
    | (apply elemAt_returns; omega)
    | (apply asList_returns; simp_all)
    | (apply returns_ite <;> intro _)
    | (refine returns_bind ?_ (fun _ _ => ?_))
    | split

theorem listAt_returns (v : List SExpr) (i : Nat) : ∃ w, listAt v i = .ok w := by
  unfold listAt
  repeat' first
    | exact returns_pure _
    | (apply elemAt_returns; omega)
    | (apply asList_returns; simp_all)
    | (apply returns_ite <;> intro _)
    | (refine returns_bind ?_ (fun _ _ => ?_))

theorem length_pos_of_not_isEmpty {α : Type} {l : List α} (h : (!l.isEmpty) = true) :
    0 < l.length := by
  cases l with
  | nil => simp at h
  | cons a rest => simp

theorem headedBy_returns (l : List SExpr) (name : Str) : ∃ w, headedBy l name = .ok w := by
  unfold headedBy
  apply returns_ite
  · intro h
    exact returns_bind (elemAt_returns l 0 (length_pos_of_not_isEmpty h))
      (fun _ _ => returns_pure _)
  · intro _; exact returns_pure _

theorem symbolAt_returns (v : List SExpr) (i : Nat) : ∃ w, symbolAt v i = .ok w := by
  unfold symbolAt
  repeat' first
    | exact returns_pure _
    | (apply elemAt_returns; omega)
    | (apply returns_ite <;> intro _)
    | (refine returns_bind ?_ (fun _ _ => ?_))

theorem isComma_returns (elem : SExpr) : ∃ w, isComma elem = .ok w := by
  unfold isComma
  repeat' first
    | exact returns_pure _
    | (apply asAtom_returns; assumption)
    | (apply returns_ite <;> intro _)
    | (refine returns_bind ?_ (fun _ _ => ?_))

theorem listAt_some {v : List SExpr} {i : Nat} {l : List SExpr}
    (h : listAt v i = .ok (some l)) : i < v.length := by
  unfold listAt at h
  by_cases hlt : v.length > i
  · exact hlt
  · simp [hlt, pure_ok] at h

theorem extractBaseAction_returns (soaEntity : Str) :
    ∃ w, extractBaseAction soaEntity = .ok w := by
  unfold extractBaseAction
  apply returns_ite
  · intro _; exact returns_pure _
  · intro h
    simp only [Bool.or_eq_true, decide_eq_true_eq, not_or, not_lt] at h
    refine returns_bind (substrFrom_returns _ _ (by omega)) (fun suffix _ => ?_)
    refine returns_bind ?_ (fun suffix2 _ => ?_)
    · apply returns_ite
      · intro h2
        simp only [Bool.and_eq_true, decide_eq_true_eq] at h2
        exact substrFrom_returns _ _ (by omega)
      · intro _; exact returns_pure _
    · refine returns_bind ?_ (fun _ _ => returns_pure _)
      apply returns_ite
      · intro h2
        simp only [Bool.and_eq_true, decide_eq_true_eq] at h2
        exact substrFrom_returns _ _ (by omega)
      · intro _; exact returns_pure _

theorem actionVerb_returns (object : Str) : ∃ w, actionVerb object = .ok w := by
  unfold actionVerb
  apply returns_ite
  · intro h
    simp only [Bool.and_eq_true, decide_eq_true_eq] at h
    refine returns_bind (substrFrom_returns _ _ (by omega)) (fun stripped _ => ?_)
    split <;> exact returns_pure _
  · intro _; exact returns_pure _

theorem existenceContradiction_returns (list : List SExpr) (entityName : Str) :
    ∃ w, existenceContradiction list entityName = .ok w := by
  unfold existenceContradiction
  refine returns_bind (listAt_returns _ _) (fun detail _ => ?_)
  split
  · exact returns_pure _
  · apply returns_ite
    · intro h
      refine returns_bind (elemAt_returns _ 0 (length_pos_of_not_isEmpty h)) (fun e _ => ?_)
      split
      · apply returns_ite <;> intro _ <;> exact returns_pure _
      · exact returns_pure _
    · intro _; exact returns_pure _

theorem actionContradiction_returns (r : EntityResolver)
    (hr : ∀ x, ∃ s, resolve r x = .ok s) (entityName : Str) :
    ∃ w, actionContradiction r entityName = .ok w := by
  unfold actionContradiction
  refine returns_bind (hr _) (fun resolved _ => ?_)
  apply returns_ite
  · intro h
    simp only [Bool.and_eq_true, decide_eq_true_eq] at h
    refine returns_bind (substrFrom_returns _ _ (by omega)) (fun rest _ => ?_)
    exact returns_bind (hr _) (fun _ _ => returns_pure _)
  · intro _
    refine returns_bind ?_ (fun negated _ => ?_)
    · apply returns_ite
      · intro h
        simp only [Bool.and_eq_true, decide_eq_true_eq] at h
        exact returns_bind (substrFrom_returns _ _ (by omega)) (fun _ _ => returns_pure _)
      · intro _; exact returns_pure _
    · exact returns_bind (hr _) (fun _ _ => returns_pure _)

theorem parseMetaIdBlock_returns (r : EntityResolver)
    (hr : ∀ x, ∃ s, resolve r x = .ok s) (list metaList : List SExpr) :
    ∃ w, parseMetaIdBlock r list metaList = .ok w := by
  unfold parseMetaIdBlock
  repeat' first
    | exact returns_pure _
    | exact listAt_returns _ _
    | exact headedBy_returns _ _
    | exact existenceContradiction_returns _ _
    | exact actionContradiction_returns r hr _
    | (apply elemAt_returns; omega)
    | (apply returns_ite <;> intro _)
    | (refine returns_bind ?_ (fun _ _ => ?_))
    | split

theorem parseMetaContradiction_returns (r : EntityResolver)
    (hr : ∀ x, ∃ s, resolve r x = .ok s) (expr : SExpr) :
    ∃ w, parseMetaContradiction r expr = .ok w := by
  unfold parseMetaContradiction
  repeat' first
    | exact returns_pure _
    | exact listAt_returns _ _
    | exact fromSExpr_returns _
    | exact parseMetaIdBlock_returns r hr _ _
    | (apply elemAt_returns; omega)
    | (apply asList_returns; simp_all)
    | (apply returns_ite <;> intro _)
    | (refine returns_bind ?_ (fun _ _ => ?_))
    | split

theorem metaIdTrue_returns (firstList : List SExpr) :
    ∃ w, metaIdTrue firstList = .ok w := by
  unfold metaIdTrue
  apply returns_ite
  · intro h
    refine returns_bind (elemAt_returns _ 0 (length_pos_of_not_isEmpty h)) (fun f0 _ => ?_)
    apply returns_ite
    · intro h2
      simp only [Bool.and_eq_true, decide_eq_true_eq] at h2
      exact returns_bind (elemAt_returns _ 4 (by omega)) (fun _ _ => returns_pure _)
    · intro _; exact returns_pure _
  · intro _; exact returns_pure _

theorem metaIdTrue_length {firstList : List SExpr} (h : metaIdTrue firstList = .ok true) :
    5 ≤ firstList.length := by
  unfold metaIdTrue at h
  by_cases h1 : (!firstList.isEmpty) = true
  · simp only [h1, if_true] at h
    obtain ⟨f0, hf0⟩ := elemAt_returns firstList 0 (length_pos_of_not_isEmpty h1)
    rw [hf0, bind_ok] at h
    by_cases h2 : (decide (f0.getSymbol = some "meta-id".toList)
        && decide (firstList.length ≥ 5)) = true
    · simp only [Bool.and_eq_true, decide_eq_true_eq] at h2
      exact h2.2
    · simp only [h2, if_false, pure_ok] at h
      cases h
  · simp only [h1, if_false, pure_ok] at h
    cases h

theorem recordMarked_returns (state : ContradictionState) (subList firstList : List SExpr)
    (hlen : 5 ≤ firstList.length) : ∃ w, recordMarked state subList firstList = .ok w := by
  unfold recordMarked
  repeat' first
    | exact returns_pure _
    | exact listAt_returns _ _
    | exact headedBy_returns _ _
    | exact extractBaseAction_returns _
    | (apply elemAt_returns; omega)
    | (apply returns_ite <;> intro _)
    | (refine returns_bind ?_ (fun _ _ => ?_))
    | split

theorem contradictionElem_returns (r : EntityResolver)
    (hr : ∀ x, ∃ s, resolve r x = .ok s) (state : ContradictionState) (elem : SExpr) :
    ∃ w, contradictionElem r state elem = .ok w := by
  unfold contradictionElem
  refine returns_bind (isComma_returns _) (fun comma _ => ?_)
  apply returns_ite
  · intro _; exact returns_pure _
  · intro _
    apply returns_ite
    · intro hl
      refine returns_bind (asList_returns _ hl) (fun subList _ => ?_)
      apply returns_ite
      · intro h2
        refine returns_bind (elemAt_returns _ 0 (by omega)) (fun first _ => ?_)
        apply returns_ite
        · intro hfl
          refine returns_bind (asList_returns _ hfl) (fun firstList _ => ?_)
          refine returns_bind (metaIdTrue_returns _) (fun isTrue hTrue => ?_)
          apply returns_ite
          · intro ht
            rw [ht] at hTrue
            exact recordMarked_returns _ _ _ (metaIdTrue_length hTrue)
          · intro _
            exact returns_bind (parseMetaContradiction_returns r hr _)
              (fun _ _ => returns_pure _)
        · intro _; exact returns_pure _
      · intro _; exact returns_pure _
    · intro _; exact returns_pure _

theorem contradictionTopLevel_returns (r : EntityResolver)
    (hr : ∀ x, ∃ s, resolve r x = .ok s) (state : ContradictionState) (expr : SExpr)
    (list : List SExpr) : ∃ w, contradictionTopLevel r state expr list = .ok w := by
  unfold contradictionTopLevel
  repeat' first
    | exact returns_pure _
    | exact headedBy_returns _ _
    | exact parseMetaContradiction_returns r hr _
    | (apply elemAt_returns; omega)
    | (apply asList_returns; assumption)
    | (apply returns_ite <;> intro _)
    | (refine returns_bind ?_ (fun _ _ => ?_))

theorem contradictionExpr_returns (r : EntityResolver)
    (hr : ∀ x, ∃ s, resolve r x = .ok s) (state : ContradictionState) (expr : SExpr) :
    ∃ w, contradictionExpr r state expr = .ok w := by
  unfold contradictionExpr
  apply returns_ite
  · intro _; exact returns_pure _
  · intro hl
    refine returns_bind (asList_returns _ (by simpa using hl)) (fun list _ => ?_)
    refine returns_bind (forEach_returns_simple _ (contradictionElem_returns r hr) _ _)
      (fun state1 _ => ?_)
    exact contradictionTopLevel_returns r hr _ _ _

theorem paymentContradiction_returns (r : EntityResolver)
    (hr : ∀ x, ∃ s, resolve r x = .ok s) (results : List LogicalContradiction)
    (entity : Str) : ∃ w, paymentContradiction r results entity = .ok w := by
  unfold paymentContradiction
  exact returns_bind (hr _) (fun _ _ => returns_bind (hr _) (fun _ _ => returns_pure _))

theorem paymentContradictions_returns (r : EntityResolver)
    (hr : ∀ x, ∃ s, resolve r x = .ok s) (results : List LogicalContradiction)
    (entities : List Str) : ∃ w, paymentContradictions r results entities = .ok w := by
  unfold paymentContradictions
  repeat' first
    | exact returns_pure _
    | exact forEach_returns_simple _ (paymentContradiction_returns r hr) _ _
    | (apply returns_ite <;> intro _)

theorem actionGroupContradiction_returns (r : EntityResolver)
    (hr : ∀ x, ∃ s, resolve r x = .ok s) (results : List LogicalContradiction)
    (entry : Str × List Str) : ∃ w, actionGroupContradiction r results entry = .ok w := by
  unfold actionGroupContradiction
  repeat' first
    | exact returns_pure _
    | exact hr _
    | (apply returns_ite <;> intro _)
    | (refine returns_bind ?_ (fun _ _ => ?_))

theorem collectMarked_returns (entities : List Str) (expr : SExpr) :
    ∃ w, collectMarked entities expr = .ok w := by
  unfold collectMarked
  apply returns_ite
  · intro h
    exact returns_bind (elemAt_returns _ 0 (length_pos_of_not_isEmpty h))
      (fun _ _ => returns_pure _)
  · intro _; exact returns_pure _

theorem findContradictions_returns (r : EntityResolver)
    (hr : ∀ x, ∃ s, resolve r x = .ok s) (expressions : List SExpr) :
    ∃ w, findContradictions r expressions = .ok w := by
  unfold findContradictions
  refine returns_bind (forEach_returns_simple _ (contradictionExpr_returns r hr) _ _)
    (fun state _ => ?_)
  refine returns_bind (paymentContradictions_returns r hr _ _) (fun results1 _ => ?_)
  refine returns_bind (forEach_returns_simple _ (actionGroupContradiction_returns r hr) _ _)
    (fun results2 _ => ?_)
  exact returns_bind (forEach_returns_simple _ collectMarked_returns _ _)
    (fun _ _ => returns_pure _)

theorem conflictRegulation1_returns (r : EntityResolver)
    (hr : ∀ x, ∃ s, resolve r x = .ok s) (conflict : RegulatoryConflict) (arg : SExpr) :
    ∃ w, conflictRegulation1 r conflict arg = .ok w := by
  unfold conflictRegulation1
  apply returns_ite
  · intro hl
    refine returns_bind (asList_returns _ hl) (fun reg1 _ => ?_)
    apply returns_ite
    · intro h
      refine returns_bind (elemAt_returns _ 0 (length_pos_of_not_isEmpty h)) (fun head _ => ?_)
      split
      · refine returns_bind (symbolAt_returns _ _) (fun entitySymbol _ => ?_)
        repeat' first
          | exact returns_pure _
          | exact hr _
          | exact symbolAt_returns _ _
          | (apply returns_ite <;> intro _)
          | (refine returns_bind ?_ (fun _ _ => ?_))
      · exact returns_pure _
    · intro _; exact returns_pure _
  · intro _
    split
    · apply returns_ite
      · intro _; exact returns_pure _
      · intro _; exact returns_bind (hr _) (fun _ _ => returns_pure _)
    · exact returns_pure _

theorem conflictRegulation2_returns (r : EntityResolver)
    (hr : ∀ x, ∃ s, resolve r x = .ok s) (conflict : RegulatoryConflict) (arg : SExpr) :
    ∃ w, conflictRegulation2 r conflict arg = .ok w := by
  unfold conflictRegulation2
  apply returns_ite
  · intro hl
    refine returns_bind (asList_returns _ hl) (fun reg2 _ => ?_)
    apply returns_ite
    · intro h
      refine returns_bind (elemAt_returns _ 0 (length_pos_of_not_isEmpty h)) (fun head _ => ?_)
      split
      · apply returns_ite
        · intro h2
          simp only [Bool.and_eq_true, decide_eq_true_eq] at h2
          refine returns_bind (elemAt_returns _ 2 (by omega)) (fun port _ => ?_)
          apply returns_ite <;> intro _ <;> exact returns_pure _
        · intro _
          apply returns_ite <;> intro _ <;> exact returns_pure _
      · exact returns_pure _
    · intro _; exact returns_pure _
  · intro _
    split
    · exact returns_bind (hr _) (fun _ _ => returns_pure _)
    · exact returns_pure _

theorem conflictFinish_returns (r : EntityResolver)
    (hr : ∀ x, ∃ s, resolve r x = .ok s) (conflict : RegulatoryConflict) :
    ∃ w, conflictFinish r conflict = .ok w := by
  unfold conflictFinish
  refine returns_bind ?_ (fun _ _ => returns_pure _)
  apply returns_ite
  · intro _; exact hr _
  · intro _; exact returns_pure _

theorem parseConflictExpr_returns (r : EntityResolver)
    (hr : ∀ x, ∃ s, resolve r x = .ok s) (expr : SExpr) :
    ∃ w, parseConflictExpr r expr = .ok w := by
  unfold parseConflictExpr
  repeat' first
    | exact returns_pure _
    | exact conflictRegulation1_returns r hr _ _
    | exact conflictRegulation2_returns r hr _ _
    | exact conflictFinish_returns r hr _
    | (apply elemAt_returns; omega)
    | (apply asList_returns; simp_all)
    | (apply returns_ite <;> intro _)
    | (refine returns_bind ?_ (fun _ _ => ?_))

theorem conflictElem_returns (r : EntityResolver)
    (hr : ∀ x, ∃ s, resolve r x = .ok s) (state : ConflictState) (elem : SExpr) :
    ∃ w, conflictElem r state elem = .ok w := by
  unfold conflictElem
  repeat' first
    | exact returns_pure _
    | exact isComma_returns _
    | exact parseConflictExpr_returns r hr _
    | (apply returns_ite <;> intro _)
    | (refine returns_bind ?_ (fun _ _ => ?_))
    | split

theorem wrapped_inner_returns (list : List SExpr) :
    ∃ w, (if list.length = 1 then listAt list 0 else pure none) = .ok w := by
  apply returns_ite
  · intro _; exact listAt_returns _ _
  · intro _; exact returns_pure _

theorem wrapped_inner_some {list l : List SExpr}
    (h : (if list.length = 1 then listAt list 0 else pure none) = .ok (some l)) :
    0 < list.length := by
  by_cases h1 : list.length = 1
  · omega
  · simp [h1, pure_ok] at h

theorem conflictExpr_returns (r : EntityResolver)
    (hr : ∀ x, ∃ s, resolve r x = .ok s) (results : List RegulatoryConflict) (expr : SExpr) :
    ∃ w, conflictExpr r results expr = .ok w := by
  unfold conflictExpr
  apply returns_ite
  · intro _; exact returns_pure _
  · intro hl
    refine returns_bind (asList_returns _ (by simpa using hl)) (fun list _ => ?_)
    refine returns_bind (forEach_returns_simple _ (conflictElem_returns r hr) _ _)
      (fun state _ => ?_)
    apply returns_ite
    · intro _; exact returns_pure _
    · intro _
      refine returns_bind (wrapped_inner_returns _) (fun inner hinner => ?_)
      refine returns_bind ?_ (fun wrapped _ => ?_)
      · cases inner with
        | none => exact returns_pure _
        | some l =>
          exact returns_bind (elemAt_returns _ 0 (wrapped_inner_some hinner))
            (fun _ _ => parseConflictExpr_returns r hr _)
      · split
        · exact returns_pure _
        · refine returns_bind (parseConflictExpr_returns r hr _) (fun conflict _ => ?_)
          split <;> exact returns_pure _

theorem findConflicts_returns (r : EntityResolver)
    (hr : ∀ x, ∃ s, resolve r x = .ok s) (expressions : List SExpr) :
    ∃ w, findConflicts r expressions = .ok w :=
  forEach_returns_simple _ (conflictExpr_returns r hr) _ _

theorem violationViolator_returns (r : EntityResolver)
    (hr : ∀ x, ∃ s, resolve r x = .ok s) (violation : NecessaryViolation)
    (violationPair : List SExpr) : ∃ w, violationViolator r violation violationPair = .ok w := by
  unfold violationViolator
  refine returns_bind (listAt_returns _ _) (fun first _ => ?_)
  split
  · exact returns_pure _
  · apply returns_ite
    · intro h
      refine returns_bind (elemAt_returns _ 0 (length_pos_of_not_isEmpty h)) (fun head _ => ?_)
      split
      · apply returns_ite
        · intro _
          refine returns_bind (symbolAt_returns _ _) (fun entitySymbol _ => ?_)
          split
          · exact returns_bind (hr _) (fun _ _ => returns_pure _)
          · exact returns_pure _
        · intro _; exact returns_pure _
      · exact returns_pure _
    · intro _; exact returns_pure _

theorem violationRule_returns (violation : NecessaryViolation) (violationPair : List SExpr) :
    ∃ w, violationRule violation violationPair = .ok w := by
  unfold violationRule
  refine returns_bind (listAt_returns _ _) (fun second _ => ?_)
  split
  · exact returns_pure _
  · apply returns_ite
    · intro h
      refine returns_bind (elemAt_returns _ 0 (length_pos_of_not_isEmpty h)) (fun head _ => ?_)
      split
      · apply returns_ite
        · intro _
          refine returns_bind (listAt_returns _ _) (fun payment _ => ?_)
          split
          · exact returns_bind (headedBy_returns _ _) (fun _ _ => returns_pure _)
          · exact returns_pure _
        · intro _
          apply returns_ite <;> intro _ <;> exact returns_pure _
      · exact returns_pure _
    · intro _; exact returns_pure _

theorem parseViolationExpr_returns (r : EntityResolver)
    (hr : ∀ x, ∃ s, resolve r x = .ok s) (expr : SExpr) :
    ∃ w, parseViolationExpr r expr = .ok w := by
  unfold parseViolationExpr
  repeat' first
    | exact returns_pure _
    | exact violationViolator_returns r hr _ _
    | exact violationRule_returns _ _
    | (apply elemAt_returns; omega)
    | (apply asList_returns; simp_all)
    | (apply returns_ite <;> intro _)
    | (refine returns_bind ?_ (fun _ _ => ?_))

theorem violationExpr_returns (r : EntityResolver)
    (hr : ∀ x, ∃ s, resolve r x = .ok s) (results : List NecessaryViolation) (expr : SExpr) :
    ∃ w, violationExpr r results expr = .ok w := by
  unfold violationExpr
  apply returns_ite
  · intro _; exact returns_pure _
  · intro hl
    refine returns_bind (asList_returns _ (by simpa using hl)) (fun list _ => ?_)
    refine returns_bind (wrapped_inner_returns _) (fun inner hinner => ?_)
    refine returns_bind ?_ (fun wrapped _ => ?_)
    · cases inner with
      | none => exact returns_pure _
      | some l =>
        exact returns_bind (elemAt_returns _ 0 (wrapped_inner_some hinner))
          (fun _ _ => parseViolationExpr_returns r hr _)
    · split
      · exact returns_pure _
      · refine returns_bind (parseViolationExpr_returns r hr _) (fun violation _ => ?_)
        split <;> exact returns_pure _

theorem findViolations_returns (r : EntityResolver)
    (hr : ∀ x, ∃ s, resolve r x = .ok s) (expressions : List SExpr) :
    ∃ w, findViolations r expressions = .ok w :=
  forEach_returns_simple _ (violationExpr_returns r hr) _ _

theorem parseComplianceExpr_returns (expr : SExpr) :
    ∃ w, parseComplianceExpr expr = .ok w := by
  unfold parseComplianceExpr
  repeat' first
    | exact returns_pure _
    | (apply elemAt_returns; omega)
    | (apply returns_ite <;> intro _)
    | (refine returns_bind ?_ (fun _ _ => ?_))

theorem explicitCompliance_returns (results : List ComplianceRelation) (expr : SExpr) :
    ∃ w, explicitCompliance results expr = .ok w := by
  unfold explicitCompliance
  refine returns_bind (parseComplianceExpr_returns _) (fun compliance _ => ?_)
  split <;> exact returns_pure _

theorem complianceOf_returns (r : EntityResolver)
    (hr : ∀ x, ∃ s, resolve r x = .ok s) (obligation fulfilled : Str) :
    ∃ w, complianceOf r obligation fulfilled = .ok w := by
  unfold complianceOf
  exact returns_bind (hr _) (fun _ _ => returns_bind (hr _) (fun _ _ => returns_pure _))

theorem wrappedPair_returns (r : EntityResolver)
    (hr : ∀ x, ∃ s, resolve r x = .ok s) (results : List ComplianceRelation)
    (outerList : List SExpr) : ∃ w, wrappedPair r results outerList = .ok w := by
  unfold wrappedPair
  refine returns_bind (wrapped_inner_returns _) (fun inner _ => ?_)
  split
  · exact returns_pure _
  · repeat' first
      | exact returns_pure _
      | exact complianceOf_returns r hr _ _
      | (apply elemAt_returns; omega)
      | (apply returns_ite <;> intro _)
      | (refine returns_bind ?_ (fun _ _ => ?_))
      | split

theorem barePair_returns (r : EntityResolver)
    (hr : ∀ x, ∃ s, resolve r x = .ok s) (results : List ComplianceRelation)
    (outerList : List SExpr) : ∃ w, barePair r results outerList = .ok w := by
  unfold barePair
  repeat' first
    | exact returns_pure _
    | exact complianceOf_returns r hr _ _
    | (apply elemAt_returns; omega)
    | (apply returns_ite <;> intro _)
    | (refine returns_bind ?_ (fun _ _ => ?_))
    | split

theorem tupleCompliance_returns (r : EntityResolver)
    (hr : ∀ x, ∃ s, resolve r x = .ok s) (results : List ComplianceRelation) (expr : SExpr) :
    ∃ w, tupleCompliance r results expr = .ok w := by
  unfold tupleCompliance
  apply returns_ite
  · intro _; exact returns_pure _
  · intro hl
    refine returns_bind (asList_returns _ (by simpa using hl)) (fun outerList _ => ?_)
    exact returns_bind (wrappedPair_returns r hr _ _) (fun _ _ => barePair_returns r hr _ _)

theorem findCompliances_returns (r : EntityResolver)
    (hr : ∀ x, ∃ s, resolve r x = .ok s) (expressions : List SExpr) :
    ∃ w, findCompliances r expressions = .ok w := by
  unfold findCompliances
  exact returns_bind (forEach_returns_simple _ explicitCompliance_returns _ _)
    (fun _ _ => forEach_returns_simple _ (tupleCompliance_returns r hr) _ _)

theorem mapUpdate_forall_default {α : Type} (P : α → Prop) (key : Str) (dflt : α)
    (f : α → α) (m : List (Str × α)) (hm : ∀ entry ∈ m, P entry.2) (hd : P dflt)
    (hf : ∀ v, P v → P (f v)) : ∀ entry ∈ mapUpdate key dflt f m, P entry.2 := by
  unfold mapUpdate
  apply mapInsert_forall P _ _ _ hm
  cases hfind : mapFind key m with
  | none => exact hf dflt hd
  | some v => exact hf v (mapFind_forall P key m hm v hfind)

/-- Every triple filed in the table is a list. -/
theorem collectTriple_lists (entityTriples : List (Str × List SExpr)) (elem : SExpr)
    (hm : ∀ entry ∈ entityTriples, ∀ t ∈ entry.2, SExpr.isList t = true) :
    ∃ w, collectTriple entityTriples elem = .ok w ∧
      ∀ entry ∈ w, ∀ t ∈ entry.2, SExpr.isList t = true := by
  unfold collectTriple
  by_cases hl : elem.isList = true
  · simp only [hl, if_true]
    obtain ⟨subList, hsub⟩ := asList_returns elem hl
    rw [hsub, bind_ok]
    by_cases h4 : subList.length ≥ 4
    · simp only [h4, if_true]
      obtain ⟨head, hhead⟩ := elemAt_returns subList 0 (by omega)
      rw [hhead, bind_ok]
      by_cases ht : head.getSymbol = some "triple".toList
      · simp only [ht, if_true]
        obtain ⟨second, hsecond⟩ := elemAt_returns subList 1 (by omega)
        rw [hsecond, bind_ok]
        cases hsym : second.getSymbol with
        | none => exact ⟨_, rfl, hm⟩
        | some subject =>
          simp only []
          by_cases hs : findsAtStart subject "soa_".toList = true
          · simp only [hs, if_true]
            refine ⟨_, rfl, ?_⟩
            apply mapUpdate_forall_default (fun ts => ∀ t ∈ ts, SExpr.isList t = true) _ _ _ _ hm
            · intro t ht2; simp at ht2
            · intro v hv t ht2
              rcases List.mem_append.mp ht2 with h | h
              · exact hv t h
              · simp only [List.mem_singleton] at h
                rw [h]; exact hl
          · simp only [hs, Bool.false_eq_true, if_false]
            exact ⟨_, rfl, hm⟩
      · simp only [ht, if_false]
        exact ⟨_, rfl, hm⟩
    · simp only [h4, if_false]
      exact ⟨_, rfl, hm⟩
  · simp only [hl, Bool.false_eq_true, if_false]
    exact ⟨_, rfl, hm⟩

theorem collectTriples_lists (entityTriples : List (Str × List SExpr)) (expr : SExpr)
    (hm : ∀ entry ∈ entityTriples, ∀ t ∈ entry.2, SExpr.isList t = true) :
    ∃ w, collectTriples entityTriples expr = .ok w ∧
      ∀ entry ∈ w, ∀ t ∈ entry.2, SExpr.isList t = true := by
  unfold collectTriples
  by_cases hl : (!expr.isList) = true
  · simp only [hl, if_true]
    exact ⟨_, rfl, hm⟩
  · simp only [hl, Bool.false_eq_true, if_false]
    obtain ⟨list, hlist⟩ := asList_returns expr (by simpa using hl)
    rw [hlist, bind_ok]
    exact forEach_returns collectTriple
      (fun m => ∀ entry ∈ m, ∀ t ∈ entry.2, SExpr.isList t = true) list entityTriples hm
      (fun s a _ hs => collectTriple_lists s a hs)

theorem readTriple_returns (r : EntityResolver)
    (hr : ∀ x, ∃ s, resolve r x = .ok s) (build : SoaBuild) (triple : SExpr)
    (hl : triple.isList = true) : ∃ w, readTriple r build triple = .ok w := by
  unfold readTriple
  refine returns_bind (asList_returns _ hl) (fun tripleList _ => ?_)
  repeat' first
    | exact returns_pure _
    | exact hr _
    | exact actionVerb_returns _
    | (apply elemAt_returns; omega)
    | (apply returns_ite <;> intro _)
    | (refine returns_bind ?_ (fun _ _ => ?_))
    | split

theorem buildStateOfAffairs_returns (r : EntityResolver)
    (hr : ∀ x, ∃ s, resolve r x = .ok s) (state : SoaResults) (entry : Str × List SExpr)
    (hl : ∀ t ∈ entry.2, SExpr.isList t = true) :
    ∃ w, buildStateOfAffairs r state entry = .ok w := by
  unfold buildStateOfAffairs
  repeat' first
    | exact returns_pure _
    | (apply returns_ite <;> intro _)
  refine returns_bind ?_ (fun build _ => ?_)
  · obtain ⟨w, hw, _⟩ := forEach_returns (readTriple r) (fun _ => True) entry.2
      { soa := { entity := entry.1 } } trivial
      (fun s a ha _ => by
        obtain ⟨s1, hs1⟩ := readTriple_returns r hr s a (hl a ha)
        exact ⟨s1, hs1, trivial⟩)
    exact ⟨w, hw⟩
  · apply returns_ite <;> intro _ <;> exact returns_pure _

theorem forEach_returns_mem {σ α : Type} (step : σ → α → Except Fault σ) (l : List α)
    (hstep : ∀ s a, a ∈ l → ∃ s1, step s a = .ok s1) (state : σ) :
    ∃ s1, forEach step l state = .ok s1 := by
  obtain ⟨s1, h, _⟩ := forEach_returns step (fun _ => True) l state trivial
    (fun s a ha _ => by obtain ⟨s1, h⟩ := hstep s a ha; exact ⟨s1, h, trivial⟩)
  exact ⟨s1, h⟩

theorem extractStateOfAffairs_returns (r : EntityResolver)
    (hr : ∀ x, ∃ s, resolve r x = .ok s) (expressions : List SExpr) :
    ∃ w, extractStateOfAffairs r expressions = .ok w := by
  unfold extractStateOfAffairs
  obtain ⟨m, hm, hlists⟩ := forEach_returns collectTriples
    (fun m => ∀ entry ∈ m, ∀ t ∈ entry.2, SExpr.isList t = true) expressions []
    (by intro entry he; simp at he) (fun s a _ hs => collectTriples_lists s a hs)
  rw [hm, bind_ok]
  exact returns_bind
    (forEach_returns_mem _ _ (fun s a ha => buildStateOfAffairs_returns r hr s a (hlists a ha)) _)
    (fun _ _ => returns_pure _)

theorem classify_returns (r : EntityResolver)
    (hr : ∀ x, ∃ s, resolve r x = .ok s) (expressions : List SExpr) :
    ∃ w, classify r expressions = .ok w := by
  unfold classify
  refine returns_bind (extractStateOfAffairs_returns r hr _) (fun _ _ => ?_)
  refine returns_bind (findContradictions_returns r hr _) (fun _ _ => ?_)
  refine returns_bind (findConflicts_returns r hr _) (fun _ _ => ?_)
  refine returns_bind (findViolations_returns r hr _) (fun _ _ => ?_)
  exact returns_bind (findCompliances_returns r hr _) (fun _ _ => returns_pure _)

theorem resolve_returns (r : EntityResolver)
    (hkeys : ∀ kv ∈ r.specialCharMappings, kv.1 ≠ []) (x : Str) :
    ∃ s, resolve r x = .ok s := by
  unfold resolve
  have : ∃ out, r.resolveEntity x = some out := by
    unfold EntityResolver.resolveEntity
    cases hfind : mapFind x r.entityMappings with
    | some v => exact ⟨v, rfl⟩
    | none =>
      simp only [EntityResolver.entityToHumanReadable]
      split
      · exact ⟨_, rfl⟩
      · exact applySpecialCharsLoop_total _ _ hkeys
  obtain ⟨out, hout⟩ := this
  exact ⟨out, by rw [hout]⟩

/-- With no empty key in the special-character table, `analyze` on an unbounded stack
returns for every input string: no element access is out of range, no `asList`/`asAtom`
meets the other variant and no `substr` starts past the end. -/
theorem analyze_returns (r : EntityResolver)
    (hkeys : ∀ kv ∈ r.specialCharMappings, kv.1 ≠ []) (mettaOutput : Str) :
    ∃ result, analyze r mettaOutput = .ok result :=
  classify_returns r (resolve_returns r hkeys) _

/-! ## The line-by-line fallback of `analyze` -/

theorem fallback_foldl (lines : List Str) : ∀ acc : List SExpr,
    lines.foldl fallbackLine acc
      = acc ++ lines.filterMap (fun line =>
          if line.head? = some '(' ∨ line.head? = some '[' then (parse line).toOption
          else none) := by
  induction lines with
  | nil => intro acc; simp
  | cons line rest ih =>
    intro acc
    rw [List.foldl_cons, ih, List.filterMap_cons]
    cases line with
    | nil => simp [fallbackLine]
    | cons c cs =>
      by_cases h1 : c = '('
      · subst h1
        cases hp : parse ('(' :: cs) <;> simp [fallbackLine, hp, Except.toOption]
      · by_cases h2 : c = '['
        · subst h2
          cases hp : parse ('[' :: cs) <;> simp [fallbackLine, hp, Except.toOption]
        · simp [fallbackLine, h1, h2]

/-- C23 as stated fails: a line that the reader can parse is discarded when its first
character is not a bracket (here a blank), and of a line that holds two expressions only
the first is classified. -/
theorem C23_counterexample :
    (∃ msg, parseMultiple ")\n (conflict not_opt soa_elam)".toList
      = .error (.runtimeError msg)) ∧
    (specLineExpressionsAll ")\n (conflict not_opt soa_elam)".toList).length = 1 ∧
    (∃ conflicts, classify (loadDefaultMappings defaultSpecialCharMappings)
        (specLineExpressionsAll ")\n (conflict not_opt soa_elam)".toList)
      = .ok { conflicts := conflicts } ∧ conflicts.length = 1) ∧
    analyze (loadDefaultMappings defaultSpecialCharMappings)
        ")\n (conflict not_opt soa_elam)".toList = .ok {} ∧
    (∃ msg, parseMultiple ")\n(quote x) (conflict not_opt soa_elam)".toList
      = .error (.runtimeError msg)) ∧
    parseMultiple "(quote x) (conflict not_opt soa_elam)".toList
      = .ok [SExpr.list [SExpr.atom "quote".toList, SExpr.atom ['x']],
          SExpr.list [SExpr.atom "conflict".toList, SExpr.atom "not_opt".toList,
            SExpr.atom "soa_elam".toList]] ∧
    analyze (loadDefaultMappings defaultSpecialCharMappings)
        ")\n(quote x) (conflict not_opt soa_elam)".toList
      = .ok { violations := [{ reason := "conflicting regulatory requirements".toList }] } :=
  ⟨⟨_, rfl⟩, rfl, ⟨_, rfl, rfl⟩, rfl, ⟨_, rfl⟩, rfl, rfl⟩

/-- C23 (amended): when the input buffer as a whole cannot be parsed,
`SemanticAnalyzer::analyze` classifies, in source order, the first expression of each
line that starts with `(` or `[` (as its very first character) and that the Expression
Reader can parse; every other line is discarded, also a line that parses on its own but
starts with a blank or an atom, and what follows the first expression of a line is not
read.  When the buffer can be parsed, its expressions are classified. -/
theorem C23_analyze_line_fallback (r : EntityResolver) (mettaOutput : Str) :
    (∀ err, parseMultiple mettaOutput = .error err →
      analyze r mettaOutput = classify r (specLineExpressions mettaOutput)) ∧
    (∀ expressions, parseMultiple mettaOutput = .ok expressions →
      analyze r mettaOutput = classify r expressions) := by
  constructor
  · intro err h
    simp only [analyze, analyzeExpressions, h, specLineExpressions, fallback_foldl,
      List.nil_append]
  · intro expressions h
    simp only [analyze, analyzeExpressions, h]

theorem C23_analyze_line_fallback_witness :
    (∃ msg, parseMultiple "(conflict not_opt soa_elam)\n(\n[(quote x)] y".toList
      = .error (.runtimeError msg)) ∧
    specLineExpressions "(conflict not_opt soa_elam)\n(\n[(quote x)] y".toList
      = [SExpr.list [SExpr.atom "conflict".toList, SExpr.atom "not_opt".toList,
            SExpr.atom "soa_elam".toList],
          SExpr.list [SExpr.list [SExpr.atom "quote".toList, SExpr.atom ['x']]]] ∧
    analyze (loadDefaultMappings defaultSpecialCharMappings)
        "(conflict not_opt soa_elam)\n(\n[(quote x)] y".toList
      = classify (loadDefaultMappings defaultSpecialCharMappings)
          (specLineExpressions "(conflict not_opt soa_elam)\n(\n[(quote x)] y".toList) :=
  ⟨⟨_, rfl⟩, rfl,
   (C23_analyze_line_fallback (loadDefaultMappings defaultSpecialCharMappings)
      "(conflict not_opt soa_elam)\n(\n[(quote x)] y".toList).1 _ rfl⟩

/-! ## Expressions that match no pattern -/

/-- C24 fails on `(((a) b))`: no expression of the input is headed by `triple`,
`meta-id`, `id_not_not_false`, `conflict`, `quote` or `is_complied_with_by` and no list
is a pair of `soa_`-prefixed atoms, yet `analyze` reports one contradiction, all of
whose fields are empty: `parseMetaContradiction` returns its default-constructed
contradiction for every list of two or more elements whose first element is a list. -/
theorem C24_counterexample :
    parseMultiple "(((a) b))".toList
      = .ok [SExpr.list [SExpr.list [SExpr.list [SExpr.atom ['a']], SExpr.atom ['b']]]] ∧
    parseMetaContradiction (loadDefaultMappings defaultSpecialCharMappings)
        (SExpr.list [SExpr.list [SExpr.atom ['a']], SExpr.atom ['b']])
      = .ok (some {}) ∧
    analyze (loadDefaultMappings defaultSpecialCharMappings) "(((a) b))".toList
      = .ok { contradictions := [{}] } :=
  ⟨rfl, rfl, rfl⟩

/-! ## Existence contradictions -/

theorem existenceContradiction_plain (entity : Str) (first detail : SExpr)
    (rest : List SExpr) (hd : isInrsDetail detail = false) :
    existenceContradiction (first :: detail :: rest) entity = .ok (existenceOf entity) := by
  unfold existenceContradiction
  cases detail with
  | atom a => simp [listAt, elemAt, SExpr.isList, bind_ok, pure_ok, existenceOf]
  | list l =>
    cases l with
    | nil => simp [listAt, elemAt, SExpr.isList, SExpr.asList, bind_ok, pure_ok, existenceOf]
    | cons d ds =>
      cases d with
      | list c =>
        simp [listAt, elemAt, SExpr.isList, SExpr.asList, SExpr.getSymbol, bind_ok, pure_ok,
          existenceOf]
      | atom a =>
        simp only [isInrsDetail, String.toList] at hd
        simp [listAt, elemAt, SExpr.isList, SExpr.asList, SExpr.getSymbol, bind_ok, pure_ok,
          existenceOf, hd]

theorem parseMetaContradiction_existence (r : EntityResolver) (entity : Str)
    (detail : SExpr) (rest : List SExpr) (hd : isInrsDetail detail = false) :
    parseMetaContradiction r (SExpr.list (metaIdExistence entity :: detail :: rest))
      = .ok (some (existenceOf entity)) := by
  have h1 := existenceContradiction_plain entity (metaIdExistence entity) detail rest hd
  simp only [metaIdExistence, String.toList] at h1
  simp [parseMetaContradiction, SExpr.isList, SExpr.asList, bind_ok, elemAt, metaIdExistence,
    parseMetaIdBlock, SExpr.getSymbol, h1, pure_ok]

theorem findAll_nil_of_not_matches (expr : SExpr) (pattern : List Str)
    (h : SExprMatcher.matches expr pattern = false) :
    SExprMatcher.findAll [expr] pattern = [] := by
  simp [SExprMatcher.findAll, h]

theorem contradictionElem_existence (r : EntityResolver) (state : ContradictionState)
    (entity : Str) (detail : SExpr) (rest : List SExpr)
    (hd : isInrsDetail detail = false) :
    contradictionElem r state (SExpr.list (metaIdExistence entity :: detail :: rest))
      = .ok { state with results := state.results ++ [existenceOf entity] } := by
  have h1 := parseMetaContradiction_existence r entity detail rest hd
  simp only [metaIdExistence, String.toList] at h1
  simp [contradictionElem, isComma, SExpr.isAtom, SExpr.isList, SExpr.asList, bind_ok, pure_ok,
    elemAt, metaIdExistence, metaIdTrue, SExpr.getSymbol, h1, pushContradiction]

theorem contradictionElem_skip (r : EntityResolver) (state : ContradictionState)
    (elem : SExpr) (h : ∀ l ds, elem ≠ SExpr.list (SExpr.list l :: ds)) :
    contradictionElem r state elem = .ok state := by
  cases elem with
  | atom a =>
    by_cases ha : a = ",".toList
    · simp [contradictionElem, isComma, SExpr.isAtom, SExpr.asAtom, bind_ok, pure_ok, ha]
    · simp only [String.toList] at ha
      simp [contradictionElem, isComma, SExpr.isAtom, SExpr.isList, SExpr.asAtom, bind_ok,
        pure_ok, ha]
  | list l =>
    cases l with
    | nil =>
      simp [contradictionElem, isComma, SExpr.isAtom, SExpr.isList, SExpr.asList, bind_ok,
        pure_ok]
    | cons d ds =>
      cases d with
      | list c => exact absurd rfl (h c ds)
      | atom a =>
        cases ds with
        | nil =>
          simp [contradictionElem, isComma, SExpr.isAtom, SExpr.isList, SExpr.asList]
        | cons d2 ds2 =>
          simp [contradictionElem, isComma, SExpr.isAtom, SExpr.isList, SExpr.asList, elemAt]

/-- C26 as stated fails: the text `[(meta-id soa_epmuam type rexist false)]` holds a
nested `(meta-id E type rexist false)` and yields no contradiction, because the
expression is not the first element of a list of two or more elements; and the
repository's own example, where the detail list is headed by `inrs-not-usds`, yields a
contradiction of kind `payment_method`, not `existence`. -/
theorem C26_counterexample :
    analyze (loadDefaultMappings defaultSpecialCharMappings)
        "[(meta-id soa_epmuam type rexist false)]".toList = .ok {} ∧
    analyze (loadDefaultMappings defaultSpecialCharMappings)
        "((meta-id soa_epmuam type rexist false) (inrs-not-usds soa_USDS))".toList
      = .ok { contradictions := [{
          positive := { entity := "soa_epmuam".toList, action := "uses INRS".toList },
          negative := { entity := "not_soa_epmuam".toList, action := "uses USDS".toList },
          type := "payment_method".toList }] } :=
  ⟨rfl, rfl⟩

/-- C26 (amended): for every entity atom `E`, a top-level list that holds as its only
child a list of two or more elements whose first element is
`(meta-id E type rexist false)` yields exactly one contradiction, with positive entity
`E`, negative entity `"not_" + E` and kind `"existence"`, provided the second element
is not a list headed by an atom that contains `inrs-not-usds` (then the kind is
`payment_method`); the same holds for a top-level pair
`((meta-id E type rexist false) D)` whose second element `D` is not a list that starts
with a list. -/
theorem C26_existence_contradiction (r : EntityResolver) (entity : Str) (detail : SExpr)
    (rest : List SExpr) (hd : isInrsDetail detail = false) :
    findContradictions r
        [SExpr.list [SExpr.list (metaIdExistence entity :: detail :: rest)]]
      = .ok [existenceOf entity] ∧
    ((∀ l ds, detail ≠ SExpr.list (SExpr.list l :: ds)) →
      findContradictions r [SExpr.list [metaIdExistence entity, detail]]
        = .ok [existenceOf entity]) := by
  constructor
  · have h1 := contradictionElem_existence r {} entity detail rest hd
    have h2 : SExprMatcher.findAll
        [SExpr.list [SExpr.list (metaIdExistence entity :: detail :: rest)]]
        notNotFalsePattern = [] :=
      findAll_nil_of_not_matches _ _ (by simp [SExprMatcher.matches, notNotFalsePattern])
    simp only [findContradictions, forEach, contradictionExpr, SExpr.isList, SExpr.asList,
      Bool.not_true, Bool.false_eq_true, if_false, bind_ok, h1, contradictionTopLevel,
      List.length_cons, List.length_nil, h2, pure_ok, paymentContradictions]
    simp [forEach]
  · intro hdetail
    have h1 : contradictionElem r {} (metaIdExistence entity) = .ok {} :=
      contradictionElem_skip r {} _ (by
        intro l ds h
        simp [metaIdExistence] at h)
    have h2 : contradictionElem r {} detail = .ok {} := contradictionElem_skip r {} _ hdetail
    have h3 := parseMetaContradiction_existence r entity detail [] hd
    have h4 : SExprMatcher.findAll [SExpr.list [metaIdExistence entity, detail]]
        notNotFalsePattern = [] :=
      findAll_nil_of_not_matches _ _ (by
        simp [SExprMatcher.matches, notNotFalsePattern, matchesLoop, metaIdExistence,
          SExpr.getSymbol, sWildcard])
    have h5 : headedBy [SExpr.atom "meta-id".toList, SExpr.atom entity,
        SExpr.atom "type".toList, SExpr.atom "rexist".toList, SExpr.atom "false".toList]
        "meta-id".toList = .ok true := by
      simp [headedBy, elemAt, bind_ok, pure_ok, SExpr.getSymbol]
    simp only [findContradictions, forEach, contradictionExpr, SExpr.isList, SExpr.asList,
      Bool.not_true, Bool.false_eq_true, if_false, bind_ok, h1, h2, contradictionTopLevel,
      List.length_cons, List.length_nil, h4, pure_ok, paymentContradictions, elemAt]
    simp only [metaIdExistence, String.toList] at h3 h5
    simp [metaIdExistence, SExpr.isList, SExpr.asList, h5, h3, pushContradiction, forEach]

theorem C26_existence_contradiction_witness :
    findContradictions (loadDefaultMappings defaultSpecialCharMappings)
        [SExpr.list [SExpr.list [metaIdExistence "soa_epmuam".toList,
          SExpr.list [SExpr.atom "id".toList, SExpr.atom "soa_USDS".toList]]]]
      = .ok [existenceOf "soa_epmuam".toList] ∧
    existenceOf "soa_epmuam".toList
      = { positive := { entity := "soa_epmuam".toList },
          negative := { entity := "not_soa_epmuam".toList },
          type := "existence".toList } ∧
    parseMultiple "[((meta-id soa_epmuam type rexist false) (id soa_USDS))]".toList
      = .ok [SExpr.list [SExpr.list [metaIdExistence "soa_epmuam".toList,
          SExpr.list [SExpr.atom "id".toList, SExpr.atom "soa_USDS".toList]]]] :=
  ⟨(C26_existence_contradiction (loadDefaultMappings defaultSpecialCharMappings)
      "soa_epmuam".toList (SExpr.list [SExpr.atom "id".toList, SExpr.atom "soa_USDS".toList])
      [] (by decide)).1,
   rfl, rfl⟩

/-! ## Compliance pairs -/

theorem complianceOf_ok (r : EntityResolver) (obligation fulfilled ro rf : Str)
    (ho : resolve r obligation = .ok ro) (hf : resolve r fulfilled = .ok rf) :
    complianceOf r obligation fulfilled
      = .ok { obligation := ro, entity := rf, fulfilledBy := fulfilled } := by
  simp [complianceOf, ho, hf]

theorem wrappedPair_pair (r : EntityResolver) (results : List ComplianceRelation)
    (A B ra rb : Str) (hA : A.take 4 = "soa_".toList) (hB : B.take 4 = "soa_".toList)
    (hra : resolve r A = .ok ra) (hrb : resolve r B = .ok rb) :
    wrappedPair r results [SExpr.list [SExpr.atom A, SExpr.atom B]]
      = .ok (results ++ [{ obligation := if (specRoles A B).1 = A then ra else rb,
                           entity := if (specRoles A B).1 = A then rb else ra,
                           fulfilledBy := (specRoles A B).2 }]) := by
  have h1 := complianceOf_ok r A B ra rb hra hrb
  have h2 := complianceOf_ok r B A rb ra hrb hra
  simp only [String.toList] at hA hB
  cases hea : containsText A "en".toList <;> cases heb : containsText B "en".toList <;>
    simp only [String.toList] at hea heb
  · simp [wrappedPair, listAt, elemAt, SExpr.isList, SExpr.asList, SExpr.getSymbol, hA, hB,
      hea, heb, h1, h2, specRoles]
  · have hne : B ≠ A := by
      intro hBA
      subst hBA
      rw [hea] at heb
      cases heb
    simp [wrappedPair, listAt, elemAt, SExpr.isList, SExpr.asList, SExpr.getSymbol, hA, hB,
      hea, heb, h1, h2, specRoles, hne]
  · simp [wrappedPair, listAt, elemAt, SExpr.isList, SExpr.asList, SExpr.getSymbol, hA, hB,
      hea, heb, h1, h2, specRoles]
  · simp [wrappedPair, listAt, elemAt, SExpr.isList, SExpr.asList, SExpr.getSymbol, hA, hB,
      hea, heb, h1, h2, specRoles]

theorem barePair_pair (r : EntityResolver) (results : List ComplianceRelation)
    (A B ra rb : Str) (hA : A.take 4 = "soa_".toList) (hB : B.take 4 = "soa_".toList)
    (hra : resolve r A = .ok ra) (hrb : resolve r B = .ok rb) :
    barePair r results [SExpr.atom A, SExpr.atom B]
      = .ok (results ++ [{ obligation := ra, entity := rb, fulfilledBy := B }]) := by
  have h1 := complianceOf_ok r A B ra rb hra hrb
  simp only [String.toList] at hA hB
  simp [barePair, elemAt, SExpr.getSymbol, hA, hB, h1]

theorem findCompliances_wrapped (r : EntityResolver) (A B ra rb : Str)
    (hA : A.take 4 = "soa_".toList) (hB : B.take 4 = "soa_".toList)
    (hra : resolve r A = .ok ra) (hrb : resolve r B = .ok rb) :
    findCompliances r [SExpr.list [SExpr.list [SExpr.atom A, SExpr.atom B]]]
      = .ok [{ obligation := if (specRoles A B).1 = A then ra else rb,
               entity := if (specRoles A B).1 = A then rb else ra,
               fulfilledBy := (specRoles A B).2 }] := by
  have h1 := wrappedPair_pair r [] A B ra rb hA hB hra hrb
  simp [findCompliances, SExprMatcher.findAll, SExprMatcher.matches, compliancePattern,
    forEach, tupleCompliance, SExpr.isList, SExpr.asList, h1, barePair]

theorem findCompliances_bare (r : EntityResolver) (A B ra rb : Str)
    (hA : A.take 4 = "soa_".toList) (hB : B.take 4 = "soa_".toList)
    (hra : resolve r A = .ok ra) (hrb : resolve r B = .ok rb) :
    findCompliances r [SExpr.list [SExpr.atom A, SExpr.atom B]]
      = .ok [{ obligation := ra, entity := rb, fulfilledBy := B }] := by
  have h1 := barePair_pair r [] A B ra rb hA hB hra hrb
  simp [findCompliances, SExprMatcher.findAll, SExprMatcher.matches, compliancePattern,
    forEach, tupleCompliance, SExpr.isList, SExpr.asList, h1, wrappedPair, listAt, elemAt]

/-- C29 fails for a bare pair in the reversed order: in `(soa_epam15k soa_enpam)` only
the second element contains `"en"`, yet the obligation is resolved from the first
element (`soa_epam15k`, resolved to `epam15k`) and `fulfilledBy` is `soa_enpam`; the
wrapped form `[(soa_epam15k soa_enpam)]` assigns the roles as stated. -/
theorem C29_counterexample :
    containsText "soa_enpam".toList "en".toList = true ∧
    containsText "soa_epam15k".toList "en".toList = false ∧
    findCompliances (loadDefaultMappings defaultSpecialCharMappings)
        [SExpr.list [SExpr.atom "soa_epam15k".toList, SExpr.atom "soa_enpam".toList]]
      = .ok [{ obligation := "epam15k".toList, entity := sALEXANDRA_MAERSK,
               fulfilledBy := "soa_enpam".toList }] ∧
    resolve (loadDefaultMappings defaultSpecialCharMappings) "soa_epam15k".toList
      = .ok "epam15k".toList ∧
    resolve (loadDefaultMappings defaultSpecialCharMappings) "soa_enpam".toList
      = .ok sALEXANDRA_MAERSK ∧
    findCompliances (loadDefaultMappings defaultSpecialCharMappings)
        [SExpr.list [SExpr.list
          [SExpr.atom "soa_epam15k".toList, SExpr.atom "soa_enpam".toList]]]
      = .ok [{ obligation := sALEXANDRA_MAERSK, entity := "epam15k".toList,
               fulfilledBy := "soa_epam15k".toList }] :=
  ⟨by decide, by decide, rfl, rfl, rfl, rfl⟩

/-- C29, the part that holds: for every 2-element list of two `soa_`-prefixed atoms
wrapped in a one-element list, `findCompliances` yields one compliance whose obligation
is resolved from the element that contains `"en"` and whose `fulfilledBy` is the other
element (the first element is the obligation when neither or both contain `"en"`); for
the bare list at top level the first element is the obligation and the second is
`fulfilledBy`, whichever of them contains `"en"`. -/
theorem C29_findCompliances_roles (r : EntityResolver) (A B ra rb : Str)
    (hA : A.take 4 = "soa_".toList) (hB : B.take 4 = "soa_".toList)
    (hra : resolve r A = .ok ra) (hrb : resolve r B = .ok rb) :
    findCompliances r [SExpr.list [SExpr.list [SExpr.atom A, SExpr.atom B]]]
      = .ok [{ obligation := if (specRoles A B).1 = A then ra else rb,
               entity := if (specRoles A B).1 = A then rb else ra,
               fulfilledBy := (specRoles A B).2 }] ∧
    findCompliances r [SExpr.list [SExpr.atom A, SExpr.atom B]]
      = .ok [{ obligation := ra, entity := rb, fulfilledBy := B }] :=
  ⟨findCompliances_wrapped r A B ra rb hA hB hra hrb,
   findCompliances_bare r A B ra rb hA hB hra hrb⟩

theorem C29_findCompliances_roles_witness :
    findCompliances (loadDefaultMappings defaultSpecialCharMappings)
        [SExpr.list [SExpr.list
          [SExpr.atom "soa_epam15k".toList, SExpr.atom "soa_enpam".toList]]]
      = .ok [{ obligation := sALEXANDRA_MAERSK, entity := "epam15k".toList,
               fulfilledBy := "soa_epam15k".toList }] ∧
    findCompliances (loadDefaultMappings defaultSpecialCharMappings)
        [SExpr.list [SExpr.atom "soa_epam15k".toList, SExpr.atom "soa_enpam".toList]]
      = .ok [{ obligation := "epam15k".toList, entity := sALEXANDRA_MAERSK,
               fulfilledBy := "soa_enpam".toList }] :=
  ⟨(C29_findCompliances_roles (loadDefaultMappings defaultSpecialCharMappings)
      "soa_epam15k".toList "soa_enpam".toList "epam15k".toList sALEXANDRA_MAERSK
      rfl rfl rfl rfl).1,
   (C29_findCompliances_roles (loadDefaultMappings defaultSpecialCharMappings)
      "soa_epam15k".toList "soa_enpam".toList "epam15k".toList sALEXANDRA_MAERSK
      rfl rfl rfl rfl).2⟩

/-! ## The wrapped compliance pair -/

theorem take_ne_of_prefix {A : Str} (hA : A.take 4 = "soa_".toList) (lit : Str)
    (hlit : lit.take 4 ≠ "soa_".toList) : A ≠ lit := by
  intro h
  subst h
  exact hlit hA

theorem extractStateOfAffairs_pair (r : EntityResolver) (A B : Str) :
    extractStateOfAffairs r [SExpr.list [SExpr.list [SExpr.atom A, SExpr.atom B]]] = .ok [] ∧
    extractStateOfAffairs r
      [SExpr.list [SExpr.list []], SExpr.list [SExpr.list [SExpr.atom A, SExpr.atom B]]]
      = .ok [] := by
  constructor <;>
    simp [extractStateOfAffairs, forEach, collectTriples, collectTriple, SExpr.isList,
      SExpr.asList]

theorem findContradictions_pair (r : EntityResolver) (A B : Str) :
    findContradictions r [SExpr.list [SExpr.list [SExpr.atom A, SExpr.atom B]]] = .ok [] ∧
    findContradictions r
      [SExpr.list [SExpr.list []], SExpr.list [SExpr.list [SExpr.atom A, SExpr.atom B]]]
      = .ok [] := by
  have h1 : ∀ state, contradictionElem r state (SExpr.list [SExpr.atom A, SExpr.atom B])
      = .ok state :=
    fun state => contradictionElem_skip r state _ (by intro l ds h; simp at h)
  have h2 : ∀ state, contradictionElem r state (SExpr.list []) = .ok state :=
    fun state => contradictionElem_skip r state _ (by intro l ds h; simp at h)
  constructor <;>
    simp [findContradictions, forEach, contradictionExpr, SExpr.isList, SExpr.asList, h1, h2,
      contradictionTopLevel, paymentContradictions, SExprMatcher.findAll,
      SExprMatcher.matches, notNotFalsePattern]

theorem findConflicts_pair (r : EntityResolver) (A B : Str) :
    findConflicts r [SExpr.list [SExpr.list [SExpr.atom A, SExpr.atom B]]] = .ok [] ∧
    findConflicts r
      [SExpr.list [SExpr.list []], SExpr.list [SExpr.list [SExpr.atom A, SExpr.atom B]]]
      = .ok [] := by
  constructor <;>
    simp [findConflicts, forEach, conflictExpr, conflictElem, isComma, SExpr.isList,
      SExpr.isAtom, SExpr.asList, parseConflictExpr, listAt, elemAt]

theorem findViolations_pair (r : EntityResolver) (A B : Str)
    (hA : A.take 4 = "soa_".toList) :
    findViolations r [SExpr.list [SExpr.list [SExpr.atom A, SExpr.atom B]]] = .ok [] ∧
    findViolations r
      [SExpr.list [SExpr.list []], SExpr.list [SExpr.list [SExpr.atom A, SExpr.atom B]]]
      = .ok [] := by
  have hq := take_ne_of_prefix hA "quote".toList (by decide)
  simp only [String.toList] at hq
  constructor <;>
    simp [findViolations, forEach, violationExpr, SExpr.isList, SExpr.asList,
      parseViolationExpr, listAt, elemAt, SExpr.getSymbol, hq]

theorem findCompliances_empty_wrapper (r : EntityResolver) (A B ra rb : Str)
    (hA : A.take 4 = "soa_".toList) (hB : B.take 4 = "soa_".toList)
    (hra : resolve r A = .ok ra) (hrb : resolve r B = .ok rb) :
    findCompliances r
      [SExpr.list [SExpr.list []], SExpr.list [SExpr.list [SExpr.atom A, SExpr.atom B]]]
      = .ok [{ obligation := if (specRoles A B).1 = A then ra else rb,
               entity := if (specRoles A B).1 = A then rb else ra,
               fulfilledBy := (specRoles A B).2 }] := by
  have h1 := wrappedPair_pair r [] A B ra rb hA hB hra hrb
  have h0 : wrappedPair r [] [SExpr.list []] = .ok [] := by
    simp [wrappedPair, listAt, elemAt, SExpr.isList, SExpr.asList]
  simp [findCompliances, SExprMatcher.findAll, SExprMatcher.matches, compliancePattern,
    forEach, tupleCompliance, SExpr.isList, SExpr.asList, h0, h1, barePair]

theorem specRoles_of_en {A B : Str} (hea : containsText A "en".toList = true)
    (heb : containsText B "en".toList = false) : specRoles A B = (A, B) := by
  simp only [String.toList] at hea heb
  simp [specRoles, hea, heb]

theorem classify_pair (r : EntityResolver) (A B ra rb : Str)
    (hA : A.take 4 = "soa_".toList) (hB : B.take 4 = "soa_".toList)
    (hea : containsText A "en".toList = true) (heb : containsText B "en".toList = false)
    (hra : resolve r A = .ok ra) (hrb : resolve r B = .ok rb) :
    classify r [SExpr.list [SExpr.list [SExpr.atom A, SExpr.atom B]]]
      = .ok { compliances := [{ obligation := ra, entity := rb, fulfilledBy := B }] } ∧
    classify r
        [SExpr.list [SExpr.list []], SExpr.list [SExpr.list [SExpr.atom A, SExpr.atom B]]]
      = .ok { compliances := [{ obligation := ra, entity := rb, fulfilledBy := B }] } := by
  have h5 := findCompliances_wrapped r A B ra rb hA hB hra hrb
  have h6 := findCompliances_empty_wrapper r A B ra rb hA hB hra hrb
  rw [specRoles_of_en hea heb] at h5 h6
  simp only [if_true] at h5 h6
  constructor
  · simp [classify, (extractStateOfAffairs_pair r A B).1, (findContradictions_pair r A B).1,
      (findConflicts_pair r A B).1, (findViolations_pair r A B hA).1, h5]
  · simp [classify, (extractStateOfAffairs_pair r A B).2, (findContradictions_pair r A B).2,
      (findConflicts_pair r A B).2, (findViolations_pair r A B hA).2, h6]

theorem parseExpression_square_wrap {s : Str} {e : SExpr} (h : GoodRender s e)
    (hs : s.head? = some '(') (rest : Str) :
    ∃ n, parseExpression n ⟨'[' :: (s ++ ']' :: rest)⟩
      = .ok (SExpr.list [e], ⟨skipWhitespace rest⟩) := by
  obtain ⟨n1, h1⟩ := h.1 (']' :: rest) (by simp [restOk, isDelimiter])
  have hskip : skipWhitespace (']' :: rest) = ']' :: rest :=
    skipWhitespace_of_not_space (by decide)
  rw [hskip] at h1
  obtain ⟨cs, hcs⟩ : ∃ cs, s = '(' :: cs := by
    cases s with
    | nil => simp at hs
    | cons c cs =>
      simp only [List.head?_cons, Option.some.injEq] at hs
      exact ⟨cs, by rw [hs]⟩
  subst hcs
  cases n1 with
  | zero => simp [parseExpression] at h1
  | succ n =>
    refine ⟨n + 1 + 3, ?_⟩
    have hsk2 : skipWhitespace ('(' :: (cs ++ ']' :: rest)) = '(' :: (cs ++ ']' :: rest) :=
      skipWhitespace_of_not_space (by decide)
    simp only [List.cons_append] at h1 ⊢
    have hloop2 : parseListLoop (n + 1) sCloseSquare ⟨']' :: rest⟩ [e]
        = .ok (SExpr.list [e], ⟨skipWhitespace rest⟩) := by
      rw [parseListLoop_succ]
      simp [Tokenizer.hasNext, Tokenizer.peek, Tokenizer.next, Tokenizer.consume, isBracket,
        sCloseSquare]
    have hloop1 : parseListLoop (n + 1 + 1) sCloseSquare ⟨'(' :: (cs ++ ']' :: rest)⟩ []
        = .ok (SExpr.list [e], ⟨skipWhitespace rest⟩) := by
      rw [parseListLoop_succ]
      have hcond : (Tokenizer.hasNext ⟨'(' :: (cs ++ ']' :: rest)⟩
          && decide (Tokenizer.peek ⟨'(' :: (cs ++ ']' :: rest)⟩ ≠ sCloseSquare)) = true := by
        simp [Tokenizer.hasNext, Tokenizer.peek, isBracket, sCloseSquare]
      rw [if_pos hcond, h1]
      simpa using hloop2
    rw [parseExpression_succ, parseList_succ]
    simp only [Tokenizer.hasNext, Tokenizer.peek, Tokenizer.next, Tokenizer.consume, isBracket,
      sOpenParen, sOpenSquare, hsk2]
    simpa [sCloseSquare] using hloop1

theorem parseMultipleLoop_cons (acc : List SExpr) {t t1 : Tokenizer} {e : SExpr}
    {r : List SExpr}
    {n m : Nat} (he : parseExpression n t = .ok (e, t1)) (hnext : t.hasNext = true)
    (hloop : parseMultipleLoop m t1 (acc ++ [e]) = .ok r) :
    ∃ k, parseMultipleLoop k t acc = .ok r := by
  refine ⟨max n m + 1, ?_⟩
  rw [parseMultipleLoop_succ]
  have hE := parseExpression_mono_le (Nat.le_max_left n m) t (by rw [he]; exact settled_ok _)
  have hL := parseMultipleLoop_mono_le (Nat.le_max_right n m) t1 (acc ++ [e])
    (by rw [hloop]; exact settled_ok _)
  simp only [hnext, if_true, hE, he, hL, hloop]

theorem parseMultiple_wrapped_pair (A B : Str) (hA : isAtomText A = true)
    (hB : isAtomText B = true) :
    parseMultiple ("[(".toList ++ A ++ " ".toList ++ B ++ ")]".toList)
      = .ok [SExpr.list [SExpr.list [SExpr.atom A, SExpr.atom B]]] ∧
    parseMultiple ("[()]\n[(".toList ++ A ++ " ".toList ++ B ++ ")]".toList)
      = .ok [SExpr.list [SExpr.list []],
          SExpr.list [SExpr.list [SExpr.atom A, SExpr.atom B]]] := by
  have hgA : GoodRender A (SExpr.atom A) := goodRender_toString (SExpr.atom A) hA
  have hgB : GoodRender B (SExpr.atom B) := goodRender_toString (SExpr.atom B) hB
  have hpair := goodRender_list [(A, SExpr.atom A), (B, SExpr.atom B)]
    (by
      intro item hitem
      simp only [List.mem_cons, List.mem_singleton, List.not_mem_nil, or_false] at hitem
      rcases hitem with h | h <;> subst h <;> assumption)
    [] (by intro c hc; simp at hc)
  have hempty := goodRender_list [] (by intro item hitem; simp at hitem)
    [] (by intro c hc; simp at hc)
  simp only [joinTexts, List.nil_append, List.map_cons, List.map_nil] at hpair hempty
  have hdone : ∀ acc : List SExpr, parseMultipleLoop 1 ⟨skipWhitespace []⟩ acc = .ok acc := by
    intro acc
    rw [parseMultipleLoop_succ]
    simp [skipWhitespace, Tokenizer.hasNext]
  have htext : "[(".toList ++ A ++ " ".toList ++ B ++ ")]".toList
      = '[' :: ('(' :: (A ++ ' ' :: B ++ [')']) ++ ']' :: []) := by
    simp
  obtain ⟨n1, h1⟩ := parseExpression_square_wrap hpair rfl []
  constructor
  · obtain ⟨k, hk⟩ := parseMultipleLoop_cons [] h1 (by rfl) (hdone _)
    apply parseMultiple_of_loop (n := k)
    rw [htext]
    exact hk
  · have htext2 : "[()]\n[(".toList ++ A ++ " ".toList ++ B ++ ")]".toList
        = '[' :: ('(' :: [')'] ++ ']' :: ('\n' ::
            ("[(".toList ++ A ++ " ".toList ++ B ++ ")]".toList))) := by
      simp
    obtain ⟨n0, h0⟩ := parseExpression_square_wrap hempty rfl
      ('\n' :: ("[(".toList ++ A ++ " ".toList ++ B ++ ")]".toList))
    have hskip : skipWhitespace ('\n' :: ("[(".toList ++ A ++ " ".toList ++ B ++ ")]".toList))
        = '[' :: ('(' :: (A ++ ' ' :: B ++ [')']) ++ ']' :: []) := by
      rw [htext]
      simp [skipWhitespace, List.dropWhile_cons, isspace]
    rw [hskip] at h0
    obtain ⟨k1, hk1⟩ := parseMultipleLoop_cons [SExpr.list [SExpr.list []]] h1
      (by rfl) (hdone _)
    obtain ⟨k, hk⟩ := parseMultipleLoop_cons [] h0 (by rfl) hk1
    apply parseMultiple_of_loop (n := k)
    rw [htext2]
    exact hk

theorem strFind_isSome_iff (needle : Str) : ∀ (str : Str) (pos : Nat),
    (strFind needle str pos).isSome = true ↔ needle <:+: str := by
  intro str
  induction str with
  | nil =>
    intro pos
    cases needle with
    | nil => simp [strFind]
    | cons c cs => simp [strFind]
  | cons c cs ih =>
    intro pos
    simp only [strFind]
    by_cases hp : needle.isPrefixOf (c :: cs) = true
    · simp only [hp, if_true, Option.isSome_some, true_iff]
      exact (List.isPrefixOf_iff_prefix.mp hp).isInfix
    · simp only [hp, Bool.false_eq_true, if_false, ih (pos + 1)]
      rw [List.infix_cons_iff]
      constructor
      · intro h; exact Or.inr h
      · rintro (h | h)
        · exact absurd (List.isPrefixOf_iff_prefix.mpr h) hp
        · exact h

theorem containsText_iff (s sub : Str) : containsText s sub = true ↔ sub <:+: s :=
  strFind_isSome_iff sub s 0

theorem resolve_of_resolveEntity {r : EntityResolver} {x out : Str}
    (h : r.resolveEntity x = some out) : resolve r x = .ok out := by
  simp [resolve, h]

/-- C27: for all atoms `A` and `B` that start with `"soa_"`, where `A` contains the
substring `"en"` and `B` does not, `SemanticAnalyzer::analyze` of the text `"[(A B)]"`,
also when it is preceded by the empty-wrapper line `"[()]"`, yields exactly one
compliance relation, with `obligation = resolveEntity(A)`, `entity = resolveEntity(B)`
and `fulfilledBy = B`, and yields no proposition, contradiction, conflict or violation,
so that `Metrics.compliances` is 1. -/
theorem C27_wrapped_compliance_pair (r : EntityResolver) (A B ra rb : Str)
    (hA : isAtomText A = true) (hB : isAtomText B = true)
    (hpa : "soa_".toList.isPrefixOf A = true) (hpb : "soa_".toList.isPrefixOf B = true)
    (hea : "en".toList <:+: A) (heb : ¬ "en".toList <:+: B)
    (hra : r.resolveEntity A = some ra) (hrb : r.resolveEntity B = some rb) :
    analyze r ("[(".toList ++ A ++ " ".toList ++ B ++ ")]".toList)
      = .ok { compliances := [{ obligation := ra, entity := rb, fulfilledBy := B }] } ∧
    analyze r ("[()]\n[(".toList ++ A ++ " ".toList ++ B ++ ")]".toList)
      = .ok { compliances := [{ obligation := ra, entity := rb, fulfilledBy := B }] } ∧
    AnalysisResult.metricsCompliances
      { compliances := [{ obligation := ra, entity := rb, fulfilledBy := B }] } = 1 := by
  have htA : A.take 4 = "soa_".toList :=
    (List.prefix_iff_eq_take.mp (List.isPrefixOf_iff_prefix.mp hpa)).symm
  have htB : B.take 4 = "soa_".toList :=
    (List.prefix_iff_eq_take.mp (List.isPrefixOf_iff_prefix.mp hpb)).symm
  have hcA : containsText A "en".toList = true := (containsText_iff _ _).mpr hea
  have hcB : containsText B "en".toList = false := by
    cases h : containsText B "en".toList with
    | false => rfl
    | true => exact absurd ((containsText_iff _ _).mp h) heb
  have hclass := classify_pair r A B ra rb htA htB hcA hcB (resolve_of_resolveEntity hra)
    (resolve_of_resolveEntity hrb)
  have hparse := parseMultiple_wrapped_pair A B hA hB
  refine ⟨?_, ?_, rfl⟩
  · simp only [analyze, analyzeExpressions, hparse.1, hclass.1]
  · simp only [analyze, analyzeExpressions, hparse.2, hclass.2]

theorem C27_wrapped_compliance_pair_witness :
    analyze (loadDefaultMappings defaultSpecialCharMappings)
        "[()]\n[(soa_enpam soa_epam15k)]".toList
      = .ok { compliances := [{ obligation := sALEXANDRA_MAERSK, entity := "epam15k".toList,
                                fulfilledBy := "soa_epam15k".toList }] } ∧
    analyze (loadDefaultMappings defaultSpecialCharMappings)
        "[(soa_enpam soa_epam15k)]".toList
      = .ok { compliances := [{ obligation := sALEXANDRA_MAERSK, entity := "epam15k".toList,
                                fulfilledBy := "soa_epam15k".toList }] } :=
  ⟨(C27_wrapped_compliance_pair (loadDefaultMappings defaultSpecialCharMappings)
      "soa_enpam".toList "soa_epam15k".toList sALEXANDRA_MAERSK "epam15k".toList
      (by decide) (by decide) (by decide) (by decide)
      ((containsText_iff _ _).mp (by decide))
      (fun h => absurd ((containsText_iff _ _).mpr h) (by decide))
      (by decide) (by decide)).2.1,
   (C27_wrapped_compliance_pair (loadDefaultMappings defaultSpecialCharMappings)
      "soa_enpam".toList "soa_epam15k".toList sALEXANDRA_MAERSK "epam15k".toList
      (by decide) (by decide) (by decide) (by decide)
      ((containsText_iff _ _).mp (by decide))
      (fun h => absurd ((containsText_iff _ _).mpr h) (by decide))
      (by decide) (by decide)).1⟩

/-! ## Conflict detection -/

theorem parseConflictExpr_of_isConflictExpr (r : EntityResolver)
    (hr : ∀ x, ∃ s, resolve r x = .ok s) (e : SExpr) (h : isConflictExpr e = true) :
    ∃ c, parseConflictExpr r e = .ok (some c) := by
  cases e with
  | atom a => simp [isConflictExpr] at h
  | list l =>
    match l, h with
    | head :: a1 :: a2 :: rest, h =>
      simp only [isConflictExpr, decide_eq_true_eq] at h
      obtain ⟨c1, h1⟩ := conflictRegulation1_returns r hr {} a1
      obtain ⟨c2, h2⟩ := conflictRegulation2_returns r hr c1 a2
      obtain ⟨c3, h3⟩ := conflictFinish_returns r hr c2
      refine ⟨c3, ?_⟩
      simp only [String.toList] at h
      simp [parseConflictExpr, SExpr.isList, SExpr.asList, elemAt, h, h1, h2, h3]
    | [], h => simp [isConflictExpr] at h
    | [_], h => simp [isConflictExpr] at h
    | [_, _], h => simp [isConflictExpr] at h

theorem parseConflictExpr_of_not_isConflictExpr (r : EntityResolver) (e : SExpr)
    (h : isConflictExpr e = false) : parseConflictExpr r e = .ok none := by
  cases e with
  | atom a => simp [parseConflictExpr, SExpr.isList]
  | list l =>
    match l, h with
    | head :: a1 :: a2 :: rest, h =>
      simp only [isConflictExpr, decide_eq_false_iff_not, String.toList] at h
      simp [parseConflictExpr, SExpr.isList, SExpr.asList, elemAt, h]
    | [], h => simp [parseConflictExpr, SExpr.isList, SExpr.asList]
    | [_], h => simp [parseConflictExpr, SExpr.isList, SExpr.asList]
    | [_, _], h => simp [parseConflictExpr, SExpr.isList, SExpr.asList]

theorem forall2_append {α β : Type} {R : α → β → Prop} {l1 l2 : List α} {m1 m2 : List β}
    (h1 : List.Forall₂ R l1 m1) (h2 : List.Forall₂ R l2 m2) :
    List.Forall₂ R (l1 ++ l2) (m1 ++ m2) := by
  induction h1 with
  | nil => simpa using h2
  | cons hab _ ih => exact List.Forall₂.cons hab ih

theorem conflictElem_step (r : EntityResolver) (hr : ∀ x, ∃ s, resolve r x = .ok s)
    (state : ConflictState) (elem : SExpr) :
    ∃ cs, conflictElem r state elem
        = .ok { results := state.results ++ cs,
                foundConflictInList := state.foundConflictInList
                  || !([elem].filter isConflictExpr).isEmpty } ∧
      List.Forall₂ (fun e c => parseConflictExpr r e = .ok (some c))
        ([elem].filter isConflictExpr) cs := by
  cases elem with
  | atom a =>
    refine ⟨[], ?_, by simp [isConflictExpr]⟩
    by_cases ha : a = ",".toList
    · simp [conflictElem, isComma, SExpr.isAtom, SExpr.asAtom, ha, isConflictExpr]
    · simp only [String.toList] at ha
      simp [conflictElem, isComma, SExpr.isAtom, SExpr.isList, SExpr.asAtom, ha,
        isConflictExpr]
  | list l =>
    cases hc : isConflictExpr (SExpr.list l) with
    | true =>
      obtain ⟨c, hcp⟩ := parseConflictExpr_of_isConflictExpr r hr _ hc
      refine ⟨[c], ?_, ?_⟩
      · simp [conflictElem, isComma, SExpr.isAtom, SExpr.isList, hcp, hc]
      · simp only [List.filter_cons, hc, if_true, List.filter_nil]
        exact List.Forall₂.cons hcp List.Forall₂.nil
    | false =>
      have hcp := parseConflictExpr_of_not_isConflictExpr r _ hc
      refine ⟨[], ?_, ?_⟩
      · simp [conflictElem, isComma, SExpr.isAtom, SExpr.isList, hcp, hc]
      · simp [hc]

theorem conflictElem_loop (r : EntityResolver) (hr : ∀ x, ∃ s, resolve r x = .ok s) :
    ∀ (children : List SExpr) (state : ConflictState),
    ∃ cs, forEach (conflictElem r) children state
        = .ok { results := state.results ++ cs,
                foundConflictInList := state.foundConflictInList
                  || !(children.filter isConflictExpr).isEmpty } ∧
      List.Forall₂ (fun e c => parseConflictExpr r e = .ok (some c))
        (children.filter isConflictExpr) cs := by
  intro children
  induction children with
  | nil => intro state; exact ⟨[], by simp [forEach], by simp⟩
  | cons elem rest ih =>
    intro state
    obtain ⟨cs1, h1, hf1⟩ := conflictElem_step r hr state elem
    obtain ⟨cs2, h2, hf2⟩ := ih ⟨state.results ++ cs1,
      state.foundConflictInList || !([elem].filter isConflictExpr).isEmpty⟩
    refine ⟨cs1 ++ cs2, ?_, ?_⟩
    · simp only [forEach, h1, h2]
      cases hc : isConflictExpr elem <;> simp [hc, List.filter_cons]
    · have := forall2_append hf1 hf2
      cases hc : isConflictExpr elem <;> simpa [List.filter_cons, hc] using this

theorem conflictExpr_step (r : EntityResolver) (hr : ∀ x, ∃ s, resolve r x = .ok s)
    (results : List RegulatoryConflict) (expr : SExpr) :
    ∃ cs, conflictExpr r results expr = .ok (results ++ cs) ∧
      List.Forall₂ (fun e c => parseConflictExpr r e = .ok (some c))
        (conflictExprsOf expr) cs := by
  cases expr with
  | atom a => exact ⟨[], by simp [conflictExpr, SExpr.isList], by simp [conflictExprsOf]⟩
  | list children =>
    obtain ⟨cs, hloop, hf⟩ := conflictElem_loop r hr children { results := results }
    cases hempty : (children.filter isConflictExpr).isEmpty with
    | false =>
      refine ⟨cs, ?_, ?_⟩
      · simp [conflictExpr, SExpr.isList, SExpr.asList, hloop, hempty]
      · simpa [conflictExprsOf, hempty] using hf
    | true =>
      have hnil : children.filter isConflictExpr = [] := List.isEmpty_iff.mp hempty
      rw [hnil] at hf
      cases hf
      have hchild : ∀ child ∈ children, parseConflictExpr r child = .ok none := by
        intro child hmem
        apply parseConflictExpr_of_not_isConflictExpr
        cases hc : isConflictExpr child with
        | false => rfl
        | true =>
          have : child ∈ children.filter isConflictExpr := List.mem_filter.mpr ⟨hmem, hc⟩
          rw [hnil] at this
          cases this
      cases hself : isConflictExpr (SExpr.list children) with
      | true =>
        obtain ⟨c, hcp⟩ := parseConflictExpr_of_isConflictExpr r hr _ hself
        refine ⟨[c], ?_, ?_⟩
        · match children, hchild, hloop, hcp with
          | [], _, hloop, hcp =>
            simp [conflictExpr, SExpr.isList, SExpr.asList, hloop, hcp]
          | [child], hchild, hloop, hcp =>
            have := hchild child (List.mem_singleton.mpr rfl)
            cases child <;>
              simp [conflictExpr, listAt, elemAt, SExpr.isList, SExpr.asList, this, hloop, hcp,
                hempty]
          | _ :: _ :: _, _, hloop, hcp =>
            simp [conflictExpr, SExpr.isList, SExpr.asList, hloop, hcp, hempty]
        · simp only [conflictExprsOf, hempty, if_true, hself]
          exact List.Forall₂.cons hcp List.Forall₂.nil
      | false =>
        have hcp := parseConflictExpr_of_not_isConflictExpr r _ hself
        refine ⟨[], ?_, ?_⟩
        · match children, hchild, hloop, hcp with
          | [], _, hloop, hcp =>
            simp [conflictExpr, SExpr.isList, SExpr.asList, hloop, hcp]
          | [child], hchild, hloop, hcp =>
            have := hchild child (List.mem_singleton.mpr rfl)
            cases child <;>
              simp [conflictExpr, listAt, elemAt, SExpr.isList, SExpr.asList, this, hloop, hcp,
                hempty]
          | _ :: _ :: _, _, hloop, hcp =>
            simp [conflictExpr, SExpr.isList, SExpr.asList, hloop, hcp, hempty]
        · simp [conflictExprsOf, hempty, hself]

theorem findConflicts_loop (r : EntityResolver) (hr : ∀ x, ∃ s, resolve r x = .ok s) :
    ∀ (expressions : List SExpr) (results : List RegulatoryConflict),
    ∃ cs, forEach (conflictExpr r) expressions results = .ok (results ++ cs) ∧
      List.Forall₂ (fun e c => parseConflictExpr r e = .ok (some c))
        (expressions.flatMap conflictExprsOf) cs := by
  intro expressions
  induction expressions with
  | nil => intro results; exact ⟨[], by simp [forEach], by simp⟩
  | cons expr rest ih =>
    intro results
    obtain ⟨cs1, h1, hf1⟩ := conflictExpr_step r hr results expr
    obtain ⟨cs2, h2, hf2⟩ := ih (results ++ cs1)
    refine ⟨cs1 ++ cs2, ?_, ?_⟩
    · simp [forEach, h1, h2]
    · simpa using forall2_append hf1 hf2

theorem conflict_not_opt (r : EntityResolver) (entity s : Str)
    (hs : resolve r entity = .ok s) (hne : entity ≠ []) :
    ∃ c, parseConflictExpr r
        (SExpr.list [SExpr.atom "conflict".toList, SExpr.atom "not_opt".toList,
          SExpr.atom entity]) = .ok (some c) ∧
      c.regulation1 = "Not optional (prohibited)".toList ∧ c.regulation2 = s := by
  cases entity with
  | nil => exact absurd rfl hne
  | cons ch cs =>
    simp [parseConflictExpr, SExpr.isList, SExpr.asList, elemAt, SExpr.getSymbol,
      conflictRegulation1, conflictRegulation2, conflictFinish, hs]

/-- C28 as stated fails: the four-element list `(conflict a b c)` is not of the form
`(conflict Arg1 Arg2)` and yields a conflict, and the top-level expression
`(conflict (conflict a b) x)`, which is a conflict expression and holds another one as
a child, yields one conflict (the child's), not two. -/
theorem C28_counterexample :
    specConflictExprs [SExpr.list [SExpr.atom "conflict".toList, SExpr.atom "a".toList,
        SExpr.atom "b".toList, SExpr.atom "c".toList]] = [] ∧
    findConflicts (loadDefaultMappings defaultSpecialCharMappings)
        [SExpr.list [SExpr.atom "conflict".toList, SExpr.atom "a".toList,
          SExpr.atom "b".toList, SExpr.atom "c".toList]]
      = .ok [{ regulation1 := "a".toList, regulation2 := "b".toList,
               conflictingRequirement := "regulatory requirements".toList,
               affectedEntity := "b".toList }] ∧
    (specConflictExprs [SExpr.list [SExpr.atom "conflict".toList,
        SExpr.list [SExpr.atom "conflict".toList, SExpr.atom "a".toList,
          SExpr.atom "b".toList],
        SExpr.atom "x".toList]]).length = 2 ∧
    findConflicts (loadDefaultMappings defaultSpecialCharMappings)
        [SExpr.list [SExpr.atom "conflict".toList,
          SExpr.list [SExpr.atom "conflict".toList, SExpr.atom "a".toList,
            SExpr.atom "b".toList],
          SExpr.atom "x".toList]]
      = .ok [{ regulation1 := "a".toList, regulation2 := "b".toList,
               conflictingRequirement := "regulatory requirements".toList,
               affectedEntity := "b".toList }] :=
  ⟨rfl, rfl, rfl, rfl⟩

/-- C28 (amended): when no special-character key is empty, `findConflicts` returns, in
source order, exactly one conflict for each expression of `conflictExprsOf`: for a
top-level list, each child that is a list of three or more elements headed by
`conflict`, and, only when it has no such child, the top-level list itself if it is one;
`parseConflictExpr` yields a conflict exactly for those lists; and
`(conflict not_opt soa_elam)`, bare or in a wrapper list, yields exactly one conflict,
whose regulation1 is `"Not optional (prohibited)"`. -/
theorem C28_findConflicts (r : EntityResolver)
    (hkeys : ∀ kv ∈ r.specialCharMappings, kv.1 ≠ []) (expressions : List SExpr) :
    (∃ conflicts, findConflicts r expressions = .ok conflicts ∧
      List.Forall₂ (fun e c => parseConflictExpr r e = .ok (some c))
        (expressions.flatMap conflictExprsOf) conflicts) ∧
    (∀ e, (∃ c, parseConflictExpr r e = .ok (some c)) ↔ isConflictExpr e = true) ∧
    (∃ c, findConflicts r [SExpr.list [SExpr.atom "conflict".toList,
          SExpr.atom "not_opt".toList, SExpr.atom "soa_elam".toList]] = .ok [c] ∧
      c.regulation1 = "Not optional (prohibited)".toList) ∧
    (∃ c, findConflicts r [SExpr.list [SExpr.list [SExpr.atom "conflict".toList,
          SExpr.atom "not_opt".toList, SExpr.atom "soa_elam".toList]]] = .ok [c] ∧
      c.regulation1 = "Not optional (prohibited)".toList) := by
  have hr := resolve_returns r hkeys
  have hexample : ∀ exprs : List SExpr,
      exprs.flatMap conflictExprsOf = [SExpr.list [SExpr.atom "conflict".toList,
          SExpr.atom "not_opt".toList, SExpr.atom "soa_elam".toList]] →
      ∃ c, findConflicts r exprs = .ok [c] ∧
        c.regulation1 = "Not optional (prohibited)".toList := by
    intro exprs hflat
    obtain ⟨cs, hcs, hf⟩ := findConflicts_loop r hr exprs []
    obtain ⟨s, hs⟩ := hr "soa_elam".toList
    obtain ⟨c, hc, hreg, _⟩ := conflict_not_opt r "soa_elam".toList s hs (by decide)
    rw [hflat] at hf
    cases hf with
    | cons hhead htail =>
      cases htail
      rw [hc] at hhead
      injection hhead with hhead
      injection hhead with hhead
      subst hhead
      exact ⟨c, by simpa [findConflicts] using hcs, hreg⟩
  refine ⟨?_, ?_, hexample _ rfl, hexample _ rfl⟩
  · obtain ⟨cs, hcs, hf⟩ := findConflicts_loop r hr expressions []
    exact ⟨cs, by simpa [findConflicts] using hcs, hf⟩
  · intro e
    constructor
    · rintro ⟨c, hc⟩
      cases h : isConflictExpr e with
      | true => rfl
      | false =>
        rw [parseConflictExpr_of_not_isConflictExpr r e h] at hc
        injection hc with hc
        cases hc
    · exact parseConflictExpr_of_isConflictExpr r hr e

theorem C28_findConflicts_witness :
    (∃ conflicts, findConflicts (loadDefaultMappings defaultSpecialCharMappings)
        [SExpr.list [
          SExpr.list [SExpr.atom "conflict".toList, SExpr.atom "not_opt".toList,
            SExpr.atom "soa_elam".toList],
          SExpr.list [SExpr.atom "conflict".toList,
            SExpr.list [SExpr.atom "mod-not-id".toList, SExpr.atom "soa_elam".toList,
              SExpr.atom "permitted".toList],
            SExpr.atom "soa_elam".toList]]] = .ok conflicts ∧
      List.Forall₂ (fun e c => parseConflictExpr
          (loadDefaultMappings defaultSpecialCharMappings) e = .ok (some c))
        [SExpr.list [SExpr.atom "conflict".toList, SExpr.atom "not_opt".toList,
            SExpr.atom "soa_elam".toList],
          SExpr.list [SExpr.atom "conflict".toList,
            SExpr.list [SExpr.atom "mod-not-id".toList, SExpr.atom "soa_elam".toList,
              SExpr.atom "permitted".toList],
            SExpr.atom "soa_elam".toList]] conflicts) :=
  (C28_findConflicts (loadDefaultMappings defaultSpecialCharMappings)
    (by decide) _).1

/-! ## Violation detection -/

theorem bind_eq_ok {α β : Type} {x : Except Fault α} {f : α → Except Fault β} {w : β}
    (h : (x >>= f) = .ok w) : ∃ a, x = .ok a ∧ f a = .ok w := by
  cases x with
  | error e => simp at h
  | ok a => exact ⟨a, rfl, by simpa using h⟩

theorem violationRule_violator (violation : NecessaryViolation) (violationPair : List SExpr)
    (w : NecessaryViolation) (h : violationRule violation violationPair = .ok w) :
    w.violator = violation.violator := by
  unfold violationRule at h
  obtain ⟨second, _, h⟩ := bind_eq_ok h
  split at h
  · simp at h; subst h; rfl
  · split at h
    · obtain ⟨head, _, h⟩ := bind_eq_ok h
      split at h
      · split at h
        · obtain ⟨payment, _, h⟩ := bind_eq_ok h
          split at h
          · obtain ⟨_, _, h⟩ := bind_eq_ok h
            simp at h; subst h; rfl
          · simp at h; subst h; rfl
        · split at h <;> (simp at h; subst h; rfl)
      · simp at h; subst h; rfl
    · simp at h; subst h; rfl

theorem parseViolationExpr_reason (r : EntityResolver) (e : SExpr) (v : NecessaryViolation)
    (h : parseViolationExpr r e = .ok (some v)) :
    v.reason = "conflicting regulatory requirements".toList := by
  unfold parseViolationExpr at h
  split at h
  · simp at h
  · obtain ⟨list, _, h⟩ := bind_eq_ok h
    split at h
    · simp at h
    · obtain ⟨first, _, h⟩ := bind_eq_ok h
      split at h
      · simp at h
      · obtain ⟨second, _, h⟩ := bind_eq_ok h
        obtain ⟨violation, _, h⟩ := bind_eq_ok h
        simp at h
        subst h
        rfl

theorem parseViolationExpr_of_isViolationExpr (r : EntityResolver)
    (hr : ∀ x, ∃ s, resolve r x = .ok s) (e : SExpr) (h : isViolationExpr e = true) :
    ∃ v, parseViolationExpr r e = .ok (some v) := by
  cases e with
  | atom a => simp [isViolationExpr] at h
  | list l =>
    match l, h with
    | head :: a1 :: rest, h =>
      simp only [isViolationExpr, decide_eq_true_eq, String.toList] at h
      have hlen : ¬ (rest.length + 1 + 1 < 2) := by omega
      cases a1 with
      | atom a =>
        exact ⟨{ reason := "conflicting regulatory requirements".toList }, by
          simp [parseViolationExpr, SExpr.isList, SExpr.asList, elemAt, h, hlen]⟩
      | list violationPair =>
        obtain ⟨v1, h1⟩ := violationViolator_returns r hr {} violationPair
        obtain ⟨v2, h2⟩ := violationRule_returns v1 violationPair
        exact ⟨{ v2 with reason := "conflicting regulatory requirements".toList }, by
          simp [parseViolationExpr, SExpr.isList, SExpr.asList, elemAt, h, h1, h2, hlen]⟩
    | [], h => simp [isViolationExpr] at h
    | [_], h => simp [isViolationExpr] at h

theorem parseViolationExpr_of_not_isViolationExpr (r : EntityResolver) (e : SExpr)
    (h : isViolationExpr e = false) : parseViolationExpr r e = .ok none := by
  cases e with
  | atom a => simp [parseViolationExpr, SExpr.isList]
  | list l =>
    match l, h with
    | head :: a1 :: rest, h =>
      simp only [isViolationExpr, decide_eq_false_iff_not, String.toList] at h
      simp [parseViolationExpr, SExpr.isList, SExpr.asList, elemAt, h]
    | [], h => simp [parseViolationExpr, SExpr.isList, SExpr.asList]
    | [_], h => simp [parseViolationExpr, SExpr.isList, SExpr.asList]

theorem violationExpr_step (r : EntityResolver) (hr : ∀ x, ∃ s, resolve r x = .ok s)
    (results : List NecessaryViolation) (expr : SExpr) :
    ∃ vs, violationExpr r results expr = .ok (results ++ vs) ∧
      List.Forall₂ (fun e v => parseViolationExpr r e = .ok (some v))
        ([expr].filterMap violationExprOf) vs := by
  have hparse : ∀ e, (isViolationExpr e = true ∧ ∃ v, parseViolationExpr r e = .ok (some v)) ∨
      (isViolationExpr e = false ∧ parseViolationExpr r e = .ok none) := by
    intro e
    cases he : isViolationExpr e with
    | true => exact Or.inl ⟨rfl, parseViolationExpr_of_isViolationExpr r hr e he⟩
    | false => exact Or.inr ⟨rfl, parseViolationExpr_of_not_isViolationExpr r e he⟩
  cases expr with
  | atom a =>
    exact ⟨[], by simp [violationExpr, SExpr.isList], by simp [violationExprOf, isViolationExpr]⟩
  | list children =>
    match children with
    | [] =>
      exact ⟨[], by simp [violationExpr, SExpr.isList, SExpr.asList, parseViolationExpr],
        by simp [violationExprOf, isViolationExpr]⟩
    | [child] =>
      have hself : parseViolationExpr r (SExpr.list [child]) = .ok none :=
        parseViolationExpr_of_not_isViolationExpr r _ rfl
      rcases hparse child with ⟨hc, v, hv⟩ | ⟨hc, hv⟩
      · refine ⟨[v], ?_, ?_⟩
        · cases child with
          | atom a => simp [isViolationExpr] at hc
          | list l =>
            simp [violationExpr, SExpr.isList, SExpr.asList, listAt, elemAt, hv]
        · simp only [List.filterMap_cons, violationExprOf, hc, if_true, List.filterMap_nil]
          exact List.Forall₂.cons hv List.Forall₂.nil
      · refine ⟨[], ?_, ?_⟩
        · cases child <;>
            simp [violationExpr, SExpr.isList, SExpr.asList, listAt, elemAt, hv, hself]
        · simp [violationExprOf, hc]
    | c1 :: c2 :: rest =>
      rcases hparse (SExpr.list (c1 :: c2 :: rest)) with ⟨hc, v, hv⟩ | ⟨hc, hv⟩
      · refine ⟨[v], ?_, ?_⟩
        · simp [violationExpr, SExpr.isList, SExpr.asList, hv]
        · simp only [List.filterMap_cons, violationExprOf, hc, if_true, List.filterMap_nil]
          exact List.Forall₂.cons hv List.Forall₂.nil
      · refine ⟨[], ?_, ?_⟩
        · simp [violationExpr, SExpr.isList, SExpr.asList, hv]
        · simp [violationExprOf, hc]

theorem findViolations_loop (r : EntityResolver) (hr : ∀ x, ∃ s, resolve r x = .ok s) :
    ∀ (expressions : List SExpr) (results : List NecessaryViolation),
    ∃ vs, forEach (violationExpr r) expressions results = .ok (results ++ vs) ∧
      List.Forall₂ (fun e v => parseViolationExpr r e = .ok (some v))
        (expressions.filterMap violationExprOf) vs := by
  intro expressions
  induction expressions with
  | nil => intro results; exact ⟨[], by simp [forEach], by simp⟩
  | cons expr rest ih =>
    intro results
    obtain ⟨vs1, h1, hf1⟩ := violationExpr_step r hr results expr
    obtain ⟨vs2, h2, hf2⟩ := ih (results ++ vs1)
    refine ⟨vs1 ++ vs2, ?_, ?_⟩
    · simp [forEach, h1, h2]
    · have := forall2_append hf1 hf2
      rw [← List.filterMap_append] at this
      simpa using this

theorem forall2_right_mem {α β : Type} {R : α → β → Prop} {l : List α} {m : List β}
    (h : List.Forall₂ R l m) {b : β} (hb : b ∈ m) : ∃ a, a ∈ l ∧ R a b := by
  induction h with
  | nil => cases hb
  | cons hab _ ih =>
    rcases List.mem_cons.mp hb with rfl | hb
    · exact ⟨_, List.mem_cons_self _ _, hab⟩
    · obtain ⟨a, ha, hr⟩ := ih hb
      exact ⟨a, List.mem_cons_of_mem _ ha, hr⟩

theorem violation_inrs_prohibited (r : EntityResolver) (X rx : Str)
    (more others tail : List SExpr) (hrx : r.resolveEntity X = some rx) :
    ∃ v, parseViolationExpr r
        (SExpr.list (SExpr.atom "quote".toList
          :: SExpr.list (SExpr.list (SExpr.atom "inrs-prohibited-id".toList
              :: SExpr.atom X :: more) :: others)
          :: tail)) = .ok (some v) ∧
      v.violator = "EU MiCA regulation prohibiting ".toList ++ rx
        ++ " from using INRS".toList := by
  obtain ⟨v1, h1, hv1⟩ : ∃ v1, violationViolator r {}
      (SExpr.list (SExpr.atom "inrs-prohibited-id".toList :: SExpr.atom X :: more) :: others)
      = .ok v1 ∧ v1.violator = "EU MiCA regulation prohibiting ".toList ++ rx
                ++ " from using INRS".toList :=
    ⟨{ violator := "EU MiCA regulation prohibiting ".toList ++ rx
        ++ " from using INRS".toList }, by
      simp [violationViolator, listAt, elemAt, symbolAt, SExpr.isList, SExpr.asList,
        SExpr.getSymbol, resolve, hrx], rfl⟩
  obtain ⟨v2, h2⟩ := violationRule_returns v1
    (SExpr.list (SExpr.atom "inrs-prohibited-id".toList :: SExpr.atom X :: more) :: others)
  have hv := violationRule_violator _ _ _ h2
  have hlen : ¬ (tail.length + 1 + 1 < 2) := by omega
  refine ⟨{ v2 with reason := "conflicting regulatory requirements".toList }, ?_,
    hv.trans hv1⟩
  simp only [String.toList] at h1 h2
  simp [parseViolationExpr, SExpr.isList, SExpr.asList, elemAt, SExpr.getSymbol, h1, h2, hlen]

/-- C30 as stated fails: `(quote x)` is not of the form `(quote (ViolatorExpr RuleExpr))`
(its second element is an atom) and yields a violation, with empty violator and rule;
so does the three-element `(quote x y)`. -/
theorem C30_counterexample :
    specViolationExprs [SExpr.list [SExpr.atom "quote".toList, SExpr.atom "x".toList]] = [] ∧
    findViolations (loadDefaultMappings defaultSpecialCharMappings)
        [SExpr.list [SExpr.atom "quote".toList, SExpr.atom "x".toList]]
      = .ok [{ violatedRule := [], violator := [],
               reason := "conflicting regulatory requirements".toList }] ∧
    specViolationExprs [SExpr.list [SExpr.atom "quote".toList, SExpr.atom "x".toList,
        SExpr.atom "y".toList]] = [] ∧
    findViolations (loadDefaultMappings defaultSpecialCharMappings)
        [SExpr.list [SExpr.atom "quote".toList, SExpr.atom "x".toList, SExpr.atom "y".toList]]
      = .ok [{ violatedRule := [], violator := [],
               reason := "conflicting regulatory requirements".toList }] :=
  ⟨rfl, rfl, rfl, rfl⟩

/-- C30 (amended): when no special-character key is empty, `findViolations` returns, in
source order, exactly one violation for each top-level expression that is a list of two
or more elements headed by `quote`, or a one-element list around such a list, and none
for any other expression (`parseViolationExpr` yields a violation exactly for the lists
of two or more elements headed by `quote`); every violation's reason is the literal
`"conflicting regulatory requirements"`; and a violator expression
`(inrs-prohibited-id X ...)` whose `X` is an atom is described as
`"EU MiCA regulation prohibiting " + resolveEntity(X) + " from using INRS"`. -/
theorem C30_findViolations (r : EntityResolver)
    (hkeys : ∀ kv ∈ r.specialCharMappings, kv.1 ≠ []) (expressions : List SExpr) :
    (∃ violations, findViolations r expressions = .ok violations ∧
      List.Forall₂ (fun e v => parseViolationExpr r e = .ok (some v))
        (expressions.filterMap violationExprOf) violations ∧
      ∀ v ∈ violations, v.reason = "conflicting regulatory requirements".toList) ∧
    (∀ e, (∃ v, parseViolationExpr r e = .ok (some v)) ↔ isViolationExpr e = true) ∧
    (∀ (X : Str) (more others tail : List SExpr), ∃ rx v,
      r.resolveEntity X = some rx ∧
      parseViolationExpr r
        (SExpr.list (SExpr.atom "quote".toList
          :: SExpr.list (SExpr.list (SExpr.atom "inrs-prohibited-id".toList
              :: SExpr.atom X :: more) :: others)
          :: tail)) = .ok (some v) ∧
      v.violator = "EU MiCA regulation prohibiting ".toList ++ rx
        ++ " from using INRS".toList) := by
  have hr := resolve_returns r hkeys
  refine ⟨?_, ?_, ?_⟩
  · obtain ⟨vs, hvs, hf⟩ := findViolations_loop r hr expressions []
    refine ⟨vs, by simpa [findViolations] using hvs, hf, ?_⟩
    intro v hv
    obtain ⟨e, _, he⟩ := forall2_right_mem hf hv
    exact parseViolationExpr_reason r e v he
  · intro e
    constructor
    · rintro ⟨v, hv⟩
      cases h : isViolationExpr e with
      | true => rfl
      | false =>
        rw [parseViolationExpr_of_not_isViolationExpr r e h] at hv
        injection hv with hv
        cases hv
    · exact parseViolationExpr_of_isViolationExpr r hr e
  · intro X more others tail
    have hres : ∃ rx, r.resolveEntity X = some rx := by
      obtain ⟨s, hs⟩ := hr X
      unfold resolve at hs
      cases hx : r.resolveEntity X with
      | some rx => exact ⟨rx, rfl⟩
      | none => simp [hx] at hs
    obtain ⟨rx, hrx⟩ := hres
    obtain ⟨v, hv, hvv⟩ := violation_inrs_prohibited r X rx more others tail hrx
    exact ⟨rx, v, hrx, hv, hvv⟩

theorem C30_findViolations_witness :
    ∃ violations, findViolations (loadDefaultMappings defaultSpecialCharMappings)
        [SExpr.list [SExpr.list [SExpr.atom "quote".toList,
          SExpr.list [
            SExpr.list [SExpr.atom "inrs-prohibited-id".toList, SExpr.atom "soa_epmuam".toList],
            SExpr.list [SExpr.atom "inrs-only-id".toList, SExpr.atom "soa_sptMICT".toList]]]]]
        = .ok violations ∧
      List.Forall₂ (fun e v => parseViolationExpr
          (loadDefaultMappings defaultSpecialCharMappings) e = .ok (some v))
        [SExpr.list [SExpr.atom "quote".toList,
          SExpr.list [
            SExpr.list [SExpr.atom "inrs-prohibited-id".toList, SExpr.atom "soa_epmuam".toList],
            SExpr.list [SExpr.atom "inrs-only-id".toList, SExpr.atom "soa_sptMICT".toList]]]]
        violations ∧
      ∀ v ∈ violations, v.reason = "conflicting regulatory requirements".toList :=
  (C30_findViolations (loadDefaultMappings defaultSpecialCharMappings)
    (by decide) _).1

/-! ## Proposition extraction -/

theorem strLt_irrefl (a : Str) : strLt a a = false := by
  induction a with
  | nil => rfl
  | cons c cs ih => simp [strLt, ih]

theorem strLt_trans : ∀ (a b c : Str), strLt a b = true → strLt b c = true →
    strLt a c = true := by
  intro a
  induction a with
  | nil =>
    intro b c hab hbc
    cases b with
    | nil => simp [strLt] at hab
    | cons y ys =>
      cases c with
      | nil => simp [strLt] at hbc
      | cons z zs => simp [strLt]
  | cons x xs ih =>
    intro b c hab hbc
    cases b with
    | nil => simp [strLt] at hab
    | cons y ys =>
      cases c with
      | nil => simp [strLt] at hbc
      | cons z zs =>
        simp only [strLt] at hab hbc ⊢
        by_cases h1 : x.toNat < y.toNat
        · by_cases h2 : y.toNat < z.toNat
          · have : x.toNat < z.toNat := by omega
            simp [this]
          · simp only [h2, if_false] at hbc
            by_cases h3 : z.toNat < y.toNat
            · simp [h3] at hbc
            · have : x.toNat < z.toNat := by omega
              simp [this]
        · simp only [h1, if_false] at hab
          by_cases h4 : y.toNat < x.toNat
          · simp [h4] at hab
          · simp only [h4, if_false] at hab
            have hxy : x.toNat = y.toNat := by omega
            by_cases h2 : y.toNat < z.toNat
            · have : x.toNat < z.toNat := by omega
              simp [this]
            · simp only [h2, if_false] at hbc
              by_cases h3 : z.toNat < y.toNat
              · simp [h3] at hbc
              · simp only [h3, if_false] at hbc
                have h5 : ¬ x.toNat < z.toNat := by omega
                have h6 : ¬ z.toNat < x.toNat := by omega
                simp only [h5, h6, if_false]
                exact ih ys zs hab hbc

theorem char_eq_of_toNat_eq {x y : Char} (h : x.toNat = y.toNat) : x = y := by
  apply Char.ext
  apply UInt32.ext
  exact h

theorem strLt_total : ∀ (a b : Str), a ≠ b → strLt a b = false → strLt b a = true := by
  intro a
  induction a with
  | nil =>
    intro b hne h
    cases b with
    | nil => exact absurd rfl hne
    | cons y ys => simp [strLt] at h
  | cons x xs ih =>
    intro b hne h
    cases b with
    | nil => simp [strLt]
    | cons y ys =>
      simp only [strLt] at h ⊢
      by_cases h1 : x.toNat < y.toNat
      · simp [h1] at h
      · simp only [h1, if_false] at h
        by_cases h2 : y.toNat < x.toNat
        · simp [h2]
        · simp only [h2, if_false] at h
          simp only [h1, h2, if_false]
          have hxy : x = y := char_eq_of_toNat_eq (by omega)
          subst hxy
          exact ih ys (fun hc => hne (by rw [hc])) h

theorem mapInsert_mem {α : Type} (key : Str) (value : α) (m : List (Str × α))
    (entry : Str × α) (h : entry ∈ mapInsert key value m) :
    entry = (key, value) ∨ entry ∈ m := by
  induction m with
  | nil =>
    simp only [mapInsert, List.mem_singleton] at h
    exact Or.inl h
  | cons p rest ih =>
    obtain ⟨k, v⟩ := p
    simp only [mapInsert] at h
    split at h
    · rcases List.mem_cons.mp h with h | h
      · exact Or.inl h
      · exact Or.inr (List.mem_cons_of_mem _ h)
    · split at h
      · rcases List.mem_cons.mp h with h | h
        · exact Or.inl h
        · exact Or.inr h
      · rcases List.mem_cons.mp h with h | h
        · exact Or.inr (by rw [h]; exact List.mem_cons_self _ _)
        · rcases ih h with h | h
          · exact Or.inl h
          · exact Or.inr (List.mem_cons_of_mem _ h)

theorem mapInsert_sorted {α : Type} (key : Str) (value : α) (m : List (Str × α))
    (hs : m.Pairwise (fun a b => strLt a.1 b.1 = true)) :
    (mapInsert key value m).Pairwise (fun a b => strLt a.1 b.1 = true) := by
  induction m with
  | nil => simp [mapInsert]
  | cons p rest ih =>
    obtain ⟨k, v⟩ := p
    rw [List.pairwise_cons] at hs
    obtain ⟨hhead, hrest⟩ := hs
    simp only [mapInsert]
    split
    · rename_i hk
      subst hk
      exact List.pairwise_cons.mpr ⟨hhead, hrest⟩
    · rename_i hk
      split
      · rename_i hlt
        refine List.pairwise_cons.mpr ⟨?_, List.pairwise_cons.mpr ⟨hhead, hrest⟩⟩
        intro e he
        rcases List.mem_cons.mp he with he | he
        · rw [he]; exact hlt
        · exact strLt_trans _ _ _ hlt (hhead e he)
      · rename_i hlt
        refine List.pairwise_cons.mpr ⟨?_, ih hrest⟩
        intro e he
        rcases mapInsert_mem key value rest e he with he | he
        · rw [he]
          exact strLt_total key k hk (by simpa using hlt)
        · exact hhead e he

theorem mapFind_mapInsert_self {α : Type} (key : Str) (value : α) (m : List (Str × α)) :
    mapFind key (mapInsert key value m) = some value := by
  induction m with
  | nil => simp [mapInsert, mapFind]
  | cons p rest ih =>
    obtain ⟨k, v⟩ := p
    simp only [mapInsert]
    split
    · simp [mapFind]
    · rename_i hk
      split
      · simp [mapFind]
      · simp [mapFind, hk, ih]

theorem mapFind_mapInsert_other {α : Type} (key other : Str) (value : α)
    (m : List (Str × α)) (hne : other ≠ key) :
    mapFind other (mapInsert key value m) = mapFind other m := by
  induction m with
  | nil => simp [mapInsert, mapFind, hne]
  | cons p rest ih =>
    obtain ⟨k, v⟩ := p
    simp only [mapInsert]
    split
    · rename_i hk
      subst hk
      simp [mapFind, hne]
    · split
      · simp [mapFind, hne]
      · simp only [mapFind, ih]

theorem mem_of_mapFind {α : Type} (key : Str) (value : α) (m : List (Str × α))
    (h : mapFind key m = some value) : (key, value) ∈ m := by
  induction m with
  | nil => simp [mapFind] at h
  | cons p rest ih =>
    obtain ⟨k, v⟩ := p
    simp only [mapFind] at h
    split at h
    · rename_i hk
      injection h with h
      subst hk h
      exact List.mem_cons_self _ _
    · exact List.mem_cons_of_mem _ (ih h)

theorem mapFind_of_mem {α : Type} (key : Str) (value : α) (m : List (Str × α))
    (hs : m.Pairwise (fun a b => strLt a.1 b.1 = true)) (h : (key, value) ∈ m) :
    mapFind key m = some value := by
  induction m with
  | nil => cases h
  | cons p rest ih =>
    obtain ⟨k, v⟩ := p
    rw [List.pairwise_cons] at hs
    obtain ⟨hhead, hrest⟩ := hs
    simp only [mapFind]
    rcases List.mem_cons.mp h with h | h
    · injection h with h1 h2
      subst h1 h2
      simp
    · have hlt := hhead _ h
      have hne : key ≠ k := by
        intro hk
        subst hk
        rw [strLt_irrefl] at hlt
        cases hlt
      simp only [hne, if_false]
      exact ih hrest h

theorem getSymbol_atom (a : Str) : (SExpr.atom a).getSymbol = some a := rfl

theorem getSymbol_list (l : List SExpr) : (SExpr.list l).getSymbol = none := rfl

theorem collectTriple_group (m : List (Str × List SExpr)) (elem : SExpr)
    (hs : m.Pairwise (fun a b => strLt a.1 b.1 = true)) :
    ∃ m1, collectTriple m elem = .ok m1 ∧ m1.Pairwise (fun a b => strLt a.1 b.1 = true) ∧
      ∀ S, (mapFind S m1).getD [] = (mapFind S m).getD []
        ++ (if isTripleOf S elem && findsAtStart S "soa_".toList then [elem] else []) := by
  cases elem with
  | atom a =>
    exact ⟨m, by simp [collectTriple, SExpr.isList], hs, by simp [isTripleOf, isTripleList]⟩
  | list l =>
    match l with
    | [] =>
      exact ⟨m, by simp [collectTriple, SExpr.isList, SExpr.asList], hs,
        by simp [isTripleOf, isTripleList]⟩
    | [_] =>
      exact ⟨m, by simp [collectTriple, SExpr.isList, SExpr.asList], hs,
        by simp [isTripleOf, isTripleList]⟩
    | [_, _] =>
      exact ⟨m, by simp [collectTriple, SExpr.isList, SExpr.asList], hs,
        by simp [isTripleOf, isTripleList]⟩
    | [_, _, _] =>
      exact ⟨m, by simp [collectTriple, SExpr.isList, SExpr.asList], hs,
        by simp [isTripleOf, isTripleList]⟩
    | head :: second :: p :: o :: rest =>
      simp only [String.toList]
      by_cases hhead : head.getSymbol = some ['t', 'r', 'i', 'p', 'l', 'e']
      · cases second with
        | list sl =>
          refine ⟨m, ?_, hs, ?_⟩
          · simp [collectTriple, SExpr.isList, SExpr.asList, elemAt, hhead, getSymbol_atom, getSymbol_list]
          · simp [isTripleOf, tripleSubject, getSymbol_atom, getSymbol_list]
        | atom subject =>
          cases hsoa : findsAtStart subject ['s', 'o', 'a', '_'] with
          | true =>
            refine ⟨mapUpdate subject [] (fun triples => triples ++
                [SExpr.list (head :: SExpr.atom subject :: p :: o :: rest)]) m, ?_, ?_, ?_⟩
            · simp [collectTriple, SExpr.isList, SExpr.asList, elemAt, hhead, getSymbol_atom, getSymbol_list,
                hsoa]
            · exact mapInsert_sorted _ _ _ hs
            · intro S
              by_cases hS : S = subject
              · subst hS
                simp only [mapUpdate, mapFind_mapInsert_self, Option.getD_some]
                simp [isTripleOf, isTripleList, tripleSubject, getSymbol_atom, getSymbol_list, hhead, hsoa]
              · simp only [mapUpdate, mapFind_mapInsert_other _ _ _ _ hS]
                have : ¬ subject = S := fun h => hS h.symm
                simp [isTripleOf, tripleSubject, getSymbol_atom, getSymbol_list, this]
          | false =>
            refine ⟨m, ?_, hs, ?_⟩
            · simp [collectTriple, SExpr.isList, SExpr.asList, elemAt, hhead, getSymbol_atom, getSymbol_list,
                hsoa]
            · intro S
              by_cases hS : S = subject
              · subst hS
                simp [hsoa]
              · have : ¬ subject = S := fun h => hS h.symm
                simp [isTripleOf, tripleSubject, getSymbol_atom, getSymbol_list, this]
      · refine ⟨m, ?_, hs, ?_⟩
        · simp [collectTriple, SExpr.isList, SExpr.asList, elemAt, hhead]
        · simp [isTripleOf, isTripleList, hhead]

theorem collectTriple_loop :
    ∀ (children : List SExpr) (m : List (Str × List SExpr)),
    m.Pairwise (fun a b => strLt a.1 b.1 = true) →
    ∃ m1, forEach collectTriple children m = .ok m1 ∧
      m1.Pairwise (fun a b => strLt a.1 b.1 = true) ∧
      ∀ S, (mapFind S m1).getD [] = (mapFind S m).getD []
        ++ children.filter (fun e => isTripleOf S e && findsAtStart S "soa_".toList) := by
  intro children
  induction children with
  | nil => intro m hs; exact ⟨m, rfl, hs, by simp⟩
  | cons elem rest ih =>
    intro m hs
    obtain ⟨m1, h1, hs1, hg1⟩ := collectTriple_group m elem hs
    obtain ⟨m2, h2, hs2, hg2⟩ := ih m1 hs1
    refine ⟨m2, by simp only [forEach, h1, h2], hs2, ?_⟩
    intro S
    rw [hg2 S, hg1 S, List.filter_cons]
    split <;> simp

theorem filter_and_const {α : Type} (p : α → Bool) (c : Bool) (l : List α) :
    l.filter (fun e => p e && c) = if c = true then l.filter p else [] := by
  cases c <;> simp

theorem collectTriples_loop :
    ∀ (expressions : List SExpr) (m : List (Str × List SExpr)),
    m.Pairwise (fun a b => strLt a.1 b.1 = true) →
    ∃ m1, forEach collectTriples expressions m = .ok m1 ∧
      m1.Pairwise (fun a b => strLt a.1 b.1 = true) ∧
      ∀ S, (mapFind S m1).getD [] = (mapFind S m).getD []
        ++ (if findsAtStart S "soa_".toList then triplesOf S expressions else []) := by
  intro expressions
  induction expressions with
  | nil => intro m hs; exact ⟨m, rfl, hs, by simp [triplesOf]⟩
  | cons expr rest ih =>
    intro m hs
    have hstep : ∃ m1, collectTriples m expr = .ok m1 ∧
        m1.Pairwise (fun a b => strLt a.1 b.1 = true) ∧
        ∀ S, (mapFind S m1).getD [] = (mapFind S m).getD []
          ++ (if findsAtStart S "soa_".toList then triplesOf S [expr] else []) := by
      cases expr with
      | atom a => exact ⟨m, by simp [collectTriples, SExpr.isList], hs, by simp [triplesOf]⟩
      | list children =>
        obtain ⟨m1, h1, hs1, hg1⟩ := collectTriple_loop children m hs
        refine ⟨m1, by simpa [collectTriples, SExpr.isList, SExpr.asList] using h1, hs1, ?_⟩
        intro S
        rw [hg1 S, filter_and_const]
        simp [triplesOf]
    obtain ⟨m1, h1, hs1, hg1⟩ := hstep
    obtain ⟨m2, h2, hs2, hg2⟩ := ih m1 hs1
    refine ⟨m2, by simp only [forEach, h1, h2], hs2, ?_⟩
    intro S
    rw [hg2 S, hg1 S]
    cases findsAtStart S "soa_".toList <;> simp [triplesOf]

theorem actionVerb_eq (object : Str) : actionVerb object = .ok (verbOf object) := by
  unfold actionVerb verbOf
  by_cases h : (decide (object.length > 3) && decide (object.take 3 = "soa".toList)) = true
  · rw [if_pos h, if_pos h]
    have hlen : 3 ≤ object.length := by
      simp only [Bool.and_eq_true, decide_eq_true_eq] at h
      omega
    simp only [substrFrom, hlen, if_true, bind_ok]
    cases object.drop 3 <;> rfl
  · rw [if_neg h, if_neg h]
    rfl

theorem resolve_eq (r : EntityResolver) (hr : ∀ x, ∃ s, resolve r x = .ok s) (x : Str) :
    resolve r x = .ok ((r.resolveEntity x).getD []) := by
  obtain ⟨s, hs⟩ := hr x
  unfold resolve at hs ⊢
  cases hx : r.resolveEntity x with
  | some out => rfl
  | none => simp [hx] at hs

theorem readTriple_eq (r : EntityResolver) (hr : ∀ x, ∃ s, resolve r x = .ok s)
    (build : SoaBuild) (t : SExpr) (hl : t.isList = true) :
    readTriple r build t
      = .ok (match tripleFact t with
             | some f => applyFact r build f
             | none => build) := by
  cases t with
  | atom a => simp [SExpr.isList] at hl
  | list l =>
    match l with
    | [] => simp [readTriple, SExpr.asList, tripleFact]
    | [_] => simp [readTriple, SExpr.asList, tripleFact]
    | [_, _] => simp [readTriple, SExpr.asList, tripleFact]
    | [_, _, _] => simp [readTriple, SExpr.asList, tripleFact]
    | a :: b :: p :: o :: rest =>
      cases p with
      | list pl =>
        simp [readTriple, SExpr.asList, tripleFact, elemAt, getSymbol_list]
      | atom predicate =>
        cases o with
        | list ol =>
          simp [readTriple, SExpr.asList, tripleFact, elemAt, getSymbol_list, getSymbol_atom]
        | atom object =>
          simp only [readTriple, SExpr.asList, tripleFact, elemAt, getSymbol_atom, bind_ok,
            applyFact, actionVerb_eq, resolve_eq r hr, pure_ok]
          have hlen : rest.length + 1 + 1 + 1 + 1 ≥ 4 := by omega
          simp only [List.length_cons, hlen, if_true]
          repeat' split
          all_goals rfl

theorem readTriple_loop (r : EntityResolver) (hr : ∀ x, ∃ s, resolve r x = .ok s) :
    ∀ (ts : List SExpr) (build : SoaBuild), (∀ t ∈ ts, SExpr.isList t = true) →
      forEach (readTriple r) ts build
        = .ok ((ts.filterMap tripleFact).foldl (applyFact r) build) := by
  intro ts
  induction ts with
  | nil => intro build _; rfl
  | cons t rest ih =>
    intro build hl
    simp only [forEach, readTriple_eq r hr build t (hl t (List.mem_cons_self _ _))]
    rw [ih _ (fun u hu => hl u (List.mem_cons_of_mem _ hu))]
    cases hf : tripleFact t with
    | none => simp [List.filterMap_cons, hf]
    | some f => simp [List.filterMap_cons, hf]

theorem applyFact_fold (r : EntityResolver) :
    ∀ (facts : List (Str × Str)) (build : SoaBuild),
    facts.foldl (applyFact r) build =
      { soa :=
          { entity := build.soa.entity,
            action := ((lastObject isActionFact facts).map verbOf).getD build.soa.action,
            agent := ((lastObject isAgentFact facts).map
              (fun o => (r.resolveEntity o).getD [])).getD build.soa.agent,
            instrument := ((lastObject isInstrumentFact facts).map
              (fun o => (r.resolveEntity o).getD [])).getD build.soa.instrument,
            existsFlag := build.soa.existsFlag || facts.any isExistenceFact,
            properties := build.soa.properties },
        hasAction := build.hasAction || facts.any isActionFact,
        existsSeen := build.existsSeen || facts.any isExistenceFact } := by
  intro facts
  induction facts with
  | nil =>
    intro build
    obtain ⟨⟨_, _, _, _, _, _⟩, _, _⟩ := build
    simp [lastObject]
  | cons f fs ih =>
    intro build
    obtain ⟨p, o⟩ := f
    obtain ⟨⟨entity, action, agent, instrument, existsFlag, properties⟩, hasAction,
      existsSeen⟩ := build
    rw [List.foldl_cons, ih]
    simp only [applyFact, lastObject, isActionFact, isAgentFact, isInstrumentFact,
      isExistenceFact, List.any_cons, String.toList]
    by_cases hp : p = ['t', 'y', 'p', 'e']
    · subst hp
      by_cases ho : o = ['r', 'e', 'x', 'i', 's', 't']
      · subst ho
        cases lastObject isActionFact fs <;> cases lastObject isAgentFact fs <;>
          cases lastObject isInstrumentFact fs <;> simp [findsAtStart]
      · cases hsoa : findsAtStart o ['s', 'o', 'a'] <;>
          cases lastObject isActionFact fs <;> cases lastObject isAgentFact fs <;>
          cases lastObject isInstrumentFact fs <;> simp [ho, hsoa]
    · by_cases hagent : p = ['s', 'o', 'a', 'H', 'a', 's', '_', 'a', 'g', 'e', 'n', 't']
      · subst hagent
        cases lastObject isActionFact fs <;> cases lastObject isAgentFact fs <;>
          cases lastObject isInstrumentFact fs <;> simp
      · by_cases hinstrument : p = ['s', 'o', 'a', 'H', 'a', 's', '_', 'i', 'n', 's', 't', 'r',
            'u', 'm', 'e', 'n', 't']
        · subst hinstrument
          cases lastObject isActionFact fs <;> cases lastObject isAgentFact fs <;>
            cases lastObject isInstrumentFact fs <;> simp
        · cases lastObject isActionFact fs <;> cases lastObject isAgentFact fs <;>
            cases lastObject isInstrumentFact fs <;> simp [hp, hagent, hinstrument]

theorem map_getD_eq_bind {α β : Type} (o : Option α) (f : α → Option (List β)) :
    (o.map (fun x => (f x).getD [])).getD [] = (o.bind f).getD [] := by
  cases o <;> rfl

theorem buildStateOfAffairs_eq (r : EntityResolver) (hr : ∀ x, ∃ s, resolve r x = .ok s)
    (state : SoaResults) (entry : Str × List SExpr)
    (hl : ∀ t ∈ entry.2, SExpr.isList t = true) (hnew : entry.1 ∉ state.processed) :
    buildStateOfAffairs r state entry
      = .ok (match entryProposition r entry with
             | some p => { results := state.results ++ [p],
                           processed := state.processed ++ [entry.1] }
             | none => state) := by
  obtain ⟨S, ts⟩ := entry
  unfold buildStateOfAffairs entryProposition
  simp only [readTriple_loop r hr ts _ hl, applyFact_fold, bind_ok, map_getD_eq_bind,
    Bool.false_or, Bool.true_or, isExcludedMarker, propositionOf]
  have hc : state.processed.contains S = false := by simpa using hnew
  rw [hc]
  simp only [Bool.false_eq_true, if_false, Bool.or_eq_true, decide_eq_true_eq]
  split_ifs <;> simp_all

theorem buildStateOfAffairs_loop (r : EntityResolver) (hr : ∀ x, ∃ s, resolve r x = .ok s) :
    ∀ (l : List (Str × List SExpr)) (state : SoaResults),
    (∀ entry ∈ l, ∀ t ∈ entry.2, SExpr.isList t = true) →
    l.Pairwise (fun a b => strLt a.1 b.1 = true) →
    (∀ entry ∈ l, entry.1 ∉ state.processed) →
    ∃ final, forEach (buildStateOfAffairs r) l state = .ok final ∧
      final.results = state.results ++ l.filterMap (entryProposition r) := by
  intro l
  induction l with
  | nil => intro state _ _ _; exact ⟨state, rfl, by simp⟩
  | cons entry rest ih =>
    intro state hl hs hnew
    rw [List.pairwise_cons] at hs
    obtain ⟨hhead, hrest⟩ := hs
    have hstep := buildStateOfAffairs_eq r hr state entry
      (hl entry (List.mem_cons_self _ _)) (hnew entry (List.mem_cons_self _ _))
    have hne : ∀ e ∈ rest, e.1 ≠ entry.1 := by
      intro e he hk
      have := hhead e he
      rw [hk, strLt_irrefl] at this
      cases this
    cases hp : entryProposition r entry with
    | none =>
      rw [hp] at hstep
      obtain ⟨final, hf, hres⟩ := ih state
        (fun e he => hl e (List.mem_cons_of_mem _ he)) hrest
        (fun e he => hnew e (List.mem_cons_of_mem _ he))
      exact ⟨final, by simp only [forEach, hstep, hf], by simp [hres, List.filterMap_cons, hp]⟩
    | some p =>
      rw [hp] at hstep
      obtain ⟨final, hf, hres⟩ := ih
        { results := state.results ++ [p], processed := state.processed ++ [entry.1] }
        (fun e he => hl e (List.mem_cons_of_mem _ he)) hrest
        (fun e he => by
          simp only [List.mem_append, List.mem_singleton, not_or]
          exact ⟨hnew e (List.mem_cons_of_mem _ he), hne e he⟩)
      exact ⟨final, by simp only [forEach, hstep, hf], by simp [hres, List.filterMap_cons, hp]⟩

theorem entryProposition_some (r : EntityResolver) (entry : Str × List SExpr)
    (p : SemanticAnalyzer.StateOfAffairs) :
    entryProposition r entry = some p ↔
      isExcludedMarker entry.1 = false ∧
      (∃ f ∈ entry.2.filterMap tripleFact, isExistenceFact f = true) ∧
      (∃ f ∈ entry.2.filterMap tripleFact, isActionFact f = true) ∧
      p = propositionOf r entry.1 (entry.2.filterMap tripleFact) := by
  unfold entryProposition
  cases hx : isExcludedMarker entry.1 with
  | true => simp
  | false =>
    simp only [Bool.false_eq_true, if_false, Bool.and_eq_true, List.any_eq_true, true_and]
    constructor
    · intro h
      split at h
      · rename_i hc
        injection h with h
        exact ⟨hc.2, hc.1, h.symm⟩
      · cases h
    · rintro ⟨he, ha, hp⟩
      rw [if_pos ⟨ha, he⟩, hp]

theorem entryProposition_sorted (r : EntityResolver) :
    ∀ (m : List (Str × List SExpr)), m.Pairwise (fun a b => strLt a.1 b.1 = true) →
      (m.filterMap (entryProposition r)).Pairwise
        (fun p q => strLt p.entity q.entity = true) := by
  intro m
  induction m with
  | nil => intro _; simp
  | cons entry rest ih =>
    intro hs
    rw [List.pairwise_cons] at hs
    obtain ⟨hhead, hrest⟩ := hs
    cases hp : entryProposition r entry with
    | none =>
      rw [List.filterMap_cons, hp]
      exact ih hrest
    | some p =>
      rw [List.filterMap_cons, hp]
      refine List.pairwise_cons.mpr ⟨?_, ih hrest⟩
      intro q hq
      obtain ⟨e, he, heq⟩ := List.mem_filterMap.mp hq
      have h1 := ((entryProposition_some r entry p).mp hp).2.2.2
      have h2 := ((entryProposition_some r e q).mp heq).2.2.2
      rw [h1, h2]
      exact hhead e he

/-- C25 as stated fails: in `((triple soa_x type rexist 1) (triple soa_x type soaPay 2))`
the nested lists include neither `(triple soa_x type rexist)` nor a
`(triple soa_x type A)` (both lists have five elements), and `extractStateOfAffairs`
yields the Proposition `(soa_x, "pay")`. -/
theorem C25_counterexample :
    specHasProposition "soa_x".toList
      [SExpr.list [
        SExpr.list [SExpr.atom "triple".toList, SExpr.atom "soa_x".toList,
          SExpr.atom "type".toList, SExpr.atom "rexist".toList, SExpr.atom "1".toList],
        SExpr.list [SExpr.atom "triple".toList, SExpr.atom "soa_x".toList,
          SExpr.atom "type".toList, SExpr.atom "soaPay".toList, SExpr.atom "2".toList]]]
      = false ∧
    extractStateOfAffairs (loadDefaultMappings defaultSpecialCharMappings)
      [SExpr.list [
        SExpr.list [SExpr.atom "triple".toList, SExpr.atom "soa_x".toList,
          SExpr.atom "type".toList, SExpr.atom "rexist".toList, SExpr.atom "1".toList],
        SExpr.list [SExpr.atom "triple".toList, SExpr.atom "soa_x".toList,
          SExpr.atom "type".toList, SExpr.atom "soaPay".toList, SExpr.atom "2".toList]]]
      = .ok [{ entity := "soa_x".toList, action := "pay".toList }] :=
  ⟨rfl, rfl⟩

/-- C25 (amended): when no special-character key is empty, `extractStateOfAffairs`
returns a list of Propositions, in increasing order of entity, that holds a Proposition
for subject `S` iff `S` starts with `"soa_"`, `S` is not an excluded marker, and the
lists of four or more elements headed by `triple` with subject `S`, nested one level
deep, state both the fact `type rexist` and a fact `type A` where `A` is not `rexist`
and starts with `"soa"`; that Proposition has entity `S`, action the verb of the last
such `A`, and agent / instrument the Entity-Resolver resolution of the object of the
last `soaHas_agent` / `soaHas_instrument` fact, or empty when there is none. The three
`soa_epmuam` triples wrapped in one list yield exactly one Proposition
`(soa_epmuam, "pay", "ALEXANDRA MÆRSK")`. -/
theorem C25_extractStateOfAffairs (r : EntityResolver)
    (hkeys : ∀ kv ∈ r.specialCharMappings, kv.1 ≠ []) (expressions : List SExpr) :
    (∃ results, extractStateOfAffairs r expressions = .ok results ∧
      (∀ p, p ∈ results ↔ ∃ S, findsAtStart S "soa_".toList = true ∧
        isExcludedMarker S = false ∧
        (∃ f ∈ factsOf S expressions, isExistenceFact f = true) ∧
        (∃ f ∈ factsOf S expressions, isActionFact f = true) ∧
        p = propositionOf r S (factsOf S expressions)) ∧
      results.Pairwise (fun p q => strLt p.entity q.entity = true)) ∧
    extractStateOfAffairs (loadDefaultMappings defaultSpecialCharMappings)
      [SExpr.list [
        SExpr.list [SExpr.atom "triple".toList, SExpr.atom "soa_epmuam".toList,
          SExpr.atom "type".toList, SExpr.atom "rexist".toList],
        SExpr.list [SExpr.atom "triple".toList, SExpr.atom "soa_epmuam".toList,
          SExpr.atom "type".toList, SExpr.atom "soaPay".toList],
        SExpr.list [SExpr.atom "triple".toList, SExpr.atom "soa_epmuam".toList,
          SExpr.atom "soaHas_agent".toList, SExpr.atom "soa_ALEXANDRA_MAERSK".toList]]]
      = .ok [{ entity := "soa_epmuam".toList, action := "pay".toList,
               agent := sALEXANDRA_MAERSK }] := by
  refine ⟨?_, rfl⟩
  have hr := resolve_returns r hkeys
  obtain ⟨m, hm, hsorted, hgroup⟩ := collectTriples_loop expressions [] List.Pairwise.nil
  obtain ⟨m1, hm1, hlists⟩ := forEach_returns collectTriples
    (fun m => ∀ entry ∈ m, ∀ t ∈ entry.2, SExpr.isList t = true) expressions []
    (by intro entry he; simp at he) (fun s a _ hs => collectTriples_lists s a hs)
  rw [hm] at hm1
  injection hm1 with hm1
  subst hm1
  obtain ⟨final, hf, hres⟩ := buildStateOfAffairs_loop r hr m {} hlists hsorted
    (by intro entry _; simp)
  have hgroup1 : ∀ S, (mapFind S m).getD []
      = if findsAtStart S "soa_".toList then triplesOf S expressions else [] := by
    intro S
    rw [hgroup S]
    simp [mapFind]
  refine ⟨final.results, ?_, ?_, ?_⟩
  · simp [extractStateOfAffairs, hm, hf]
  · intro p
    rw [hres]
    simp only [List.nil_append, List.mem_filterMap]
    constructor
    · rintro ⟨⟨S, ts⟩, hmem, hp⟩
      obtain ⟨hx, he, ha, hpeq⟩ := (entryProposition_some r (S, ts) p).mp hp
      have hts : ts = (mapFind S m).getD [] := by
        rw [mapFind_of_mem S ts m hsorted hmem]
        rfl
      rw [hgroup1 S] at hts
      cases hsoa : findsAtStart S "soa_".toList with
      | false =>
        rw [hsoa] at hts
        subst hts
        obtain ⟨f, hfm, _⟩ := he
        simp at hfm
      | true =>
        rw [hsoa] at hts
        simp only [if_true] at hts
        subst hts
        exact ⟨S, hsoa, hx, he, ha, hpeq⟩
    · rintro ⟨S, hsoa, hx, he, ha, hpeq⟩
      have hg := hgroup1 S
      rw [hsoa] at hg
      simp only [if_true] at hg
      have hne : triplesOf S expressions ≠ [] := by
        intro hnil
        obtain ⟨f, hfm, _⟩ := he
        simp [factsOf, hnil] at hfm
      cases hfind : mapFind S m with
      | none =>
        rw [hfind] at hg
        exact absurd hg.symm hne
      | some ts =>
        rw [hfind] at hg
        simp only [Option.getD_some] at hg
        subst hg
        exact ⟨(S, triplesOf S expressions), mem_of_mapFind S _ m hfind,
          (entryProposition_some r _ p).mpr ⟨hx, he, ha, hpeq⟩⟩
  · rw [hres]
    simpa using entryProposition_sorted r m hsorted

theorem C25_extractStateOfAffairs_witness :
    ∃ results, extractStateOfAffairs (loadDefaultMappings defaultSpecialCharMappings)
        [SExpr.list [
          SExpr.list [SExpr.atom "triple".toList, SExpr.atom "soa_epmuam".toList,
            SExpr.atom "type".toList, SExpr.atom "rexist".toList],
          SExpr.list [SExpr.atom "triple".toList, SExpr.atom "soa_epmuam".toList,
            SExpr.atom "type".toList, SExpr.atom "soaPay".toList]]] = .ok results ∧
      (∀ p, p ∈ results ↔ ∃ S, findsAtStart S "soa_".toList = true ∧
        isExcludedMarker S = false ∧
        (∃ f ∈ factsOf S [SExpr.list [
          SExpr.list [SExpr.atom "triple".toList, SExpr.atom "soa_epmuam".toList,
            SExpr.atom "type".toList, SExpr.atom "rexist".toList],
          SExpr.list [SExpr.atom "triple".toList, SExpr.atom "soa_epmuam".toList,
            SExpr.atom "type".toList, SExpr.atom "soaPay".toList]]],
          isExistenceFact f = true) ∧
        (∃ f ∈ factsOf S [SExpr.list [
          SExpr.list [SExpr.atom "triple".toList, SExpr.atom "soa_epmuam".toList,
            SExpr.atom "type".toList, SExpr.atom "rexist".toList],
          SExpr.list [SExpr.atom "triple".toList, SExpr.atom "soa_epmuam".toList,
            SExpr.atom "type".toList, SExpr.atom "soaPay".toList]]],
          isActionFact f = true) ∧
        p = propositionOf (loadDefaultMappings defaultSpecialCharMappings) S
          (factsOf S [SExpr.list [
            SExpr.list [SExpr.atom "triple".toList, SExpr.atom "soa_epmuam".toList,
              SExpr.atom "type".toList, SExpr.atom "rexist".toList],
            SExpr.list [SExpr.atom "triple".toList, SExpr.atom "soa_epmuam".toList,
              SExpr.atom "type".toList, SExpr.atom "soaPay".toList]]])) ∧
      results.Pairwise (fun p q => strLt p.entity q.entity = true) :=
  (C25_extractStateOfAffairs (loadDefaultMappings defaultSpecialCharMappings)
    (by decide) _).1

/-! ## The reader's round trip -/

theorem joinRenderings_head (items : List (SExpr × Str))
    (hwf : ∀ item ∈ items, item.1.wellFormed = true) :
    headNonSpace (joinRenderings items) = true := by
  cases items with
  | nil => rfl
  | cons item rest =>
    simp only [joinRenderings, List.append_assoc]
    exact (goodRender_head (goodRender_toString item.1 (hwf item (List.mem_cons_self _ _)))
      _).1

theorem parseMultipleLoop_joinRenderings :
    ∀ (items : List (SExpr × Str)) (acc : List SExpr),
    (∀ item ∈ items, item.1.wellFormed = true) → separatorsOk items = true →
    ∃ n, parseMultipleLoop n ⟨joinRenderings items⟩ acc = .ok (acc ++ items.map Prod.fst) := by
  intro items
  induction items with
  | nil => intro acc _ _; exact ⟨1, by simp [parseMultipleLoop, Tokenizer.hasNext, joinRenderings]⟩
  | cons item rest ih =>
    intro acc hwf hsep
    have hwf1 := hwf item (List.mem_cons_self _ _)
    have hwfr : ∀ i ∈ rest, i.1.wellFormed = true :=
      fun i hi => hwf i (List.mem_cons_of_mem _ hi)
    have hsepr : separatorsOk rest = true ∧ (∀ c ∈ item.2, isspace c = true) ∧
        (item.2 = [] → rest = []) := by
      cases rest with
      | nil =>
        simp only [separatorsOk, List.all_eq_true] at hsep
        exact ⟨rfl, hsep, fun _ => rfl⟩
      | cons item2 rest2 =>
        simp only [separatorsOk, Bool.and_eq_true, List.all_eq_true, Bool.not_eq_true',
          List.isEmpty_eq_false] at hsep
        exact ⟨hsep.2, hsep.1.2, fun h => absurd h (by simpa using hsep.1.1)⟩
    obtain ⟨hsr, hspace, hempty⟩ := hsepr
    have hrestOk : restOk (item.2 ++ joinRenderings rest) = true := by
      cases hs : item.2 with
      | nil =>
        rw [hempty hs]
        rfl
      | cons c cs =>
        have hc : isspace c = true := hspace c (by rw [hs]; exact List.mem_cons_self _ _)
        simp [restOk, isDelimiter, hc]
    have hg := goodRender_toString item.1 hwf1
    obtain ⟨n1, h1⟩ := hg.1 _ hrestOk
    have hskip : skipWhitespace (item.2 ++ joinRenderings rest) = joinRenderings rest := by
      rw [skipWhitespace_append_spaces _ _ hspace]
      exact skipWhitespace_of_headNonSpace _ (joinRenderings_head rest hwfr)
    rw [hskip] at h1
    obtain ⟨n2, h2⟩ := ih (acc ++ [item.1]) hwfr hsr
    have hnext := (goodRender_head hg (item.2 ++ joinRenderings rest)).2.1
    obtain ⟨k, hk⟩ := parseMultipleLoop_cons acc h1 hnext h2
    refine ⟨k, ?_⟩
    simp only [joinRenderings, List.append_assoc, List.map_cons]
    rw [hk]
    simp

/-- C31: for every expression tree `e` whose atoms are non-empty and contain no
whitespace or bracket characters, `SExprParser::parse(e.toString())` succeeds and returns
`e`; and for every sequence of such trees, `parseMultiple` of their renderings joined by
whitespace (any leading whitespace, a non-empty run of whitespace between two
renderings, any whitespace after the last) returns exactly the sequence. -/
theorem C31_reader_round_trip (e : SExpr) (items : List (SExpr × Str)) (lead : Str)
    (he : e.wellFormed = true) (hitems : ∀ item ∈ items, item.1.wellFormed = true)
    (hsep : separatorsOk items = true) (hlead : lead.all isspace = true) :
    parse e.toString = .ok e ∧
    parseMultiple (lead ++ joinRenderings items) = .ok (items.map Prod.fst) := by
  refine ⟨parse_toString e he, ?_⟩
  obtain ⟨n, hn⟩ := parseMultipleLoop_joinRenderings items [] hitems hsep
  apply parseMultiple_of_loop (n := n)
  have hnew : Tokenizer.new (lead ++ joinRenderings items) = ⟨joinRenderings items⟩ := by
    simp only [Tokenizer.new]
    rw [skipWhitespace_append_spaces _ _ (by simpa [List.all_eq_true] using hlead)]
    rw [skipWhitespace_of_headNonSpace _ (joinRenderings_head items hitems)]
  rw [hnew, hn]
  simp

theorem C31_reader_round_trip_witness :
    parse (SExpr.list [SExpr.atom "a".toList, SExpr.list [], SExpr.atom "b".toList]).toString
      = .ok (SExpr.list [SExpr.atom "a".toList, SExpr.list [], SExpr.atom "b".toList]) ∧
    parseMultiple (" ".toList ++ joinRenderings
        [(SExpr.list [SExpr.atom "a".toList], "\n".toList),
         (SExpr.atom "b".toList, " \t".toList),
         (SExpr.list [SExpr.list [], SExpr.atom "c".toList], [])])
      = .ok ([(SExpr.list [SExpr.atom "a".toList], "\n".toList),
         (SExpr.atom "b".toList, " \t".toList),
         (SExpr.list [SExpr.list [], SExpr.atom "c".toList], [])].map Prod.fst) :=
  C31_reader_round_trip _ _ _ (by decide) (by decide) (by decide) (by decide)

/-! ## The grouping key and negation -/

/-- C37 as stated fails when the text after `"soa_e"` starts with `e`: the key of
`soa_eexit` is `exit`, the key of its negated form `soa_enexit` is `xit`, because
`extractBaseAction` strips a leading `e` once more after it has stripped `en`. -/
theorem C37_counterexample :
    ("soa_eexit".toList.length ≥ 7) ∧
    "soa_eexit".toList.take 5 = "soa_e".toList ∧
    isNegatedEntity "soa_eexit".toList = false ∧
    getNegatedForm "soa_eexit".toList = "soa_enexit".toList ∧
    extractBaseAction "soa_eexit".toList = .ok "exit".toList ∧
    extractBaseAction (getNegatedForm "soa_eexit".toList) = .ok "xit".toList :=
  ⟨by decide, by decide, by decide, by decide, rfl, rfl⟩

/-- C37 (amended): for every identifier `x` of length at least 7 that starts with
`"soa_e"` and is not already negated, `extractBaseAction(x)` is the text of `x` after
`"soa_e"`, and `extractBaseAction(getNegatedForm(x))` is that same text unless it
starts with `e`, in which case its first character is dropped; so the two keys are
equal exactly when the character that follows `"soa_e"` in `x` is not `e`. -/
theorem C37_extractBaseAction_negated (x : Str) (hlen : x.length ≥ 7)
    (hpre : x.take 5 = "soa_e".toList) (hneg : isNegatedEntity x = false) :
    extractBaseAction x = .ok (x.drop 5) ∧
    extractBaseAction (getNegatedForm x)
      = .ok (if (x.drop 5).head? = some 'e' then x.drop 6 else x.drop 5) ∧
    (extractBaseAction (getNegatedForm x) = extractBaseAction x ↔
      (x.drop 5).head? ≠ some 'e') := by
  match x, hlen, hpre, hneg with
  | a :: b :: c :: d :: e :: c1 :: c2 :: rest, _, hpre, hneg =>
    simp only [String.toList, List.take_succ_cons, List.take_zero, List.cons.injEq,
      and_true] at hpre
    obtain ⟨ha, hb, hc, hd, he⟩ := hpre
    subst ha hb hc hd he
    have hc1 : c1 ≠ 'n' := by
      intro h
      subst h
      simp [isNegatedEntity] at hneg
    have hform : getNegatedForm ('s' :: 'o' :: 'a' :: '_' :: 'e' :: c1 :: c2 :: rest)
        = 's' :: 'o' :: 'a' :: '_' :: 'e' :: 'n' :: c1 :: c2 :: rest := by
      simp [getNegatedForm, hneg]
    have h1 : extractBaseAction ('s' :: 'o' :: 'a' :: '_' :: 'e' :: c1 :: c2 :: rest)
        = .ok (c1 :: c2 :: rest) := by
      simp [extractBaseAction, substrFrom, hc1]
    have h2 : extractBaseAction ('s' :: 'o' :: 'a' :: '_' :: 'e' :: 'n' :: c1 :: c2 :: rest)
        = .ok (if c1 = 'e' then c2 :: rest else c1 :: c2 :: rest) := by
      by_cases hce : c1 = 'e'
      · subst hce
        simp [extractBaseAction, substrFrom]
      · simp [extractBaseAction, substrFrom, hce]
    refine ⟨by simpa using h1, ?_, ?_⟩
    · rw [hform, h2]
      simp
    · rw [hform, h1, h2]
      by_cases hce : c1 = 'e'
      · subst hce
        simp
      · simp [hce]

theorem C37_extractBaseAction_negated_witness :
    extractBaseAction "soa_emam".toList = .ok ("soa_emam".toList.drop 5) ∧
    extractBaseAction (getNegatedForm "soa_emam".toList)
      = .ok (if ("soa_emam".toList.drop 5).head? = some 'e' then "soa_emam".toList.drop 6
             else "soa_emam".toList.drop 5) ∧
    (extractBaseAction (getNegatedForm "soa_emam".toList)
        = extractBaseAction "soa_emam".toList ↔
      ("soa_emam".toList.drop 5).head? ≠ some 'e') :=
  C37_extractBaseAction_negated "soa_emam".toList (by decide) (by decide) (by decide)

/-! ## The order of the Propositions -/

theorem forEach_cons_ok {σ α : Type} {step : σ → α → Except Fault σ} {a : α} {rest : List α}
    {state final : σ} (h : forEach step (a :: rest) state = .ok final) :
    ∃ next, step state a = .ok next ∧ forEach step rest next = .ok final := by
  simp only [forEach] at h
  cases hs : step state a with
  | error fault => simp [hs] at h
  | ok next => exact ⟨next, rfl, by simpa [hs] using h⟩

theorem forEach_preserves {σ α : Type} {step : σ → α → Except Fault σ} (P : σ → Prop)
    (hstep : ∀ s a s1, step s a = .ok s1 → P s → P s1) :
    ∀ (l : List α) (state final : σ), forEach step l state = .ok final → P state → P final := by
  intro l
  induction l with
  | nil =>
    intro state final h hP
    simp only [forEach, Except.ok.injEq] at h
    subst h
    exact hP
  | cons a rest ih =>
    intro state final h hP
    obtain ⟨next, h1, h2⟩ := forEach_cons_ok h
    exact ih next final h2 (hstep state a next h1 hP)

theorem readTriple_entity (r : EntityResolver) (build next : SoaBuild) (triple : SExpr)
    (h : readTriple r build triple = .ok next) : next.soa.entity = build.soa.entity := by
  unfold readTriple at h
  repeat' first
    | (split at h)
    | (obtain ⟨_, _, h⟩ := bind_eq_ok h)
  all_goals
    simp only [pure_ok, Except.ok.injEq] at h
    subst h
    rfl

theorem buildStateOfAffairs_results (r : EntityResolver) (state next : SoaResults)
    (entry : Str × List SExpr) (h : buildStateOfAffairs r state entry = .ok next) :
    next.results = state.results ∨
      ∃ p : SemanticAnalyzer.StateOfAffairs, p.entity = entry.1 ∧
        next.results = state.results ++ [p] := by
  unfold buildStateOfAffairs at h
  split at h
  · simp only [pure_ok, Except.ok.injEq] at h; subst h; exact Or.inl rfl
  · split at h
    · simp only [pure_ok, Except.ok.injEq] at h; subst h; exact Or.inl rfl
    · split at h
      · simp only [pure_ok, Except.ok.injEq] at h; subst h; exact Or.inl rfl
      · split at h
        · simp only [pure_ok, Except.ok.injEq] at h; subst h; exact Or.inl rfl
        · obtain ⟨build, hb, h⟩ := bind_eq_ok h
          have he : build.soa.entity = entry.1 :=
            forEach_preserves (fun b : SoaBuild => b.soa.entity = entry.1)
              (fun s a s1 hs hP => (readTriple_entity r s s1 a hs).trans hP) _ _ _ hb rfl
          split at h
          · simp only [pure_ok, Except.ok.injEq] at h
            subst h
            exact Or.inr ⟨build.soa, he, rfl⟩
          · simp only [pure_ok, Except.ok.injEq] at h; subst h; exact Or.inl rfl

theorem buildStateOfAffairs_sublist (r : EntityResolver) :
    ∀ (l : List (Str × List SExpr)) (state final : SoaResults),
    forEach (buildStateOfAffairs r) l state = .ok final →
    ∃ ps : List SemanticAnalyzer.StateOfAffairs, final.results = state.results ++ ps ∧
      (ps.map (fun p => p.entity)).Sublist (l.map Prod.fst) := by
  intro l
  induction l with
  | nil =>
    intro state final h
    simp only [forEach, Except.ok.injEq] at h
    subst h
    exact ⟨[], by simp, by simp⟩
  | cons entry rest ih =>
    intro state final h
    obtain ⟨next, h1, h2⟩ := forEach_cons_ok h
    obtain ⟨ps, hps, hsub⟩ := ih next final h2
    rcases buildStateOfAffairs_results r state next entry h1 with hr | ⟨p, hp, hr⟩
    · refine ⟨ps, by rw [hps, hr], ?_⟩
      simp only [List.map_cons]
      exact List.Sublist.cons _ hsub
    · refine ⟨p :: ps, by rw [hps, hr]; simp, ?_⟩
      simp only [List.map_cons, hp]
      exact List.Sublist.cons₂ _ hsub

/-- C39: for every sequence of expressions, the Propositions returned by
`SemanticAnalyzer::extractStateOfAffairs` are in strictly increasing lexicographic order
of their entity field (the order of `std::string` keys in the `std::map`), so no two of
them have the same entity; and the function does return when the special-character
table of the resolver holds no empty key. -/
theorem C39_propositions_sorted (r : EntityResolver) (expressions : List SExpr) :
    (∀ results, extractStateOfAffairs r expressions = .ok results →
      results.Pairwise (fun p q => strLt p.entity q.entity = true) ∧
      (results.map (fun p => p.entity)).Nodup) ∧
    ((∀ kv ∈ r.specialCharMappings, kv.1 ≠ []) →
      ∃ results, extractStateOfAffairs r expressions = .ok results) := by
  refine ⟨?_, fun hkeys => extractStateOfAffairs_returns r (resolve_returns r hkeys) _⟩
  intro results h
  unfold extractStateOfAffairs at h
  obtain ⟨m, hm, h⟩ := bind_eq_ok h
  obtain ⟨state, hstate, h⟩ := bind_eq_ok h
  simp only [pure_ok, Except.ok.injEq] at h
  subst h
  obtain ⟨m1, hm1, hsorted, _⟩ := collectTriples_loop expressions [] List.Pairwise.nil
  rw [hm] at hm1
  injection hm1 with hm1
  subst hm1
  obtain ⟨ps, hps, hsub⟩ := buildStateOfAffairs_sublist r m {} state hstate
  have hkeys : (m.map Prod.fst).Pairwise (fun a b => strLt a b = true) :=
    List.pairwise_map.mpr hsorted
  have hent : (state.results.map (fun p => p.entity)).Pairwise
      (fun a b => strLt a b = true) := by
    rw [hps]
    simpa using hkeys.sublist hsub
  refine ⟨List.pairwise_map.mp hent, ?_⟩
  refine hent.imp ?_
  intro a b hlt hab
  subst hab
  rw [strLt_irrefl] at hlt
  cases hlt

theorem C39_propositions_sorted_witness :
    extractStateOfAffairs (loadDefaultMappings defaultSpecialCharMappings) unorderedTriples
      = .ok [{ entity := "soa_a".toList, action := "pay".toList },
             { entity := "soa_b".toList, action := "moor".toList }] ∧
    List.Pairwise (fun p q => strLt p.entity q.entity = true)
      [({ entity := "soa_a".toList, action := "pay".toList } : SemanticAnalyzer.StateOfAffairs),
       { entity := "soa_b".toList, action := "moor".toList }] ∧
    List.Nodup (List.map (fun p => p.entity)
      [({ entity := "soa_a".toList, action := "pay".toList } : SemanticAnalyzer.StateOfAffairs),
       { entity := "soa_b".toList, action := "moor".toList }]) :=
  ⟨rfl, (C39_propositions_sorted (loadDefaultMappings defaultSpecialCharMappings)
    unorderedTriples).1 _ rfl⟩

/-! ## The arguments of a conflict expression -/

theorem conflictRegulation1_describe (r : EntityResolver)
    (hr : ∀ x, ∃ s, resolve r x = .ok s) (arg : SExpr) :
    ∃ c, conflictRegulation1 r {} arg = .ok c ∧ c.regulation1 = describeFirst r arg ∧
      c.regulation2 = [] := by
  obtain ⟨c, hc⟩ := conflictRegulation1_returns r hr {} arg
  refine ⟨c, hc, ?_⟩
  cases arg with
  | atom a =>
    by_cases h : a = ['n', 'o', 't', '_', 'o', 'p', 't']
    · subst h
      simp [conflictRegulation1, SExpr.isList, getSymbol_atom] at hc
      subst hc
      simp [describeFirst]
    · simp [conflictRegulation1, SExpr.isList, getSymbol_atom, h, resolve_eq r hr] at hc
      subst hc
      simp [describeFirst, h]
  | list l =>
    match l, hc with
    | [], hc =>
      simp [conflictRegulation1, SExpr.isList, SExpr.asList] at hc
      subst hc
      simp [describeFirst]
    | SExpr.list hl :: args, hc =>
      simp [conflictRegulation1, SExpr.isList, SExpr.asList, elemAt, getSymbol_list] at hc
      subst hc
      simp [describeFirst]
    | SExpr.atom head :: args, hc =>
      by_cases h1 : head = ['i', 'n', 'r', 's', '-', 'p', 'r', 'o', 'h', 'i', 'b', 'i', 't',
          'e', 'd', '-', 'i', 'd']
      · subst h1
        match args, hc with
        | [], hc =>
          simp [conflictRegulation1, SExpr.isList, SExpr.asList, elemAt, getSymbol_atom,
            symbolAt] at hc
          subst hc
          simp [describeFirst]
        | a :: as, hc =>
          cases hsa : a.getSymbol <;>
          · simp [conflictRegulation1, SExpr.isList, SExpr.asList, elemAt, getSymbol_atom,
              symbolAt, hsa] at hc
            subst hc
            simp [describeFirst]
      · by_cases h2 : head = ['m', 'o', 'd', '-', 'n', 'o', 't', '-', 'i', 'd']
        · subst h2
          match args, hc with
          | [], hc =>
            simp [conflictRegulation1, SExpr.isList, SExpr.asList, elemAt, getSymbol_atom,
              symbolAt, resolve_eq r hr] at hc
            subst hc
            simp [describeFirst, argSymbol]
          | [a], hc =>
            cases hsa : a.getSymbol <;>
            · simp [conflictRegulation1, SExpr.isList, SExpr.asList, elemAt, getSymbol_atom,
                symbolAt, resolve_eq r hr, hsa] at hc
              subst hc
              simp [describeFirst, argSymbol, hsa]
          | a :: b :: as, hc =>
            cases hsa : a.getSymbol <;> cases hsb : b.getSymbol <;>
            · simp [conflictRegulation1, SExpr.isList, SExpr.asList, elemAt, getSymbol_atom,
                symbolAt, resolve_eq r hr, hsa, hsb] at hc
              subst hc
              simp [describeFirst, argSymbol, hsa, hsb]
        · match args, hc with
          | [], hc =>
            simp [conflictRegulation1, SExpr.isList, SExpr.asList, elemAt, getSymbol_atom,
              symbolAt, h1, h2] at hc
            subst hc
            simp [describeFirst, h1, h2]
          | a :: as, hc =>
            cases hsa : a.getSymbol <;>
            · simp [conflictRegulation1, SExpr.isList, SExpr.asList, elemAt, getSymbol_atom,
                symbolAt, h1, h2, hsa] at hc
              subst hc
              simp [describeFirst, h1, h2]

theorem conflictRegulation2_describe (r : EntityResolver)
    (hr : ∀ x, ∃ s, resolve r x = .ok s) (conflict : RegulatoryConflict) (arg : SExpr)
    (h2 : conflict.regulation2 = []) :
    ∃ c, conflictRegulation2 r conflict arg = .ok c ∧
      c.regulation1 = conflict.regulation1 ∧ c.regulation2 = describeSecond r arg := by
  obtain ⟨c, hc⟩ := conflictRegulation2_returns r hr conflict arg
  refine ⟨c, hc, ?_⟩
  cases arg with
  | atom a =>
    simp [conflictRegulation2, SExpr.isList, getSymbol_atom, resolve_eq r hr] at hc
    subst hc
    simp [describeSecond]
  | list l =>
    match l, hc with
    | [], hc =>
      simp [conflictRegulation2, SExpr.isList, SExpr.asList] at hc
      subst hc
      simp [describeSecond, h2]
    | SExpr.list hl :: args, hc =>
      simp [conflictRegulation2, SExpr.isList, SExpr.asList, elemAt, getSymbol_list] at hc
      subst hc
      simp [describeSecond, h2]
    | SExpr.atom head :: args, hc =>
      by_cases h1 : head = ['p', 'a', 'y', '-', 'o', 'b', 'l', 'i', 'g', 'a', 't', 'o', 'r',
          'y', '-', 'i', 'd']
      · subst h1
        match args, hc with
        | [], hc =>
          simp [conflictRegulation2, SExpr.isList, SExpr.asList, elemAt, getSymbol_atom] at hc
          subst hc
          simp [describeSecond]
        | [a], hc =>
          simp [conflictRegulation2, SExpr.isList, SExpr.asList, elemAt, getSymbol_atom] at hc
          subst hc
          simp [describeSecond]
        | a :: b :: as, hc =>
          simp [conflictRegulation2, SExpr.isList, SExpr.asList, elemAt, getSymbol_atom] at hc
          by_cases hb : b.getSymbol = some ['s', 'o', 'a', '_', 's', 'p', 't', 'M', 'I', 'C', 'T']
          · simp [hb] at hc
            subst hc
            simp [describeSecond, hb]
          · simp [hb] at hc
            subst hc
            simp [describeSecond, hb]
      · by_cases h3 : head = ['i', 'n', 'r', 's', '-', 'o', 'n', 'l', 'y', '-', 'i', 'd']
        · subst h3
          simp [conflictRegulation2, SExpr.isList, SExpr.asList, elemAt, getSymbol_atom] at hc
          subst hc
          simp [describeSecond]
        · simp [conflictRegulation2, SExpr.isList, SExpr.asList, elemAt, getSymbol_atom,
            h1, h3] at hc
          subst hc
          simp [describeSecond, h1, h3]

theorem conflictFinish_regulations (r : EntityResolver) (conflict c : RegulatoryConflict)
    (h : conflictFinish r conflict = .ok c) :
    c.regulation1 = conflict.regulation1 ∧ c.regulation2 = conflict.regulation2 := by
  unfold conflictFinish at h
  obtain ⟨affected, _, h⟩ := bind_eq_ok h
  simp only [pure_ok, Except.ok.injEq] at h
  subst h
  exact ⟨rfl, rfl⟩

/-- C35 as stated fails: each argument position has its own table. In
`(conflict (inrs-only-id x) (inrs-prohibited-id y))` both nested calls are left
verbatim (`inrs-only-id` is described only in the second position, `inrs-prohibited-id`
only in the first), and the atom `not_opt` in the first position is not resolved through
the Entity Resolver (which would give `not_opt`) but described as
`Not optional (prohibited)`. -/
theorem C35_counterexample :
    parseConflictExpr (loadDefaultMappings defaultSpecialCharMappings)
        (SExpr.list [SExpr.atom "conflict".toList,
          SExpr.list [SExpr.atom "inrs-only-id".toList, SExpr.atom "x".toList],
          SExpr.list [SExpr.atom "inrs-prohibited-id".toList, SExpr.atom "y".toList]])
      = .ok (some { regulation1 := "inrs-only-id".toList,
                    regulation2 := "inrs-prohibited-id".toList,
                    conflictingRequirement := "regulatory requirements".toList,
                    affectedEntity := "x".toList }) ∧
    specDescribe (loadDefaultMappings defaultSpecialCharMappings)
        (SExpr.list [SExpr.atom "inrs-only-id".toList, SExpr.atom "x".toList])
      = "INRS-only requirement".toList ∧
    specDescribe (loadDefaultMappings defaultSpecialCharMappings)
        (SExpr.list [SExpr.atom "inrs-prohibited-id".toList, SExpr.atom "y".toList])
      = "EU MiCA regulation (INRS prohibition)".toList ∧
    parseConflictExpr (loadDefaultMappings defaultSpecialCharMappings)
        (SExpr.list [SExpr.atom "conflict".toList, SExpr.atom "not_opt".toList,
          SExpr.atom "soa_elam".toList])
      = .ok (some { regulation1 := "Not optional (prohibited)".toList,
                    regulation2 := sALEXANDRA_MAERSK,
                    conflictingRequirement := "permission vs prohibition to leave".toList,
                    affectedEntity := sALEXANDRA_MAERSK }) ∧
    specDescribe (loadDefaultMappings defaultSpecialCharMappings)
        (SExpr.atom "not_opt".toList) = "not_opt".toList :=
  ⟨rfl, rfl, rfl, rfl, rfl⟩

/-- C35 (amended): when no special-character key of the resolver is empty, a conflict
expression `(conflict Arg1 Arg2 ...)` yields a conflict whose `regulation1` describes
`Arg1` by the first position's rule (`describeFirst`: the atom `not_opt` gives
`"Not optional (prohibited)"`, any other atom is resolved through
`EntityResolver::resolveEntity`; a call headed by `inrs-prohibited-id` or `mod-not-id`
is replaced by that regulation's description; a call with any other head atom, also
`pay-obligatory-id` and `inrs-only-id`, contributes its head verbatim) and whose
`regulation2` describes `Arg2` by the second position's rule (`describeSecond`: an atom
is resolved; a call headed by `pay-obligatory-id` with at least two arguments or by
`inrs-only-id` is replaced by that regulation's description; a call with any other head
atom, also `inrs-prohibited-id` and `mod-not-id`, contributes its head verbatim); a
call that is empty or starts with a list leaves the description empty. -/
theorem C35_conflict_arguments (r : EntityResolver)
    (hkeys : ∀ kv ∈ r.specialCharMappings, kv.1 ≠ []) (head arg1 arg2 : SExpr)
    (rest : List SExpr) (hhead : head.getSymbol = some "conflict".toList) :
    ∃ c, parseConflictExpr r (SExpr.list (head :: arg1 :: arg2 :: rest)) = .ok (some c) ∧
      c.regulation1 = describeFirst r arg1 ∧ c.regulation2 = describeSecond r arg2 := by
  have hr := resolve_returns r hkeys
  obtain ⟨c1, h1, hd1, he1⟩ := conflictRegulation1_describe r hr arg1
  obtain ⟨c2, h2, hk2, hd2⟩ := conflictRegulation2_describe r hr c1 arg2 he1
  obtain ⟨c3, h3⟩ := conflictFinish_returns r hr c2
  obtain ⟨hf1, hf2⟩ := conflictFinish_regulations r c2 c3 h3
  refine ⟨c3, ?_, by rw [hf1, hk2, hd1], by rw [hf2, hd2]⟩
  simp only [String.toList] at hhead
  simp [parseConflictExpr, SExpr.isList, SExpr.asList, elemAt, hhead, h1, h2, h3]

theorem C35_conflict_arguments_witness :
    ∃ c, parseConflictExpr (loadDefaultMappings defaultSpecialCharMappings)
        (SExpr.list (SExpr.atom "conflict".toList
          :: SExpr.list [SExpr.atom "mod-not-id".toList, SExpr.atom "soa_elam".toList,
              SExpr.atom "permitted".toList]
          :: SExpr.list [SExpr.atom "pay-obligatory-id".toList, SExpr.atom "soa_x".toList,
              SExpr.atom "soa_sptMICT".toList]
          :: [])) = .ok (some c) ∧
      c.regulation1 = describeFirst (loadDefaultMappings defaultSpecialCharMappings)
        (SExpr.list [SExpr.atom "mod-not-id".toList, SExpr.atom "soa_elam".toList,
          SExpr.atom "permitted".toList]) ∧
      c.regulation2 = describeSecond (loadDefaultMappings defaultSpecialCharMappings)
        (SExpr.list [SExpr.atom "pay-obligatory-id".toList, SExpr.atom "soa_x".toList,
          SExpr.atom "soa_sptMICT".toList]) :=
  C35_conflict_arguments (loadDefaultMappings defaultSpecialCharMappings) (by decide)
    _ _ _ _ rfl

/-! ## Bare `id_not_not_false` expressions -/

theorem contradictionExpr_marked (r : EntityResolver) (state : ContradictionState)
    (entity : Str) : contradictionExpr r state (markedExpr entity) = .ok state := by
  by_cases h : entity = [',']
  · subst h
    simp [contradictionExpr, markedExpr, forEach, contradictionElem, isComma, SExpr.isAtom,
      SExpr.isList, SExpr.asList, SExpr.asAtom, contradictionTopLevel, elemAt]
  · simp [contradictionExpr, markedExpr, forEach, contradictionElem, isComma, SExpr.isAtom,
      SExpr.isList, SExpr.asList, SExpr.asAtom, contradictionTopLevel, elemAt, h]

theorem forEach_const {σ α : Type} (step : σ → α → Except Fault σ) (l : List α) (state : σ)
    (h : ∀ a ∈ l, step state a = .ok state) : forEach step l state = .ok state := by
  induction l with
  | nil => rfl
  | cons a rest ih =>
    simp only [forEach, h a (List.mem_cons_self _ _)]
    exact ih (fun b hb => h b (List.mem_cons_of_mem _ hb))

theorem findAll_marked (entities : List Str) :
    SExprMatcher.findAll (entities.map markedExpr) notNotFalsePattern
      = entities.map markedExpr := by
  unfold SExprMatcher.findAll
  apply List.filter_eq_self.mpr
  intro e he
  obtain ⟨entity, _, rfl⟩ := List.mem_map.mp he
  simp [markedExpr, SExprMatcher.matches, notNotFalsePattern, matchesLoop, sWildcard,
    getSymbol_atom]

theorem collectMarked_marked (acc : List Str) (entity : Str) :
    collectMarked acc (markedExpr entity) = .ok (insertNew acc entity) := by
  simp [collectMarked, markedExpr, SExprMatcher.extract, notNotFalsePattern, extractLoop,
    sWildcard, getSymbol_atom, elemAt, insertNew]

theorem forEach_collectMarked : ∀ (entities acc : List Str),
    forEach collectMarked (entities.map markedExpr) acc = .ok (entities.foldl insertNew acc) := by
  intro entities
  induction entities with
  | nil => intro acc; rfl
  | cons e rest ih =>
    intro acc
    simp only [List.map_cons, forEach, collectMarked_marked, List.foldl_cons]
    exact ih _

theorem foldl_insertNew : ∀ (entities acc : List Str), acc.Nodup →
    (entities.foldl insertNew acc).Nodup ∧
    ∀ x, x ∈ entities.foldl insertNew acc ↔ x ∈ acc ∨ x ∈ entities := by
  intro entities
  induction entities with
  | nil => intro acc h; exact ⟨h, by simp⟩
  | cons e rest ih =>
    intro acc h
    simp only [List.foldl_cons]
    by_cases he : e ∈ acc
    · have hins : insertNew acc e = acc := by simp [insertNew, he]
      rw [hins]
      obtain ⟨h1, h2⟩ := ih acc h
      refine ⟨h1, fun x => ?_⟩
      rw [h2 x, List.mem_cons]
      constructor
      · rintro (hx | hx)
        · exact Or.inl hx
        · exact Or.inr (Or.inr hx)
      · rintro (hx | hx | hx)
        · exact Or.inl hx
        · exact Or.inl (hx ▸ he)
        · exact Or.inr hx
    · have hins : insertNew acc e = acc ++ [e] := by simp [insertNew, he]
      rw [hins]
      have hnd : (acc ++ [e]).Nodup := by
        rw [List.nodup_append]
        exact ⟨h, List.nodup_singleton e, by
          intro a ha hb
          rw [List.mem_singleton] at hb
          exact he (hb ▸ ha)⟩
      obtain ⟨h1, h2⟩ := ih (acc ++ [e]) hnd
      refine ⟨h1, fun x => ?_⟩
      rw [h2 x, List.mem_append, List.mem_singleton, List.mem_cons]
      tauto

theorem foldl_existencePair (marked : List Str) : ∀ (l : List Str)
    (acc : List LogicalContradiction),
    l.foldl (existencePair marked) acc
      = acc ++ (l.filter (fun entity => isNegatedEntity entity
          && marked.contains (getBaseForm entity))).map existencePairOf := by
  intro l
  induction l with
  | nil => intro acc; simp
  | cons e rest ih =>
    intro acc
    rw [List.foldl_cons, ih]
    cases hn : isNegatedEntity e with
    | false => simp [existencePair, hn, List.filter_cons]
    | true =>
      by_cases hb : getBaseForm e ∈ marked
      · simp [existencePair, hn, hb, List.filter_cons, existencePairOf]
      · simp [existencePair, hn, hb, List.filter_cons]

theorem findContradictions_marked (r : EntityResolver) (entities : List Str) :
    findContradictions r (entities.map markedExpr)
      = .ok (((entities.foldl insertNew []).filter (fun entity => isNegatedEntity entity
          && (entities.foldl insertNew []).contains (getBaseForm entity))).map
            existencePairOf) := by
  have h1 : forEach (contradictionExpr r) (entities.map markedExpr) {} = .ok {} := by
    apply forEach_const
    intro e he
    obtain ⟨entity, _, rfl⟩ := List.mem_map.mp he
    exact contradictionExpr_marked r _ entity
  unfold findContradictions
  rw [h1]
  simp only [bind_ok, findAll_marked, forEach_collectMarked, pure_ok]
  simp [paymentContradictions, forEach, foldl_existencePair]

/-- C33 as stated fails: the bare expressions `(id_not_not_false soa_emam)` and
`(id_not_not_false soa_enmam)` yield one contradiction, but of kind `"existence"`, not
`"action"`, and its sides hold the identifiers themselves, paired by
`getBaseForm`. -/
theorem C33_counterexample :
    findContradictions (loadDefaultMappings defaultSpecialCharMappings)
        [markedExpr "soa_emam".toList, markedExpr "soa_enmam".toList]
      = .ok [{ positive := { entity := "soa_emam".toList },
               negative := { entity := "soa_enmam".toList },
               type := "existence".toList }] ∧
    decide ("existence".toList = "action".toList) = false :=
  ⟨rfl, rfl⟩

/-- C33 (amended): for top-level expressions `(id_not_not_false E)`,
`SemanticAnalyzer::findContradictions` emits exactly one contradiction for each distinct
entity `E` that is negated (longer than 6 characters and starting with `"soa_en"`) and
whose base form `getBaseForm(E)` is also among the marked entities; it has positive
entity `getBaseForm(E)`, negative entity `E` and kind `"existence"`, and nothing else is
emitted. `(id_not_not_false soa_emam)` together with `(id_not_not_false soa_enmam)`
yields one contradiction `(soa_emam, soa_enmam)` of kind `"existence"`. -/
theorem C33_bare_marked_entities (r : EntityResolver) (entities : List Str) :
    (∃ results, findContradictions r (entities.map markedExpr) = .ok results ∧
      (∀ c, c ∈ results ↔ ∃ entity ∈ entities, isNegatedEntity entity = true ∧
        getBaseForm entity ∈ entities ∧ c = existencePairOf entity) ∧
      results.Nodup) ∧
    findContradictions r [markedExpr "soa_emam".toList, markedExpr "soa_enmam".toList]
      = .ok [{ positive := { entity := "soa_emam".toList },
               negative := { entity := "soa_enmam".toList },
               type := "existence".toList }] := by
  refine ⟨?_, ?_⟩
  · obtain ⟨hnd, hmem⟩ := foldl_insertNew entities [] List.nodup_nil
    refine ⟨_, findContradictions_marked r entities, ?_, ?_⟩
    · intro c
      have hcont : ∀ x : Str, (entities.foldl insertNew []).contains x = true ↔ x ∈ entities := by
        intro x
        rw [List.contains_iff_exists_mem_beq]
        constructor
        · rintro ⟨y, hy, hxy⟩
          have : x = y := by simpa using hxy
          subst this
          simpa using (hmem x).mp hy
        · intro hx
          exact ⟨x, (hmem x).mpr (Or.inr hx), by simp⟩
      simp only [List.mem_map, List.mem_filter, Bool.and_eq_true, hcont, hmem,
        List.not_mem_nil, false_or]
      constructor
      · rintro ⟨entity, ⟨he, hn, hb⟩, rfl⟩
        exact ⟨entity, he, hn, hb, rfl⟩
      · rintro ⟨entity, he, hn, hb, rfl⟩
        exact ⟨entity, ⟨he, hn, hb⟩, rfl⟩
    · apply List.Nodup.map _ (hnd.filter _)
      intro a b hab
      have := congrArg (fun c : LogicalContradiction => c.negative.entity) hab
      simpa [existencePairOf] using this
  · have := findContradictions_marked r ["soa_emam".toList, "soa_enmam".toList]
    simpa using this

/-! ## Marked entities nested one level: payment heuristic and groups -/

theorem extractBaseAction_eq (soaEntity : Str) :
    extractBaseAction soaEntity = .ok (baseActionKey soaEntity) := by
  unfold extractBaseAction baseActionKey
  by_cases h : (decide (soaEntity.length < 7) || decide (soaEntity.take 4 ≠ "soa_".toList)) = true
  · rw [if_pos h, if_pos h]
    rfl
  · rw [if_neg h, if_neg h]
    have hlen : 7 ≤ soaEntity.length := by
      simp only [Bool.or_eq_true, decide_eq_true_eq, not_or, not_lt] at h
      exact h.1
    have h4 : substrFrom soaEntity 4 = .ok (soaEntity.drop 4) := by
      simp [substrFrom]; omega
    simp only [h4, bind_ok]
    by_cases h2 : (decide ((soaEntity.drop 4).length > 2)
        && decide ((soaEntity.drop 4).take 2 = "en".toList)) = true
    · have hl2 : 2 ≤ (soaEntity.drop 4).length := by
        simp only [Bool.and_eq_true, decide_eq_true_eq] at h2
        omega
      simp only [h2, if_true, substrFrom, hl2, bind_ok]
      by_cases h3 : (decide (((soaEntity.drop 4).drop 2).length > 1)
          && decide (((soaEntity.drop 4).drop 2).head? = some 'e')) = true
      · have hl3 : 1 ≤ ((soaEntity.drop 4).drop 2).length := by
          simp only [Bool.and_eq_true, decide_eq_true_eq] at h3
          omega
        simp only [h3, if_true, hl3, bind_ok, pure_ok]
      · simp only [h3, Bool.false_eq_true, if_false, bind_ok, pure_ok]
    · simp only [h2, Bool.false_eq_true, if_false, pure_ok, bind_ok]
      by_cases h3 : (decide ((soaEntity.drop 4).length > 1)
          && decide ((soaEntity.drop 4).head? = some 'e')) = true
      · have hl3 : 1 ≤ (soaEntity.drop 4).length := by
          simp only [Bool.and_eq_true, decide_eq_true_eq] at h3
          omega
        simp only [h3, if_true, substrFrom, hl3, bind_ok]
      · simp only [h3, Bool.false_eq_true, if_false, bind_ok, pure_ok]

theorem contradictionExpr_wrapper (r : EntityResolver) (state : ContradictionState)
    (entity : Str) :
    contradictionExpr r state (markedWrapper entity)
      = .ok { state with
          idNotNotFalseEntities := state.idNotNotFalseEntities ++ [entity],
          contradictoryEntitiesByAction := groupStep state.contradictoryEntitiesByAction
            entity } := by
  simp [contradictionExpr, markedWrapper, markedExpr, forEach, contradictionElem, isComma,
    SExpr.isAtom, SExpr.isList, SExpr.asList, elemAt, metaIdTrue, getSymbol_atom,
    recordMarked, listAt, headedBy, extractBaseAction_eq, contradictionTopLevel, groupStep]

theorem forEach_wrappers (r : EntityResolver) : ∀ (entities : List Str)
    (state : ContradictionState),
    forEach (contradictionExpr r) (entities.map markedWrapper) state
      = .ok { state with
          idNotNotFalseEntities := state.idNotNotFalseEntities ++ entities,
          contradictoryEntitiesByAction :=
            entities.foldl groupStep state.contradictoryEntitiesByAction } := by
  intro entities
  induction entities with
  | nil => intro state; simp [forEach]
  | cons e rest ih =>
    intro state
    simp only [List.map_cons, forEach, contradictionExpr_wrapper, ih, List.foldl_cons]
    simp

theorem groupStep_group (groups : List (Str × List Str)) (entity : Str)
    (hs : groups.Pairwise (fun a b => strLt a.1 b.1 = true)) :
    (groupStep groups entity).Pairwise (fun a b => strLt a.1 b.1 = true) ∧
    ∀ key, (mapFind key (groupStep groups entity)).getD []
      = (mapFind key groups).getD [] ++ membersOf key [entity] := by
  unfold groupStep
  cases hk : (baseActionKey entity).isEmpty with
  | true =>
    have hnil : baseActionKey entity = [] := List.isEmpty_iff.mp hk
    refine ⟨by simpa using hs, fun key => ?_⟩
    cases key with
    | nil => simp [membersOf]
    | cons c cs => simp [membersOf, hnil]
  | false =>
    have hne : baseActionKey entity ≠ [] := by
      intro h
      rw [h] at hk
      cases hk
    refine ⟨by simpa [mapUpdate] using mapInsert_sorted _ _ _ hs, fun key => ?_⟩
    by_cases hkey : key = baseActionKey entity
    · subst hkey
      simp [mapUpdate, mapFind_mapInsert_self, membersOf, hk]
    · have hkey2 : ¬ baseActionKey entity = key := fun h => hkey h.symm
      simp [mapUpdate, mapFind_mapInsert_other _ _ _ _ hkey, membersOf, hkey2]

theorem foldl_groupStep : ∀ (entities : List Str) (groups : List (Str × List Str)),
    groups.Pairwise (fun a b => strLt a.1 b.1 = true) →
    (entities.foldl groupStep groups).Pairwise (fun a b => strLt a.1 b.1 = true) ∧
    ∀ key, (mapFind key (entities.foldl groupStep groups)).getD []
      = (mapFind key groups).getD [] ++ membersOf key entities := by
  intro entities
  induction entities with
  | nil => intro groups hs; exact ⟨hs, by simp [membersOf]⟩
  | cons e rest ih =>
    intro groups hs
    obtain ⟨hs1, hg1⟩ := groupStep_group groups e hs
    obtain ⟨hs2, hg2⟩ := ih (groupStep groups e) hs1
    refine ⟨hs2, fun key => ?_⟩
    rw [List.foldl_cons, hg2 key, hg1 key]
    simp only [membersOf, List.filter_cons, List.filter_nil, List.append_assoc]
    split <;> simp

theorem forEach_paymentContradiction (r : EntityResolver)
    (hr : ∀ x, ∃ s, resolve r x = .ok s) : ∀ (entities : List Str)
    (results : List LogicalContradiction),
    forEach (paymentContradiction r) entities results
      = .ok (results ++ entities.map (paymentOf r)) := by
  intro entities
  induction entities with
  | nil => intro results; simp [forEach]
  | cons e rest ih =>
    intro results
    have hstep : paymentContradiction r results e = .ok (results ++ [paymentOf r e]) := by
      simp [paymentContradiction, resolve_eq r hr, paymentOf, instrumentOf]
    simp only [forEach, hstep, ih, List.map_cons]
    simp

theorem paymentContradictions_eq (r : EntityResolver) (hr : ∀ x, ∃ s, resolve r x = .ok s)
    (entities : List Str) :
    paymentContradictions r [] entities
      = .ok (if arePaymentEntities entities then entities.map (paymentOf r) else []) := by
  unfold paymentContradictions arePaymentEntities
  cases he : entities.isEmpty with
  | true => simp
  | false =>
    simp only [Bool.not_false, if_true, Bool.true_and]
    split
    · rw [forEach_paymentContradiction r hr]
      simp
    · rfl

theorem actionGroupContradiction_eq (r : EntityResolver)
    (hr : ∀ x, ∃ s, resolve r x = .ok s) (results : List LogicalContradiction)
    (entry : Str × List Str) :
    actionGroupContradiction r results entry
      = .ok (results ++ (groupPairOf r entry.2).toList) := by
  unfold actionGroupContradiction groupPairOf
  split
  · simp only [resolve_eq r hr, bind_ok, pure_ok]
    split <;> simp
  · simp

theorem forEach_actionGroup (r : EntityResolver) (hr : ∀ x, ∃ s, resolve r x = .ok s) :
    ∀ (groups : List (Str × List Str)) (results : List LogicalContradiction),
    forEach (actionGroupContradiction r) groups results
      = .ok (results ++ groups.filterMap (fun entry => groupPairOf r entry.2)) := by
  intro groups
  induction groups with
  | nil => intro results; simp [forEach]
  | cons entry rest ih =>
    intro results
    simp only [forEach, actionGroupContradiction_eq r hr, ih, List.filterMap_cons]
    cases groupPairOf r entry.2 <;> simp

theorem findAll_wrappers (entities : List Str) :
    SExprMatcher.findAll (entities.map markedWrapper) notNotFalsePattern = [] := by
  unfold SExprMatcher.findAll
  apply List.filter_eq_nil_iff.mpr
  intro e he
  obtain ⟨entity, _, rfl⟩ := List.mem_map.mp he
  simp [markedWrapper, SExprMatcher.matches, notNotFalsePattern]

theorem findContradictions_wrappers (r : EntityResolver)
    (hr : ∀ x, ∃ s, resolve r x = .ok s) (entities : List Str) :
    findContradictions r (entities.map markedWrapper)
      = .ok ((if arePaymentEntities entities then entities.map (paymentOf r) else [])
          ++ (entities.foldl groupStep []).filterMap (fun entry => groupPairOf r entry.2)) := by
  unfold findContradictions
  rw [forEach_wrappers]
  simp only [bind_ok, List.nil_append, List.foldl_nil]
  have hp := paymentContradictions_eq r hr entities
  simp only [] at hp ⊢
  rw [hp]
  simp only [bind_ok, forEach_actionGroup r hr, findAll_wrappers, forEach, pure_ok,
    List.foldl_nil]

theorem groupPairOf_type (r : EntityResolver) (members : List Str) (c : LogicalContradiction)
    (h : groupPairOf r members = some c) : c.type = "action".toList := by
  unfold groupPairOf at h
  split at h
  · simp only [] at h
    split at h
    · injection h with h
      subst h
      rfl
    · cases h
  · cases h

theorem groupPairOf_length (r : EntityResolver) (members : List Str) (c : LogicalContradiction)
    (h : groupPairOf r members = some c) : members.length ≥ 2 := by
  unfold groupPairOf at h
  split at h
  · assumption
  · cases h

/-- C34 as stated fails: the marked entities `soa_epamINRS` and `soa_enpamINRS` both
contain `INRS`, so each yields a `payment_method` contradiction, and they also yield a
paired `"action"` contradiction, because they share the grouping key `pamINRS` and one
of them is negated. -/
theorem C34_counterexample :
    arePaymentEntities ["soa_epamINRS".toList, "soa_enpamINRS".toList] = true ∧
    findContradictions (loadDefaultMappings defaultSpecialCharMappings)
        [markedWrapper "soa_epamINRS".toList, markedWrapper "soa_enpamINRS".toList]
      = .ok [
          { positive := { entity := "epamINRS".toList, action := "pays in INRS".toList,
                          instrument := "INRS".toList, existsFlag := true },
            negative := { entity := "epamINRS".toList,
                          action := "does not pay in INRS".toList,
                          instrument := "INRS".toList, existsFlag := false },
            type := "payment_method".toList },
          { positive := { entity := "enpamINRS".toList, action := "pays in INRS".toList,
                          instrument := "INRS".toList, existsFlag := true },
            negative := { entity := "enpamINRS".toList,
                          action := "does not pay in INRS".toList,
                          instrument := "INRS".toList, existsFlag := false },
            type := "payment_method".toList },
          { positive := { entity := "epamINRS".toList, action := "_epamINRSs".toList },
            negative := { entity := "enpamINRS".toList,
                          action := "not _enpamINRSs".toList },
            type := "action".toList }] :=
  ⟨rfl, rfl⟩

/-- C34 (amended): when no special-character key of the resolver is empty, for marked
entities collected from wrappers `((meta-id E type rexist true) (id_not_not_false E))`
nested one level, `SemanticAnalyzer::findContradictions` emits first, when the list of
collected entities is non-empty and every one contains `"INRS"` or `"USDS"`, exactly
one contradiction per collected entity, in order, of kind `"payment_method"` with
positive action `"pays in <instrument>"` and negative action
`"does not pay in <instrument>"`, and none of that kind when some collected entity
contains neither substring; in both cases it then emits the `"action"` contradictions
of the groups: one for every grouping key whose group has two members or more and holds
both a negated and a non-negated entity. -/
theorem C34_payment_heuristic (r : EntityResolver)
    (hkeys : ∀ kv ∈ r.specialCharMappings, kv.1 ≠ []) (entities : List Str) :
    ∃ groups : List LogicalContradiction,
      findContradictions r (entities.map markedWrapper)
        = .ok ((if arePaymentEntities entities then entities.map (paymentOf r) else [])
            ++ groups) ∧
      (∀ c, c ∈ groups ↔ ∃ key, groupPairOf r (membersOf key entities) = some c) ∧
      (∀ c ∈ groups, c.type = "action".toList) ∧
      (∀ entity, (paymentOf r entity).type = "payment_method".toList ∧
        (paymentOf r entity).positive.action = "pays in ".toList ++ instrumentOf entity ∧
        (paymentOf r entity).negative.action
          = "does not pay in ".toList ++ instrumentOf entity) := by
  have hr := resolve_returns r hkeys
  obtain ⟨hsorted, hgroup⟩ := foldl_groupStep entities [] List.Pairwise.nil
  have hgroup1 : ∀ key, (mapFind key (entities.foldl groupStep [])).getD []
      = membersOf key entities := by
    intro key
    rw [hgroup key]
    simp [mapFind]
  refine ⟨_, findContradictions_wrappers r hr entities, ?_, ?_, fun _ => ⟨rfl, rfl, rfl⟩⟩
  · intro c
    rw [List.mem_filterMap]
    constructor
    · rintro ⟨⟨key, members⟩, hmem, hc⟩
      refine ⟨key, ?_⟩
      have := hgroup1 key
      rw [mapFind_of_mem key members _ hsorted hmem] at this
      simp only [Option.getD_some] at this
      rw [← this]
      exact hc
    · rintro ⟨key, hc⟩
      have hlen := groupPairOf_length r _ c hc
      have hg := hgroup1 key
      cases hfind : mapFind key (entities.foldl groupStep []) with
      | none =>
        rw [hfind] at hg
        simp only [Option.getD_none] at hg
        rw [← hg] at hlen
        simp at hlen
      | some members =>
        rw [hfind] at hg
        simp only [Option.getD_some] at hg
        rw [← hg] at hc
        exact ⟨(key, members), mem_of_mapFind key _ _ hfind, hc⟩
  · intro c hc
    obtain ⟨entry, _, hpair⟩ := List.mem_filterMap.mp hc
    exact groupPairOf_type r _ c hpair

theorem C34_payment_heuristic_witness :
    ∃ groups : List LogicalContradiction,
      findContradictions (loadDefaultMappings defaultSpecialCharMappings)
          (["soa_epamINRS".toList, "soa_epamUSDS".toList].map markedWrapper)
        = .ok ((if arePaymentEntities ["soa_epamINRS".toList, "soa_epamUSDS".toList] then
            ["soa_epamINRS".toList, "soa_epamUSDS".toList].map
              (paymentOf (loadDefaultMappings defaultSpecialCharMappings)) else [])
            ++ groups) ∧
      (∀ c, c ∈ groups ↔ ∃ key, groupPairOf (loadDefaultMappings defaultSpecialCharMappings)
        (membersOf key ["soa_epamINRS".toList, "soa_epamUSDS".toList]) = some c) ∧
      (∀ c ∈ groups, c.type = "action".toList) ∧
      (∀ entity,
        (paymentOf (loadDefaultMappings defaultSpecialCharMappings) entity).type
          = "payment_method".toList ∧
        (paymentOf (loadDefaultMappings defaultSpecialCharMappings) entity).positive.action
          = "pays in ".toList ++ instrumentOf entity ∧
        (paymentOf (loadDefaultMappings defaultSpecialCharMappings) entity).negative.action
          = "does not pay in ".toList ++ instrumentOf entity) :=
  C34_payment_heuristic (loadDefaultMappings defaultSpecialCharMappings) (by decide)
    ["soa_epamINRS".toList, "soa_epamUSDS".toList]

/-! ## Action contradictions from the `meta-id` form -/

theorem take4_ne_soa_e (entityName : Str) : entityName.take 4 ≠ "soa_e".toList := by
  intro h
  have := congrArg List.length h
  simp only [List.length_take, String.toList] at this
  simp at this
  omega

theorem actionContradiction_eq (r : EntityResolver) (hr : ∀ x, ∃ s, resolve r x = .ok s)
    (entityName : Str) :
    actionContradiction r entityName
      = .ok (if isNegatedEntity entityName then
          { negative := { entity := (r.resolveEntity entityName).getD [],
                          action := r.resolveAction entityName "present".toList },
            positive := { entity := (r.resolveEntity (getBaseForm entityName)).getD [],
                          action := r.resolveAction (getBaseForm entityName) "present".toList },
            type := "action".toList }
        else
          { positive := { entity := (r.resolveEntity entityName).getD [],
                          action := r.resolveAction entityName "present".toList },
            negative := { entity := (r.resolveEntity entityName).getD [],
                          action := "not ".toList
                            ++ r.resolveAction entityName "present".toList },
            type := "action".toList }) := by
  unfold actionContradiction
  simp only [resolve_eq r hr, bind_ok]
  cases hn : isNegatedEntity entityName with
  | true =>
    have hcond : (decide (entityName.length > 6)
        && decide (entityName.take 6 = "soa_en".toList)) = true := by
      simpa [isNegatedEntity] using hn
    have hlen : 6 ≤ entityName.length := by
      simp only [Bool.and_eq_true, decide_eq_true_eq] at hcond
      omega
    simp only [hcond, if_true, substrFrom, hlen, bind_ok, pure_ok, getBaseForm, hn,
      Bool.not_true, Bool.false_eq_true, if_false]
  | false =>
    have hcond : (decide (entityName.length > 6)
        && decide (entityName.take 6 = "soa_en".toList)) = false := by
      simpa [isNegatedEntity] using hn
    simp only [hcond, Bool.false_eq_true, if_false, take4_ne_soa_e, decide_False,
      Bool.and_false, pure_ok, bind_ok]

theorem findContradictions_topWrapper (r : EntityResolver)
    (hr : ∀ x, ∃ s, resolve r x = .ok s) (entity : Str) (rest : List SExpr) :
    ∃ c, actionContradiction r entity = .ok c ∧
      findContradictions r [topWrapper entity rest] = .ok [c] := by
  refine ⟨_, actionContradiction_eq r hr entity, ?_⟩
  have hc := actionContradiction_eq r hr entity
  cases rest with
  | nil =>
    simp [findContradictions, topWrapper, forEach, contradictionExpr, contradictionElem,
      isComma, SExpr.isAtom, SExpr.isList, SExpr.asList, elemAt, getSymbol_atom,
      getSymbol_list, contradictionTopLevel, headedBy, parseMetaContradiction,
      parseMetaIdBlock, listAt, hc, pushContradiction, paymentContradictions,
      SExprMatcher.findAll, SExprMatcher.matches, notNotFalsePattern, matchesLoop,
      sWildcard]
  | cons x xs =>
    simp [findContradictions, topWrapper, forEach, contradictionExpr, contradictionElem,
      isComma, SExpr.isAtom, SExpr.isList, SExpr.asList, elemAt, getSymbol_atom,
      getSymbol_list, contradictionTopLevel, headedBy, parseMetaContradiction,
      parseMetaIdBlock, listAt, hc, pushContradiction, paymentContradictions,
      SExprMatcher.findAll, SExprMatcher.matches, notNotFalsePattern, matchesLoop,
      sWildcard]

theorem groups_single (r : EntityResolver) (entity : Str) :
    (List.foldl groupStep [] [entity]).filterMap (fun entry => groupPairOf r entry.2) = [] := by
  simp only [List.foldl_cons, List.foldl_nil, groupStep]
  split
  · simp [mapUpdate, mapInsert, mapFind, groupPairOf]
  · rfl

/-- C32 as stated fails. Nested one level, the wrapper of `soa_exyz` yields no
contradiction at all (the entity is only recorded for the grouping). At top level it
yields a contradiction of kind `"action"`, but its negative entity is resolved from
`soa_exyz` itself (`exyz`), not from the negated form `soa_enxyz` (`enxyz`). -/
theorem C32_counterexample :
    findContradictions (loadDefaultMappings defaultSpecialCharMappings)
        [SExpr.list [topWrapper "soa_exyz".toList [SExpr.atom "soa_exyz".toList]]]
      = .ok [] ∧
    findContradictions (loadDefaultMappings defaultSpecialCharMappings)
        [topWrapper "soa_exyz".toList [SExpr.atom "soa_exyz".toList]]
      = .ok [{ positive := { entity := "exyz".toList, action := "_exyzs".toList },
               negative := { entity := "exyz".toList, action := "not _exyzs".toList },
               type := "action".toList }] ∧
    getNegatedForm "soa_exyz".toList = "soa_enxyz".toList ∧
    (loadDefaultMappings defaultSpecialCharMappings).resolveEntity "soa_enxyz".toList
      = some "enxyz".toList :=
  ⟨rfl, rfl, rfl, rfl⟩

/-- C32 (amended): when no special-character key of the resolver is empty, for every
entity atom `E` the top-level wrapper
`((meta-id E type rexist true) (id_not_not_false ...))` yields exactly one
contradiction, of kind `"action"`, whose positive side is resolved from the base form
of `E` (entity `resolveEntity(getBaseForm(E))`, action `resolveAction(getBaseForm(E))`);
for a negated `E = "soa_en" + X` its negative entity is `resolveEntity(E)`, the
resolution of the negated form. Nested one level, the wrapper yields no `"action"`
contradiction: the entity is recorded for the payment heuristic and the grouping, so a
lone wrapper yields nothing, or one `"payment_method"` contradiction when `E` contains
`"INRS"` or `"USDS"`. -/
theorem C32_action_contradiction (r : EntityResolver)
    (hkeys : ∀ kv ∈ r.specialCharMappings, kv.1 ≠ []) (entity : Str) (rest : List SExpr) :
    (∃ c, findContradictions r [topWrapper entity rest] = .ok [c] ∧
      c.type = "action".toList ∧
      c.positive.entity = (r.resolveEntity (getBaseForm entity)).getD [] ∧
      c.positive.action = r.resolveAction (getBaseForm entity) "present".toList ∧
      (isNegatedEntity entity = true →
        c.negative.entity = (r.resolveEntity (getNegatedForm entity)).getD [])) ∧
    findContradictions r [SExpr.list [topWrapper entity [SExpr.atom entity]]]
      = .ok (if arePaymentEntities [entity] then [paymentOf r entity] else []) := by
  have hr := resolve_returns r hkeys
  constructor
  · obtain ⟨c, hc, hfind⟩ := findContradictions_topWrapper r hr entity rest
    rw [actionContradiction_eq r hr] at hc
    injection hc with hc
    refine ⟨c, hfind, ?_⟩
    subst hc
    cases hn : isNegatedEntity entity with
    | true => simp [getNegatedForm, hn]
    | false => simp [getBaseForm, hn]
  · have h := findContradictions_wrappers r hr [entity]
    rw [groups_single] at h
    simpa [markedWrapper, markedExpr, topWrapper] using h

theorem C32_action_contradiction_witness :
    (∃ c, findContradictions (loadDefaultMappings defaultSpecialCharMappings)
        [topWrapper "soa_enxyz".toList [SExpr.atom "soa_enxyz".toList]] = .ok [c] ∧
      c.type = "action".toList ∧
      c.positive.entity = ((loadDefaultMappings defaultSpecialCharMappings).resolveEntity
        (getBaseForm "soa_enxyz".toList)).getD [] ∧
      c.positive.action = (loadDefaultMappings defaultSpecialCharMappings).resolveAction
        (getBaseForm "soa_enxyz".toList) "present".toList ∧
      (isNegatedEntity "soa_enxyz".toList = true →
        c.negative.entity = ((loadDefaultMappings defaultSpecialCharMappings).resolveEntity
          (getNegatedForm "soa_enxyz".toList)).getD [])) ∧
    findContradictions (loadDefaultMappings defaultSpecialCharMappings)
        [SExpr.list [topWrapper "soa_enxyz".toList [SExpr.atom "soa_enxyz".toList]]]
      = .ok (if arePaymentEntities ["soa_enxyz".toList] then
          [paymentOf (loadDefaultMappings defaultSpecialCharMappings) "soa_enxyz".toList]
        else []) :=
  C32_action_contradiction (loadDefaultMappings defaultSpecialCharMappings) (by decide)
    "soa_enxyz".toList [SExpr.atom "soa_enxyz".toList]

/-! ## Bare and wrapped forms -/

theorem forEach_map_congr {σ α : Type} (step : σ → α → Except Fault σ) (g : α → α)
    (l : List α) (h : ∀ s, ∀ e ∈ l, step s (g e) = step s e) :
    ∀ s, forEach step (l.map g) s = forEach step l s := by
  induction l with
  | nil => intro s; rfl
  | cons a rest ih =>
    intro s
    simp only [List.map_cons, forEach, h s a (List.mem_cons_self _ _)]
    cases step s a with
    | error f => rfl
    | ok next => exact ih (fun s e he => h s e (List.mem_cons_of_mem _ he)) next

theorem plainConflict_shape (e : SExpr) (h : isPlainConflict e = true) :
    ∃ a b, e = SExpr.list [SExpr.atom "conflict".toList, a, b] ∧
      isPlainArg a = true ∧ isPlainArg b = true := by
  cases e with
  | atom t => simp [isPlainConflict] at h
  | list l =>
    match l, h with
    | [head, a, b], h =>
      simp only [isPlainConflict, Bool.and_eq_true, decide_eq_true_eq] at h
      cases head with
      | atom t =>
        simp only [getSymbol_atom, Option.some.injEq] at h
        obtain ⟨⟨ht, ha⟩, hb⟩ := h
        subst ht
        exact ⟨a, b, rfl, ha, hb⟩
      | list hl => simp [getSymbol_list] at h
    | [], h => simp [isPlainConflict] at h
    | [_], h => simp [isPlainConflict] at h
    | [_, _], h => simp [isPlainConflict] at h
    | _ :: _ :: _ :: _ :: _, h => simp [isPlainConflict] at h

theorem collectTriple_plainArg (m : List (Str × List SExpr)) (a : SExpr)
    (h : isPlainArg a = true) : collectTriple m a = .ok m := by
  cases a with
  | atom t => simp [collectTriple, SExpr.isList]
  | list l =>
    match l, h with
    | [], _ => simp [collectTriple, SExpr.isList, SExpr.asList]
    | SExpr.list _ :: _, h => simp [isPlainArg] at h
    | SExpr.atom head :: rest, h =>
      simp only [isPlainArg, Bool.and_eq_true, Bool.not_eq_true', decide_eq_false_iff_not,
        String.toList] at h
      by_cases hlen : rest.length + 1 ≥ 4
      · simp [collectTriple, SExpr.isList, SExpr.asList, elemAt, getSymbol_atom, h.1, hlen]
      · simp [collectTriple, SExpr.isList, SExpr.asList, hlen]

theorem collectTriples_wrap (m : List (Str × List SExpr)) (e : SExpr)
    (h : isPlainConflict e = true) : collectTriples m (wrapExpr e) = collectTriples m e := by
  obtain ⟨a, b, rfl, ha, hb⟩ := plainConflict_shape e h
  have h0 := collectTriple_plainArg m (SExpr.atom "conflict".toList) rfl
  have h1 := collectTriple_plainArg m a ha
  have h2 := collectTriple_plainArg m b hb
  have he : collectTriple m (SExpr.list [SExpr.atom "conflict".toList, a, b]) = .ok m := by
    simp [collectTriple, SExpr.isList, SExpr.asList]
  simp only [collectTriples, wrapExpr, SExpr.isList, SExpr.asList, forEach, h0, h1, h2, he,
    Bool.not_true, Bool.false_eq_true, if_false, bind_ok]

theorem contradictionElem_plainArg (r : EntityResolver) (state : ContradictionState)
    (a : SExpr) (h : isPlainArg a = true) : contradictionElem r state a = .ok state := by
  cases a with
  | atom t =>
    by_cases hc : t = [',']
    · simp [contradictionElem, isComma, SExpr.isAtom, SExpr.asAtom, hc]
    · simp [contradictionElem, isComma, SExpr.isAtom, SExpr.asAtom, SExpr.isList, hc]
  | list l =>
    match l, h with
    | [], _ => simp [contradictionElem, isComma, SExpr.isAtom, SExpr.isList, SExpr.asList]
    | SExpr.list _ :: _, h => simp [isPlainArg] at h
    | [SExpr.atom head], _ =>
      simp [contradictionElem, isComma, SExpr.isAtom, SExpr.isList, SExpr.asList]
    | SExpr.atom head :: _ :: _, _ =>
      simp [contradictionElem, isComma, SExpr.isAtom, SExpr.isList, SExpr.asList, elemAt]

theorem contradictionExpr_wrap (r : EntityResolver) (state : ContradictionState) (e : SExpr)
    (h : isPlainConflict e = true) :
    contradictionExpr r state (wrapExpr e) = contradictionExpr r state e := by
  obtain ⟨a, b, rfl, ha, hb⟩ := plainConflict_shape e h
  have h0 := contradictionElem_plainArg r state (SExpr.atom "conflict".toList) rfl
  have h1 := contradictionElem_plainArg r state a ha
  have h2 := contradictionElem_plainArg r state b hb
  have he : contradictionElem r state (SExpr.list [SExpr.atom "conflict".toList, a, b])
      = .ok state := by
    simp [contradictionElem, isComma, SExpr.isAtom, SExpr.isList, SExpr.asList, elemAt]
  have ht1 : contradictionTopLevel r state
      (SExpr.list [SExpr.list [SExpr.atom "conflict".toList, a, b]])
      [SExpr.list [SExpr.atom "conflict".toList, a, b]] = .ok state := by
    simp [contradictionTopLevel]
  have ht2 : contradictionTopLevel r state (SExpr.list [SExpr.atom "conflict".toList, a, b])
      [SExpr.atom "conflict".toList, a, b] = .ok state := by
    simp [contradictionTopLevel, elemAt, SExpr.isList]
  simp only [contradictionExpr, wrapExpr, SExpr.isList, SExpr.asList, forEach, h0, h1, h2, he,
    ht1, ht2, Bool.not_true, Bool.false_eq_true, if_false, bind_ok]

theorem isConflictExpr_plainArg (a : SExpr) (h : isPlainArg a = true) :
    isConflictExpr a = false := by
  cases a with
  | atom t => rfl
  | list l =>
    match l, h with
    | [], _ => rfl
    | SExpr.list _ :: _, h => simp [isPlainArg] at h
    | [SExpr.atom head], _ => rfl
    | [SExpr.atom head, _], _ => rfl
    | SExpr.atom head :: _ :: _ :: _, h =>
      simp only [isPlainArg, Bool.and_eq_true, Bool.not_eq_true', decide_eq_false_iff_not,
        String.toList] at h
      simp [isConflictExpr, getSymbol_atom, h.2]

theorem conflictElem_skip (r : EntityResolver) (state : ConflictState) (a : SExpr)
    (h : isConflictExpr a = false) : conflictElem r state a = .ok state := by
  cases a with
  | atom t =>
    by_cases hc : t = [',']
    · simp [conflictElem, isComma, SExpr.isAtom, SExpr.asAtom, hc]
    · simp [conflictElem, isComma, SExpr.isAtom, SExpr.asAtom, SExpr.isList, hc]
  | list l =>
    have hp := parseConflictExpr_of_not_isConflictExpr r _ h
    simp [conflictElem, isComma, SExpr.isAtom, SExpr.isList, hp]

theorem conflictExpr_wrap (r : EntityResolver) (results : List RegulatoryConflict) (e : SExpr)
    (h : isPlainConflict e = true) :
    conflictExpr r results (wrapExpr e) = conflictExpr r results e := by
  obtain ⟨a, b, rfl, ha, hb⟩ := plainConflict_shape e h
  have h0 : ∀ st, conflictElem r st (SExpr.atom "conflict".toList) = .ok st :=
    fun st => conflictElem_skip r st _ rfl
  have h1 : ∀ st, conflictElem r st a = .ok st :=
    fun st => conflictElem_skip r st a (isConflictExpr_plainArg a ha)
  have h2 : ∀ st, conflictElem r st b = .ok st :=
    fun st => conflictElem_skip r st b (isConflictExpr_plainArg b hb)
  have hw : parseConflictExpr r (SExpr.list [SExpr.list [SExpr.atom "conflict".toList, a, b]])
      = .ok none := parseConflictExpr_of_not_isConflictExpr r _ rfl
  have he : ∀ st, conflictElem r st (SExpr.list [SExpr.atom "conflict".toList, a, b])
      = (parseConflictExpr r (SExpr.list [SExpr.atom "conflict".toList, a, b]) >>= fun c =>
          match c with
          | some c => pure { results := st.results ++ [c], foundConflictInList := true }
          | none => pure st) := by
    intro st
    simp [conflictElem, isComma, SExpr.isAtom, SExpr.isList]
  simp only [conflictExpr, wrapExpr, SExpr.isList, SExpr.asList, forEach, h0, h1, h2, he, hw,
    Bool.not_true, Bool.false_eq_true, if_false, bind_ok, List.length_cons, List.length_nil]
  cases hp : parseConflictExpr r (SExpr.list [SExpr.atom "conflict".toList, a, b]) with
  | error f => simp
  | ok c =>
    cases c with
    | none =>
      simp only [String.toList] at hp
      simp [listAt, elemAt, SExpr.isList, SExpr.asList, hp]
    | some c => simp

theorem violationExpr_wrap (r : EntityResolver) (results : List NecessaryViolation) (e : SExpr)
    (h : notSingleton e = true) :
    violationExpr r results (wrapExpr e) = violationExpr r results e := by
  have hw : parseViolationExpr r (SExpr.list [e]) = .ok none :=
    parseViolationExpr_of_not_isViolationExpr r _ rfl
  cases e with
  | atom t =>
    simp [violationExpr, wrapExpr, SExpr.isList, SExpr.asList, listAt, elemAt, hw]
  | list l =>
    have hlen : l.length ≠ 1 := by
      intro hl
      match l, hl with
      | [_], _ => simp [notSingleton] at h
    simp only [violationExpr, wrapExpr, SExpr.isList, SExpr.asList, listAt, elemAt,
      List.length_cons, List.length_nil, Bool.not_true, Bool.false_eq_true, if_false, bind_ok,
      hlen, zero_add, if_true, gt_iff_lt, Nat.lt_one_iff, pure_ok, hw, Nat.zero_lt_one]

theorem tupleCompliance_wrap (r : EntityResolver) (results : List ComplianceRelation)
    (e : SExpr) (h : isPlainConflict e = true) :
    tupleCompliance r results (wrapExpr e) = tupleCompliance r results e := by
  obtain ⟨a, b, rfl, _, _⟩ := plainConflict_shape e h
  simp [tupleCompliance, wrapExpr, SExpr.isList, SExpr.asList, wrappedPair, barePair, listAt,
    elemAt]

theorem findAll_plainConflicts (es : List SExpr) (h : ∀ e ∈ es, isPlainConflict e = true)
    (pattern : List Str)
    (hp : pattern = notNotFalsePattern ∨ pattern = compliancePattern) :
    SExprMatcher.findAll (es.map wrapExpr) pattern = [] ∧
    SExprMatcher.findAll es pattern = [] := by
  unfold SExprMatcher.findAll
  constructor
  · apply List.filter_eq_nil_iff.mpr
    intro e he
    obtain ⟨e0, _, rfl⟩ := List.mem_map.mp he
    rcases hp with rfl | rfl <;>
      simp [wrapExpr, SExprMatcher.matches, notNotFalsePattern, compliancePattern]
  · apply List.filter_eq_nil_iff.mpr
    intro e he
    obtain ⟨a, b, rfl, _, _⟩ := plainConflict_shape e (h e he)
    rcases hp with rfl | rfl <;>
      simp [SExprMatcher.matches, notNotFalsePattern, compliancePattern, matchesLoop,
        sWildcard, getSymbol_atom]

theorem notSingleton_of_plainConflict (e : SExpr) (h : isPlainConflict e = true) :
    notSingleton e = true := by
  obtain ⟨a, b, rfl, _, _⟩ := plainConflict_shape e h
  rfl

theorem findViolations_wrap (r : EntityResolver) (es : List SExpr)
    (h : ∀ e ∈ es, notSingleton e = true) :
    findViolations r (es.map wrapExpr) = findViolations r es := by
  unfold findViolations
  exact forEach_map_congr _ _ _ (fun s e he => violationExpr_wrap r s e (h e he)) _

theorem classify_wrap (r : EntityResolver) (es : List SExpr)
    (h : ∀ e ∈ es, isPlainConflict e = true) :
    classify r (es.map wrapExpr) = classify r es := by
  have h1 : extractStateOfAffairs r (es.map wrapExpr) = extractStateOfAffairs r es := by
    unfold extractStateOfAffairs
    rw [forEach_map_congr _ _ _ (fun s e he => collectTriples_wrap s e (h e he))]
  have h2 : findContradictions r (es.map wrapExpr) = findContradictions r es := by
    unfold findContradictions
    rw [forEach_map_congr _ _ _ (fun s e he => contradictionExpr_wrap r s e (h e he)),
      (findAll_plainConflicts es h _ (Or.inl rfl)).1,
      (findAll_plainConflicts es h _ (Or.inl rfl)).2]
  have h3 : findConflicts r (es.map wrapExpr) = findConflicts r es := by
    unfold findConflicts
    exact forEach_map_congr _ _ _ (fun s e he => conflictExpr_wrap r s e (h e he)) _
  have h4 := findViolations_wrap r es (fun e he => notSingleton_of_plainConflict e (h e he))
  have h5 : findCompliances r (es.map wrapExpr) = findCompliances r es := by
    unfold findCompliances
    simp only [(findAll_plainConflicts es h _ (Or.inr rfl)).1,
      (findAll_plainConflicts es h _ (Or.inr rfl)).2, forEach, bind_ok]
    exact forEach_map_congr _ _ _ (fun s e he => tupleCompliance_wrap r s e (h e he)) _
  unfold classify
  rw [h1, h2, h3, h4, h5]

theorem analyze_of_parseMultiple (r : EntityResolver) (text : Str) (es : List SExpr)
    (h : parseMultiple text = .ok es) : analyze r text = classify r es := by
  simp [analyze, analyzeExpressions, h]

/-- C36 as stated fails for triple lists and for `is_complied_with_by`: the bare triples
of `soa_x` yield no Proposition and the wrapped ones yield `(soa_x, "pay")`; the bare
`(is_complied_with_by o x)` yields a compliance and the wrapped one yields none. -/
theorem C36_counterexample :
    analyze (loadDefaultMappings defaultSpecialCharMappings)
        "(triple soa_x type rexist) (triple soa_x type soaPay)".toList = .ok {} ∧
    analyze (loadDefaultMappings defaultSpecialCharMappings)
        "[(triple soa_x type rexist)] [(triple soa_x type soaPay)]".toList
      = .ok { inferredFacts := [{ entity := "soa_x".toList, action := "pay".toList }] } ∧
    analyze (loadDefaultMappings defaultSpecialCharMappings)
        "(is_complied_with_by o x)".toList
      = .ok { compliances := [{ obligation := "o".toList, entity := "x".toList,
                                fulfilledBy := "action".toList }] } ∧
    analyze (loadDefaultMappings defaultSpecialCharMappings)
        "[(is_complied_with_by o x)]".toList = .ok {} :=
  ⟨rfl, rfl, rfl, rfl⟩

/-- C36 (amended): for every text made of top-level conflict expressions
`(conflict A B)` whose arguments are atoms or calls headed by an atom other than
`triple` and `conflict`, `SemanticAnalyzer::analyze` returns the same propositions,
contradictions, conflicts, violations and compliances for the text `"E1 ... En"` and
for the text `"[E1] ... [En]"` in which each expression is wrapped in its own
one-element list; and for every text whose top-level expressions are not one-element
lists, in particular quote expressions `(quote (V R))`, the violations are the same for
the bare and the wrapped text. Triple lists are read only when wrapped and
`is_complied_with_by` expressions only when bare. -/
theorem C36_bare_and_wrapped (r : EntityResolver) (bare wrapped : Str) (es : List SExpr)
    (hbare : parseMultiple bare = .ok es)
    (hwrapped : parseMultiple wrapped = .ok (es.map wrapExpr)) :
    ((∀ e ∈ es, isPlainConflict e = true) → analyze r wrapped = analyze r bare) ∧
    ((∀ e ∈ es, notSingleton e = true) →
      findViolations r (analyzeExpressions wrapped)
        = findViolations r (analyzeExpressions bare)) := by
  constructor
  · intro h
    rw [analyze_of_parseMultiple r _ _ hbare, analyze_of_parseMultiple r _ _ hwrapped]
    exact classify_wrap r es h
  · intro h
    simp only [analyzeExpressions, hbare, hwrapped]
    exact findViolations_wrap r es h

theorem C36_bare_and_wrapped_witness :
    (isPlainConflict (SExpr.list [SExpr.atom "conflict".toList,
        SExpr.atom "not_opt".toList, SExpr.atom "soa_elam".toList]) = true ∧
      isPlainConflict (SExpr.list [SExpr.atom "conflict".toList,
        SExpr.list [SExpr.atom "inrs-prohibited-id".toList, SExpr.atom "soa_x".toList],
        SExpr.list [SExpr.atom "inrs-only-id".toList, SExpr.atom "soa_y".toList]]) = true) ∧
    analyze (loadDefaultMappings defaultSpecialCharMappings)
        "[(conflict not_opt soa_elam)] [(conflict (inrs-prohibited-id soa_x) (inrs-only-id soa_y))]".toList
      = analyze (loadDefaultMappings defaultSpecialCharMappings)
        "(conflict not_opt soa_elam) (conflict (inrs-prohibited-id soa_x) (inrs-only-id soa_y))".toList :=
  ⟨⟨rfl, rfl⟩,
   (C36_bare_and_wrapped (loadDefaultMappings defaultSpecialCharMappings)
      "(conflict not_opt soa_elam) (conflict (inrs-prohibited-id soa_x) (inrs-only-id soa_y))".toList
      "[(conflict not_opt soa_elam)] [(conflict (inrs-prohibited-id soa_x) (inrs-only-id soa_y))]".toList
      [SExpr.list [SExpr.atom "conflict".toList,
        SExpr.atom "not_opt".toList, SExpr.atom "soa_elam".toList],
       SExpr.list [SExpr.atom "conflict".toList,
        SExpr.list [SExpr.atom "inrs-prohibited-id".toList, SExpr.atom "soa_x".toList],
        SExpr.list [SExpr.atom "inrs-only-id".toList, SExpr.atom "soa_y".toList]]]
      rfl rfl).1 (by
        intro e he
        simp only [List.mem_cons, List.mem_singleton, List.not_mem_nil, or_false] at he
        rcases he with rfl | rfl <;> rfl)⟩

/-! ## The key sets of an extracted document -/

theorem objectText_ne_nil {o : Str} (h : ObjectText o) : o ≠ [] := by
  rcases h with h | ⟨l, _, rfl⟩
  · intro hnil
    subst hnil
    simp [isAtomText] at h
  · simp [SExpr.toString]

theorem mapUpdate_mem {α : Type} (key : Str) (dflt : α) (f : α → α) (m : List (Str × α))
    (entry : Str × α) (h : entry ∈ mapUpdate key dflt f m) : entry.1 = key ∨ entry ∈ m := by
  unfold mapUpdate at h
  rcases mapInsert_mem _ _ _ _ h with h | h
  · exact Or.inl (by rw [h])
  · exact Or.inr h

theorem addEntity_keysApart (soa : MettaInference.StateOfAffairs) (t : Triple)
    (h : KeysApart soa) : KeysApart (addEntity soa t) := by
  unfold addEntity
  cases hpe : parseEntity t with
  | none => exact h
  | some entity =>
    refine ⟨h.1, ?_⟩
    intro entry hentry
    rcases mapInsert_mem _ _ _ _ hentry with he | he
    · unfold parseEntity at hpe
      split at hpe
      · cases hpe
      · split at hpe
        · cases hpe
        · rename_i hne
          injection hpe with hpe
          subst hpe
          rw [he]
          exact hne
    · exact h.2 entry he

theorem setEventuality_keysApart (soa : MettaInference.StateOfAffairs) (key : Str)
    (f : Eventuality → Eventuality) (hkey : key.take 5 = "soa_e".toList) (h : KeysApart soa) :
    KeysApart (setEventuality soa key f) := by
  refine ⟨?_, h.2⟩
  intro entry hentry
  rcases mapUpdate_mem _ _ _ _ _ hentry with he | he
  · rw [he]; exact hkey
  · exact h.1 entry he

theorem insertFresh_keysApart (soa : MettaInference.StateOfAffairs) (key : Str)
    (fresh : Eventuality) (hkey : key.take 5 = "soa_e".toList) (h : KeysApart soa) :
    KeysApart { soa with eventualities := mapInsert key fresh soa.eventualities } := by
  refine ⟨?_, h.2⟩
  intro entry hentry
  rcases mapInsert_mem _ _ _ _ hentry with he | he
  · rw [he]; exact hkey
  · exact h.1 entry he

theorem addEventuality_keysApart (soa : MettaInference.StateOfAffairs) (t : Triple)
    (h : KeysApart soa) : KeysApart (addEventuality soa t) := by
  unfold addEventuality
  by_cases hsub : t.subject.take 5 = "soa_e".toList
  · rw [if_pos hsub]
    simp only
    split_ifs <;>
      first
        | exact setEventuality_keysApart _ _ _ hsub (insertFresh_keysApart _ _ _ hsub h)
        | exact setEventuality_keysApart _ _ _ hsub h
        | exact insertFresh_keysApart _ _ _ hsub h
        | exact h
  · rw [if_neg hsub]
    exact h

theorem addEntityProperty_keysApart (soa : MettaInference.StateOfAffairs) (t : Triple)
    (h : KeysApart soa) : KeysApart (addEntityProperty soa t) := by
  unfold addEntityProperty
  simp only
  split_ifs with h1 h2 h3
  · refine ⟨h.1, ?_⟩
    intro entry hentry
    simp only at hentry
    rcases mapUpdate_mem _ _ _ _ _ hentry with he | he
    · obtain ⟨v, hv⟩ := Option.isSome_iff_exists.mp h2
      have := h.2 _ (mem_of_mapFind _ _ _ hv)
      rw [he]
      exact this
    · exact h.2 entry he
  · exact h
  · exact h
  · exact h

theorem processTriple_keysApart (soa : MettaInference.StateOfAffairs) (t : Triple)
    (h : KeysApart soa) : KeysApart (processTriple soa t) := by
  unfold processTriple
  apply addEntityProperty_keysApart
  apply addEventuality_keysApart
  apply addEntity_keysApart
  exact h

theorem processExpr_keysApart (uninit : LogicalExpressionType)
    (soa : MettaInference.StateOfAffairs) (e : SExpr) (h : KeysApart soa) :
    KeysApart (processExpr uninit soa e) := by
  cases e with
  | atom a => exact h
  | list l =>
    cases l with
    | nil => exact h
    | cons head tl =>
      simp only [processExpr]
      cases head.getSymbol with
      | none => exact h
      | some first =>
        simp only
        split
        · split
          · exact processTriple_keysApart _ _ h
          · exact h
        · split
          · split
            · exact h
            · exact h
          · split
            · split
              · exact h
              · exact h
            · exact h

theorem processLoop_keysApart (uninit : LogicalExpressionType) (es : List SExpr) :
    ∀ soa : MettaInference.StateOfAffairs, KeysApart soa →
      KeysApart (es.foldl (processExpr uninit) soa) := by
  induction es with
  | nil => intro soa h; exact h
  | cons e rest ih =>
    intro soa h
    exact ih _ (processExpr_keysApart uninit soa e h)

theorem validateEntities_loop (soa : MettaInference.StateOfAffairs) :
    ∀ (entries : List (Str × Entity)) (st : List Str × Bool),
    (∀ entry ∈ entries, entry.2.type ≠ [] ∧ mapFind entry.1 soa.eventualities = none) →
    entries.foldl (validateEntityStep soa) st = st := by
  intro entries
  induction entries with
  | nil => intro st _; rfl
  | cons entry rest ih =>
    intro st h
    obtain ⟨ht, hf⟩ := h entry (List.mem_cons_self _ _)
    have hstep : validateEntityStep soa st entry = st := by
      have hte : entry.2.type.isEmpty = false := by
        cases hty : entry.2.type with
        | nil => exact absurd hty ht
        | cons c cs => rfl
      simp [validateEntityStep, hte, hf]
    rw [List.foldl_cons, hstep]
    exact ih st (fun x hx => h x (List.mem_cons_of_mem _ hx))

theorem mapFind_none_of_keys {α : Type} (key : Str) (m : List (Str × α))
    (h : ∀ entry ∈ m, entry.1 ≠ key) : mapFind key m = none := by
  cases hf : mapFind key m with
  | none => rfl
  | some v => exact absurd rfl (h _ (mem_of_mapFind _ _ _ hf))

/-- C38: for every input text, the document returned by
`KnowledgeIO::extractStateOfAffairsFromMetta` has disjoint key sets for entities and
eventualities (every eventuality key starts with `"soa_e"`, no entity key does, so no
entity name is found among the eventualities) and every entity has a non-empty type;
hence `StateOfAffairs::validateEntities` on that result returns `true` and appends no
message. -/
theorem C38_validateEntities_of_extract (uninit : LogicalExpressionType) (text : Str)
    (errors : List Str) :
    (∀ entry ∈ (extractStateOfAffairsFromMetta uninit text).eventualities,
      entry.1.take 5 = "soa_e".toList) ∧
    (∀ entry ∈ (extractStateOfAffairsFromMetta uninit text).entities,
      entry.1.take 5 ≠ "soa_e".toList ∧
      mapFind entry.1 (extractStateOfAffairsFromMetta uninit text).eventualities = none ∧
      entry.2.type ≠ []) ∧
    (extractStateOfAffairsFromMetta uninit text).validateEntities errors = (true, errors) := by
  have hok := extract_ok uninit text
  have hkeys : KeysApart (extractStateOfAffairsFromMetta uninit text) := by
    obtain ⟨es, d, _, heq⟩ := extract_eq_processLoop uninit text
    rw [heq]
    exact processLoop_keysApart uninit es _ ⟨by simp, by simp⟩
  have hent : ∀ entry ∈ (extractStateOfAffairsFromMetta uninit text).entities,
      entry.1.take 5 ≠ "soa_e".toList ∧
      mapFind entry.1 (extractStateOfAffairsFromMetta uninit text).eventualities = none ∧
      entry.2.type ≠ [] := by
    intro entry hentry
    refine ⟨hkeys.2 entry hentry, ?_, objectText_ne_nil (hok.2.2.2 entry hentry).2.1⟩
    apply mapFind_none_of_keys
    intro ev hev heq
    have h1 := hkeys.1 ev hev
    rw [heq] at h1
    exact hkeys.2 entry hentry h1
  refine ⟨hkeys.1, hent, ?_⟩
  unfold StateOfAffairs.validateEntities
  simp only
  rw [validateEntities_loop _ _ _ (fun entry hentry =>
    ⟨(hent entry hentry).2.2, (hent entry hentry).2.1⟩)]

/-! ## The order of the special-character replacements -/

theorem replaceScan_skip (fromText toText : Str) : ∀ (s : Str) (k : Nat),
    replaceScan fromText toText s k = replaceAll fromText toText (s.drop k) := by
  intro s
  induction s with
  | nil => intro k; cases k <;> simp [replaceScan, replaceAll]
  | cons c cs ih =>
    intro k
    cases k with
    | zero => simp [replaceAll]
    | succ k => simp only [replaceScan, List.drop_succ_cons]; exact ih k

theorem replaceAll_nil (fromText toText : Str) : replaceAll fromText toText [] = [] := rfl

theorem replaceAll_at_match (fromText toText s : Str) (hne : fromText ≠ [])
    (h : fromText.isPrefixOf s = true) :
    replaceAll fromText toText s
      = toText ++ replaceAll fromText toText (s.drop fromText.length) := by
  cases s with
  | nil =>
    cases fromText with
    | nil => exact absurd rfl hne
    | cons a as => simp [List.isPrefixOf] at h
  | cons c cs =>
    have hdrop : (c :: cs).drop fromText.length = cs.drop (fromText.length - 1) := by
      obtain ⟨n, hn⟩ : ∃ n, fromText.length = n + 1 :=
        ⟨fromText.length - 1, by have := List.length_pos.mpr hne; omega⟩
      rw [hn]
      simp
    rw [hdrop]
    show replaceScan fromText toText (c :: cs) 0 = _
    simp only [replaceScan, h, if_true, replaceScan_skip]

theorem replaceAll_cons (fromText toText : Str) (c : Char) (cs : Str)
    (h : fromText.isPrefixOf (c :: cs) = false) :
    replaceAll fromText toText (c :: cs) = c :: replaceAll fromText toText cs := by
  simp [replaceAll, replaceScan, h]

theorem strFind_none_replaceAll (fromText toText : Str) :
    ∀ (s : Str) (pos : Nat), strFind fromText s pos = none →
      replaceAll fromText toText s = s := by
  intro s
  induction s with
  | nil => intro pos _; rfl
  | cons c cs ih =>
    intro pos h
    simp only [strFind] at h
    split at h
    · cases h
    · rename_i hp
      rw [replaceAll_cons _ _ _ _ ((Bool.not_eq_true _).mp hp), ih _ h]

theorem strFind_some_replaceAll (fromText toText : Str) (hne : fromText ≠ []) :
    ∀ (s : Str) (pos found : Nat), strFind fromText s pos = some found →
      pos ≤ found ∧ found - pos + fromText.length ≤ s.length ∧
      replaceAll fromText toText s
        = s.take (found - pos) ++ toText
          ++ replaceAll fromText toText (s.drop (found - pos + fromText.length)) := by
  intro s
  induction s with
  | nil =>
    intro pos found h
    cases fromText with
    | nil => exact absurd rfl hne
    | cons a as => simp [strFind] at h
  | cons c cs ih =>
    intro pos found h
    simp only [strFind] at h
    split at h
    · rename_i hp
      injection h with h
      subst h
      have hle : fromText.length ≤ (c :: cs).length :=
        (List.IsPrefix.length_le (List.isPrefixOf_iff_prefix.mp hp))
      refine ⟨le_refl _, by simpa using hle, ?_⟩
      rw [replaceAll_at_match _ _ _ hne hp]
      simp
    · rename_i hp
      obtain ⟨h1, h2, h3⟩ := ih _ _ h
      have hk : found - pos = (found - (pos + 1)) + 1 := by omega
      refine ⟨by omega, by simp only [List.length_cons]; omega, ?_⟩
      rw [replaceAll_cons _ _ _ _ ((Bool.not_eq_true _).mp hp), h3, hk]
      simp [Nat.add_right_comm]


theorem replaceLoop_eq (fromText toText : Str) (hne : fromText ≠ []) :
    ∀ (fuel : Nat) (result : Str) (pos : Nat), pos ≤ result.length →
      result.length - pos < fuel →
      replaceLoop fromText toText fuel result pos
        = some (result.take pos ++ replaceAll fromText toText (result.drop pos)) := by
  have hlen := List.length_pos.mpr hne
  intro fuel
  induction fuel with
  | zero => intro result pos _ h; omega
  | succ n ih =>
    intro result pos hpos hfuel
    simp only [replaceLoop, strFindFrom, hpos, if_true]
    cases hf : strFind fromText (result.drop pos) pos with
    | none =>
      simp only
      rw [strFind_none_replaceAll _ _ _ _ hf, List.take_append_drop]
    | some found =>
      simp only
      obtain ⟨h1, h2, h3⟩ := strFind_some_replaceAll fromText toText hne _ _ _ hf
      rw [List.length_drop] at h2
      have htake : (result.take found).length = found := by
        rw [List.length_take]
        omega
      have hA : (result.take found ++ toText).length = found + toText.length := by
        rw [List.length_append, htake]
      have hres : strReplace result found fromText.length toText
          = (result.take found ++ toText) ++ result.drop (found + fromText.length) := by
        simp [strReplace]
      rw [hres, ih _ _ (by rw [List.length_append, hA]; omega)
        (by rw [List.length_append, hA, List.length_drop]; omega)]
      rw [← hA, List.take_left, List.drop_left, h3]
      have hk : found = pos + (found - pos) := by omega
      have e1 : result.take found
          = result.take pos ++ (result.drop pos).take (found - pos) := by
        conv_lhs => rw [hk]
        exact List.take_add _ _ _
      have e2 : (result.drop pos).drop (found - pos + fromText.length)
          = result.drop (found + fromText.length) := by
        rw [List.drop_drop]
        congr 1
        omega
      rw [e1, e2]
      simp
theorem notPrefix_of_head (fromText : Str) (hne : fromText ≠ []) (x : Char) (s : Str)
    (h : fromText.head? ≠ some x) : fromText.isPrefixOf (x :: s) = false := by
  cases fromText with
  | nil => exact absurd rfl hne
  | cons a as =>
    have hax : a ≠ x := fun hc => h (by simp [hc])
    simp [List.isPrefixOf, hax]

theorem replaceAll_keep (fromText toText : Str) (hne : fromText ≠ []) :
    ∀ (p rest : Str), (∀ x ∈ p, fromText.head? ≠ some x) →
      replaceAll fromText toText (p ++ rest) = p ++ replaceAll fromText toText rest := by
  intro p
  induction p with
  | nil => intro rest _; rfl
  | cons x xs ih =>
    intro rest hp
    rw [List.cons_append, replaceAll_cons _ _ _ _
      (notPrefix_of_head fromText hne x _ (hp x (List.mem_cons_self _ _))),
      ih rest (fun y hy => hp y (List.mem_cons_of_mem _ hy))]
    rfl

theorem isPrefixOf_replaceAll (fromText toText : Str) (hne : fromText ≠ [])
    (hto : toText ≠ []) :
    ∀ (p s : Str), (∀ x ∈ p, fromText.head? ≠ some x ∧ toText.head? ≠ some x) →
      p.isPrefixOf (replaceAll fromText toText s) = p.isPrefixOf s := by
  intro p
  induction p with
  | nil => intro s _; simp [List.isPrefixOf]
  | cons x xs ih =>
    intro s hp
    obtain ⟨hx1, hx2⟩ := hp x (List.mem_cons_self _ _)
    cases s with
    | nil => rfl
    | cons d ds =>
      cases hpre : fromText.isPrefixOf (d :: ds) with
      | true =>
        rw [replaceAll_at_match _ _ _ hne hpre]
        cases fromText with
        | nil => exact absurd rfl hne
        | cons a as =>
          cases toText with
          | nil => exact absurd rfl hto
          | cons t0 tt =>
            have hxa : x ≠ a := fun hc => hx1 (by simp [hc])
            have hxt : x ≠ t0 := fun hc => hx2 (by simp [hc])
            have had : a = d := by
              simp only [List.isPrefixOf, Bool.and_eq_true, beq_iff_eq] at hpre
              exact hpre.1
            subst had
            have hb1 : (x == t0) = false := by simpa using hxt
            have hb2 : (x == a) = false := by simpa using hxa
            simp only [List.cons_append, List.isPrefixOf, hb1, hb2, Bool.false_and]
      | false =>
        rw [replaceAll_cons _ _ _ _ hpre]
        simp only [List.isPrefixOf]
        rw [ih ds (fun y hy => hp y (List.mem_cons_of_mem _ hy))]

/-- The key `"AERSK"` and its replacement. -/
theorem noAERSK_after (t : Str) :
    "AERSK".toList.isPrefixOf (replaceAll "AERSK".toList (sAE ++ "RSK".toList) t) = false := by
  cases hpre : "AERSK".toList.isPrefixOf t with
  | true =>
    rw [replaceAll_at_match _ _ _ (by decide) hpre]
    rfl
  | false =>
    cases t with
    | nil => rfl
    | cons d ds =>
      rw [replaceAll_cons _ _ _ _ hpre]
      have hE := isPrefixOf_replaceAll "AERSK".toList (sAE ++ "RSK".toList) (by decide)
        (by decide) "ERSK".toList ds (by decide)
      have h1 : "AERSK".toList.isPrefixOf (d :: ds)
          = (('A' == d) && "ERSK".toList.isPrefixOf ds) := rfl
      have h2 : "AERSK".toList.isPrefixOf
          (d :: replaceAll "AERSK".toList (sAE ++ "RSK".toList) ds)
          = (('A' == d) && "ERSK".toList.isPrefixOf
              (replaceAll "AERSK".toList (sAE ++ "RSK".toList) ds)) := rfl
      rw [h2, hE, ← h1, hpre]

theorem replaceAll_append_match (fromText toText rest : Str) (hne : fromText ≠ []) :
    replaceAll fromText toText (fromText ++ rest)
      = toText ++ replaceAll fromText toText rest := by
  rw [replaceAll_at_match _ _ _ hne (List.isPrefixOf_iff_prefix.mpr (List.prefix_append _ _)),
    List.drop_left]

theorem replace_MAERSK_then_AERSK : ∀ (n : Nat) (s : Str), s.length = n →
    replaceAll "AERSK".toList (sAE ++ "RSK".toList) (replaceAll "MAERSK".toList sMAERSK s)
      = replaceAll "AERSK".toList (sAE ++ "RSK".toList) s := by
  intro n
  induction n using Nat.strong_induction_on with
  | _ n ih =>
    intro s hn
    cases hA : "AERSK".toList.isPrefixOf s with
    | true =>
      obtain ⟨rest, rfl⟩ := List.isPrefixOf_iff_prefix.mp hA
      have hlt : rest.length < n := by
        rw [← hn, List.length_append]
        have : "AERSK".toList.length = 5 := rfl
        omega
      rw [replaceAll_keep "MAERSK".toList sMAERSK (by decide) "AERSK".toList _ (by decide),
        replaceAll_append_match _ _ _ (by decide),
        replaceAll_append_match _ _ _ (by decide), ih _ hlt _ rfl]
    | false =>
      cases hM : "MAERSK".toList.isPrefixOf s with
      | true =>
        obtain ⟨rest, rfl⟩ := List.isPrefixOf_iff_prefix.mp hM
        have hlt : rest.length < n := by
          rw [← hn, List.length_append]
          have : "MAERSK".toList.length = 6 := rfl
          omega
        rw [replaceAll_append_match _ _ _ (by decide),
          replaceAll_keep "AERSK".toList (sAE ++ "RSK".toList) (by decide) sMAERSK _ (by decide),
          ih _ hlt _ rfl]
        have hsplit : "MAERSK".toList ++ rest = ['M'] ++ ("AERSK".toList ++ rest) := rfl
        rw [hsplit,
          replaceAll_keep "AERSK".toList (sAE ++ "RSK".toList) (by decide) ['M'] _ (by decide),
          replaceAll_append_match _ _ _ (by decide)]
        rfl
      | false =>
        cases s with
        | nil => rfl
        | cons c cs =>
          have hpres := isPrefixOf_replaceAll "MAERSK".toList sMAERSK (by decide) (by decide)
            "AERSK".toList (c :: cs) (by decide)
          rw [replaceAll_cons _ _ _ _ hM] at hpres ⊢
          rw [replaceAll_cons _ _ _ _ (hpres.trans hA), replaceAll_cons _ _ _ _ hA,
            ih cs.length (by rw [← hn]; simp) cs rfl]

theorem replace_AERSK_then_MAERSK : ∀ (n : Nat) (s : Str), s.length = n →
    replaceAll "MAERSK".toList sMAERSK (replaceAll "AERSK".toList (sAE ++ "RSK".toList) s)
      = replaceAll "AERSK".toList (sAE ++ "RSK".toList) s := by
  intro n
  induction n using Nat.strong_induction_on with
  | _ n ih =>
    intro s hn
    cases hA : "AERSK".toList.isPrefixOf s with
    | true =>
      obtain ⟨rest, rfl⟩ := List.isPrefixOf_iff_prefix.mp hA
      have hlt : rest.length < n := by
        rw [← hn, List.length_append]
        have : "AERSK".toList.length = 5 := rfl
        omega
      rw [replaceAll_append_match _ _ _ (by decide),
        replaceAll_keep "MAERSK".toList sMAERSK (by decide) (sAE ++ "RSK".toList) _ (by decide),
        ih _ hlt _ rfl]
    | false =>
      cases s with
      | nil => rfl
      | cons c cs =>
        rw [replaceAll_cons _ _ _ _ hA]
        have hno := noAERSK_after cs
        have hM : "MAERSK".toList.isPrefixOf
            (c :: replaceAll "AERSK".toList (sAE ++ "RSK".toList) cs) = false := by
          have h1 : "MAERSK".toList.isPrefixOf
              (c :: replaceAll "AERSK".toList (sAE ++ "RSK".toList) cs)
              = (('M' == c) && "AERSK".toList.isPrefixOf
                  (replaceAll "AERSK".toList (sAE ++ "RSK".toList) cs)) := rfl
          rw [h1, hno, Bool.and_false]
        rw [replaceAll_cons _ _ _ _ hM, ih cs.length (by rw [← hn]; simp) cs rfl]

theorem applySpecialCharsLoop_pair (f1 t1 f2 t2 : Str) (h1 : f1 ≠ []) (h2 : f2 ≠ [])
    (text : Str) :
    applySpecialCharsLoop [(f1, t1), (f2, t2)] text
      = some (replaceAll f2 t2 (replaceAll f1 t1 text)) := by
  have e1 := replaceLoop_eq f1 t1 h1 (text.length + 1) text 0 (Nat.zero_le _) (by omega)
  have e2 := replaceLoop_eq f2 t2 h2 ((replaceAll f1 t1 text).length + 1)
    (replaceAll f1 t1 text) 0 (Nat.zero_le _) (by omega)
  simp only [List.take_zero, List.drop_zero, List.nil_append] at e1 e2
  simp only [applySpecialCharsLoop, e1, e2]

/-- C40: with the default special-character table, `applySpecialChars` gives the same
string whichever of the two entries is applied first: applying the `MAERSK` entry and
then the `AERSK` entry, and applying the `AERSK` entry and then the `MAERSK` entry, both
return the text with every occurrence of `AERSK` replaced by `ÆRSK`; so
`applySpecialChars` and `resolveEntity` of the default resolver do not depend on the
order in which the table is iterated. -/
theorem C40_applySpecialChars_order (text : Str) :
    applySpecialCharsLoop
        [("MAERSK".toList, sMAERSK), ("AERSK".toList, sAE ++ "RSK".toList)] text
      = some (replaceAll "AERSK".toList (sAE ++ "RSK".toList) text) ∧
    applySpecialCharsLoop
        [("AERSK".toList, sAE ++ "RSK".toList), ("MAERSK".toList, sMAERSK)] text
      = some (replaceAll "AERSK".toList (sAE ++ "RSK".toList) text) ∧
    (EntityResolver.loadDefaultMappings
        EntityResolver.defaultSpecialCharMappings).applySpecialChars text
      = (EntityResolver.loadDefaultMappings
          EntityResolver.defaultSpecialCharMappings.reverse).applySpecialChars text ∧
    (EntityResolver.loadDefaultMappings
        EntityResolver.defaultSpecialCharMappings).resolveEntity text
      = (EntityResolver.loadDefaultMappings
          EntityResolver.defaultSpecialCharMappings.reverse).resolveEntity text := by
  have hMA : ∀ s : Str, applySpecialCharsLoop
      [("MAERSK".toList, sMAERSK), ("AERSK".toList, sAE ++ "RSK".toList)] s
      = some (replaceAll "AERSK".toList (sAE ++ "RSK".toList) s) := by
    intro s
    rw [applySpecialCharsLoop_pair _ _ _ _ (by decide) (by decide),
      replace_MAERSK_then_AERSK _ s rfl]
  have hAM : ∀ s : Str, applySpecialCharsLoop
      [("AERSK".toList, sAE ++ "RSK".toList), ("MAERSK".toList, sMAERSK)] s
      = some (replaceAll "AERSK".toList (sAE ++ "RSK".toList) s) := by
    intro s
    rw [applySpecialCharsLoop_pair _ _ _ _ (by decide) (by decide),
      replace_AERSK_then_MAERSK _ s rfl]
  have happ : ∀ s : Str, (EntityResolver.loadDefaultMappings
        EntityResolver.defaultSpecialCharMappings).applySpecialChars s
      = (EntityResolver.loadDefaultMappings
          EntityResolver.defaultSpecialCharMappings.reverse).applySpecialChars s := by
    intro s
    exact (hMA s).trans (hAM s).symm
  refine ⟨hMA text, hAM text, happ text, ?_⟩
  unfold EntityResolver.resolveEntity EntityResolver.entityToHumanReadable
  simp only [happ]
  rfl

/-! ## The reader on a bounded call stack -/

theorem nestingFrom_other (c : Char) (cs : Str) (level : Nat) (h : isBracket c = false) :
    nestingFrom (c :: cs) level = nestingFrom cs level := by
  simp only [isBracket, Bool.or_eq_false_iff, beq_eq_false_iff_ne, ne_eq] at h
  obtain ⟨⟨⟨h1, h2⟩, h3⟩, h4⟩ := h
  simp only [nestingFrom, h1, h2, h3, h4, or_self, if_false]

theorem nestingFrom_open (c : Char) (cs : Str) (level : Nat) (h : c = '(' ∨ c = '[') :
    nestingFrom (c :: cs) level = nestingFrom cs (level + 1) := by
  simp only [nestingFrom, h, if_true]

theorem nestingFrom_close (c : Char) (cs : Str) (level : Nat) (h : c = ')' ∨ c = ']') :
    nestingFrom (c :: cs) level = max level (nestingFrom cs (level - 1)) := by
  have hno : ¬ (c = '(' ∨ c = '[') := by
    rcases h with h | h <;> subst h <;> decide
  simp only [nestingFrom, hno, h, if_true, if_false]

theorem char_cases (c : Char) :
    (c = '(' ∨ c = '[') ∨ (c = ')' ∨ c = ']') ∨ isBracket c = false := by
  by_cases h1 : c = '('
  · exact Or.inl (Or.inl h1)
  · by_cases h2 : c = '['
    · exact Or.inl (Or.inr h2)
    · by_cases h3 : c = ')'
      · exact Or.inr (Or.inl (Or.inl h3))
      · by_cases h4 : c = ']'
        · exact Or.inr (Or.inl (Or.inr h4))
        · refine Or.inr (Or.inr ?_)
          simp [isBracket, h1, h2, h3, h4]

theorem le_nestingFrom : ∀ (s : Str) (level : Nat), level ≤ nestingFrom s level := by
  intro s
  induction s with
  | nil => intro level; exact Nat.le_refl _
  | cons c cs ih =>
    intro level
    rcases char_cases c with h | h | h
    · rw [nestingFrom_open c cs level h]
      exact Nat.le_trans (Nat.le_succ _) (ih _)
    · rw [nestingFrom_close c cs level h]
      exact Nat.le_max_left _ _
    · rw [nestingFrom_other c cs level h]
      exact ih _

theorem nestingFrom_mono : ∀ (s : Str) (a b : Nat), a ≤ b →
    nestingFrom s a ≤ nestingFrom s b := by
  intro s
  induction s with
  | nil => intro a b h; exact h
  | cons c cs ih =>
    intro a b hab
    rcases char_cases c with h | h | h
    · rw [nestingFrom_open c cs a h, nestingFrom_open c cs b h]
      exact ih _ _ (by omega)
    · rw [nestingFrom_close c cs a h, nestingFrom_close c cs b h]
      have := ih (a - 1) (b - 1) (by omega)
      omega
    · rw [nestingFrom_other c cs a h, nestingFrom_other c cs b h]
      exact ih _ _ hab

theorem nestingFrom_append_left : ∀ (p s : Str) (level : Nat),
    nestingFrom p level ≤ nestingFrom (p ++ s) level := by
  intro p
  induction p with
  | nil => intro s level; exact le_nestingFrom _ _
  | cons c cs ih =>
    intro s level
    rw [List.cons_append]
    rcases char_cases c with h | h | h
    · rw [nestingFrom_open c _ level h, nestingFrom_open c _ level h]
      exact ih _ _
    · rw [nestingFrom_close c _ level h, nestingFrom_close c _ level h]
      have := ih s (level - 1)
      omega
    · rw [nestingFrom_other c _ level h, nestingFrom_other c _ level h]
      exact ih _ _

theorem nestingFrom_append_right : ∀ (p s : Str) (level : Nat),
    nestingFrom s 0 ≤ nestingFrom (p ++ s) level := by
  intro p
  induction p with
  | nil => intro s level; exact nestingFrom_mono _ _ _ (Nat.zero_le _)
  | cons c cs ih =>
    intro s level
    rw [List.cons_append]
    rcases char_cases c with h | h | h
    · rw [nestingFrom_open c _ level h]
      exact ih _ _
    · rw [nestingFrom_close c _ level h]
      have := ih s (level - 1)
      omega
    · rw [nestingFrom_other c _ level h]
      exact ih _ _

theorem nestingFrom_dropWhile (f : Char → Bool)
    (hf : ∀ c, f c = true → isBracket c = false) : ∀ (s : Str) (level : Nat),
    nestingFrom (s.dropWhile f) level = nestingFrom s level := by
  intro s
  induction s with
  | nil => intro level; rfl
  | cons c cs ih =>
    intro level
    cases hc : f c with
    | true =>
      rw [List.dropWhile_cons_of_pos hc, ih, nestingFrom_other c cs level (hf c hc)]
    | false =>
      rw [List.dropWhile_cons_of_neg (by simp [hc])]

theorem nestingFrom_skipWhitespace (s : Str) (level : Nat) :
    nestingFrom (skipWhitespace s) level = nestingFrom s level := by
  apply nestingFrom_dropWhile
  intro c hc
  cases hb : isBracket c with
  | false => rfl
  | true => rw [isBracket_not_space hb] at hc; cases hc

theorem nestingFrom_dropAtom (s : Str) (level : Nat) :
    nestingFrom (s.dropWhile (fun x => !isDelimiter x)) level = nestingFrom s level := by
  apply nestingFrom_dropWhile
  intro c hc
  simp only [isDelimiter_eq, Bool.not_eq_true', Bool.or_eq_false_iff] at hc
  exact hc.1

/-- The shape of the unread input when the next token is a bracket. -/
theorem peek_bracket_shape (t : Tokenizer) (b : Char) (hb : isBracket b = true)
    (h : t.peek = [b]) :
    ∃ cs, t.rest = b :: cs ∧ t.consume.rest = skipWhitespace cs := by
  obtain ⟨rest⟩ := t
  cases rest with
  | nil => simp [Tokenizer.peek] at h
  | cons c cs =>
    cases hc : isBracket c with
    | true =>
      simp only [Tokenizer.peek, hc, if_true, List.cons.injEq, and_true] at h
      subst h
      exact ⟨cs, rfl, by simp [Tokenizer.consume, hc]⟩
    | false =>
      exfalso
      simp only [Tokenizer.peek, hc] at h
      cases hd : isDelimiter c with
      | true =>
        rw [List.takeWhile_cons_of_neg (by simp [hd])] at h
        cases h
      | false =>
        rw [List.takeWhile_cons_of_pos (by simp [hd])] at h
        simp only [Bool.false_eq_true, if_false, List.cons.injEq] at h
        rw [h.1, hb] at hc
        cases hc

/-- Consuming a token that is no bracket leaves the nesting as it is. -/
theorem consume_other_nesting (t : Tokenizer)
    (h1 : ¬ (t.peek = sOpenParen ∨ t.peek = sOpenSquare))
    (h2 : ¬ (t.peek = sCloseParen ∨ t.peek = sCloseSquare)) (level : Nat) :
    nestingFrom t.consume.rest level = nestingFrom t.rest level := by
  obtain ⟨rest⟩ := t
  cases rest with
  | nil => rfl
  | cons c cs =>
    cases hc : isBracket c with
    | true =>
      exfalso
      have hp : Tokenizer.peek ⟨c :: cs⟩ = [c] := by simp [Tokenizer.peek, hc]
      rw [hp] at h1 h2
      simp only [isBracket, Bool.or_eq_true, beq_iff_eq] at hc
      simp only [sOpenParen, sOpenSquare, sCloseParen, sCloseSquare, List.cons.injEq,
        and_true] at h1 h2
      rcases hc with ((hc | hc) | hc) | hc
      · exact h1 (Or.inl hc)
      · exact h2 (Or.inl hc)
      · exact h1 (Or.inr hc)
      · exact h2 (Or.inr hc)
    | false =>
      simp only [Tokenizer.consume, hc, Bool.false_eq_true, if_false]
      rw [nestingFrom_skipWhitespace, nestingFrom_dropAtom]
theorem parseExpression_step (n : Nat) (t : Tokenizer) :
    parseExpression (n + 1) t =
      if t.hasNext = false then
        .error (.runtimeError "Unexpected end of input".toList)
      else if t.peek = sOpenParen ∨ t.peek = sOpenSquare then parseList n t
      else if t.peek = sCloseParen ∨ t.peek = sCloseSquare then
        .error (.runtimeError "Unexpected closing bracket".toList)
      else .ok (SExpr.atom t.peek, t.consume) := by
  rw [parseExpression_succ]
  simp only [Bool.not_eq_true', Bool.or_eq_true, decide_eq_true_eq]

theorem parseList_step (n : Nat) (t : Tokenizer) :
    parseList (n + 1) t =
      if t.peek = sOpenParen ∨ t.peek = sOpenSquare then
        parseListLoop n (if t.peek = sOpenParen then sCloseParen else sCloseSquare)
          t.consume []
      else .error (.runtimeError "Expected '(' or '['".toList) := by
  rw [parseList_succ]
  simp only [Tokenizer.next]
  by_cases h1 : t.peek = sOpenParen
  · simp [h1]
  · by_cases h2 : t.peek = sOpenSquare
    · simp [h2]
    · simp [h1, h2]

theorem parseListLoop_step (n : Nat) (close : Str) (t : Tokenizer) (elements : List SExpr) :
    parseListLoop (n + 1) close t elements =
      if t.hasNext = true ∧ t.peek ≠ close then
        match parseExpression n t with
        | .error e => .error e
        | .ok (e, t1) => parseListLoop n close t1 (elements ++ [e])
      else if t.hasNext = true ∧ t.peek = close then
        .ok (SExpr.list elements, t.consume)
      else .error (.runtimeError ("Expected '".toList ++ close ++ "'".toList)) := by
  rw [parseListLoop_succ]
  simp only [Tokenizer.next]
  cases hn : t.hasNext <;> by_cases hp : t.peek = close <;> simp [hp]

theorem parseExpressionWithin_step (n depth : Nat) (t : Tokenizer) :
    parseExpressionWithin (n + 1) depth t =
      if t.hasNext = false then
        .ended (.error (.runtimeError "Unexpected end of input".toList))
      else if t.peek = sOpenParen ∨ t.peek = sOpenSquare then
        match depth with
        | 0 => .stackOverflow
        | room + 1 => parseListWithin n room t
      else if t.peek = sCloseParen ∨ t.peek = sCloseSquare then
        .ended (.error (.runtimeError "Unexpected closing bracket".toList))
      else .ended (.ok (SExpr.atom t.peek, t.consume)) := by
  cases depth <;> rw [parseExpressionWithin] <;>
    simp only [Bool.not_eq_true', Bool.or_eq_true, decide_eq_true_eq]

theorem parseListWithin_step (n depth : Nat) (t : Tokenizer) :
    parseListWithin (n + 1) depth t =
      if t.peek = sOpenParen ∨ t.peek = sOpenSquare then
        parseListLoopWithin n depth
          (if t.peek = sOpenParen then sCloseParen else sCloseSquare) t.consume []
      else .ended (.error (.runtimeError "Expected '(' or '['".toList)) := by
  rw [parseListWithin]
  simp only [Tokenizer.next]
  by_cases h1 : t.peek = sOpenParen
  · simp [h1]
  · by_cases h2 : t.peek = sOpenSquare
    · simp [h2]
    · simp [h1, h2]

theorem parseListLoopWithin_step (n depth : Nat) (close : Str) (t : Tokenizer)
    (elements : List SExpr) :
    parseListLoopWithin (n + 1) depth close t elements =
      if t.hasNext = true ∧ t.peek ≠ close then
        match parseExpressionWithin n depth t with
        | .stackOverflow => .stackOverflow
        | .ended (.error e) => .ended (.error e)
        | .ended (.ok (e, t1)) => parseListLoopWithin n depth close t1 (elements ++ [e])
      else if t.hasNext = true ∧ t.peek = close then
        .ended (.ok (SExpr.list elements, t.consume))
      else .ended (.error (.runtimeError ("Expected '".toList ++ close ++ "'".toList))) := by
  rw [parseListLoopWithin]
  simp only [Tokenizer.next]
  cases hn : t.hasNext <;> by_cases hp : t.peek = close <;> simp [hp]

theorem open_shape (t : Tokenizer) (h : t.peek = sOpenParen ∨ t.peek = sOpenSquare) :
    ∃ c cs, (c = '(' ∨ c = '[') ∧ t.rest = c :: cs ∧ t.consume.rest = skipWhitespace cs := by
  rcases h with h | h
  · obtain ⟨cs, h1, h2⟩ := peek_bracket_shape t '(' (by decide) h
    exact ⟨_, cs, Or.inl rfl, h1, h2⟩
  · obtain ⟨cs, h1, h2⟩ := peek_bracket_shape t '[' (by decide) h
    exact ⟨_, cs, Or.inr rfl, h1, h2⟩

theorem close_shape (t : Tokenizer) (h : t.peek = sCloseParen ∨ t.peek = sCloseSquare) :
    ∃ c cs, (c = ')' ∨ c = ']') ∧ t.rest = c :: cs ∧ t.consume.rest = skipWhitespace cs := by
  rcases h with h | h
  · obtain ⟨cs, h1, h2⟩ := peek_bracket_shape t ')' (by decide) h
    exact ⟨_, cs, Or.inl rfl, h1, h2⟩
  · obtain ⟨cs, h1, h2⟩ := peek_bracket_shape t ']' (by decide) h
    exact ⟨_, cs, Or.inr rfl, h1, h2⟩

/-- Consuming an opening bracket raises the level by one. -/
theorem consume_open_nesting (t : Tokenizer)
    (h : t.peek = sOpenParen ∨ t.peek = sOpenSquare) (level : Nat) :
    nestingFrom t.consume.rest (level + 1) = nestingFrom t.rest level := by
  obtain ⟨c, cs, hc, hr, hcons⟩ := open_shape t h
  rw [hcons, hr, nestingFrom_skipWhitespace, nestingFrom_open c cs level hc]

/-- Consuming a closing bracket lowers the level by one. -/
theorem consume_close_nesting (t : Tokenizer)
    (h : t.peek = sCloseParen ∨ t.peek = sCloseSquare) (level : Nat) :
    nestingFrom t.consume.rest level ≤ nestingFrom t.rest (level + 1) := by
  obtain ⟨c, cs, hc, hr, hcons⟩ := close_shape t h
  rw [hcons, hr, nestingFrom_skipWhitespace, nestingFrom_close c cs _ hc]
  simp only [Nat.add_sub_cancel]
  exact Nat.le_max_right _ _

/-- What the reader leaves unread nests no deeper than what it was given. -/
theorem parser_nesting (n : Nat) :
    (∀ t e t1, parseExpression n t = .ok (e, t1) →
      ∀ level, nestingFrom t1.rest level ≤ nestingFrom t.rest level) ∧
    (∀ t e t1, parseList n t = .ok (e, t1) →
      ∀ level, nestingFrom t1.rest level ≤ nestingFrom t.rest level) ∧
    (∀ close t acc e t1, (close = sCloseParen ∨ close = sCloseSquare) →
      parseListLoop n close t acc = .ok (e, t1) →
      ∀ level, nestingFrom t1.rest level ≤ nestingFrom t.rest (level + 1)) := by
  induction n with
  | zero =>
    refine ⟨?_, ?_, ?_⟩
    · intro t e t1 h; simp [parseExpression] at h
    · intro t e t1 h; simp [parseList] at h
    · intro close t acc e t1 _ h; simp [parseListLoop] at h
  | succ n ih =>
    obtain ⟨ihE, ihL, ihLoop⟩ := ih
    refine ⟨?_, ?_, ?_⟩
    · intro t e t1 h level
      rw [parseExpression_step] at h
      split at h
      · cases h
      · split at h
        · exact ihL t e t1 h level
        · rename_i ho
          split at h
          · cases h
          · rename_i hc
            simp only [Except.ok.injEq, Prod.mk.injEq] at h
            rw [← h.2, consume_other_nesting t ho hc]
    · intro t e t1 h level
      rw [parseList_step] at h
      split at h
      · rename_i ho
        have hclose : (if t.peek = sOpenParen then sCloseParen else sCloseSquare)
            = sCloseParen ∨ (if t.peek = sOpenParen then sCloseParen else sCloseSquare)
            = sCloseSquare := by
          split
          · exact Or.inl rfl
          · exact Or.inr rfl
        have := ihLoop _ _ _ e t1 hclose h level
        rw [consume_open_nesting t ho] at this
        exact this
      · cases h
    · intro close t acc e t1 hclose h level
      rw [parseListLoop_step] at h
      split at h
      · cases hpe : parseExpression n t with
        | error err => rw [hpe] at h; cases h
        | ok r =>
          obtain ⟨e2, t2⟩ := r
          rw [hpe] at h
          simp only at h
          exact Nat.le_trans (ihLoop _ _ _ e t1 hclose h level) (ihE t e2 t2 hpe _)
      · split at h
        · rename_i hc
          simp only [Except.ok.injEq, Prod.mk.injEq] at h
          rw [← h.2]
          exact consume_close_nesting t (hc.2 ▸ hclose) level
        · cases h

/-- The reader on a bounded stack ends as the reader does when the nesting of the unread
input fits into the room that is left. -/
theorem parser_within (n : Nat) :
    (∀ t depth level, nestingFrom t.rest level ≤ level + depth →
      parseExpressionWithin n depth t = .ended (parseExpression n t)) ∧
    (∀ t depth level, nestingFrom t.rest level ≤ level + depth + 1 →
      parseListWithin n depth t = .ended (parseList n t)) ∧
    (∀ close t acc depth level, (close = sCloseParen ∨ close = sCloseSquare) →
      nestingFrom t.rest level ≤ level + depth →
      parseListLoopWithin n depth close t acc = .ended (parseListLoop n close t acc)) := by
  induction n with
  | zero =>
    refine ⟨?_, ?_, ?_⟩
    · intro t depth level _; simp [parseExpressionWithin, parseExpression]
    · intro t depth level _; simp [parseListWithin, parseList]
    · intro close t acc depth level _ _; simp [parseListLoopWithin, parseListLoop]
  | succ n ih =>
    obtain ⟨ihE, ihL, ihLoop⟩ := ih
    refine ⟨?_, ?_, ?_⟩
    · intro t depth level h
      rw [parseExpressionWithin_step, parseExpression_step]
      split
      · rfl
      · split
        · rename_i ho
          cases depth with
          | zero =>
            exfalso
            have h1 := consume_open_nesting t ho level
            have h2 := le_nestingFrom t.consume.rest (level + 1)
            omega
          | succ room =>
            exact ihL t room level (by omega)
        · split <;> rfl
    · intro t depth level h
      rw [parseListWithin_step, parseList_step]
      split
      · rename_i ho
        have hclose : (if t.peek = sOpenParen then sCloseParen else sCloseSquare)
            = sCloseParen ∨ (if t.peek = sOpenParen then sCloseParen else sCloseSquare)
            = sCloseSquare := by
          split
          · exact Or.inl rfl
          · exact Or.inr rfl
        refine ihLoop _ _ _ depth (level + 1) hclose ?_
        rw [consume_open_nesting t ho]
        omega
      · rfl
    · intro close t acc depth level hclose h
      rw [parseListLoopWithin_step, parseListLoop_step]
      split
      · rw [ihE t depth level h]
        cases hpe : parseExpression n t with
        | error err => rfl
        | ok r =>
          obtain ⟨e2, t2⟩ := r
          simp only
          refine ihLoop close t2 _ depth level hclose ?_
          exact Nat.le_trans ((parser_nesting n).1 t e2 t2 hpe level) h
      · split <;> rfl
theorem parseMultipleLoopWithin_eq (n : Nat) : ∀ (t : Tokenizer) (acc : List SExpr)
    (depth : Nat), nestingFrom t.rest 0 ≤ depth →
    parseMultipleLoopWithin n depth t acc = .ended (parseMultipleLoop n t acc) := by
  induction n with
  | zero => intro t acc depth _; rfl
  | succ n ih =>
    intro t acc depth h
    rw [parseMultipleLoopWithin, parseMultipleLoop_succ]
    split
    · rw [(parser_within n).1 t depth 0 (by omega)]
      cases hpe : parseExpression n t with
      | error err => rfl
      | ok r =>
        obtain ⟨e, t1⟩ := r
        simp only
        exact ih t1 _ depth (Nat.le_trans ((parser_nesting n).1 t e t1 hpe 0) h)
    · rfl

theorem nestingFrom_new (input : Str) (level : Nat) :
    nestingFrom (Tokenizer.new input).rest level = nestingFrom input level :=
  nestingFrom_skipWhitespace input level

theorem parseMultipleWithin_eq (depth : Nat) (input : Str)
    (h : nestingDepth input ≤ depth) :
    parseMultipleWithin depth input = .ended (parseMultiple input) :=
  parseMultipleLoopWithin_eq _ _ _ depth (by rw [nestingFrom_new]; exact h)

theorem parseWithin_eq (depth : Nat) (input : Str) (h : nestingDepth input ≤ depth) :
    parseWithin depth input = .ended (parse input) := by
  unfold parseWithin parse
  simp only
  split
  · rfl
  · rw [(parser_within _).1 _ depth 0 (by rw [nestingFrom_new]; simpa using h)]
    cases parseExpression (parseFuel input) (Tokenizer.new input) with
    | error err => rfl
    | ok r => rfl

theorem getLinesFrom_nesting : ∀ (text current : Str), ∀ line ∈ getLinesFrom text current,
    nestingDepth line ≤ nestingDepth (current ++ text) := by
  intro text
  induction text with
  | nil =>
    intro current line hline
    simp only [getLinesFrom] at hline
    split at hline
    · cases hline
    · simp only [List.mem_singleton] at hline
      subst hline
      simp
  | cons c cs ih =>
    intro current line hline
    simp only [getLinesFrom] at hline
    split at hline
    · rename_i hc
      simp only [List.mem_cons] at hline
      rcases hline with hl | hl
      · subst hl
        exact nestingFrom_append_left _ _ _
      · exact Nat.le_trans (ih [] line hl)
          (Nat.le_trans (nestingFrom_append_right [c] cs 0)
            (nestingFrom_append_right current (c :: cs) 0))
    · have := ih (current ++ [c]) line hline
      simpa using this

theorem getLines_nesting (text : Str) : ∀ line ∈ getLines text,
    nestingDepth line ≤ nestingDepth text :=
  getLinesFrom_nesting text []

theorem fallbackWithin_eq (depth : Nat) (lines : List Str)
    (h : ∀ line ∈ lines, nestingDepth line ≤ depth) : ∀ acc : List SExpr,
    lines.foldl (fallbackLineWithin depth) (.ended acc)
      = .ended (lines.foldl fallbackLine acc) := by
  induction lines with
  | nil => intro acc; rfl
  | cons line rest ih =>
    intro acc
    have hstep : fallbackLineWithin depth (.ended acc) line
        = .ended (fallbackLine acc line) := by
      cases line with
      | nil => rfl
      | cons c cs =>
        simp only [fallbackLineWithin, fallbackLine]
        split
        · rfl
        · rw [parseWithin_eq depth _ (h _ (List.mem_cons_self _ _))]
          cases parse (c :: cs) <;> rfl
    rw [List.foldl_cons, List.foldl_cons, hstep]
    exact ih (fun l hl => h l (List.mem_cons_of_mem _ hl)) _

theorem analyzeExpressionsWithin_eq (depth : Nat) (text : Str)
    (h : nestingDepth text ≤ depth) :
    analyzeExpressionsWithin depth text = .ended (analyzeExpressions text) := by
  unfold analyzeExpressionsWithin analyzeExpressions
  rw [parseMultipleWithin_eq depth text h]
  cases parseMultiple text with
  | ok es => rfl
  | error err =>
    simp only
    exact fallbackWithin_eq depth _
      (fun line hl => Nat.le_trans (getLines_nesting text line hl) h) []

theorem analyzeWithin_eq (depth : Nat) (r : EntityResolver) (text : Str)
    (h : nestingDepth text ≤ depth) :
    analyzeWithin depth r text = .ended (analyze r text) := by
  unfold analyzeWithin analyze
  rw [analyzeExpressionsWithin_eq depth text h]

theorem skipWhitespace_replicate_open (k : Nat) :
    skipWhitespace (List.replicate k '(') = List.replicate k '(' := by
  cases k with
  | zero => rfl
  | succ k =>
    rw [List.replicate_succ]
    exact List.dropWhile_cons_of_neg (by decide)

/-- More opening brackets in a row than the stack has room for: the reader overflows. -/
theorem parseExpressionWithin_overflow : ∀ (depth n extra : Nat), 3 * depth + 1 ≤ n →
    parseExpressionWithin n depth ⟨List.replicate (depth + 1 + extra) '('⟩
      = .stackOverflow := by
  intro depth
  induction depth with
  | zero =>
    intro n extra hn
    obtain ⟨m, rfl⟩ : ∃ m, n = m + 1 := ⟨n - 1, by omega⟩
    have hrep : List.replicate (0 + 1 + extra) '(' = '(' :: List.replicate extra '(' := by
      rw [Nat.zero_add, Nat.add_comm, List.replicate_succ]
    rw [parseExpressionWithin_step, hrep]
    simp [Tokenizer.hasNext, Tokenizer.peek, isBracket, sOpenParen]
  | succ depth ih =>
    intro n extra hn
    obtain ⟨m, rfl⟩ : ∃ m, n = m + 3 := ⟨n - 3, by omega⟩
    have hrep : List.replicate (depth + 1 + 1 + extra) '('
        = '(' :: List.replicate (depth + 1 + extra) '(' := by
      rw [show depth + 1 + 1 + extra = (depth + 1 + extra) + 1 by omega,
        List.replicate_succ]
    have hrep2 : List.replicate (depth + 1 + extra) '('
        = '(' :: List.replicate (depth + extra) '(' := by
      rw [show depth + 1 + extra = (depth + extra) + 1 by omega, List.replicate_succ]
    have hpeek : Tokenizer.peek ⟨'(' :: List.replicate (depth + 1 + extra) '('⟩
        = sOpenParen := by
      simp [Tokenizer.peek, isBracket, sOpenParen]
    have hcons : Tokenizer.consume ⟨'(' :: List.replicate (depth + 1 + extra) '('⟩
        = ⟨List.replicate (depth + 1 + extra) '('⟩ := by
      simp only [Tokenizer.consume, isBracket, beq_self_eq_true, Bool.true_or, if_true,
        skipWhitespace_replicate_open]
    have hpeek2 : Tokenizer.peek ⟨List.replicate (depth + 1 + extra) '('⟩ = sOpenParen := by
      rw [hrep2]
      simp [Tokenizer.peek, isBracket, sOpenParen]
    have hnext : Tokenizer.hasNext ⟨List.replicate (depth + 1 + extra) '('⟩ = true := by
      rw [hrep2]
      rfl
    rw [parseExpressionWithin_step, hrep]
    simp only [hpeek, true_or, if_true]
    rw [if_neg (by simp [Tokenizer.hasNext])]
    rw [parseListWithin_step]
    simp only [hpeek, true_or, if_true, hcons]
    rw [parseListLoopWithin_step]
    rw [if_pos ⟨hnext, by rw [hpeek2]; decide⟩, ih m extra (by omega)]

theorem parseMultipleWithin_overflow (depth : Nat) :
    parseMultipleWithin depth (List.replicate (depth + 1) '(') = .stackOverflow := by
  unfold parseMultipleWithin
  have hfuel : parseFuel (List.replicate (depth + 1) '(') = (3 * depth + 4) + 1 := by
    simp only [parseFuel, List.length_replicate]
    omega
  have hnew : Tokenizer.new (List.replicate (depth + 1) '(')
      = ⟨List.replicate (depth + 1 + 0) '('⟩ := by
    simp only [Tokenizer.new, skipWhitespace_replicate_open, Nat.add_zero]
  rw [hfuel, hnew, parseMultipleLoopWithin]
  have hnext : Tokenizer.hasNext ⟨List.replicate (depth + 1 + 0) '('⟩ = true := by
    rw [Nat.add_zero, List.replicate_succ]
    rfl
  simp only [hnext, if_true]
  rw [parseExpressionWithin_overflow depth _ 0 (by omega)]

theorem analyzeWithin_overflow (depth : Nat) (r : EntityResolver) :
    analyzeWithin depth r (List.replicate (depth + 1) '(') = .stackOverflow := by
  unfold analyzeWithin analyzeExpressionsWithin
  rw [parseMultipleWithin_overflow]
/-- C22 as stated fails in two ways. With a special-character key that is empty (added
through `addSpecialCharMapping("", "")`) the replacement loop of the Entity Resolver
never ends, so `analyze` of `[(soa_enpam soa_epam15k)]`, whose second atom misses the
entity table, does not return, however the table is ordered. And the reader recurses
once for every list that is open: on a stack with room for two nested lists the text
`(((a)))`, which nests three deep, overflows the stack, where the reader on an unbounded
stack returns the tree. -/
theorem C22_counterexample :
    analyze ((loadDefaultMappings defaultSpecialCharMappings).addSpecialCharMapping [] [])
        "[(soa_enpam soa_epam15k)]".toList = .error .endless ∧
    analyze (loadDefaultMappings (([], []) :: defaultSpecialCharMappings))
        "[(soa_enpam soa_epam15k)]".toList = .error .endless ∧
    nestingDepth "(((a)))".toList = 3 ∧
    analyzeWithin 2 (loadDefaultMappings defaultSpecialCharMappings) "(((a)))".toList
      = .stackOverflow ∧
    analyzeWithin 3 (loadDefaultMappings defaultSpecialCharMappings) "(((a)))".toList
      = .ended (.ok {}) ∧
    analyze (loadDefaultMappings defaultSpecialCharMappings) "(((a)))".toList = .ok {} :=
  ⟨rfl, rfl, rfl, rfl, rfl, rfl⟩

/-- C22 (amended): when the Entity Resolver's special-character table holds no empty key
(the default table holds none), then for every input string (empty, unbalanced, or
containing lists shorter than any pattern) whose lists nest no deeper than the call
stack has room for, `SemanticAnalyzer::analyze` returns an `AnalysisResult`: nothing is
raised, no element access is out of range, no `asList`/`asAtom` meets the other variant
and no `substr` starts past the end; the result is the one of the reader on an unbounded
stack. Whatever room the stack has, one opening bracket more in a row overflows it. -/
theorem C22_analyze_total (r : EntityResolver)
    (hkeys : ∀ kv ∈ r.specialCharMappings, kv.1 ≠ []) (stackDepth : Nat)
    (mettaOutput : Str) (hdepth : nestingDepth mettaOutput ≤ stackDepth) :
    (∃ result, analyzeWithin stackDepth r mettaOutput = .ended (.ok result) ∧
      analyze r mettaOutput = .ok result) ∧
    analyzeWithin stackDepth r (List.replicate (stackDepth + 1) '(') = .stackOverflow := by
  refine ⟨?_, analyzeWithin_overflow stackDepth r⟩
  obtain ⟨result, hresult⟩ := analyze_returns r hkeys mettaOutput
  exact ⟨result, by rw [analyzeWithin_eq stackDepth r mettaOutput hdepth, hresult], hresult⟩

theorem C22_analyze_total_witness :
    (∀ kv ∈ (loadDefaultMappings defaultSpecialCharMappings).specialCharMappings, kv.1 ≠ []) ∧
    nestingDepth "((meta-id) (quote) (conflict a) ((triple soa_x".toList ≤ 3 ∧
    ((∃ result, analyzeWithin 3 (loadDefaultMappings defaultSpecialCharMappings)
        "((meta-id) (quote) (conflict a) ((triple soa_x".toList = .ended (.ok result) ∧
      analyze (loadDefaultMappings defaultSpecialCharMappings)
        "((meta-id) (quote) (conflict a) ((triple soa_x".toList = .ok result) ∧
    analyzeWithin 3 (loadDefaultMappings defaultSpecialCharMappings)
      (List.replicate (3 + 1) '(') = .stackOverflow) :=
  ⟨by decide, by decide,
   C22_analyze_total (loadDefaultMappings defaultSpecialCharMappings) (by decide) 3 _
     (by decide)⟩

end MettaInference
